import Mathlib

/-!
# japkg: a verification development of the package metadata engine

Shallow embedding of `Packager` (src/Packager.h, src/Packager.cc), of `Log` and its package
context (src/Log.h, src/Log.cc), and of `check_and_save_package`, `current_package_list`,
`validate_pkgname`, `package_extra`, `package_game` and the loops of `main` (src/main.cc).

* `std::string` is a list of characters (`Str`).
* `int` arithmetic that parses digits is reduced to the signed 32 bit range (`wrap32`).
* A `Packager` object is a record; every member function that mutates the object
  takes the record and returns the new one.
* A member function that can throw returns the record as it is at the throw, together
  with the message of the exception.
-/

namespace Japkg

/-- A `std::string`. -/
abbrev Str := List Char

/-! ## `enum PackageItem` (Packager.h) -/

def PACKAGE_NAME : Nat := 0
def VERSION : Nat := 1
def PACKAGE_VERSION : Nat := 2
def SECTION : Nat := 3
def PRIORITY : Nat := 4
def MAINTAINER : Nat := 5
def STANDARDS_VERSION : Nat := 6
def SUMMARY : Nat := 7
def DESCRIPTION : Nat := 8
def LICENCE : Nat := 9
def COPYRIGHT : Nat := 10
def ITEM_TO_PACKAGE : Nat := 11
def INSTALL_TO : Nat := 12
def DEPENDS : Nat := 13
def RECOMMENDS : Nat := 14
def SUGGESTS : Nat := 15
def CONFLICTS : Nat := 16
def COMPONENT_FLAGS : Nat := 17
def NUM_ITEMS : Nat := 18

/-- The table `Packager::_item_names`. -/
def item_names : List Str :=
  [ "Package name".toList, "Version".toList, "Package version".toList, "Section".toList,
    "Priority".toList, "Maintainer".toList, "Standards version".toList, "Summary".toList,
    "Description".toList, "Licence".toList, "Copyright".toList, "Item to install".toList,
    "Install to".toList, "Depends".toList, "Recommends".toList, "Suggests".toList,
    "Conflicts".toList, "Components".toList ]

/-! ## `enum ComponentFlags` and `class ItemToPackage` (Packager.h) -/

def CF_None : Nat := 0
def CF_Movable : Nat := 1

/-- The class `ItemToPackage`: a file or directory to package. -/
structure ItemToPackage where
  _source : Str
  _install_to : Str
  _component_flags : Nat
deriving DecidableEq, Repr

/-- The class `Packager`: the data members of the C++ object, under their C++ names.
`_errors` is the array `std::string _errors[NUM_ITEMS]`. -/
structure Packager where
  _package_name : Str
  _version : Str
  _package_version : Str
  _section : Str
  _priority : Str
  _maintainer : Str
  _standards_version : Str
  _items_to_package : List ItemToPackage
  _summary : Str
  _description : Str
  _licence : Str
  _depends : Str
  _recommends : Str
  _suggests : Str
  _conflicts : Str
  _copyright : Str
  _modified : Bool
  _error_count : Int
  _errors : List Str
deriving DecidableEq, Repr

/-- Reduction of an integer to the range of a 32 bit signed `int`. -/
def wrap32 (x : Int) : Int := (x + 2147483648) % 4294967296 - 2147483648

/-- The C library `isspace` in the "C" locale. -/
def isspace (c : Char) : Bool :=
  c = ' ' || c = '\t' || c = '\n' || c.toNat = 11 || c.toNat = 12 || c = '\r'

/-! ## Library routines for numbers (`tbx/stringutils.h`)

`tbx::to_string` writes a value with `operator<<` and `tbx::from_string<int>` reads one
with `operator>>`. -/

/-- The decimal digit for a value below ten. -/
def digit_char (d : Nat) : Char := Char.ofNat (48 + d)

/-- The decimal digits of `n` in front of `acc`; `fuel` bounds the number of digits. -/
def nat_digits : Nat → Nat → Str → Str
  | 0, _, acc => acc
  | fuel + 1, n, acc =>
      if n / 10 = 0 then digit_char (n % 10) :: acc
      else nat_digits fuel (n / 10) (digit_char (n % 10) :: acc)

/-- `tbx::to_string` on an unsigned value. -/
def nat_to_string (n : Nat) : Str := nat_digits (n + 1) n []

/-- `tbx::to_string<int>`. -/
def to_string_int (v : Int) : Str :=
  if v < 0 then '-' :: nat_to_string v.natAbs else nat_to_string v.natAbs

/-- Is the character a decimal digit. -/
def is_digit (c : Char) : Bool := decide ('0'.toNat ≤ c.toNat) && decide (c.toNat ≤ '9'.toNat)

/-- The value of a run of decimal digits read from the left, `acc` being the value read so
far. -/
def digits_value : Str → Nat → Nat
  | [], acc => acc
  | c :: cs, acc => digits_value cs (acc * 10 + (c.toNat - 48))

/-- A value outside of the range of `int` is replaced by the nearest bound, as `operator>>`
does. -/
def clamp32 (x : Int) : Int :=
  if x > 2147483647 then 2147483647 else if x < -2147483648 then -2147483648 else x

/-- `tbx::from_string<int>`: leading white space is skipped, then an optional sign and
the decimal digits are read; the result is zero when there is no digit. -/
def from_string_int (s : Str) : Int :=
  let s1 := s.dropWhile isspace
  let negative := s1.head? = some '-'
  let s2 := if s1.head? = some '-' ∨ s1.head? = some '+' then s1.drop 1 else s1
  let digits := s2.takeWhile is_digit
  if digits.isEmpty then 0
  else clamp32 (if negative then -(digits_value digits 0 : Int) else (digits_value digits 0 : Int))

namespace Packager

/-- `error_text(i)`: the text in slot `i`. -/
def error_text (p : Packager) (i : Nat) : Str := p._errors.getD i []

/-- `error_count()`. -/
def error_count (p : Packager) : Int := p._error_count

/-- `Packager::modified(bool)`. -/
def modified (p : Packager) (m : Bool) : Packager :=
  if p._modified != m then { p with _modified := m } else p

/-- `Packager::set_error`. -/
def set_error (p : Packager) (where_ : Nat) (message : Str) : Packager :=
  { p with
    _error_count := if (p._errors.getD where_ []).isEmpty then p._error_count + 1
                    else p._error_count
    _errors := p._errors.set where_ message }

/-- `Packager::clear_error`. -/
def clear_error (p : Packager) (where_ : Nat) : Packager :=
  if !(p._errors.getD where_ []).isEmpty then
    { p with _error_count := p._error_count - 1, _errors := p._errors.set where_ [] }
  else p

/-- The tail shared by the plain setters: an empty value is an error, anything else is
valid, and the record is marked modified. -/
def require_entered (p : Packager) (where_ : Nat) (value : Str) : Packager :=
  ((if value.isEmpty then p.set_error where_ "must be entered".toList
    else p.clear_error where_).modified true)

/-- `Packager::package_name(std::string)`. -/
def package_name (p : Packager) (value : Str) : Packager :=
  require_entered { p with _package_name := value } PACKAGE_NAME value

/-- `Packager::version(std::string)`. -/
def version (p : Packager) (value : Str) : Packager :=
  require_entered { p with _version := value } VERSION value

/-- `Packager::package_version(std::string)`. -/
def package_version (p : Packager) (value : Str) : Packager :=
  require_entered { p with _package_version := value } PACKAGE_VERSION value

/-- `Packager::section(std::string)`. -/
def section_ (p : Packager) (value : Str) : Packager :=
  require_entered { p with _section := value } SECTION value

/-- `Packager::priority(std::string)`. -/
def priority (p : Packager) (value : Str) : Packager :=
  require_entered { p with _priority := value } PRIORITY value

/-- `Packager::summary(std::string)`. -/
def summary (p : Packager) (value : Str) : Packager :=
  require_entered { p with _summary := value } SUMMARY value

/-- `Packager::description(std::string)`. -/
def description (p : Packager) (value : Str) : Packager :=
  ({ p with _description := value } : Packager).modified true

/-- `Packager::licence(std::string)`. -/
def licence (p : Packager) (value : Str) : Packager :=
  require_entered { p with _licence := value } LICENCE value

/-- `Packager::copyright(std::string)`. -/
def copyright (p : Packager) (value : Str) : Packager :=
  require_entered { p with _copyright := value } COPYRIGHT value

/-- `std::string::find(char)` from the start, as an index, or `none` for `npos`. -/
def find_char (c : Char) : Str → Option Nat
  | [] => none
  | x :: xs => if x = c then some 0 else (find_char c xs).map (· + 1)

/-- `Packager::maintainer(std::string)`. -/
def maintainer (p : Packager) (value : Str) : Packager :=
  let p1 : Packager := { p with _maintainer := value }
  let p2 : Packager :=
    if value.isEmpty then p1.set_error MAINTAINER "must be entered".toList
    else
      match find_char '<' value, find_char '>' value with
      | some ltpos, some gtpos =>
          if ltpos > gtpos then
            p1.set_error MAINTAINER
              "The '<' must appear before the '>' surrounding the email address".toList
          else p1.clear_error MAINTAINER
      | _, _ =>
          p1.set_error MAINTAINER
            "Email address must be included and enclosed in '<' and '>'".toList
  p2.modified true

/-- The scanning loop of `standards_version`: the state is `(format_ok, last_dot, dot_count)`
and the loop stops as soon as `format_ok` is false. -/
def sv_scan : Str → Bool → Bool → Nat → Bool × Bool × Nat
  | [], format_ok, last_dot, dot_count => (format_ok, last_dot, dot_count)
  | c :: cs, format_ok, last_dot, dot_count =>
      if !format_ok then (format_ok, last_dot, dot_count)
      else if c = '.' then
        sv_scan cs (if last_dot then false else format_ok) true (dot_count + 1)
      else sv_scan cs format_ok false dot_count

/-- The inner loop `while (vi != value.end() && *vi != '.') value_part = value_part * 10 +
(*vi++ - '0')`: returns `value_part` and the position reached. -/
def value_part_loop : Str → Int → Int × Str
  | [], value_part => (value_part, [])
  | c :: cs, value_part =>
      if c = '.' then (value_part, c :: cs)
      else value_part_loop cs (wrap32 (value_part * 10 + ((c.toNat : Int) - 48)))

/-- The statement `if (vi != value.end()) ++vi;`. -/
def skip_one : Str → Str
  | [] => []
  | _ :: cs => cs

/-- The main loop of `standards_version_lt`: `svi` runs over `_standards_version`, `vi` over
the value compared against, and `check_val` is the component read so far. -/
def sv_lt_loop : Str → Str → Int → Bool
  | [], vi, check_val =>
      let r := value_part_loop vi 0
      if check_val < r.1 then true else false
  | c :: svi, vi, check_val =>
      if c = '.' then
        let r := value_part_loop vi 0
        if check_val < r.1 then true
        else if check_val > r.1 then false
        else sv_lt_loop svi (skip_one r.2) 0
      else if '0'.toNat ≤ c.toNat ∧ c.toNat ≤ '9'.toNat then
        sv_lt_loop svi vi (wrap32 (check_val * 10 + ((c.toNat : Int) - 48)))
      else true

/-- `Packager::standards_version_lt`. -/
def standards_version_lt (p : Packager) (value : Str) : Bool :=
  if p._standards_version.isEmpty then true
  else sv_lt_loop p._standards_version value 0

/-- `Packager::standards_version(std::string)`. -/
def standards_version (p : Packager) (value : Str) : Packager :=
  let p1 : Packager := { p with _standards_version := value }
  let p2 : Packager :=
    if value.isEmpty then p1.set_error STANDARDS_VERSION "must be entered".toList
    else
      let s := sv_scan value true true 0
      let format_ok := if s.2.1 then false else s.1
      let dot_count := s.2.2
      if dot_count > 3 then
        p1.set_error STANDARDS_VERSION
          "maximum of 4 components separated by dots ('.')".toList
      else if dot_count < 2 then
        p1.set_error STANDARDS_VERSION
          "must contain at least 3 components separated by dots ('.')".toList
      else if !format_ok then
        p1.set_error STANDARDS_VERSION
          "must be up to 4 numbers separated by dots ('.')".toList
      else if p1.standards_version_lt "0.4.0".toList then
        p1.set_error STANDARDS_VERSION "must be at least 0.4.0".toList
      else p1.clear_error STANDARDS_VERSION
  p2.modified true

/-! ### Install locations -/

/-- The entries `SD_APPS .. SD_SYSTEM` of the table `SpecialDirs`, the only ones the loop of
`validate_install_to` visits. -/
def special_dirs_apps_to_system : List Str :=
  [ "Apps".toList, "Manuals".toList, "Resources".toList, "Boot".toList, "!Boot".toList,
    "System".toList ]

/-- ASCII `tolower`. -/
def to_lower (c : Char) : Char :=
  if 'A'.toNat ≤ c.toNat ∧ c.toNat ≤ 'Z'.toNat then Char.ofNat (c.toNat + 32) else c

/-- The library routine `tbx::equals_ignore_case`: equal up to the case of ASCII letters. -/
def equals_ignore_case (a b : Str) : Bool := a.map to_lower = b.map to_lower

/-- The loop `for (id = SD_APPS; id <= SD_SYSTEM && bad; id++)` of `validate_install_to`:
the state is `(opts, bad)`. -/
def special_dir_loop (root_dir : Str) : List Str → Str → Bool → Str × Bool
  | [], opts, bad => (opts, bad)
  | d :: ds, opts, bad =>
      if !bad then (opts, bad)
      else
        let opts1 := if !opts.isEmpty then opts ++ ",".toList else opts
        let opts2 := opts1 ++ " ".toList ++ d
        special_dir_loop root_dir ds opts2 (if equals_ignore_case root_dir d then false else bad)

/-- The loop of `validate_install_to` that looks for two dots together. The C++ loop jumps
from one dot to the next with `find` and stops when the next dot is adjacent; here the
string is read once with `prev_dot` telling whether the previous character was a dot. -/
def two_dots_loop : Str → Bool → Bool
  | [], _ => false
  | c :: cs, prev_dot =>
      if c = '.' then (if prev_dot then true else two_dots_loop cs true)
      else two_dots_loop cs false

/-- `Packager::validate_install_to`. -/
def validate_install_to (p : Packager) (where_ : Str) : Packager :=
  if where_.isEmpty then p.set_error INSTALL_TO "must be entered".toList
  else if where_.getLast? = some '.' then
    p.set_error INSTALL_TO "must not end with a full stop".toList
  else
    let root_dir : Str :=
      match find_char '.' where_ with
      | none => where_
      | some dot_pos => where_.take dot_pos
    let r := special_dir_loop root_dir special_dirs_apps_to_system [] true
    if r.2 then p.set_error INSTALL_TO ("must start with one of".toList ++ r.1)
    else if two_dots_loop where_ false then
      p.set_error INSTALL_TO "should not have two dots ('.') together".toList
    else p.clear_error INSTALL_TO

/-- The loop body of `set_item_to_package`: overwrite the first item with the same source;
`none` when the loop ends without a match. -/
def replace_item (item : ItemToPackage) : List ItemToPackage → Option (List ItemToPackage)
  | [] => none
  | check :: rest =>
      if check._source = item._source then some (item :: rest)
      else (replace_item item rest).map (check :: ·)

/-- `Packager::set_item_to_package`. -/
def set_item_to_package (p : Packager) (item : ItemToPackage) : Packager :=
  let p1 := (p.clear_error ITEM_TO_PACKAGE).validate_install_to item._install_to
  match replace_item item p1._items_to_package with
  | some items => ({ p1 with _items_to_package := items } : Packager).modified true
  | none =>
      ({ p1 with _items_to_package := p1._items_to_package ++ [item] } : Packager).modified true

/-- The loop of `remove_item_to_package`: erase the first item with the given source. -/
def erase_item (source : Str) : List ItemToPackage → List ItemToPackage
  | [] => []
  | it :: rest => if it._source = source then rest else it :: erase_item source rest

/-- `Packager::remove_item_to_package`. -/
def remove_item_to_package (p : Packager) (source : Str) : Packager :=
  let p1 : Packager := { p with _items_to_package := erase_item source p._items_to_package }
  let p2 : Packager :=
    if p1._items_to_package.isEmpty then
      p1.set_error ITEM_TO_PACKAGE "You must have a least one item to package".toList
    else p1
  p2.modified true

/-! ### Dependencies -/

/-- `while (i != dep.end() && (*i) == ' ') i++;`. -/
def skip_blanks (i : Str) : Str := i.dropWhile (fun c => c = ' ')

/-- The last two steps of `check_one_dependency`, entered with `i` on the last character
of the operator and no error so far. -/
def check_version_part (i : Str) : Str :=
  let i1 := skip_blanks (skip_one i)
  let err : Str :=
    match i1 with
    | [] => "version number missing".toList
    | c :: _ =>
        if c = ')' ∨ c = ',' then "version number missing".toList
        else if c = '>' ∨ c = '<' ∨ c = '=' then "extra symbol in version operator".toList
        else []
  if err.isEmpty then
    let i2 := i1.dropWhile (fun c => c ≠ ')' ∧ c ≠ ' ')
    let i3 := skip_blanks i2
    match i3 with
    | [] => "missing ')' or a space in the version number".toList
    | c :: _ =>
        if c ≠ ')' then "missing ')' or a space in the version number".toList else []
  else err

/-- The part of `check_one_dependency` after the `(` has been passed: `i` is the position
after the `(`. -/
def check_operator_part (i : Str) : Str :=
  match skip_blanks i with
  | [] => "version operator '=', '<<', '>>', '<=' or '>=' missing".toList
  | c :: rest =>
      if !(c = '=' ∨ c = '<' ∨ c = '>') then
        "version operator '=', '<<', '>>', '<=' or '>=' missing".toList
      else if c = '<' then
        match rest with
        | [] => "'<' must be followed by another '<' or and '='".toList
        | d :: _ =>
            if d ≠ '<' ∧ d ≠ '=' then "'<' must be followed by another '<' or and '='".toList
            else check_version_part rest
      else if c = '>' then
        match rest with
        | [] => "'>' must be followed by another '>' or and '='".toList
        | d :: _ =>
            if d ≠ '>' ∧ d ≠ '=' then "'>' must be followed by another '>' or and '='".toList
            else check_version_part rest
      else check_version_part (c :: rest)

/-- `Packager::check_one_dependency`: the error text, empty when the clause is accepted. -/
def check_one_dependency (dep : Str) : Str :=
  match skip_blanks dep with
  | [] => "empty dependency, have you got too many commas".toList
  | c :: rest =>
      if c = ')' then "Extra ')' in a dependency".toList
      else
        let i1 := (c :: rest).dropWhile (fun x => x ≠ '(' ∧ x ≠ ' ')
        match skip_blanks i1 with
        | [] => []
        | d :: rest2 =>
            if d ≠ '(' then "dependency package name must end with a comma or a '('".toList
            else check_operator_part rest2

/-- The clause loop of `check_depends`. The C++ loop cuts the field at each comma with
`find` and `substr`; here the field is read once, `cur` holding the clause read so far.
The result is the first error found, empty when every clause is accepted. -/
def check_depends_loop : Str → Str → Str
  | cur, [] => check_one_dependency cur
  | cur, c :: cs =>
      if c = ',' then
        let err := check_one_dependency cur
        if err.isEmpty then check_depends_loop [] cs else err
      else check_depends_loop (cur ++ [c]) cs

/-- `Packager::check_depends`. -/
def check_depends (p : Packager) (where_ : Nat) (depends : Str) : Packager :=
  if depends.isEmpty then p.clear_error where_
  else
    let err := check_depends_loop [] depends
    if err.isEmpty then p.clear_error where_ else p.set_error where_ err

/-- `Packager::depends(std::string)`. -/
def depends (p : Packager) (value : Str) : Packager :=
  (({ p with _depends := value } : Packager).check_depends DEPENDS value).modified true

/-- `Packager::recommends(std::string)`. -/
def recommends (p : Packager) (value : Str) : Packager :=
  (({ p with _recommends := value } : Packager).check_depends RECOMMENDS value).modified true

/-- `Packager::suggests(std::string)`. -/
def suggests (p : Packager) (value : Str) : Packager :=
  (({ p with _suggests := value } : Packager).check_depends SUGGESTS value).modified true

/-- `Packager::conflicts(std::string)`. -/
def conflicts (p : Packager) (value : Str) : Packager :=
  (({ p with _conflicts := value } : Packager).check_depends CONFLICTS value).modified true

/-! ### Construction -/

/-- The object before the body of the constructor runs: every string empty,
`_modified(false)`, `_error_count(0)`. -/
def zeroed : Packager :=
  { _package_name := [], _version := [], _package_version := [], _section := [],
    _priority := [], _maintainer := [], _standards_version := [], _items_to_package := [],
    _summary := [], _description := [], _licence := [], _depends := [], _recommends := [],
    _suggests := [], _conflicts := [], _copyright := [], _modified := false,
    _error_count := 0, _errors := List.replicate NUM_ITEMS [] }

/-- The constructor `Packager::Packager()`. -/
def new : Packager :=
  let p := zeroed
  let p := p.package_name []
  let p := p.version []
  let p := p.package_version "1".toList
  let p := p.section_ []
  let p := p.priority "Optional".toList
  let p := p.maintainer []
  let p := p.standards_version "0.4.0".toList
  let p := p.summary []
  let p := p.licence []
  let p := p.copyright []
  let p := p.set_error ITEM_TO_PACKAGE "must be entered".toList
  { p with _modified := false }

/-! ### Browsing the errors -/

/-- The `do ... while (_errors[i].empty())` loop of `next_error`, entered with the index `i`
before the increment. `fuel` bounds the number of slots looked at: after `NUM_ITEMS` steps
every slot has been seen, so when none holds a text the C++ loop never ends, which is
`none` here. -/
def next_error_loop (errors : List Str) : Nat → Int → Option Int
  | 0, _ => none
  | fuel + 1, i =>
      let i1 : Int := if i + 1 = (NUM_ITEMS : Int) then 0 else i + 1
      if (errors.getD i1.toNat []).isEmpty then next_error_loop errors fuel i1
      else some i1

/-- `Packager::next_error`: `some j` when the call returns `j`, `none` when the loop does
not end. -/
def next_error (p : Packager) (i : Int) : Option Int :=
  if p._error_count = 0 then some (-1)
  else
    let i0 : Int := if i ≥ (NUM_ITEMS : Int) then (NUM_ITEMS : Int) - 1 else i
    next_error_loop p._errors NUM_ITEMS i0

/-- `Packager::first_error`. -/
def first_error (p : Packager) : Option Int := p.next_error (-1)

/-- `Packager::item_name`. -/
def item_name (i : Nat) : Str := item_names.getD i []

/-! ### Reading a control record -/

/-- `std::string::rfind(char)`: the index of the last occurrence, `none` for `npos`. -/
def rfind_char (c : Char) : Str → Option Nat
  | [] => none
  | x :: xs =>
      match rfind_char c xs with
      | some k => some (k + 1)
      | none => if x = c then some 0 else none

/-- `Packager::set_control_field`: the record after the call, and the message of the
`PackageFormatException` when one is thrown. -/
def set_control_field (p : Packager) (name value : Str) : Packager × Option Str :=
  if name = "Package".toList then (p.package_name value, none)
  else if name = "Version".toList then
    match rfind_char '-' value with
    | none => ((p.version value).package_version [], none)
    | some rpos => ((p.version (value.take rpos)).package_version (value.drop (rpos + 1)), none)
  else if name = "Section".toList then (p.section_ value, none)
  else if name = "Priority".toList then (p.priority value, none)
  else if name = "Maintainer".toList then (p.maintainer value, none)
  else if name = "Standards-Version".toList then (p.standards_version value, none)
  else if name = "Description".toList then
    match find_char '\n' value with
    | none => (p.summary value, none)
    | some eolpos =>
        ((p.summary (value.take eolpos)).description (value.drop (eolpos + 1)), none)
  else if name = "Licence".toList then (p.licence value, none)
  else if name = "Depends".toList then (p.depends value, none)
  else if name = "Recommends".toList then (p.recommends value, none)
  else if name = "Suggests".toList then (p.suggests value, none)
  else if name = "Conflicts".toList then (p.conflicts value, none)
  else (p, some ("Unable to process field '".toList ++ name ++ "' in RiscPkg/Control".toList))

/-- The strings that the successive calls `getline(in, line)` of `read_control` leave in
`line`, up to and including the call that fails at the end of the input (which leaves
`line` empty). `cur` holds the characters of the line read so far. -/
def getlines_from : Str → Str → List Str
  | cur, [] => if cur.isEmpty then [[]] else [cur, []]
  | cur, c :: cs =>
      if c = '\n' then cur :: getlines_from [] cs else getlines_from (cur ++ [c]) cs

/-- The loop that parses the field name of a line: the name read so far is `acc`. The
result is the name and the text after the colon, or the message of the exception. -/
def scan_field_name : Str → Str → Except Str (Str × Str)
  | _, [] => Except.error "':' expected in RiscPkg/Control".toList
  | acc, c :: cs =>
      if c = ':' then Except.ok (acc, cs)
      else if isspace c then Except.error "Syntax error in RiscPkg/Control".toList
      else scan_field_name (acc ++ [c]) cs

/-- The statement after the loop of `read_control`:
`if (!name.empty()) set_control_field(name, value);`. -/
def read_control_finish (p : Packager) (name value : Str) : Packager × Option Str :=
  if !name.isEmpty then p.set_control_field name value else (p, none)

/-- The loop of `read_control` over the lines of the input, with the local variables `name`
and `value`. The loop ends at the first blank line (`done = true`) or with the input. -/
def read_control_lines : List Str → Str → Str → Packager → Packager × Option Str
  | [], name, value, p => read_control_finish p name value
  | line :: rest, name, value, p =>
      -- Strip trailing spaces.
      let l := line.rdropWhile isspace
      match l with
      | [] => read_control_finish p name value
      | first :: _ =>
          if isspace first then
            -- Line is blank or begins with a space: skip leading spaces.
            let c := l.dropWhile isspace
            if c.isEmpty then
              -- Line is blank (or contains only spaces): done = true.
              read_control_finish p name value
            else if name.isEmpty then
              (p, some "Continuation line not allowed here in RiscPkg/Control".toList)
            else
              let c1 := if c = ['.'] then [] else c
              read_control_lines rest name (value ++ "\n".toList ++ c1) p
          else
            match read_control_finish p name value with
            | (p1, some e) => (p1, some e)
            | (p1, none) =>
                match scan_field_name [] l with
                | Except.error e => (p1, some e)
                | Except.ok (name1, after) =>
                    read_control_lines rest name1 (after.dropWhile isspace) p1

/-- `Packager::read_control(std::istream &)` on an input with the given characters: the
record after the call, and the message of the `PackageFormatException` when the call
throws. -/
def read_control (p : Packager) (input : Str) : Packager × Option Str :=
  read_control_lines (getlines_from [] input) [] [] p

/-! ### Writing a control record -/

/-- The statement `while (blank_line > 0) { blank_line--; os << " ." << std::endl; }`. -/
def flush_blank_lines : Nat → Str
  | 0 => []
  | k + 1 => " .\n".toList ++ flush_blank_lines k

/-- The folding of `_description` in `control_as_text`. The C++ loop cuts the text at each
newline with `find`; here the text is read once, `cur` holding the line read so far
(the characters from `solpos`) and `blank_line` the counter of the C++ loop. At the end
of the text, `cur` is what `_description.substr(solpos)` holds. -/
def fold_description : Str → Nat → Str → Str
  | cur, blank_line, [] =>
      if !cur.isEmpty then flush_blank_lines blank_line ++ " ".toList ++ cur ++ "\n".toList
      else []
  | cur, blank_line, c :: cs =>
      if c = '\n' then
        if cur.all (fun x => x = ' ') then fold_description [] (blank_line + 1) cs
        else
          flush_blank_lines blank_line ++ " ".toList ++ cur ++ "\n".toList
            ++ fold_description [] 0 cs
      else fold_description (cur ++ [c]) blank_line cs

end Packager

/-- `ItemToPackage::component()`. -/
def ItemToPackage.component (item : ItemToPackage) : Str :=
  let leaf_name : Str :=
    match Packager.rfind_char '.' item._source with
    | none => item._source
    | some leaf_pos => item._source.drop (leaf_pos + 1)
  item._install_to ++ ".".toList ++ leaf_name

namespace Packager

/-- The loop of `control_as_text` over the items: the text written for the `Components`
field so far is returned; `write_comps` is the flag of the C++ loop. -/
def components_loop : List ItemToPackage → Bool → Str
  | [], write_comps => if !write_comps then "\n".toList else []
  | item :: rest, write_comps =>
      if item._component_flags ≠ CF_None then
        (if write_comps then "Components: ".toList else ",".toList)
          ++ item.component ++ " (Movable)".toList ++ components_loop rest false
      else components_loop rest write_comps

/-- One line `Name: value` followed by `std::endl`, written when the value is not empty. -/
def field_line (name value : Str) : Str :=
  if !value.isEmpty then name ++ ": ".toList ++ value ++ "\n".toList else []

/-- `Packager::control_as_text`. -/
def control_as_text (p : Packager) : Str :=
  field_line "Package".toList p._package_name
  ++ (if !p._version.isEmpty then
        "Version: ".toList ++ p._version ++ "-".toList ++ p._package_version ++ "\n".toList
      else [])
  ++ field_line "Section".toList p._section
  ++ field_line "Priority".toList p._priority
  ++ field_line "Maintainer".toList p._maintainer
  ++ field_line "Standards-Version".toList p._standards_version
  ++ field_line "Licence".toList p._licence
  ++ field_line "Description".toList p._summary
  ++ (if !p._description.isEmpty then
        (if p._summary.isEmpty then "Description: ".toList else [])
          ++ fold_description [] 0 p._description
      else [])
  ++ components_loop p._items_to_package true
  ++ field_line "Depends".toList p._depends
  ++ field_line "Recommends".toList p._recommends
  ++ field_line "Suggests".toList p._suggests
  ++ field_line "Conflicts".toList p._conflicts

/-- `Packager::standard_leafname`. -/
def standard_leafname (p : Packager) : Str :=
  (p._package_name ++ "_".toList ++ p._version ++ "-".toList ++ p._package_version).map
    (fun c => if c = '.' then '/' else c)

/-- `Packager::zip_to_riscos_name`: the search starts at `pos + 1` with `pos = 0`, so the
first character is never looked at; in the rest dots and slashes are exchanged. -/
def zip_to_riscos_name (zipname : Str) : Str :=
  match zipname with
  | [] => []
  | c :: cs => c :: cs.map (fun x => if x = '.' then '/' else if x = '/' then '.' else x)

/-- `Packager::riscos_to_zip_name`. -/
def riscos_to_zip_name (riscosname : Str) : Str := zip_to_riscos_name riscosname

end Packager

/-! ## The disc and the archives

What the program sees of the file system, for `save` and `same_as`: the object found at
the source path of an item (a file with its bytes, or a directory with its entries in the
order in which the directory is enumerated), and an archive as the list of its entries in
the order in which they were written. -/

mutual
/-- A file with its bytes, or a directory with its entries. -/
inductive DiscNode where
  | file (data : Str)
  | dir (entries : DiscEntries)
/-- The entries of a directory, each with its name, in the order of the enumeration. -/
inductive DiscEntries where
  | nil
  | cons (name : Str) (node : DiscNode) (rest : DiscEntries)
end

/-- The disc: the objects found at the source paths. -/
abbrev Disc := List (Str × DiscNode)

/-- One entry of a zip archive. -/
structure ZipEntry where
  name : Str
  data : Str
  is_directory : Bool
deriving DecidableEq, Repr

/-- A zip archive: its entries in the order written. -/
abbrev Archive := List ZipEntry

/-- `std::string::operator<`: the lexicographic order. -/
def str_lt : Str → Str → Bool
  | [], [] => false
  | [], _ :: _ => true
  | _ :: _, [] => false
  | a :: as, b :: bs =>
      if a.toNat < b.toNat then true
      else if b.toNat < a.toNat then false
      else str_lt as bs

/-- A `std::map<std::string, T>`: the pairs in increasing order of the key. -/
abbrev StrMap (β : Type) := List (Str × β)

/-- `m[key] = value`. -/
def map_insert {β : Type} (key : Str) (value : β) : StrMap β → StrMap β
  | [] => [(key, value)]
  | (k, v) :: rest =>
      if key = k then (key, value) :: rest
      else if str_lt key k then (key, value) :: (k, v) :: rest
      else (k, v) :: map_insert key value rest

/-- `m.find(key)`, `none` for `m.end()`. -/
def map_find {β : Type} (key : Str) : StrMap β → Option β
  | [] => none
  | (k, v) :: rest => if key = k then some v else map_find key rest

/-- `m.erase(key)`. -/
def map_erase {β : Type} (key : Str) : StrMap β → StrMap β
  | [] => []
  | (k, v) :: rest => if key = k then rest else (k, v) :: map_erase key rest

/-- The library routine `tbx::Path::leaf_name`: the text after the last dot. -/
def leaf_name (path : Str) : Str :=
  match Packager.rfind_char '.' path with
  | none => path
  | some dot_pos => path.drop (dot_pos + 1)

/-- The library routine `tbx::Path::parent`: the text before the last dot. -/
def parent_name (path : Str) : Str :=
  match Packager.rfind_char '.' path with
  | none => []
  | some dot_pos => path.take dot_pos

/-- The files of a directory in the order of the first loop of `get_file_list` and of
`build_disc_list`: the name and the bytes of each entry that is not a directory. -/
def direct_files : DiscEntries → List (Str × Str)
  | DiscEntries.nil => []
  | DiscEntries.cons name (DiscNode.file data) rest => (name, data) :: direct_files rest
  | DiscEntries.cons _ (DiscNode.dir _) rest => direct_files rest

/-- The second loop of `Packager::get_file_list` (the recursion into the directories
found), with the call of `get_file_list` on each subdirectory written out: its files
first, then its own subdirectories. The result is the list of (file name, bytes). -/
def get_file_list_subdirs : DiscEntries → Str → List (Str × Str)
  | DiscEntries.nil, _ => []
  | DiscEntries.cons _ (DiscNode.file _) rest, dirname => get_file_list_subdirs rest dirname
  | DiscEntries.cons name (DiscNode.dir es) rest, dirname =>
      (direct_files es).map (fun f => (dirname ++ ".".toList ++ name ++ ".".toList ++ f.1, f.2))
        ++ get_file_list_subdirs es (dirname ++ ".".toList ++ name)
        ++ get_file_list_subdirs rest dirname

/-- `Packager::get_file_list`. -/
def get_file_list (dirname : Str) (entries : DiscEntries) : List (Str × Str) :=
  (direct_files entries).map (fun f => (dirname ++ ".".toList ++ f.1, f.2))
    ++ get_file_list_subdirs entries dirname

namespace Packager

/-- `Packager::copy_file`: the entry added to the archive for one file. -/
def copy_file (base_dir_size : Nat) (install_to : Str) (file : Str × Str) : ZipEntry :=
  { name := riscos_to_zip_name (install_to ++ ".".toList ++ file.1.drop base_dir_size)
    data := file.2
    is_directory := false }

/-- The loop of `save` over the items: the entries added to the archive, or the message of
the `PackageCreateException` thrown when an item is not found on the disc. -/
def save_items (disc : Disc) : List ItemToPackage → Except Str Archive
  | [] => Except.ok []
  | item :: rest =>
      let base_dir_size := (parent_name item._source).length + 1
      match map_find item._source disc with
      | none => Except.error ("Unable to read file/directory ".toList ++ item._source)
      | some root_info =>
          let file_list : List (Str × Str) :=
            match root_info with
            | DiscNode.dir entries => get_file_list item._source entries
            | DiscNode.file data => [(item._source, data)]
          match save_items disc rest with
          | Except.error e => Except.error e
          | Except.ok more =>
              Except.ok (file_list.map (copy_file base_dir_size item._install_to) ++ more)

/-- `Packager::save`: the result (`ok`), the text left in `*error`, and the archive written
when the call succeeds. -/
def save (p : Packager) (disc : Disc) : Bool × Str × Archive :=
  match save_items disc p._items_to_package with
  | Except.error e => (false, e, [])
  | Except.ok entries =>
      (true, [],
        [ { name := "RiscPkg/Control".toList, data := p.control_as_text,
            is_directory := false },
          { name := "RiscPkg/Copyright".toList, data := p._copyright,
            is_directory := false } ] ++ entries)

/-- The first loop of `same_as`: the map from the name of each entry that is not a
directory to its size. -/
def zip_contents_of : Archive → StrMap Int → StrMap Int
  | [], m => m
  | e :: rest, m =>
      zip_contents_of rest
        (if !e.is_directory then map_insert e.name (e.data.length : Int) m else m)

/-- `CZipArchive::FindFile`: the first entry with the given name. -/
def find_file (zip_filename : Str) : Archive → Option ZipEntry
  | [] => none
  | e :: rest => if e.name = zip_filename then some e else find_file zip_filename rest

/-- `Packager::compare_file_text_size`: the result, the text left in `*diff` and the map,
which `zip_contents[zip_filename]` extends with a zero size when the name is missing. -/
def compare_file_text_size (zip_contents : StrMap Int) (zip_filename text : Str) :
    Bool × Str × StrMap Int :=
  match map_find zip_filename zip_contents with
  | some size =>
      if size = (text.length : Int) then (true, [], zip_contents)
      else (false, zip_filename ++ " size changed".toList, zip_contents)
  | none =>
      let m := map_insert zip_filename (0 : Int) zip_contents
      if (0 : Int) = (text.length : Int) then (true, [], m)
      else (false, zip_filename ++ " size changed".toList, m)

/-- `Packager::file_text_is_same`: the result and the text left in `*diff`. -/
def file_text_is_same (zip_compare : Archive) (zip_filename text : Str) : Bool × Str :=
  match find_file zip_filename zip_compare with
  | none => (false, zip_filename ++ " does not exist".toList)
  | some e =>
      let buf := e.data.take (text.length + 2)
      if buf.length ≠ text.length then (false, zip_filename ++ " different size in zip".toList)
      else if text = buf then (true, [])
      else (false, zip_filename ++ " contents changed".toList)

/-- The state of `build_disc_list`: `disc_file_list` and `zip_contents`. -/
abbrev DiscListState := StrMap Str × StrMap Int

/-- The first loop of `Packager::build_disc_list`, over the files of one directory. The
result is the new state, or the text left in `*diff` when the loop returns false. -/
def build_disc_list_files (disc_dirname zip_dirname : Str) :
    List (Str × Str) → DiscListState → Except Str DiscListState
  | [], st => Except.ok st
  | (name, data) :: rest, st =>
      let disc_filename := disc_dirname ++ ".".toList ++ name
      let zip_filename := zip_dirname ++ "/".toList ++ riscos_to_zip_name name
      match map_find zip_filename st.2 with
      | none => Except.error ("new file ".toList ++ disc_filename)
      | some size =>
          if (data.length : Int) ≠ size then
            Except.error ("file size changed ".toList ++ disc_filename)
          else
            build_disc_list_files disc_dirname zip_dirname rest
              (map_insert disc_filename zip_filename st.1, map_erase zip_filename st.2)

/-- The second loop of `Packager::build_disc_list` (the recursion into the subdirectories),
with the call of `build_disc_list` on each subdirectory written out: its files first,
then its own subdirectories. -/
def build_disc_list_subdirs :
    DiscEntries → Str → Str → DiscListState → Except Str DiscListState
  | DiscEntries.nil, _, _, st => Except.ok st
  | DiscEntries.cons _ (DiscNode.file _) rest, disc_dirname, zip_dirname, st =>
      build_disc_list_subdirs rest disc_dirname zip_dirname st
  | DiscEntries.cons subdir (DiscNode.dir es) rest, disc_dirname, zip_dirname, st =>
      let dd := disc_dirname ++ ".".toList ++ subdir
      let zd := zip_dirname ++ "/".toList ++ riscos_to_zip_name subdir
      match build_disc_list_files dd zd (direct_files es) st with
      | Except.error e => Except.error e
      | Except.ok st1 =>
          match build_disc_list_subdirs es dd zd st1 with
          | Except.error e => Except.error e
          | Except.ok st2 => build_disc_list_subdirs rest disc_dirname zip_dirname st2

/-- `Packager::build_disc_list` on the directory with the given entries. -/
def build_disc_list (disc_dirname zip_dirname : Str) (entries : DiscEntries)
    (st : DiscListState) : Except Str DiscListState :=
  match build_disc_list_files disc_dirname zip_dirname (direct_files entries) st with
  | Except.error e => Except.error e
  | Except.ok st1 => build_disc_list_subdirs entries disc_dirname zip_dirname st1

/-- The entries that the enumeration `tbx::PathInfo::begin(disc_dirname)` yields for the
source of an item: the entries of the directory; nothing when the source is a file or is
missing. -/
def enumerate (disc : Disc) (source : Str) : DiscEntries :=
  match map_find source disc with
  | some (DiscNode.dir entries) => entries
  | _ => DiscEntries.nil

/-- The loop of `same_as` over the items. -/
def build_disc_list_items (disc : Disc) :
    List ItemToPackage → DiscListState → Except Str DiscListState
  | [], st => Except.ok st
  | item :: rest, st =>
      let zip_install_to := item._install_to ++ ".".toList ++ leaf_name item._source
      match build_disc_list item._source (riscos_to_zip_name zip_install_to)
          (enumerate disc item._source) st with
      | Except.error e => Except.error e
      | Except.ok st1 => build_disc_list_items disc rest st1

/-- Size of the buffers of `file_is_same`. -/
def BUFFER_SIZE : Nat := 16384

/-- The comparison loop of `file_is_same`, which reads both files in blocks of
`BUFFER_SIZE` bytes. Here both are read byte by byte: `room` is what is left of the
current block and `differs` tells whether the block read so far has a difference. The
result is the text added to the file name in `*diff`, `none` when the files are the same. -/
def file_compare_loop : Str → Str → Nat → Bool → Option Str
  | [], [], _, differs => if differs then some " contents changed".toList else none
  | [], _ :: _, _, _ => some " read bytes size mismatch".toList
  | _ :: _, [], _, _ => some " read bytes size mismatch".toList
  | a :: as, b :: bs, room, differs =>
      let differs1 := differs || a != b
      if room = 1 then
        if differs1 then some " contents changed".toList
        else file_compare_loop as bs BUFFER_SIZE false
      else file_compare_loop as bs (room - 1) differs1

/-- Every file under the sources of the disc with its bytes, by full name. -/
def disc_files : Disc → List (Str × Str)
  | [] => []
  | (source, DiscNode.file data) :: rest => (source, data) :: disc_files rest
  | (source, DiscNode.dir entries) :: rest => get_file_list source entries ++ disc_files rest

/-- `Packager::file_is_same`: the result and the text left in `*diff`. -/
def file_is_same (disc : Disc) (zip_compare : Archive) (disc_filename zip_filename : Str) :
    Bool × Str :=
  match find_file zip_filename zip_compare with
  | none => (false, zip_filename ++ " does not exist".toList)
  | some e =>
      match map_find disc_filename (disc_files disc) with
      | none => (false, zip_filename ++ " could not be opened".toList)
      | some data =>
          match file_compare_loop data e.data BUFFER_SIZE false with
          | none => (true, [])
          | some d => (false, disc_filename ++ d)

/-- The last loop of `same_as`, over `disc_file_list`. -/
def files_are_same (disc : Disc) (zip_compare : Archive) : StrMap Str → Bool × Str
  | [] => (true, [])
  | (disc_filename, zip_filename) :: rest =>
      let r := file_is_same disc zip_compare disc_filename zip_filename
      if !r.1 then r else files_are_same disc zip_compare rest

/-- `Packager::same_as`: the result and the text left in `*diff`. `zip_compare` is the
archive found at `pkgfilename`, `none` when the file cannot be opened. -/
def same_as (p : Packager) (disc : Disc) (pkgfilename : Str) (zip_compare : Option Archive) :
    Bool × Str :=
  match zip_compare with
  | none => (false, pkgfilename ++ " does not exist".toList)
  | some zip =>
      let zip_contents := zip_contents_of zip []
      let r1 := compare_file_text_size zip_contents "RiscPkg/Copyright".toList p._copyright
      if !r1.1 then (false, r1.2.1)
      else
        let control := p.control_as_text
        let r2 := compare_file_text_size r1.2.2 "RiscPkg/Control".toList control
        if !r2.1 then (false, r2.2.1)
        else
          let r3 := file_text_is_same zip "RiscPkg/Copyright".toList p._copyright
          if !r3.1 then r3
          else
            let r4 := file_text_is_same zip "RiscPkg/Control".toList control
            if !r4.1 then r4
            else
              let zc := map_erase "RiscPkg/Control".toList
                (map_erase "RiscPkg/Copyright".toList r2.2.2)
              match build_disc_list_items disc p._items_to_package ([], zc) with
              | Except.error d => (false, d)
              | Except.ok (disc_file_list, zc1) =>
                  match zc1 with
                  | (first, _) :: _ =>
                      (false, to_string_int (zc1.length : Int)
                        ++ " files removed, first is ".toList ++ first)
                  | [] => files_are_same disc zip disc_file_list

end Packager

/-! ## `Log::PackageContext` (Log.h, Log.cc) -/

/-- The class `Log::PackageContext`. `lines` are the lines its calls have sent to the log,
each without the time of day that `Log` puts in front. -/
structure PackageContext where
  _id : Str
  _title : Str
  _package : Bool
  _new : Bool
  _upgrade : Bool
  _error : Bool
  lines : List Str
deriving DecidableEq, Repr

namespace PackageContext

/-- `Log::PackageContext::message`. -/
def message (c : PackageContext) (msg : Str) : PackageContext :=
  { c with lines := c.lines ++ [":INFO:".toList ++ c._id ++ ":".toList ++ msg] }

/-- `Log::PackageContext::error`. -/
def error (c : PackageContext) (msg : Str) : PackageContext :=
  { c with lines := c.lines ++ [":ERROR:".toList ++ c._id ++ ":".toList ++ msg], _error := true }

/-- `Log::PackageContext::new_package`. -/
def new_package (c : PackageContext) (value : Bool) : PackageContext := { c with _new := value }

/-- `Log::PackageContext::upgrade_package`. -/
def upgrade_package (c : PackageContext) (value : Bool) : PackageContext :=
  { c with _upgrade := value }

end PackageContext

/-! ## `check_and_save_package` (main.cc) -/

/-- The library class `pkg::version` (LibPkg) as far as `check_and_save_package` uses it:
the constructor from a string, which gives the text of the `parse_error` when it throws,
the two accessors and `operator>`. -/
structure VersionLib (α : Type) where
  parse : Str → Except Str α
  upstream_version : α → Str
  package_version : α → Str
  gt : α → α → Bool

/-- What `check_and_save_package` reads besides its arguments: the global
`s_current_packages`, the version library, the disc and the archives present in the
packages directory, by file name. -/
structure World (α : Type) where
  s_current_packages : StrMap Str
  versions : VersionLib α
  disc : Disc
  archives : StrMap Archive

/-- The calls that `check_and_save_package` makes on the index of the published versions,
on the packages directory and on the record, in the order made. -/
inductive Call where
  | find_current (pkgname : Str)
  | path_exists (path : Str)
  | same_as (pkgfilename : Str)
  | save (filename : Str)
deriving DecidableEq, Repr

/-- The state after `check_and_save_package`: the record, the log context, the calls made
and the archive written, with its file name, when `save` succeeded. -/
structure Outcome where
  pkg : Packager
  log_context : PackageContext
  calls : List Call
  written : Option (Str × Archive)
deriving DecidableEq, Repr

def s_packages_dir : Str := "$.Packages".toList
def s_release_packages : Str := "release".toList
def s_beta_packages : Str := "beta".toList

/-- The `do ... while (next != start)` loop of `check_and_save_package` that collects the
errors of the record in `msg`. `fuel` bounds the number of turns: the loop visits a slot
at most once before it comes back to `start`. The result is `none` when a call of
`next_error` does not return. -/
def error_walk (pkg : Packager) (start : Int) : Nat → Int → Str → Option Str
  | 0, _, _ => none
  | fuel + 1, next, msg =>
      let msg1 := if !msg.isEmpty then msg ++ ", ".toList else msg
      let msg2 := msg1 ++ Packager.item_name next.toNat ++ " ".toList
        ++ pkg.error_text next.toNat
      match pkg.next_error next with
      | none => none
      | some next1 => if next1 = start then some msg2 else error_walk pkg start fuel next1 msg2

/-- The end of `check_and_save_package`, from `if (save_package)`. -/
def save_or_up_to_date {α : Type} (w : World α) (pkg : Packager) (ctx : PackageContext)
    (calls : List Call) (released save_package : Bool) : Outcome :=
  if save_package then
    let type := if released then s_release_packages else s_beta_packages
    let pkgdir := s_packages_dir ++ ".".toList ++ type ++ ".".toList
    let pkgfile := pkgdir ++ pkg.standard_leafname
    let ctx1 := ctx.message ("Creating/saving package to ".toList ++ pkgfile)
    let r := pkg.save w.disc
    if r.1 then
      { pkg := pkg, log_context := ctx1.message "Created/saved".toList,
        calls := calls ++ [Call.save pkgfile], written := some (pkgfile, r.2.2) }
    else
      { pkg := pkg, log_context := ctx1.error ("Failed to save/create - ".toList ++ r.2.1),
        calls := calls ++ [Call.save pkgfile], written := none }
  else
    { pkg := pkg, log_context := ctx.message "Package is up to date".toList,
      calls := calls, written := none }

/-- The `catch (pkg::version::parse_error &ve)` block of `check_and_save_package`. -/
def version_parse_failed (pkg : Packager) (ctx : PackageContext) (calls : List Call)
    (current ve : Str) : Outcome :=
  { pkg := pkg
    log_context := ctx.error
      ("Invalid package version format error. Old version ".toList ++ current
        ++ ", new version ".toList ++ pkg._version ++ "-".toList ++ pkg._package_version
        ++ ", error ".toList ++ ve)
    calls := calls, written := none }

/-- The record after the published version `old_v` has been put into it:
`pkg.version(old_v.upstream_version()); pkg.package_version(old_v.package_version());`. -/
def adopt_version {α : Type} (w : World α) (pkg : Packager) (old_v : α) : Packager :=
  (pkg.version (w.versions.upstream_version old_v)).package_version
    (w.versions.package_version old_v)

/-- The file name of the archive of a record in a category of the packages directory:
`s_packages_dir + "." + category + "." + pkg.standard_leafname()`. -/
def package_file (category : Str) (pkg : Packager) : Str :=
  s_packages_dir ++ ".".toList ++ category ++ ".".toList ++ pkg.standard_leafname

/-- `tbx::Path(file).exists()` for an archive of the packages directory. -/
def archive_exists {α : Type} (w : World α) (file : Str) : Bool :=
  (map_find file w.archives).isSome

/-- The value of `lastpkgfile` when the comparison is made: the archive of the release
category, replaced by the one of the beta category when the former does not exist. -/
def last_package_file {α : Type} (w : World α) (pkg : Packager) : Str :=
  if !archive_exists w (package_file s_release_packages pkg) then
    package_file s_beta_packages pkg
  else package_file s_release_packages pkg

/-- `std::string type(released ? s_release_packages : s_beta_packages);`. -/
def category_of (released : Bool) : Str :=
  if released then s_release_packages else s_beta_packages

/-- The text `pkg.version() + "-" + pkg.package_version()`. -/
def version_text (pkg : Packager) : Str :=
  pkg._version ++ "-".toList ++ pkg._package_version

/-- The block `// Update version for new release` of `check_and_save_package`. -/
def increment_package_version (pkg : Packager) : Packager :=
  let new_pv := wrap32 (from_string_int pkg._package_version + 1)
  pkg.package_version (to_string_int new_pv)

/-- The branch of `check_and_save_package` taken when the version of the record is not
greater than the published one (`old_v`): from `// Use old version - will increase later`
to the end of the function. -/
def use_old_version {α : Type} (w : World α) (pkg : Packager) (ctx : PackageContext)
    (calls : List Call) (released : Bool) (old_v : α) : Outcome :=
  let pkg1 := adopt_version w pkg old_v
  let calls1 := calls ++ [Call.path_exists (package_file s_release_packages pkg1)]
  let lastpkgfile := last_package_file w pkg1
  -- the release archive is missing and the run is a release: save_package = true
  if !archive_exists w (package_file s_release_packages pkg1) && released then
    save_or_up_to_date w (increment_package_version pkg1)
      ((ctx.message "Upgrading beta to release".toList).upgrade_package true) calls1 released true
  else
    -- if (!save_package): compare with the last package
    let ctx2 := ctx.message "Comparing files with last package".toList
    let r := pkg1.same_as w.disc lastpkgfile (map_find lastpkgfile w.archives)
    let calls2 := calls1 ++ [Call.same_as lastpkgfile]
    if !r.1 then
      save_or_up_to_date w (increment_package_version pkg1)
        ((ctx2.message ("Upgrading ".toList ++ r.2)).upgrade_package true) calls2 released true
    else save_or_up_to_date w pkg1 ctx2 calls2 released false

/-- `check_and_save_package` (main.cc). The result is `none` when the function does not
return, which can only happen in the loop that collects the errors. -/
def check_and_save_package {α : Type} (w : World α) (pkg : Packager) (log_context : PackageContext)
    (released : Bool) : Option Outcome :=
  let pkgname := pkg._package_name
  if pkg.error_count ≠ 0 then
    match pkg.first_error with
    | none => none
    | some start =>
        match error_walk pkg start NUM_ITEMS start [] with
        | none => none
        | some msg =>
            some { pkg := pkg
                   log_context := log_context.error ("Invalid package - ".toList ++ msg)
                   calls := [], written := none }
  else
    let calls := [Call.find_current pkgname]
    match map_find pkgname w.s_current_packages with
    | none =>
        some (save_or_up_to_date w pkg
          ((log_context.message "Creating new package".toList).new_package true) calls released true)
    | some current =>
        match w.versions.parse (version_text pkg) with
        | Except.error ve => some (version_parse_failed pkg log_context calls current ve)
        | Except.ok v =>
            match w.versions.parse current with
            | Except.error ve => some (version_parse_failed pkg log_context calls current ve)
            | Except.ok old_v =>
                if w.versions.gt v old_v then
                  some (save_or_up_to_date w pkg
                    (log_context.message "Upgrading due to new version".toList) calls released true)
                else some (use_old_version w pkg log_context calls released old_v)

/-! ## Records and their invariant -/

/-- The number of slots `i` in `[0, NUM_ITEMS)` whose `error_text(i)` is not empty. -/
def error_slots (p : Packager) : Nat :=
  ((List.range NUM_ITEMS).filter (fun i => !(p.error_text i).isEmpty)).length

/-- The invariant kept by `set_error` and `clear_error`: the array has its `NUM_ITEMS`
slots and `_error_count` counts the slots that hold a text. -/
def ErrInv (p : Packager) : Prop :=
  p._errors.length = NUM_ITEMS ∧
    p._error_count = ((p._errors.countP (fun e => !e.isEmpty) : Nat) : Int)

/-- The records a caller can obtain: the constructor followed by any sequence of calls of
the public member functions that change the object. A call of `read_control` counts
whether it returns or throws. -/
inductive Reachable : Packager → Prop
  | new : Reachable Packager.new
  | modified (p : Packager) (m : Bool) : Reachable p → Reachable (p.modified m)
  | package_name (p : Packager) (v : Str) : Reachable p → Reachable (p.package_name v)
  | version (p : Packager) (v : Str) : Reachable p → Reachable (p.version v)
  | package_version (p : Packager) (v : Str) : Reachable p → Reachable (p.package_version v)
  | section_ (p : Packager) (v : Str) : Reachable p → Reachable (p.section_ v)
  | priority (p : Packager) (v : Str) : Reachable p → Reachable (p.priority v)
  | maintainer (p : Packager) (v : Str) : Reachable p → Reachable (p.maintainer v)
  | standards_version (p : Packager) (v : Str) :
      Reachable p → Reachable (p.standards_version v)
  | summary (p : Packager) (v : Str) : Reachable p → Reachable (p.summary v)
  | description (p : Packager) (v : Str) : Reachable p → Reachable (p.description v)
  | licence (p : Packager) (v : Str) : Reachable p → Reachable (p.licence v)
  | copyright (p : Packager) (v : Str) : Reachable p → Reachable (p.copyright v)
  | depends (p : Packager) (v : Str) : Reachable p → Reachable (p.depends v)
  | recommends (p : Packager) (v : Str) : Reachable p → Reachable (p.recommends v)
  | suggests (p : Packager) (v : Str) : Reachable p → Reachable (p.suggests v)
  | conflicts (p : Packager) (v : Str) : Reachable p → Reachable (p.conflicts v)
  | set_item_to_package (p : Packager) (item : ItemToPackage) :
      Reachable p → Reachable (p.set_item_to_package item)
  | remove_item_to_package (p : Packager) (source : Str) :
      Reachable p → Reachable (p.remove_item_to_package source)
  | read_control (p : Packager) (input : Str) :
      Reachable p → Reachable (p.read_control input).1

/-! ## Vocabulary of the statements about the standards version -/

/-- The lexicographic order on triples of numbers. -/
def triple_le (x y : Nat × Nat × Nat) : Prop :=
  x.1 < y.1 ∨ (x.1 = y.1 ∧ (x.2.1 < y.2.1 ∨ (x.2.1 = y.2.1 ∧ x.2.2 ≤ y.2.2)))

/-- The numbers that the first three components stand for. -/
def version_triple (comps : List Str) : Nat × Nat × Nat :=
  (digits_value (comps.getD 0 []) 0, digits_value (comps.getD 1 []) 0,
    digits_value (comps.getD 2 []) 0)

/-- The components joined by single dots. -/
def join_dots (comps : List Str) : Str := List.intercalate ".".toList comps

/-! ## Data of the examples -/

/-- A version library for the examples: the text is cut at its last `-` into the upstream
version and the revision; a version is greater when its upstream version comes later in
the order of strings or, the upstream versions being equal, when its revision is the
greater number. -/
def example_versions : VersionLib (Str × Str) where
  parse := fun s =>
    match Packager.rfind_char '-' s with
    | none => Except.ok (s, [])
    | some k => Except.ok (s.take k, s.drop (k + 1))
  upstream_version := fun v => v.1
  package_version := fun v => v.2
  gt := fun a b =>
    str_lt b.1 a.1 || (decide (a.1 = b.1) && decide (from_string_int b.2 < from_string_int a.2))

/-- A record without errors: package "Foo", upstream version "1.0", revision "1", one
directory to package. -/
def example_record : Packager :=
  (((((((Packager.new.package_name "Foo".toList).version "1.0".toList).section_
    "Games".toList).maintainer "J<j@x>".toList).summary "A game".toList).licence
    "Non free".toList).copyright "(c)".toList).set_item_to_package
      { _source := "$.Games.Foo".toList, _install_to := "Apps.Games".toList,
        _component_flags := CF_Movable }

/-- The disc when version 1.0-2 of "Foo" was published. -/
def example_disc_old : Disc :=
  [("$.Games.Foo".toList,
    DiscNode.dir (DiscEntries.cons "Data".toList (DiscNode.file "old".toList) DiscEntries.nil))]

/-- The disc now: the file has new bytes and the same size. -/
def example_disc_new : Disc :=
  [("$.Games.Foo".toList,
    DiscNode.dir (DiscEntries.cons "Data".toList (DiscNode.file "new".toList) DiscEntries.nil))]

/-- The archive published for version 1.0-2 of "Foo". -/
def example_archive : Archive :=
  ((example_record.package_version "2".toList).save example_disc_old).2.2

/-- Version 1.0-2 of "Foo" is published in the release category and the disc has changed. -/
def example_world_changed : World (Str × Str) where
  s_current_packages := [("Foo".toList, "1.0-2".toList)]
  versions := example_versions
  disc := example_disc_new
  archives := [("$.Packages.release.Foo_1/0-2".toList, example_archive)]

/-- Version 1.0-2 of "Foo" is published in the release category and the disc is as it was. -/
def example_world_same : World (Str × Str) where
  s_current_packages := [("Foo".toList, "1.0-2".toList)]
  versions := example_versions
  disc := example_disc_old
  archives := [("$.Packages.release.Foo_1/0-2".toList, example_archive)]

/-- Version 1.0-2 of "Foo" is published in the beta category only. -/
def example_world_beta : World (Str × Str) where
  s_current_packages := [("Foo".toList, "1.0-2".toList)]
  versions := example_versions
  disc := example_disc_old
  archives := [("$.Packages.beta.Foo_1/0-2".toList, example_archive)]

/-- Nothing is published. -/
def example_world_empty : World (Str × Str) where
  s_current_packages := []
  versions := example_versions
  disc := example_disc_old
  archives := []

/-- The log context of the examples. -/
def example_context : PackageContext :=
  { _id := "0001".toList, _title := "Foo".toList, _package := true, _new := false,
    _upgrade := false, _error := false, lines := [] }

/-- A disc on which the directory to package holds a file whose name begins with `/`
(the name that a file `.htaccess` of an archive gets on RISC OS). -/
def example_disc_slash : Disc :=
  [("$.Games.Foo".toList,
    DiscNode.dir (DiscEntries.cons "/htaccess".toList (DiscNode.file "deny".toList)
      DiscEntries.nil))]

/-- The record `example_record` without its item: no `Components` field is written for it. -/
def example_record_plain : Packager :=
  ((((((Packager.new.package_name "Foo".toList).version "1.0".toList).section_
    "Games".toList).maintainer "J<j@x>".toList).summary "A game".toList).licence
    "Non free".toList).copyright "(c)".toList

/-! ## Vocabulary of the round trip through the control record -/

/-- The text has no newline. -/
def single_line (v : Str) : Bool := v.all (fun c => c != '\n')

/-- The first character of the text is white space. -/
def starts_with_space (v : Str) : Bool :=
  match v with
  | [] => false
  | c :: _ => isspace c

/-- The last character of the text is white space. -/
def ends_with_space (v : Str) : Bool :=
  match v.getLast? with
  | none => false
  | some c => isspace c

/-- A single line without leading or trailing white space (the empty text is one). -/
def trimmed_line (v : Str) : Bool :=
  single_line v && !starts_with_space v && !ends_with_space v

/-- The lines joined by newlines. -/
def join_lines (lines : List Str) : Str := List.intercalate "\n".toList lines

/-- One field of a control record as it is written: the name, the value on the first
line, and the continuation lines, each without the space written in front of it. -/
structure ControlEntry where
  name : Str
  first : Str
  cont : List Str

/-- The continuation lines as written: a space, the line, a newline. -/
def render_cont : List Str → Str
  | [] => []
  | c :: cs => " ".toList ++ c ++ "\n".toList ++ render_cont cs

/-- A field as written. -/
def render_entry (e : ControlEntry) : Str :=
  e.name ++ ": ".toList ++ e.first ++ "\n".toList ++ render_cont e.cont

/-- The fields as written, one after the other. -/
def render_entries : List ControlEntry → Str
  | [] => []
  | e :: es => render_entry e ++ render_entries es

/-- What `read_control` adds to the value of a field for its continuation lines. -/
def cont_value : List Str → Str
  | [] => []
  | c :: cs => "\n".toList ++ (if c = ['.'] then [] else c) ++ cont_value cs

/-- The value that `read_control` collects for a field. -/
def entry_value (e : ControlEntry) : Str := e.first ++ cont_value e.cont

/-- The calls of `set_control_field` for the fields in turn, up to the first that throws. -/
def commit_all : List ControlEntry → Packager → Packager × Option Str
  | [], p => (p, none)
  | e :: es, p =>
      match p.set_control_field e.name (entry_value e) with
      | (p1, none) => commit_all es p1
      | (p1, some err) => (p1, some err)

/-- A field that `read_control` reads back as written: the name is not empty and has no
colon and no white space, the first line of the value is not empty and is trimmed, and
so is every continuation line. -/
def ControlEntry.well_formed (e : ControlEntry) : Prop :=
  e.name ≠ [] ∧ (∀ c ∈ e.name, c ≠ ':' ∧ isspace c = false)
    ∧ e.first ≠ [] ∧ trimmed_line e.first = true
    ∧ ∀ c ∈ e.cont, c ≠ [] ∧ trimmed_line c = true

/-- The entry written for a field with a value on one line; nothing for an empty value. -/
def simple_entry (name value : Str) : List ControlEntry :=
  if value.isEmpty then [] else [{ name := name, first := value, cont := [] }]

/-- A line of the description as written: an empty line is written as a full stop. -/
def dot_if_empty (l : Str) : Str := if l.isEmpty then ".".toList else l

/-- The fields that `control_as_text` writes for a record without movable items whose
description has the given lines. -/
def entries_of (p : Packager) (lines : List Str) : List ControlEntry :=
  simple_entry "Package".toList p._package_name
    ++ ((if p._version.isEmpty then []
         else [{ name := "Version".toList,
                 first := p._version ++ "-".toList ++ p._package_version, cont := [] }])
    ++ (simple_entry "Section".toList p._section
    ++ (simple_entry "Priority".toList p._priority
    ++ (simple_entry "Maintainer".toList p._maintainer
    ++ (simple_entry "Standards-Version".toList p._standards_version
    ++ (simple_entry "Licence".toList p._licence
    ++ ((if p._summary.isEmpty then []
         else [{ name := "Description".toList, first := p._summary,
                 cont := lines.map dot_if_empty }])
    ++ (simple_entry "Depends".toList p._depends
    ++ (simple_entry "Recommends".toList p._recommends
    ++ (simple_entry "Suggests".toList p._suggests
    ++ simple_entry "Conflicts".toList p._conflicts))))))))))

/-- The values of a record: every data member but the modified flag and the errors. -/
structure Fields where
  package_name : Str
  version : Str
  package_version : Str
  section_ : Str
  priority : Str
  maintainer : Str
  standards_version : Str
  items_to_package : List ItemToPackage
  summary : Str
  description : Str
  licence : Str
  depends : Str
  recommends : Str
  suggests : Str
  conflicts : Str
  copyright : Str
deriving DecidableEq, Repr

/-- The values of a record. -/
def Packager.fields (p : Packager) : Fields :=
  { package_name := p._package_name, version := p._version,
    package_version := p._package_version, section_ := p._section, priority := p._priority,
    maintainer := p._maintainer, standards_version := p._standards_version,
    items_to_package := p._items_to_package, summary := p._summary,
    description := p._description, licence := p._licence, depends := p._depends,
    recommends := p._recommends, suggests := p._suggests, conflicts := p._conflicts,
    copyright := p._copyright }

/-- The records whose control text `read_control` reads back: no item is movable; the
package name, upstream version, revision, section, priority, maintainer, standards
version, licence, summary and dependency fields are single lines without leading or
trailing white space; the revision has no `-`; the description is made of the given
lines, each without leading or trailing white space and none a lone full stop, the last
one not empty; and a record with a description has a summary. -/
def round_trip_conditions (p : Packager) (lines : List Str) : Prop :=
  (∀ item ∈ p._items_to_package, item._component_flags = CF_None)
    ∧ trimmed_line p._package_name = true
    ∧ trimmed_line p._version = true
    ∧ trimmed_line p._package_version = true
    ∧ '-' ∉ p._package_version
    ∧ trimmed_line p._section = true
    ∧ trimmed_line p._priority = true
    ∧ trimmed_line p._maintainer = true
    ∧ trimmed_line p._standards_version = true
    ∧ trimmed_line p._licence = true
    ∧ trimmed_line p._summary = true
    ∧ trimmed_line p._depends = true
    ∧ trimmed_line p._recommends = true
    ∧ trimmed_line p._suggests = true
    ∧ trimmed_line p._conflicts = true
    ∧ p._description = join_lines lines
    ∧ (∀ l ∈ lines, trimmed_line l = true ∧ l ≠ ".".toList)
    ∧ lines.getLast? ≠ some []
    ∧ (p._description ≠ [] → p._summary ≠ [])

instance (p : Packager) (lines : List Str) : Decidable (round_trip_conditions p lines) := by
  unfold round_trip_conditions
  infer_instance

/-- A record with a description of four lines, two of them empty. -/
def example_record_described : Packager :=
  (example_record_plain.description "First line\n\n\nLast line".toList).depends
    "PkgA (>= 1.2), PkgB".toList

/-- The calls of the setters that `read_control` makes, on the record `p0`, for the text
written for the record `p` with a description of the given lines: one call for each
field that is not empty, in the order written. -/
def replay (p : Packager) (lines : List Str) (p0 : Packager) : Packager :=
  let q1 := if p._package_name.isEmpty then p0 else p0.package_name p._package_name
  let q2 := if p._version.isEmpty then q1
    else (q1.version p._version).package_version p._package_version
  let q3 := if p._section.isEmpty then q2 else q2.section_ p._section
  let q4 := if p._priority.isEmpty then q3 else q3.priority p._priority
  let q5 := if p._maintainer.isEmpty then q4 else q4.maintainer p._maintainer
  let q6 := if p._standards_version.isEmpty then q5
    else q5.standards_version p._standards_version
  let q7 := if p._licence.isEmpty then q6 else q6.licence p._licence
  let q8 := if p._summary.isEmpty then q7
    else if lines = [] then q7.summary p._summary
    else (q7.summary p._summary).description (join_lines lines)
  let q9 := if p._depends.isEmpty then q8 else q8.depends p._depends
  let q10 := if p._recommends.isEmpty then q9 else q9.recommends p._recommends
  let q11 := if p._suggests.isEmpty then q10 else q10.suggests p._suggests
  if p._conflicts.isEmpty then q11 else q11.conflicts p._conflicts

/-! ## Vocabulary of the statements about the format of a field -/

/-- The number of components of a text cut at its dots. -/
def component_count (v : Str) : Nat := v.count '.' + 1

/-- Two dots stand next to each other somewhere in the text. -/
def two_dots_together (v : Str) : Prop := ∃ a b : Str, v = a ++ '.' :: '.' :: b


/-- A '<' stands somewhere in the text at a position before a '>'. -/
def lt_before_gt (v : Str) : Prop := ∃ a b c : Str, v = a ++ '<' :: (b ++ '>' :: c)

/-- The text holds a '<' that has no '>' before it and a '>' after it: its first '<' stands
before its first '>'. -/
def first_lt_before_first_gt (v : Str) : Prop :=
  ∃ a b : Str, v = a ++ '<' :: b ∧ '>' ∉ a ∧ '>' ∈ b


/-- The record `example_record_plain` after two calls of `set_item_to_package`: first an
item to install in "Games", which is not an install location, then an item to install in
"Apps.Docs". -/
def example_record_two_items : Packager :=
  (example_record_plain.set_item_to_package
      { _source := "$.Games.Foo".toList, _install_to := "Games".toList,
        _component_flags := CF_None }).set_item_to_package
    { _source := "$.Docs.Foo".toList, _install_to := "Apps.Docs".toList,
      _component_flags := CF_None }


/-! ## Vocabulary of the statements about dependencies -/

/-- A run of `n` spaces. -/
def spaces (n : Nat) : Str := List.replicate n ' '

/-- The characters that a package name or a version number of a well-formed clause does not
hold. -/
def dependency_delimiters : List Char := [' ', '(', ')', ',', '<', '>', '=']

/-- A name or version token: not empty and free of spaces, parentheses, commas and the
characters '<', '>' and '='. -/
def dependency_token (t : Str) : Bool :=
  !t.isEmpty && t.all (fun c => !dependency_delimiters.contains c)

/-- The five version operators. -/
def version_operators : List Str :=
  ["=".toList, "<<".toList, ">>".toList, "<=".toList, ">=".toList]

/-- A clause of a dependency field in one of the two well-formed shapes, with the number of
spaces at each place where spaces may stand. -/
inductive DepClause
  | plain (lead : Nat) (name : Str) (trail : Nat)
  | versioned (lead : Nat) (name : Str) (gap : Nat) (before_op : Nat) (op : Str)
      (after_op : Nat) (version : Str) (after_version : Nat) (trail : Nat)

/-- The text of a clause: `NAME` or `NAME (OP VERSION)`. -/
def DepClause.render : DepClause → Str
  | DepClause.plain lead name trail => spaces lead ++ (name ++ spaces trail)
  | DepClause.versioned lead name gap before_op op after_op version after_version trail =>
      spaces lead ++ (name ++ (spaces gap ++ '(' :: (spaces before_op ++ (op ++
        (spaces after_op ++ (version ++ (spaces after_version ++ ')' :: spaces trail)))))))

/-- The name and the version of the clause are tokens and its operator is one of the five. -/
def DepClause.well_formed : DepClause → Bool
  | DepClause.plain _ name _ => dependency_token name
  | DepClause.versioned _ name _ _ op _ version _ _ =>
      dependency_token name && version_operators.contains op && dependency_token version

/-- The clauses written one after the other with a comma between two of them. -/
def join_commas : List Str → Str
  | [] => []
  | [c] => c
  | c :: d :: rest => c ++ ',' :: join_commas (d :: rest)

/-- The error of the leftmost clause that `check_one_dependency` rejects, empty when it
accepts every clause. -/
def first_clause_error : List Str → Str
  | [] => []
  | c :: rest =>
      if (Packager.check_one_dependency c).isEmpty then first_clause_error rest
      else Packager.check_one_dependency c

/-- The text after the `(` of a clause has the shape: spaces, one of the five operators,
spaces, a version that is not empty, holds no space and no `)` and does not begin with '<',
'>' or '=', spaces, and `)`; what follows the `)` is free. -/
def constraint_shape (text : Str) : Prop :=
  ∃ (k1 k2 k3 : Nat) (op version rest : Str),
    text = spaces k1 ++ (op ++ (spaces k2 ++ (version ++ (spaces k3 ++ ')' :: rest))))
      ∧ op ∈ version_operators
      ∧ version ≠ []
      ∧ (∀ c ∈ version, c ≠ ' ' ∧ c ≠ ')')
      ∧ (∀ c, version.head? = some c → c ≠ '<' ∧ c ≠ '>' ∧ c ≠ '=')


/-- The two clauses of the field "PkgA (>= 1.2), PkgB". -/
def example_clauses : List DepClause :=
  [DepClause.versioned 0 "PkgA".toList 1 0 ">=".toList 1 "1.2".toList 0 0,
    DepClause.plain 1 "PkgB".toList 0]


/-! ## Vocabulary of the statements about reading a control record -/

/-- The text with its leading and trailing white space removed. -/
def strip (s : Str) : Str := (s.rdropWhile isspace).dropWhile isspace

/-- A line that is empty or holds white space only. -/
def blank_line (l : Str) : Bool := l.all isspace

/-- A continuation line: one line that begins with white space and is not blank. -/
def continuation_line (l : Str) : Bool :=
  single_line l && starts_with_space l && !blank_line l

/-- What a continuation line adds to a value after the newline: its content without leading
and trailing white space, and nothing when that content is a lone full stop. -/
def continuation_content (l : Str) : Str := if strip l = ['.'] then [] else strip l

/-- What the continuation lines add to a value: for each line a newline and its content. -/
def continuation_value : List Str → Str
  | [] => []
  | l :: ls => '\n' :: (continuation_content l ++ continuation_value ls)

/-- A field as it stands in the input: the name before the colon, the rest of the first line
after the colon, and the continuation lines that follow, all as written. -/
structure RawField where
  name : Str
  first : Str
  cont : List Str

/-- The lines of a field. -/
def RawField.lines (f : RawField) : List Str := (f.name ++ ':' :: f.first) :: f.cont

/-- The value of a field: the value on the first line, without the white space around it,
followed by what the continuation lines add. -/
def RawField.value (f : RawField) : Str := strip f.first ++ continuation_value f.cont

/-- The name is not empty and has no colon and no white space, the first line is one line,
and the lines after it are continuation lines. -/
def RawField.well_formed (f : RawField) : Bool :=
  !f.name.isEmpty && f.name.all (fun c => c != ':' && !isspace c) && single_line f.first
    && f.cont.all continuation_line

/-- The lines of the fields, one field after the other. -/
def fields_lines : List RawField → List Str
  | [] => []
  | f :: fs => f.lines ++ fields_lines fs

/-- The text made of the lines, each ended by a newline. -/
def lines_text : List Str → Str
  | [] => []
  | l :: ls => l ++ '\n' :: lines_text ls

/-- The calls of `set_control_field` for the fields in turn, each with the name and the value
of the field, up to the first call that throws. -/
def set_fields : List RawField → Packager → Packager × Option Str
  | [], p => (p, none)
  | f :: fs, p =>
      match p.set_control_field f.name f.value with
      | (p1, none) => set_fields fs p1
      | (p1, some err) => (p1, some err)

/-- A description field as it may stand in a control record: white space around the summary,
three continuation lines, the second a lone full stop, the third with white space around its
content. -/
def example_raw_description : RawField :=
  { name := "Description".toList, first := "  A game ".toList,
    cont := [" first".toList, " .".toList, "\t last  ".toList] }

/-- A package field as it may stand in a control record. -/
def example_raw_package : RawField :=
  { name := "Package".toList, first := " Foo".toList, cont := [] }


/-- The twelve field names that `set_control_field` knows. -/
def known_field_names : List Str :=
  ["Package".toList, "Version".toList, "Section".toList, "Priority".toList,
    "Maintainer".toList, "Standards-Version".toList, "Description".toList, "Licence".toList,
    "Depends".toList, "Recommends".toList, "Suggests".toList, "Conflicts".toList]


/-- A version field as it may stand in a control record. -/
def example_raw_version : RawField :=
  { name := "Version".toList, first := " 1.0-rc1-3 ".toList, cont := [] }

/-- A version field without revision. -/
def example_raw_version_plain : RawField :=
  { name := "Version".toList, first := " 1.0".toList, cont := [] }


/-- The version of a record as a whole: its upstream version, its revision and the text of
the slot `PACKAGE_VERSION`. -/
def version_state (p : Packager) : Str × Str × Str :=
  (p._version, p._package_version, p.error_text PACKAGE_VERSION)

/-- A section field as it may stand in a control record. -/
def example_raw_section : RawField :=
  { name := "Section".toList, first := " Games".toList, cont := [] }


/-! ## Vocabulary of the statements about the setters -/

/-- The record `q` has the error texts of `p` in every slot but `w`, and its count of errors
differs from that of `p` by at most one. -/
def errors_changed_only_at (p q : Packager) (w : Nat) : Prop :=
  (∀ k : Nat, k ≠ w → q.error_text k = p.error_text k)
    ∧ (q.error_count - p.error_count).natAbs ≤ 1


/-! ## Vocabulary of the statements about browsing the errors -/

/-- Slot `j` is the slot to visit after index `i`: it is a slot that holds an error text,
the first one after `i` when a slot after `i` holds a text, and the first one of all
otherwise. -/
def is_next_error_slot (p : Packager) (i : Int) (j : Nat) : Prop :=
  j < NUM_ITEMS ∧ p.error_text j ≠ []
    ∧ ((∃ k : Nat, i < (k : Int) ∧ k < NUM_ITEMS ∧ p.error_text k ≠ []) →
        i < (j : Int) ∧ ∀ k : Nat, i < (k : Int) → k < j → p.error_text k = [])
    ∧ ((¬ ∃ k : Nat, i < (k : Int) ∧ k < NUM_ITEMS ∧ p.error_text k ≠ []) →
        ∀ k : Nat, k < j → p.error_text k = [])

/-- The slots that hold an error text, in increasing order. -/
def error_slot_list (p : Packager) : List Nat :=
  (List.range NUM_ITEMS).filter (fun k => !(p.error_text k).isEmpty)

/-- The walk `first_error()`, `next_error(first_error())`, ...: the result of the call
number `k`, `none` when a call does not return. -/
def error_visit (p : Packager) : Nat → Option Int
  | 0 => p.first_error
  | k + 1 => (error_visit p k).bind p.next_error

/-- A record with two errors: no package name and no summary. -/
def example_record_two_errors : Packager :=
  ((example_record.package_name []).summary [])


/-! ## Vocabulary of the statements about writing a control record -/

/-- A line of a description is blank: it is empty or holds spaces only. -/
def blank_description_line (l : Str) : Bool := l.all (fun x => x = ' ')

/-- The folding of a description as the specification words it, on the lines of the
description: a line that is not blank is written after a space, with in front of it one line
" ." for each blank line of the run that precedes it; `pending` counts the blank lines of
that run; blank lines at the end write nothing. -/
def folded_lines : List Str → Nat → Str
  | [], _ => []
  | l :: ls, pending =>
      if blank_description_line l then folded_lines ls (pending + 1)
      else
        Packager.flush_blank_lines pending ++ " ".toList ++ l ++ "\n".toList
          ++ folded_lines ls 0


/-- The field name of a line of a control text: none for an empty line and for a line that
begins with a space (a continuation line), else the text before the first colon of the
line. -/
def line_name (line : Str) : List Str :=
  match line with
  | [] => []
  | c :: _ => if c = ' ' then [] else [line.takeWhile (fun x => x != ':')]

/-- The field names of the lines of a text, in the order of the lines; `cur` holds the line
read so far. -/
def line_names_from : Str → Str → List Str
  | cur, [] => line_name cur
  | cur, c :: cs =>
      if c = '\n' then line_name cur ++ line_names_from [] cs
      else line_names_from (cur ++ [c]) cs

/-- The field names of the lines of a control text. -/
def line_names (text : Str) : List Str := line_names_from [] text

/-- The order in which `control_as_text` writes the fields. -/
def control_field_order : List Str :=
  ["Package".toList, "Version".toList, "Section".toList, "Priority".toList,
    "Maintainer".toList, "Standards-Version".toList, "Licence".toList, "Description".toList,
    "Components".toList, "Depends".toList, "Recommends".toList, "Suggests".toList,
    "Conflicts".toList]

/-- The order of the fields with `Components` last. -/
def components_last_order : List Str :=
  ["Package".toList, "Version".toList, "Section".toList, "Priority".toList,
    "Maintainer".toList, "Standards-Version".toList, "Licence".toList, "Description".toList,
    "Depends".toList, "Recommends".toList, "Suggests".toList, "Conflicts".toList,
    "Components".toList]

/-- The name of a field when its value is present. -/
def name_if (present : Bool) (name : Str) : List Str := if present then [name] else []

/-- The names of the fields of a record that have a value, in the order of
`control_field_order`: the Version field stands for the upstream version, the Description
field for the summary and the description, the Components field for the movable items. -/
def present_fields (p : Packager) : List Str :=
  name_if (!p._package_name.isEmpty) "Package".toList
    ++ (name_if (!p._version.isEmpty) "Version".toList
    ++ (name_if (!p._section.isEmpty) "Section".toList
    ++ (name_if (!p._priority.isEmpty) "Priority".toList
    ++ (name_if (!p._maintainer.isEmpty) "Maintainer".toList
    ++ (name_if (!p._standards_version.isEmpty) "Standards-Version".toList
    ++ (name_if (!p._licence.isEmpty) "Licence".toList
    ++ (name_if (!p._summary.isEmpty || !p._description.isEmpty) "Description".toList
    ++ (name_if (p._items_to_package.any (fun i => i._component_flags != CF_None))
          "Components".toList
    ++ (name_if (!p._depends.isEmpty) "Depends".toList
    ++ (name_if (!p._recommends.isEmpty) "Recommends".toList
    ++ (name_if (!p._suggests.isEmpty) "Suggests".toList
    ++ name_if (!p._conflicts.isEmpty) "Conflicts".toList)))))))))))

/-- The values that are written on one line hold no newline: every field but the
description, and the component name of every movable item. -/
def one_line_values (p : Packager) : Bool :=
  single_line p._package_name && single_line p._version && single_line p._package_version
    && single_line p._section && single_line p._priority && single_line p._maintainer
    && single_line p._standards_version && single_line p._licence && single_line p._summary
    && p._items_to_package.all
        (fun i => i._component_flags == CF_None || single_line i.component)
    && single_line p._depends && single_line p._recommends && single_line p._suggests
    && single_line p._conflicts

/-- The record `example_record`, which has a movable item, with a dependency. -/
def example_record_depends : Packager := example_record.depends "PkgA".toList

/-- The record `example_record_depends` with a section of two lines. -/
def example_record_two_line_section : Packager :=
  example_record_depends.section_ "Games\nConflicts: PkgB".toList


/-! ## Vocabulary of the statements about comparing with an archive -/

/-- One file that `same_as` looks at: its name on the disc, the name under which it looks
for it in the archive, and its bytes. -/
structure ComparedFile where
  disc_name : Str
  zip_name : Str
  data : Str
deriving DecidableEq, Repr

/-- The files of one directory, as the first loop of `build_disc_list` names them. -/
def compared_files_of (disc_dirname zip_dirname : Str) (files : List (Str × Str)) :
    List ComparedFile :=
  files.map (fun f =>
    { disc_name := disc_dirname ++ ".".toList ++ f.1
      zip_name := zip_dirname ++ "/".toList ++ Packager.riscos_to_zip_name f.1
      data := f.2 })

/-- The files under the subdirectories of a directory, in the order in which the second loop
of `build_disc_list` visits them. -/
def compared_files_subdirs : DiscEntries → Str → Str → List ComparedFile
  | DiscEntries.nil, _, _ => []
  | DiscEntries.cons _ (DiscNode.file _) rest, disc_dirname, zip_dirname =>
      compared_files_subdirs rest disc_dirname zip_dirname
  | DiscEntries.cons subdir (DiscNode.dir es) rest, disc_dirname, zip_dirname =>
      compared_files_of (disc_dirname ++ ".".toList ++ subdir)
          (zip_dirname ++ "/".toList ++ Packager.riscos_to_zip_name subdir) (direct_files es)
        ++ compared_files_subdirs es (disc_dirname ++ ".".toList ++ subdir)
            (zip_dirname ++ "/".toList ++ Packager.riscos_to_zip_name subdir)
        ++ compared_files_subdirs rest disc_dirname zip_dirname

/-- The files under a directory, in the order in which `build_disc_list` visits them. -/
def compared_files_dir (disc_dirname zip_dirname : Str) (entries : DiscEntries) :
    List ComparedFile :=
  compared_files_of disc_dirname zip_dirname (direct_files entries)
    ++ compared_files_subdirs entries disc_dirname zip_dirname

/-- The files that `same_as` looks at for the items of a record, in the order in which it
visits them. -/
def compared_files (disc : Disc) : List ItemToPackage → List ComparedFile
  | [] => []
  | item :: rest =>
      compared_files_dir item._source
          (Packager.riscos_to_zip_name
            (item._install_to ++ ".".toList ++ leaf_name item._source))
          (Packager.enumerate disc item._source)
        ++ compared_files disc rest

/-- The checks of `build_disc_list` on a list of files, each with its two names: the state
after the last file, or the text left in `*diff` by the first file that is not found or has
another size. -/
def check_compared : List ComparedFile → Packager.DiscListState →
    Except Str Packager.DiscListState
  | [], st => Except.ok st
  | f :: rest, st =>
      match map_find f.zip_name st.2 with
      | none => Except.error ("new file ".toList ++ f.disc_name)
      | some size =>
          if (f.data.length : Int) ≠ size then
            Except.error ("file size changed ".toList ++ f.disc_name)
          else
            check_compared rest
              (map_insert f.disc_name f.zip_name st.1, map_erase f.zip_name st.2)

/-- The two entries of an archive that hold the control record and the copyright. -/
def reserved_names : List Str := ["RiscPkg/Control".toList, "RiscPkg/Copyright".toList]

/-- The entries of the archive have distinct names, and its entries `RiscPkg/Control` and
`RiscPkg/Copyright` hold the control text and the copyright of the record. -/
def archive_matches_record (p : Packager) (zip : Archive) : Prop :=
  (zip.map (fun e => e.name)).Nodup
    ∧ (∃ e ∈ zip, e.name = "RiscPkg/Control".toList ∧ e.is_directory = false
        ∧ e.data = p.control_as_text)
    ∧ (∃ e ∈ zip, e.name = "RiscPkg/Copyright".toList ∧ e.is_directory = false
        ∧ e.data = p._copyright)

/-- The archive has a file under the name that `same_as` computes for the disc file, with
the size of the disc file. -/
def in_archive_with_size (zip : Archive) (g : ComparedFile) : Prop :=
  g.zip_name ∉ reserved_names
    ∧ ∃ e ∈ zip, e.name = g.zip_name ∧ e.is_directory = false
        ∧ e.data.length = g.data.length

/-- The archive has no file under the name that `same_as` computes for the disc file. -/
def absent_from_archive (zip : Archive) (g : ComparedFile) : Prop :=
  ∀ e ∈ zip, e.is_directory = false → e.name ≠ g.zip_name

/-- The file of the archive is left over: it is not one of the two reserved entries and no
disc file is looked for under its name. -/
def left_over (files : List ComparedFile) (e : ZipEntry) : Prop :=
  e.is_directory = false ∧ e.name ∉ reserved_names ∧ ∀ g ∈ files, g.zip_name ≠ e.name

/-- The bytes of the disc file differ from those of the archive entry of its name. -/
def bytes_differ (zip : Archive) (g : ComparedFile) : Prop :=
  ∃ e ∈ zip, e.name = g.zip_name ∧ e.data ≠ g.data

/-- The map `zip_contents` that `same_as` hands to `build_disc_list`. -/
def compared_sizes (zip : Archive) : StrMap Int :=
  map_erase "RiscPkg/Control".toList
    (map_erase "RiscPkg/Copyright".toList (Packager.zip_contents_of zip []))

/-- The disc of `example_disc_old` with one more file in the directory. -/
def example_disc_added : Disc :=
  [("$.Games.Foo".toList,
    DiscNode.dir (DiscEntries.cons "Data".toList (DiscNode.file "old".toList)
      (DiscEntries.cons "Extra".toList (DiscNode.file "x".toList) DiscEntries.nil)))]

/-- The record of the examples at version 1.0-2, the version of `example_archive`. -/
def example_record_published : Packager := example_record.package_version "2".toList

/-! ## Vocabulary of the statements about the item list -/

/-- The item part of a record: its items and the text of the slot `ITEM_TO_PACKAGE`. -/
def item_part (p : Packager) : List ItemToPackage × Str :=
  (p._items_to_package, p.error_text ITEM_TO_PACKAGE)

/-- The records obtained from the record `p` by any sequence of calls of the public member
functions that change the object, `set_item_to_package` left out. -/
inductive SettersAfter (p : Packager) : Packager → Prop
  | refl : SettersAfter p p
  | modified (q : Packager) (m : Bool) : SettersAfter p q → SettersAfter p (q.modified m)
  | package_name (q : Packager) (v : Str) :
      SettersAfter p q → SettersAfter p (q.package_name v)
  | version (q : Packager) (v : Str) : SettersAfter p q → SettersAfter p (q.version v)
  | package_version (q : Packager) (v : Str) :
      SettersAfter p q → SettersAfter p (q.package_version v)
  | section_ (q : Packager) (v : Str) : SettersAfter p q → SettersAfter p (q.section_ v)
  | priority (q : Packager) (v : Str) : SettersAfter p q → SettersAfter p (q.priority v)
  | maintainer (q : Packager) (v : Str) : SettersAfter p q → SettersAfter p (q.maintainer v)
  | standards_version (q : Packager) (v : Str) :
      SettersAfter p q → SettersAfter p (q.standards_version v)
  | summary (q : Packager) (v : Str) : SettersAfter p q → SettersAfter p (q.summary v)
  | description (q : Packager) (v : Str) :
      SettersAfter p q → SettersAfter p (q.description v)
  | licence (q : Packager) (v : Str) : SettersAfter p q → SettersAfter p (q.licence v)
  | copyright (q : Packager) (v : Str) : SettersAfter p q → SettersAfter p (q.copyright v)
  | depends (q : Packager) (v : Str) : SettersAfter p q → SettersAfter p (q.depends v)
  | recommends (q : Packager) (v : Str) : SettersAfter p q → SettersAfter p (q.recommends v)
  | suggests (q : Packager) (v : Str) : SettersAfter p q → SettersAfter p (q.suggests v)
  | conflicts (q : Packager) (v : Str) : SettersAfter p q → SettersAfter p (q.conflicts v)
  | remove_item_to_package (q : Packager) (source : Str) :
      SettersAfter p q → SettersAfter p (q.remove_item_to_package source)
  | read_control (q : Packager) (input : Str) :
      SettersAfter p q → SettersAfter p (q.read_control input).1

/-! ## Vocabulary of the statements about the `Components` field -/

/-- The lines of a text: the runs of characters between newlines; `cur` holds the line read
so far. A text that ends with a newline has no empty last line. -/
def text_lines_from : Str → Str → List Str
  | cur, [] => if cur.isEmpty then [] else [cur]
  | cur, c :: cs =>
      if c = '\n' then cur :: text_lines_from [] cs else text_lines_from (cur ++ [c]) cs

/-- The lines of a text. -/
def text_lines (text : Str) : List Str := text_lines_from [] text

/-- The line starts with "Components: ". -/
def starts_with_components (l : Str) : Bool := "Components: ".toList.isPrefixOf l

/-- The lines of a text that start with "Components: ". -/
def components_lines (text : Str) : List Str := (text_lines text).filter starts_with_components

/-- The items of a record that have a component flag other than `CF_None`, in the order of
the item list. -/
def flagged_items (p : Packager) : List ItemToPackage :=
  p._items_to_package.filter (fun i => i._component_flags != CF_None)

/-- One item as the `Components` field lists it: `component()` followed by " (Movable)". -/
def component_entry (i : ItemToPackage) : Str := i.component ++ " (Movable)".toList

/-- The line "Components: " followed by the entries of the items with a comma, and no
space, between two of them. -/
def components_line (items : List ItemToPackage) : Str :=
  "Components: ".toList ++ join_commas (items.map component_entry)

/-- The record `example_record_plain`, which has no item, with a section of two lines. -/
def example_record_components_in_section : Packager :=
  example_record_plain.section_ "Games\nComponents: Apps.Games.Foo (Movable)".toList

/-- The record `example_record`, which has a movable item, with no summary and a
description that holds one empty line. -/
def example_record_blank_description : Packager :=
  (example_record.summary []).description "\n".toList

/-- The line of a field that is written when its value is not empty. -/
def optional_line (name value : Str) : List Str :=
  if value.isEmpty then [] else [name ++ ": ".toList ++ value]

/-- The lines that `control_as_text` writes before the description. -/
def head_field_lines (p : Packager) : List Str :=
  optional_line "Package".toList p._package_name
    ++ ((if p._version.isEmpty then []
         else ["Version: ".toList ++ p._version ++ "-".toList ++ p._package_version])
    ++ (optional_line "Section".toList p._section
    ++ (optional_line "Priority".toList p._priority
    ++ (optional_line "Maintainer".toList p._maintainer
    ++ (optional_line "Standards-Version".toList p._standards_version
    ++ optional_line "Licence".toList p._licence)))))

/-- The lines that `control_as_text` writes for the dependency fields. -/
def dependency_field_lines (p : Packager) : List Str :=
  optional_line "Depends".toList p._depends
    ++ (optional_line "Recommends".toList p._recommends
    ++ (optional_line "Suggests".toList p._suggests
    ++ optional_line "Conflicts".toList p._conflicts))

/-- What `control_as_text` writes for the summary and the description. -/
def description_text (p : Packager) : Str :=
  Packager.field_line "Description".toList p._summary
    ++ (if !p._description.isEmpty then
          (if p._summary.isEmpty then "Description: ".toList else [])
            ++ Packager.fold_description [] 0 p._description
        else [])

/-! ## The index of the published versions (main.cc) -/

/-- The global `s_pkgname_invalid_chars`. -/
def s_pkgname_invalid_chars : Str := " :'<>*?".toList

/-- `validate_pkgname`: the result, the text left in `*errmsg` and the set
`s_used_pkgnames` after the call. -/
def validate_pkgname (s_used_pkgnames : List Str) (pkgname : Str) : Bool × Str × List Str :=
  if pkgname.isEmpty then (false, "No package name".toList, s_used_pkgnames)
  else if pkgname.length > 31 then
    (false, "Package name is longer than 31 chars".toList, s_used_pkgnames)
  else if pkgname.any (fun c => s_pkgname_invalid_chars.contains c) then
    (false, "Package name contains invalid characters (".toList ++ s_pkgname_invalid_chars
      ++ ")".toList, s_used_pkgnames)
  else if s_used_pkgnames.contains pkgname then
    (false, "Package name has already been used".toList, s_used_pkgnames)
  else (true, [], s_used_pkgnames ++ [pkgname])

/-- The body of the loop of `current_package_list` up to the lookup: the name of an archive
is cut at its last `_` into the package name and the version, and every `/` of the version
becomes a full stop; `none` when the name has no `_`. -/
def decode_leafname (fsobject : Str) : Option (Str × Str) :=
  match Packager.rfind_char '_' fsobject with
  | none => none
  | some us_pos =>
      some (fsobject.take us_pos,
        (fsobject.drop (us_pos + 1)).map (fun c => if c = '/' then '.' else c))

/-- The loop of `current_package_list` over the names found in a directory: the map
`s_current_packages` after the loop, or the text of the `parse_error` that leaves the
function when a version cannot be read. -/
def current_package_list_loop {α : Type} (versions : VersionLib α) :
    List Str → StrMap Str → Except Str (StrMap Str)
  | [], m => Except.ok m
  | fsobject :: rest, m =>
      match decode_leafname fsobject with
      | none => current_package_list_loop versions rest m
      | some (pkgname, ver) =>
          match map_find pkgname m with
          | none => current_package_list_loop versions rest (map_insert pkgname ver m)
          | some found =>
              match versions.parse ver with
              | Except.error e => Except.error e
              | Except.ok v =>
                  match versions.parse found with
                  | Except.error e => Except.error e
                  | Except.ok found_v =>
                      if versions.gt v found_v then
                        current_package_list_loop versions rest (map_insert pkgname ver m)
                      else current_package_list_loop versions rest m

/-- `current_package_list`: `dir` holds the names found in the directory, `none` when the
directory is missing. -/
def current_package_list {α : Type} (versions : VersionLib α) (dir : Option (List Str))
    (m : StrMap Str) : Except Str (StrMap Str) :=
  match dir with
  | none => Except.ok m
  | some names => current_package_list_loop versions names m

/-- The record `example_record` under the package name "Foo.Bar", at revision 2. -/
def example_record_dotted_name : Packager :=
  (example_record.package_name "Foo.Bar".toList).package_version "2".toList

/-! ## Vocabulary of the conditional round trip -/

/-- The conditions of the conditional round trip as the specification words them: no item
is movable; the package name, the upstream version (not empty), the section, the priority,
the maintainer, the standards version, the licence, the summary (not empty) and the four
dependency fields are single lines without leading or trailing white space; the revision
has no `-`; the description is made of the given lines, does not end with a newline, and
each of its lines is without leading or trailing white space and is not a lone full
stop. -/
def conditional_round_trip_conditions (p : Packager) (lines : List Str) : Prop :=
  (∀ item ∈ p._items_to_package, item._component_flags = CF_None)
    ∧ trimmed_line p._package_name = true
    ∧ (trimmed_line p._version = true ∧ p._version ≠ [])
    ∧ trimmed_line p._section = true
    ∧ trimmed_line p._priority = true
    ∧ trimmed_line p._maintainer = true
    ∧ trimmed_line p._standards_version = true
    ∧ trimmed_line p._licence = true
    ∧ (trimmed_line p._summary = true ∧ p._summary ≠ [])
    ∧ trimmed_line p._depends = true
    ∧ trimmed_line p._recommends = true
    ∧ trimmed_line p._suggests = true
    ∧ trimmed_line p._conflicts = true
    ∧ '-' ∉ p._package_version
    ∧ p._description = join_lines lines
    ∧ lines.getLast? ≠ some []
    ∧ (∀ l ∈ lines, trimmed_line l = true ∧ l ≠ ".".toList)

instance (p : Packager) (lines : List Str) :
    Decidable (conditional_round_trip_conditions p lines) := by
  unfold conditional_round_trip_conditions
  infer_instance

/-- The record `example_record_plain` with an empty priority. -/
def example_record_no_priority : Packager := example_record_plain.priority []

/-- The record `example_record_plain` with a revision that ends with a space. -/
def example_record_revision_space : Packager :=
  example_record_plain.package_version "2 ".toList

/-! ## `Log` and the end of a package context (Log.h, Log.cc) -/

/-- The class `Log`: the lines written to the log file, each without the time of day, and
the lists and the counter from which `Log::end` writes the summary. -/
structure Log where
  lines : List Str
  _new_packages : List Str
  _upgrade_packages : List Str
  _error_packages : List Str
  _unchanged : Nat
deriving DecidableEq, Repr

namespace Log

/-- The log after `Log::Log()`: nothing written, nothing counted. -/
def new : Log :=
  { lines := [], _new_packages := [], _upgrade_packages := [], _error_packages := [],
    _unchanged := 0 }

/-- The four counts that `Log::end` writes at the head of the summary. -/
def summary_counts (log : Log) : List Str :=
  [ "New packages         ".toList ++ nat_to_string log._new_packages.length,
    "Upgraded packages    ".toList ++ nat_to_string log._upgrade_packages.length,
    "Packages with errors ".toList ++ nat_to_string log._error_packages.length,
    "Unchanged packages   ".toList ++ nat_to_string log._unchanged ]

end Log

namespace PackageContext

/-- The constructor `Log::PackageContext::PackageContext`. -/
def create (id title : Str) : PackageContext :=
  { _id := id, _title := title, _package := true, _new := false, _upgrade := false,
    _error := false,
    lines := [":INFO:".toList ++ ("Processing package ".toList ++ id ++ " ".toList ++ title)] }

/-- `Log::PackageContext::do_not_package`. -/
def do_not_package (c : PackageContext) : PackageContext := { c with _package := false }

/-- The destructor `Log::PackageContext::~PackageContext`: the log with the lines of the
context, the line "Finished processing", and the package counted in the summary. -/
def finish (c : PackageContext) (log : Log) : Log :=
  let full_name := c._id ++ " ".toList ++ c._title
  let log1 : Log :=
    { log with
      lines := log.lines ++ c.lines ++ [":INFO:".toList ++ ("Finished processing ".toList
        ++ full_name)] }
  if c._error then { log1 with _error_packages := log1._error_packages ++ [full_name] }
  else if c._new then { log1 with _new_packages := log1._new_packages ++ [full_name] }
  else if c._upgrade then
    { log1 with _upgrade_packages := log1._upgrade_packages ++ [full_name] }
  else if c._package then { log1 with _unchanged := log1._unchanged + 1 }
  else log1

end PackageContext

/-- The record `example_record` with the upstream version "1.1", which is newer than the
published version 1.0-2 of `example_world_same`. -/
def example_record_newer : Packager := example_record.version "1.1".toList

/-! ## The batch: `package_extra`, `package_game` and the loops of `main` (main.cc)

A call either returns or is left by an exception. `PackageFormatException` (Packager.h) is a
class without a base class, so a handler `catch (std::exception &)` does not take it. The
statements of `package_extra` and of `package_game` that follow the reading of the control
record (the defaults, the items and the call of `check_and_save_package`) work on the
directory listing; they are the parameter `tail` of the two functions. -/

/-- An exception in flight: a `PackageFormatException`, or an object of a class derived from
`std::exception` with its `what()`. -/
inductive Thrown where
  | package_format_exception (message : Str)
  | std_exception (what : Str)
deriving DecidableEq, Repr

/-- The handler `catch (std::exception &rcerr)`: `some what` when it takes the exception. -/
def Thrown.caught_as_std_exception : Thrown → Option Str
  | Thrown.package_format_exception _ => none
  | Thrown.std_exception what => some what

/-- The way a call ends: it returns, or an exception leaves it. -/
inductive Ending (α : Type) where
  | returned (value : α)
  | thrown (e : Thrown)
deriving DecidableEq, Repr

/-- `Packager::read_control(const std::string &filename)`: `control` holds the bytes of the
file, `none` when the file cannot be opened, in which case the loop of
`read_control(std::istream &)` is not entered. -/
def Packager.read_control_file (p : Packager) (control : Option Str) :
    Packager × Option Thrown :=
  match control with
  | none => (p, none)
  | some input =>
      let r := p.read_control input
      (r.1, r.2.map Thrown.package_format_exception)

/-- The globals that the batch changes: the log `s_log` and the set `s_used_pkgnames`. -/
structure BatchState where
  s_log : Log
  s_used_pkgnames : List Str
deriving DecidableEq, Repr

/-- What `package_extra` finds in the directory `extra_dir`: its leaf name, the bytes of its
file `Control` (`none` when there is no such file) and the bytes of its file `Copyright`
(`none` when `load_file` fails). -/
structure ExtraDir where
  leaf_name : Str
  control : Option Str
  copyright : Option Str
deriving DecidableEq, Repr

/-- `package_extra`. -/
def package_extra (tail : ExtraDir → Packager → PackageContext → PackageContext)
    (dir : ExtraDir) (st : BatchState) : Ending BatchState :=
  match dir.control with
  | none => Ending.returned st
  | some control =>
      let pkgname := dir.leaf_name
      let log_context := PackageContext.create pkgname "Extra Package".toList
      match dir.copyright with
      | none =>
          Ending.returned
            { st with
              s_log := (log_context.error "Missing 'Copyright' file".toList).finish st.s_log }
      | some _ =>
          let pkg := Packager.new.package_name pkgname
          -- the try block around `pkg.read_control` and its handler for `std::exception`
          match pkg.read_control_file (some control) with
          | (_, some e) =>
              match e.caught_as_std_exception with
              | some what =>
                  Ending.returned
                    { st with
                      s_log :=
                        (log_context.error
                          ("Error reading Control file ".toList ++ what)).finish st.s_log }
              | none => Ending.thrown e
          | (pkg1, none) =>
              Ending.returned { st with s_log := (tail dir pkg1 log_context).finish st.s_log }

/-- The loop of `package_extras` over the objects of the extras directory. -/
def package_extras (tail : ExtraDir → Packager → PackageContext → PackageContext) :
    List ExtraDir → BatchState → Ending BatchState
  | [], st => Ending.returned st
  | dir :: rest, st =>
      match package_extra tail dir st with
      | Ending.thrown e => Ending.thrown e
      | Ending.returned st1 => package_extras tail rest st1

/-- A catalogue entry as `package_game` reads it, with what it finds on the disc for it: the
columns of the entry, the directory that `s_dir_lookup` holds for the ID (`none` when it
holds none), whether that directory exists, and the bytes of its file `Control` (`none` when
the directory has no object of that name). -/
structure GameEntry where
  package_name : Str
  id : Str
  sub_id : Str
  title : Str
  date : Str
  publisher : Str
  found_dir : Option Str
  is_directory : Bool
  control : Option Str
deriving DecidableEq, Repr

/-- `package_game`. -/
def package_game (tail : GameEntry → Packager → PackageContext → PackageContext)
    (entry : GameEntry) (st : BatchState) : Ending BatchState :=
  let pkgname := entry.package_name
  let id := entry.id ++ ("00".toList ++ entry.sub_id).take 2
  let full_name := entry.title ++ (" (".toList ++ entry.date ++ ")".toList)
    ++ (" (".toList ++ entry.publisher ++ ")".toList)
  let log_context := PackageContext.create id full_name
  if pkgname.isEmpty then
    Ending.returned
      { st with
        s_log :=
          ((log_context.message
            "not packaged as no package name".toList).do_not_package).finish st.s_log }
  else
    let v := validate_pkgname st.s_used_pkgnames pkgname
    if !v.1 then
      Ending.returned
        { s_log :=
            (log_context.error
              ("Invalid package name '".toList ++ pkgname ++ "'. ".toList ++ v.2.1)).finish
              st.s_log
          s_used_pkgnames := v.2.2 }
    else
      match entry.found_dir with
      | none =>
          Ending.returned
            { s_log :=
                (log_context.error "Unable to find game directory".toList).finish st.s_log
              s_used_pkgnames := v.2.2 }
      | some _ =>
          if !entry.is_directory then
            Ending.returned
              { s_log := (log_context.error "Invalid directory".toList).finish st.s_log
                s_used_pkgnames := v.2.2 }
          else
            -- Packager pkg; if (has_control) pkg.read_control(...): no handler around it
            let r : Packager × Option Thrown :=
              match entry.control with
              | some control => Packager.new.read_control_file (some control)
              | none => (Packager.new, none)
            match r with
            | (_, some e) => Ending.thrown e
            | (pkg1, none) =>
                Ending.returned
                  { s_log := (tail entry pkg1 log_context).finish st.s_log
                    s_used_pkgnames := v.2.2 }

/-- The loop of `main` over the catalogue. -/
def package_games (tail : GameEntry → Packager → PackageContext → PackageContext) :
    List GameEntry → BatchState → Ending BatchState
  | [], st => Ending.returned st
  | entry :: rest, st =>
      match package_game tail entry st with
      | Ending.thrown e => Ending.thrown e
      | Ending.returned st1 => package_games tail rest st1

/-- The part of `main` from `package_extras()` to the end of the loop over the catalogue:
an exception that leaves it leaves `main`, which has no handler. -/
def run_batch (tail_extra : ExtraDir → Packager → PackageContext → PackageContext)
    (tail_game : GameEntry → Packager → PackageContext → PackageContext)
    (extras : List ExtraDir) (cat : List GameEntry) (st : BatchState) : Ending BatchState :=
  match package_extras tail_extra extras st with
  | Ending.thrown e => Ending.thrown e
  | Ending.returned st1 => package_games tail_game cat st1

/-- The packages of a batch state that have been processed: the lines "Finished
processing" of its log. -/
def finished_packages (st : BatchState) : List Str :=
  st.s_log.lines.filter (fun l => ":INFO:Finished processing ".toList.isPrefixOf l)

/-- An extra package whose control record has a line without colon. -/
def example_extra_bad : ExtraDir :=
  { leaf_name := "Tool".toList, control := some "Package: Tool\nBad line\n".toList,
    copyright := some "(c)".toList }

/-- An extra package with a well-formed control record. -/
def example_extra_good : ExtraDir :=
  { leaf_name := "Other".toList, control := some "Package: Other\n".toList,
    copyright := some "(c)".toList }

/-- A catalogue entry whose game directory has a control record with an unknown field. -/
def example_game_bad : GameEntry :=
  { package_name := "Foo".toList, id := "000123".toList, sub_id := "1".toList,
    title := "Foo".toList, date := "1990".toList, publisher := "Acme".toList,
    found_dir := some "Foo F0001230".toList, is_directory := true,
    control := some "Homepage: x\n".toList }

/-- A catalogue entry whose game directory has no control record. -/
def example_game_good : GameEntry :=
  { package_name := "Bar".toList, id := "000124".toList, sub_id := "1".toList,
    title := "Bar".toList, date := "1991".toList, publisher := "Acme".toList,
    found_dir := some "Bar F0001240".toList, is_directory := true, control := none }

/-! # Theorems -/

/-! ## The error count (C1) -/

theorem countP_set_add (q : Str → Bool) (l : List Str) (w : Nat) (m : Str) (hw : w < l.length) :
    (l.set w m).countP q + (if q (l.getD w []) then 1 else 0)
      = l.countP q + (if q m then 1 else 0) := by
  induction l generalizing w with
  | nil => simp at hw
  | cons a l ih =>
    cases w with
    | zero =>
      simp only [List.set_cons_zero, List.countP_cons, List.getD_cons_zero]
      omega
    | succ w =>
      simp only [List.set_cons_succ, List.countP_cons, List.getD_cons_succ]
      have := ih w (by simpa using hw)
      omega

theorem range_filter_getD (q : Str → Bool) (l : List Str) :
    ((List.range l.length).filter (fun i => q (l.getD i []))).length = l.countP q := by
  induction l with
  | nil => simp
  | cons a l ih =>
    rw [List.length_cons, List.range_succ_eq_map, List.filter_cons, List.filter_map]
    simp only [List.getD_cons_zero, List.countP_cons]
    have h : ((fun i => q ((a :: l).getD i [])) ∘ Nat.succ) = fun i => q (l.getD i []) := by
      funext i; simp
    rw [h]
    split <;> simp_all

theorem ErrInv.count_eq {p : Packager} (h : ErrInv p) :
    p.error_count = (error_slots p : Int) := by
  obtain ⟨hl, hc⟩ := h
  unfold error_slots Packager.error_count Packager.error_text
  rw [hc, ← hl, range_filter_getD (fun e => !e.isEmpty)]

open Packager

theorem countP_set_message (l : List Str) (w : Nat) (m : Str) (hw : w < l.length) (hm : m ≠ []) :
    (((l.set w m).countP (fun e => !e.isEmpty) : Nat) : Int)
      = if (l.getD w []).isEmpty then ((l.countP (fun e => !e.isEmpty) : Nat) : Int) + 1
        else ((l.countP (fun e => !e.isEmpty) : Nat) : Int) := by
  have key := countP_set_add (fun e => !e.isEmpty) l w m hw
  have hm' : m.isEmpty = false := by cases m <;> simp_all
  cases hq : (l.getD w []).isEmpty
  · simp only [hm', hq, Bool.not_false, if_true] at key
    simp only [Bool.false_eq_true, if_false]
    omega
  · simp only [hm', hq, Bool.not_true, Bool.not_false, if_true, Bool.false_eq_true,
      if_false] at key
    simp only [if_true]
    omega

theorem countP_set_empty (l : List Str) (w : Nat) (hw : w < l.length)
    (hq : (l.getD w []).isEmpty = false) :
    (((l.set w []).countP (fun e => !e.isEmpty) : Nat) : Int)
      = ((l.countP (fun e => !e.isEmpty) : Nat) : Int) - 1 := by
  have key := countP_set_add (fun e => !e.isEmpty) l w [] hw
  simp only [hq, List.isEmpty_nil, Bool.not_true, Bool.not_false, if_true, Bool.false_eq_true,
    if_false] at key
  omega

theorem ErrInv.set_error {p : Packager} (h : ErrInv p) (w : Nat) (m : Str) (hw : w < NUM_ITEMS)
    (hm : m ≠ []) : ErrInv (p.set_error w m) := by
  obtain ⟨hl, hc⟩ := h
  refine ⟨by simp [Packager.set_error, hl], ?_⟩
  simp only [Packager.set_error]
  rw [countP_set_message p._errors w m (by rw [hl]; exact hw) hm, hc]

theorem ErrInv.clear_error {p : Packager} (h : ErrInv p) (w : Nat) (hw : w < NUM_ITEMS) :
    ErrInv (p.clear_error w) := by
  obtain ⟨hl, hc⟩ := h
  unfold Packager.clear_error
  cases hq : (p._errors.getD w []).isEmpty
  · refine ⟨by simp [hl], ?_⟩
    simp only [Bool.not_false, if_true]
    rw [countP_set_empty p._errors w (by rw [hl]; exact hw) hq, hc]
  · exact ⟨hl, hc⟩

theorem ErrInv.modified {p : Packager} (h : ErrInv p) (m : Bool) : ErrInv (p.modified m) := by
  unfold Packager.modified
  split
  · exact h
  · exact h

theorem ErrInv.of_eq {p q : Packager} (he : q._errors = p._errors)
    (hc : q._error_count = p._error_count) (h : ErrInv p) : ErrInv q := by
  unfold ErrInv at *
  rw [he, hc]
  exact h

theorem ErrInv.require_entered {p : Packager} (h : ErrInv p) (w : Nat) (v : Str)
    (hw : w < NUM_ITEMS) : ErrInv (p.require_entered w v) := by
  unfold Packager.require_entered
  apply ErrInv.modified
  split
  · exact h.set_error w _ hw (by decide)
  · exact h.clear_error w hw

theorem ErrInv.package_name {p : Packager} (h : ErrInv p) (v : Str) :
    ErrInv (p.package_name v) := by
  unfold Packager.package_name
  apply ErrInv.require_entered
  · exact ErrInv.of_eq rfl rfl h
  · decide

theorem ErrInv.version {p : Packager} (h : ErrInv p) (v : Str) : ErrInv (p.version v) := by
  unfold Packager.version
  apply ErrInv.require_entered
  · exact ErrInv.of_eq rfl rfl h
  · decide

theorem ErrInv.package_version {p : Packager} (h : ErrInv p) (v : Str) :
    ErrInv (p.package_version v) := by
  unfold Packager.package_version
  apply ErrInv.require_entered
  · exact ErrInv.of_eq rfl rfl h
  · decide

theorem ErrInv.section_ {p : Packager} (h : ErrInv p) (v : Str) : ErrInv (p.section_ v) := by
  unfold Packager.section_
  apply ErrInv.require_entered
  · exact ErrInv.of_eq rfl rfl h
  · decide

theorem ErrInv.priority {p : Packager} (h : ErrInv p) (v : Str) : ErrInv (p.priority v) := by
  unfold Packager.priority
  apply ErrInv.require_entered
  · exact ErrInv.of_eq rfl rfl h
  · decide

theorem ErrInv.summary {p : Packager} (h : ErrInv p) (v : Str) : ErrInv (p.summary v) := by
  unfold Packager.summary
  apply ErrInv.require_entered
  · exact ErrInv.of_eq rfl rfl h
  · decide

theorem ErrInv.licence {p : Packager} (h : ErrInv p) (v : Str) : ErrInv (p.licence v) := by
  unfold Packager.licence
  apply ErrInv.require_entered
  · exact ErrInv.of_eq rfl rfl h
  · decide

theorem ErrInv.copyright {p : Packager} (h : ErrInv p) (v : Str) : ErrInv (p.copyright v) := by
  unfold Packager.copyright
  apply ErrInv.require_entered
  · exact ErrInv.of_eq rfl rfl h
  · decide

theorem ErrInv.description {p : Packager} (h : ErrInv p) (v : Str) :
    ErrInv (p.description v) := by
  unfold Packager.description
  apply ErrInv.modified
  exact ErrInv.of_eq rfl rfl h

theorem ErrInv.ite {c : Prop} [Decidable c] {a b : Packager} (ha : ErrInv a)
    (hb : ErrInv b) : ErrInv (if c then a else b) := by
  split
  · exact ha
  · exact hb

theorem ErrInv.maintainer {p : Packager} (h : ErrInv p) (v : Str) : ErrInv (p.maintainer v) := by
  unfold Packager.maintainer
  apply ErrInv.modified
  have h1 : ErrInv ({ p with _maintainer := v } : Packager) := ErrInv.of_eq rfl rfl h
  apply ErrInv.ite
  · exact h1.set_error _ _ (by decide) (by decide)
  · split
    · apply ErrInv.ite
      · exact h1.set_error _ _ (by decide) (by decide)
      · exact h1.clear_error _ (by decide)
    · exact h1.set_error _ _ (by decide) (by decide)

theorem ErrInv.standards_version {p : Packager} (h : ErrInv p) (v : Str) :
    ErrInv (p.standards_version v) := by
  unfold Packager.standards_version
  apply ErrInv.modified
  have h1 : ErrInv ({ p with _standards_version := v } : Packager) := ErrInv.of_eq rfl rfl h
  dsimp only
  repeat' first
    | exact h1.set_error STANDARDS_VERSION _ (by decide) (by decide)
    | exact h1.clear_error STANDARDS_VERSION (by decide)
    | apply ErrInv.ite

theorem ErrInv.check_depends {p : Packager} (h : ErrInv p) (w : Nat) (v : Str)
    (hw : w < NUM_ITEMS) : ErrInv (p.check_depends w v) := by
  unfold Packager.check_depends
  dsimp only
  apply ErrInv.ite
  · exact h.clear_error w hw
  · by_cases he : (Packager.check_depends_loop [] v).isEmpty = true
    · rw [if_pos he]
      exact h.clear_error w hw
    · rw [if_neg he]
      refine h.set_error w _ hw ?_
      intro hn
      rw [hn] at he
      exact he rfl

theorem ErrInv.depends {p : Packager} (h : ErrInv p) (v : Str) : ErrInv (p.depends v) := by
  unfold Packager.depends
  apply ErrInv.modified
  apply ErrInv.check_depends
  · exact ErrInv.of_eq rfl rfl h
  · decide

theorem ErrInv.recommends {p : Packager} (h : ErrInv p) (v : Str) :
    ErrInv (p.recommends v) := by
  unfold Packager.recommends
  apply ErrInv.modified
  apply ErrInv.check_depends
  · exact ErrInv.of_eq rfl rfl h
  · decide

theorem ErrInv.suggests {p : Packager} (h : ErrInv p) (v : Str) : ErrInv (p.suggests v) := by
  unfold Packager.suggests
  apply ErrInv.modified
  apply ErrInv.check_depends
  · exact ErrInv.of_eq rfl rfl h
  · decide

theorem ErrInv.conflicts {p : Packager} (h : ErrInv p) (v : Str) : ErrInv (p.conflicts v) := by
  unfold Packager.conflicts
  apply ErrInv.modified
  apply ErrInv.check_depends
  · exact ErrInv.of_eq rfl rfl h
  · decide

theorem ErrInv.validate_install_to {p : Packager} (h : ErrInv p) (v : Str) :
    ErrInv (p.validate_install_to v) := by
  unfold Packager.validate_install_to
  dsimp only
  apply ErrInv.ite
  · exact h.set_error INSTALL_TO _ (by decide) (by decide)
  · apply ErrInv.ite
    · exact h.set_error INSTALL_TO _ (by decide) (by decide)
    · apply ErrInv.ite
      · exact h.set_error INSTALL_TO _ (by decide) (by simp)
      · apply ErrInv.ite
        · exact h.set_error INSTALL_TO _ (by decide) (by decide)
        · exact h.clear_error INSTALL_TO (by decide)

theorem ErrInv.set_item_to_package {p : Packager} (h : ErrInv p) (item : ItemToPackage) :
    ErrInv (p.set_item_to_package item) := by
  unfold Packager.set_item_to_package
  have h1 := ErrInv.validate_install_to (h.clear_error ITEM_TO_PACKAGE (by decide))
    item._install_to
  dsimp only
  split
  · apply ErrInv.modified
    exact ErrInv.of_eq rfl rfl h1
  · apply ErrInv.modified
    exact ErrInv.of_eq rfl rfl h1

theorem ErrInv.remove_item_to_package {p : Packager} (h : ErrInv p) (source : Str) :
    ErrInv (p.remove_item_to_package source) := by
  unfold Packager.remove_item_to_package
  apply ErrInv.modified
  have h1 : ErrInv
      ({ p with _items_to_package := (Packager.erase_item source p._items_to_package) } :
        Packager) :=
    ErrInv.of_eq rfl rfl h
  dsimp only
  apply ErrInv.ite
  · exact h1.set_error ITEM_TO_PACKAGE _ (by decide) (by decide)
  · exact h1

theorem ErrInv.fst_ite {c : Prop} [Decidable c] {a b : Packager × Option Str}
    (ha : ErrInv a.1) (hb : ErrInv b.1) : ErrInv (if c then a else b).1 := by
  by_cases h : c
  · rw [if_pos h]; exact ha
  · rw [if_neg h]; exact hb

theorem ErrInv.set_control_field {p : Packager} (h : ErrInv p) (name value : Str) :
    ErrInv (p.set_control_field name value).1 := by
  unfold Packager.set_control_field
  apply ErrInv.fst_ite
  · exact h.package_name _
  apply ErrInv.fst_ite
  · split
    · exact (h.version _).package_version _
    · exact (h.version _).package_version _
  apply ErrInv.fst_ite
  · exact h.section_ _
  apply ErrInv.fst_ite
  · exact h.priority _
  apply ErrInv.fst_ite
  · exact h.maintainer _
  apply ErrInv.fst_ite
  · exact h.standards_version _
  apply ErrInv.fst_ite
  · split
    · exact h.summary _
    · exact (h.summary _).description _
  apply ErrInv.fst_ite
  · exact h.licence _
  apply ErrInv.fst_ite
  · exact h.depends _
  apply ErrInv.fst_ite
  · exact h.recommends _
  apply ErrInv.fst_ite
  · exact h.suggests _
  apply ErrInv.fst_ite
  · exact h.conflicts _
  · exact h

theorem ErrInv.read_control_finish {p : Packager} (h : ErrInv p) (name value : Str) :
    ErrInv (p.read_control_finish name value).1 := by
  unfold Packager.read_control_finish
  split
  · exact h.set_control_field name value
  · exact h

theorem ErrInv.read_control_lines (lines : List Str) :
    ∀ (name value : Str) (p : Packager), ErrInv p →
      ErrInv (Packager.read_control_lines lines name value p).1 := by
  induction lines with
  | nil =>
    intro name value p h
    exact h.read_control_finish name value
  | cons line rest ih =>
    intro name value p h
    unfold Packager.read_control_lines
    dsimp only
    split
    · exact h.read_control_finish name value
    · split
      · split
        · exact h.read_control_finish name value
        · split
          · exact h
          · exact ih _ _ _ h
      · have hf := h.read_control_finish name value
        split
        · rename_i heq
          rw [heq] at hf
          exact hf
        · rename_i heq
          rw [heq] at hf
          split
          · exact hf
          · exact ih _ _ _ hf

theorem ErrInv.read_control {p : Packager} (h : ErrInv p) (input : Str) :
    ErrInv (p.read_control input).1 :=
  ErrInv.read_control_lines _ _ _ _ h

theorem ErrInv.new : ErrInv Packager.new := by
  unfold ErrInv
  decide

theorem Reachable.errInv {p : Packager} (h : Reachable p) : ErrInv p := by
  induction h with
  | new => exact ErrInv.new
  | modified p m _ ih => exact ih.modified m
  | package_name p v _ ih => exact ih.package_name v
  | version p v _ ih => exact ih.version v
  | package_version p v _ ih => exact ih.package_version v
  | section_ p v _ ih => exact ih.section_ v
  | priority p v _ ih => exact ih.priority v
  | maintainer p v _ ih => exact ih.maintainer v
  | standards_version p v _ ih => exact ih.standards_version v
  | summary p v _ ih => exact ih.summary v
  | description p v _ ih => exact ih.description v
  | licence p v _ ih => exact ih.licence v
  | copyright p v _ ih => exact ih.copyright v
  | depends p v _ ih => exact ih.depends v
  | recommends p v _ ih => exact ih.recommends v
  | suggests p v _ ih => exact ih.suggests v
  | conflicts p v _ ih => exact ih.conflicts v
  | set_item_to_package p item _ ih => exact ih.set_item_to_package item
  | remove_item_to_package p source _ ih => exact ih.remove_item_to_package source
  | read_control p input _ ih => exact ih.read_control input

/-- C1: for every record reachable from the constructor by any sequence of calls of the
setters, `set_item_to_package`, `remove_item_to_package` and `read_control` (whether it
returns or throws), `error_count()` is the number of slots `i` in `[0, NUM_ITEMS)` whose
`error_text(i)` is not empty. -/
theorem error_count_eq_error_slots (p : Packager) (h : Reachable p) :
    p.error_count = (error_slots p : Int) :=
  h.errInv.count_eq

/-- C1 at a record read from a control text that ends in a format error. -/
theorem error_count_eq_error_slots_witness :
    Reachable (Packager.new.read_control "Package: Foo\nDepends: A, , B\nBad line\n".toList).1 ∧
      (Packager.new.read_control "Package: Foo\nDepends: A, , B\nBad line\n".toList).1.error_count
        = (error_slots
            (Packager.new.read_control "Package: Foo\nDepends: A, , B\nBad line\n".toList).1 : Int) :=
  ⟨Reachable.read_control _ _ Reachable.new,
    error_count_eq_error_slots _ (Reachable.read_control _ _ Reachable.new)⟩

/-! ## The standards version (C9, C10) -/

theorem error_text_modified (p : Packager) (m : Bool) (i : Nat) :
    (p.modified m).error_text i = p.error_text i := by
  unfold Packager.modified
  split <;> rfl

theorem error_text_set_error (p : Packager) (w : Nat) (m : Str) (hw : w < p._errors.length) :
    (p.set_error w m).error_text w = m := by
  simp [Packager.set_error, Packager.error_text, List.getD_eq_getElem?_getD, hw]

theorem error_text_clear_error (p : Packager) (w : Nat) :
    (p.clear_error w).error_text w = [] := by
  unfold Packager.clear_error
  cases hq : (p._errors.getD w []).isEmpty
  · by_cases hw : w < p._errors.length
    · simp [Packager.error_text, List.getD_eq_getElem?_getD, hw]
    · have h0 : p._errors.getD w [] = [] := by
        rw [List.getD_eq_getElem?_getD, List.getElem?_eq_none (by omega)]
        rfl
      rw [h0] at hq
      simp at hq
  · simp only [Bool.not_true, Bool.false_eq_true, if_false]
    unfold Packager.error_text
    cases h : p._errors.getD w [] with
    | nil => rfl
    | cons a l => rw [h] at hq; simp at hq

theorem is_digit_ne_dot {c : Char} (h : is_digit c = true) : c ≠ '.' := by
  intro hc
  subst hc
  revert h
  decide

theorem sv_scan_digits (comp : Str) (hd : comp.all is_digit = true) (hne : comp ≠ []) :
    ∀ (rest : Str) (last_dot : Bool) (n : Nat),
      Packager.sv_scan (comp ++ rest) true last_dot n = Packager.sv_scan rest true false n := by
  induction comp with
  | nil => exact absurd rfl hne
  | cons c cs ih =>
    intro rest last_dot n
    simp only [List.all_cons, Bool.and_eq_true] at hd
    have hc : c ≠ '.' := is_digit_ne_dot hd.1
    simp only [List.cons_append, Packager.sv_scan, Bool.not_true, Bool.false_eq_true, if_false, hc]
    cases cs with
    | nil => rfl
    | cons d ds => exact ih hd.2 (by simp) rest false n

theorem le_digits_value (cs : Str) : ∀ acc : Nat, acc ≤ digits_value cs acc := by
  induction cs with
  | nil => intro acc; exact Nat.le_refl _
  | cons c cs ih =>
    intro acc
    unfold digits_value
    exact Nat.le_trans (by omega) (ih _)

theorem wrap32_of_small (x : Int) (h0 : 0 ≤ x) (h1 : x < 2147483648) : wrap32 x = x := by
  unfold wrap32
  omega

theorem is_digit_bounds {c : Char} (h : is_digit c = true) : 48 ≤ c.toNat ∧ c.toNat ≤ 57 := by
  unfold is_digit at h
  simp only [Bool.and_eq_true, decide_eq_true_eq] at h
  exact h

theorem sv_lt_loop_digits (comp : Str) (hd : comp.all is_digit = true) :
    ∀ (rest vi : Str) (cv : Nat), digits_value comp cv < 2147483648 →
      Packager.sv_lt_loop (comp ++ rest) vi (cv : Int)
        = Packager.sv_lt_loop rest vi ((digits_value comp cv : Nat) : Int) := by
  induction comp with
  | nil => intro rest vi cv _; rfl
  | cons c cs ih =>
    intro rest vi cv hv
    simp only [List.all_cons, Bool.and_eq_true] at hd
    have hc : c ≠ '.' := is_digit_ne_dot hd.1
    have hb := is_digit_bounds hd.1
    have hb' : '0'.toNat ≤ c.toNat ∧ c.toNat ≤ '9'.toNat := hb
    unfold digits_value at hv ⊢
    have hle := le_digits_value cs (cv * 10 + (c.toNat - 48))
    have hw : wrap32 ((cv : Int) * 10 + ((c.toNat : Int) - 48))
        = ((cv * 10 + (c.toNat - 48) : Nat) : Int) := by
      rw [wrap32_of_small] <;> omega
    simp only [List.cons_append, Packager.sv_lt_loop, hc, if_false, hb', and_self, if_true, hw]
    exact ih hd.2 rest vi _ hv

theorem value_part_loop_040 :
    Packager.value_part_loop "0.4.0".toList 0 = (0, ".4.0".toList)
      ∧ Packager.value_part_loop "4.0".toList 0 = (4, ".0".toList)
      ∧ Packager.value_part_loop "0".toList 0 = (0, [])
      ∧ Packager.value_part_loop [] 0 = (0, []) := by
  decide

theorem sv_lt_loop_tail (c : Nat) (tail : Str)
    (htail : tail = [] ∨ ∃ d : Str, tail = '.' :: d ∧ d.all is_digit = true
      ∧ digits_value d 0 < 2147483648) :
    Packager.sv_lt_loop tail "0".toList (c : Int) = false := by
  obtain ⟨h1, h2, h3, h4⟩ := value_part_loop_040
  rcases htail with rfl | ⟨d, rfl, hd, hv⟩
  · simp only [Packager.sv_lt_loop, h3]
    split
    · omega
    · rfl
  · simp only [Packager.sv_lt_loop, h3, if_true]
    have hnot : ¬ ((c : Int) < 0) := by omega
    rw [if_neg hnot]
    by_cases hc : (c : Int) > 0
    · rw [if_pos hc]
    · rw [if_neg hc]
      have := sv_lt_loop_digits d hd [] (Packager.skip_one []) 0 hv
      simp only [List.append_nil, Nat.cast_zero] at this
      rw [this]
      simp only [Packager.skip_one, Packager.sv_lt_loop, h4]
      split
      · omega
      · rfl

theorem sv_lt_loop_three (a b c tail : Str)
    (ha : a.all is_digit = true) (hb : b.all is_digit = true) (hc : c.all is_digit = true)
    (hav : digits_value a 0 < 2147483648) (hbv : digits_value b 0 < 2147483648)
    (hcv : digits_value c 0 < 2147483648)
    (htail : tail = [] ∨ ∃ d : Str, tail = '.' :: d ∧ d.all is_digit = true
      ∧ digits_value d 0 < 2147483648) :
    Packager.sv_lt_loop (a ++ '.' :: (b ++ '.' :: (c ++ tail))) "0.4.0".toList 0
      = decide (digits_value a 0 = 0 ∧ digits_value b 0 < 4) := by
  obtain ⟨h1, h2, h3, h4⟩ := value_part_loop_040
  have e1 := sv_lt_loop_digits a ha ('.' :: (b ++ '.' :: (c ++ tail))) "0.4.0".toList 0 hav
  simp only [Nat.cast_zero] at e1
  rw [e1]
  simp only [Packager.sv_lt_loop, h1, if_true]
  have hnot : ¬ (((digits_value a 0 : Nat) : Int) < 0) := by omega
  rw [if_neg hnot]
  by_cases hA : ((digits_value a 0 : Nat) : Int) > 0
  · rw [if_pos hA]
    have : ¬ (digits_value a 0 = 0 ∧ digits_value b 0 < 4) := by omega
    simp [this]
  · rw [if_neg hA]
    have hA0 : digits_value a 0 = 0 := by omega
    have e2 := sv_lt_loop_digits b hb ('.' :: (c ++ tail)) (Packager.skip_one ".4.0".toList) 0 hbv
    simp only [Nat.cast_zero] at e2
    rw [e2]
    have hs : Packager.skip_one ".4.0".toList = "4.0".toList := by decide
    simp only [Packager.sv_lt_loop, hs, h2, if_true]
    by_cases hB : ((digits_value b 0 : Nat) : Int) < 4
    · rw [if_pos hB]
      have : digits_value a 0 = 0 ∧ digits_value b 0 < 4 := ⟨hA0, by omega⟩
      simp [this]
    · rw [if_neg hB]
      have hn : ¬ (digits_value a 0 = 0 ∧ digits_value b 0 < 4) := by omega
      by_cases hB2 : ((digits_value b 0 : Nat) : Int) > 4
      · rw [if_pos hB2]
        simp [hn]
      · rw [if_neg hB2]
        have e3 := sv_lt_loop_digits c hc tail (Packager.skip_one ".0".toList) 0 hcv
        simp only [Nat.cast_zero] at e3
        rw [e3]
        have hs2 : Packager.skip_one ".0".toList = "0".toList := by decide
        rw [hs2, sv_lt_loop_tail _ tail htail]
        simp [hn]

theorem sv_scan_three (a b c tail : Str)
    (ha : a.all is_digit = true) (hb : b.all is_digit = true) (hc : c.all is_digit = true)
    (hane : a ≠ []) (hbne : b ≠ []) (hcne : c ≠ [])
    (htail : tail = [] ∨ ∃ d : Str, tail = '.' :: d ∧ d.all is_digit = true ∧ d ≠ []) :
    Packager.sv_scan (a ++ '.' :: (b ++ '.' :: (c ++ tail))) true true 0
      = (true, false, if tail = [] then 2 else 3) := by
  rw [sv_scan_digits a ha hane]
  simp only [Packager.sv_scan, Bool.not_true, Bool.false_eq_true, if_false, if_true]
  rw [sv_scan_digits b hb hbne]
  simp only [Packager.sv_scan, Bool.not_true, Bool.false_eq_true, if_false, if_true]
  rw [sv_scan_digits c hc hcne]
  rcases htail with rfl | ⟨d, rfl, hd, hdne⟩
  · simp [Packager.sv_scan]
  · simp only [Packager.sv_scan, Bool.not_true, Bool.false_eq_true, if_false, if_true]
    have := sv_scan_digits d hd hdne [] true (0 + 1 + 1 + 1)
    rw [List.append_nil] at this
    rw [this]
    simp [Packager.sv_scan]

theorem standards_version_three (p : Packager) (hp : ErrInv p) (a b c tail : Str)
    (ha : a.all is_digit = true) (hb : b.all is_digit = true) (hc : c.all is_digit = true)
    (hane : a ≠ []) (hbne : b ≠ []) (hcne : c ≠ [])
    (hav : digits_value a 0 < 2147483648) (hbv : digits_value b 0 < 2147483648)
    (hcv : digits_value c 0 < 2147483648)
    (htail : tail = [] ∨ ∃ d : Str, tail = '.' :: d ∧ d.all is_digit = true ∧ d ≠ []
      ∧ digits_value d 0 < 2147483648) :
    (p.standards_version (a ++ '.' :: (b ++ '.' :: (c ++ tail)))).error_text STANDARDS_VERSION
      = if digits_value a 0 = 0 ∧ digits_value b 0 < 4 then "must be at least 0.4.0".toList
        else [] := by
  have hscan := sv_scan_three a b c tail ha hb hc hane hbne hcne
    (by rcases htail with h | ⟨d, h1, h2, h3, _⟩
        · exact Or.inl h
        · exact Or.inr ⟨d, h1, h2, h3⟩)
  have hlt := sv_lt_loop_three a b c tail ha hb hc hav hbv hcv
    (by rcases htail with h | ⟨d, h1, h2, _, h4⟩
        · exact Or.inl h
        · exact Or.inr ⟨d, h1, h2, h4⟩)
  have hv : (a ++ '.' :: (b ++ '.' :: (c ++ tail))).isEmpty = false := by
    cases a with
    | nil => exact absurd rfl hane
    | cons x xs => rfl
  have hcount : ¬ ((if tail = [] then 2 else 3) > 3) ∧ ¬ ((if tail = [] then 2 else 3) < 2) := by
    split <;> omega
  unfold Packager.standards_version
  rw [error_text_modified]
  simp only [hv, Bool.false_eq_true, if_false, hscan, hcount.1, hcount.2, Bool.not_false,
    Packager.standards_version_lt, hlt]
  by_cases hcond : digits_value a 0 = 0 ∧ digits_value b 0 < 4
  · simp only [hcond, and_self, decide_True, if_true]
    exact error_text_set_error _ _ _ (by rw [show _ = p._errors.length from rfl, hp.1]; decide)
  · simp only [hcond, decide_False, Bool.false_eq_true, if_false]
    exact error_text_clear_error _ _

theorem triple_le_baseline_iff (comps : List Str) :
    triple_le (0, 4, 0) (version_triple comps)
      ↔ ¬ (digits_value (comps.getD 0 []) 0 = 0 ∧ digits_value (comps.getD 1 []) 0 < 4) := by
  unfold triple_le version_triple
  simp only
  omega

/-- C9: for every string made of 3 or 4 non-empty components of decimal digits joined by
single dots, each standing for a number in the range of `int`, `standards_version` leaves
the STANDARDS_VERSION slot empty iff the triple of the first three numbers is
lexicographically at least (0, 4, 0); otherwise the slot holds "must be at least 0.4.0". -/
theorem standards_version_at_least_baseline (p : Packager) (hp : Reachable p)
    (comps : List Str) (hlen : comps.length = 3 ∨ comps.length = 4)
    (hcomp : ∀ x ∈ comps, x ≠ [] ∧ x.all is_digit = true ∧ digits_value x 0 < 2147483648) :
    ((p.standards_version (join_dots comps)).error_text STANDARDS_VERSION = []
        ↔ triple_le (0, 4, 0) (version_triple comps)) ∧
      (¬ triple_le (0, 4, 0) (version_triple comps) →
        (p.standards_version (join_dots comps)).error_text STANDARDS_VERSION
          = "must be at least 0.4.0".toList) := by
  have key : (p.standards_version (join_dots comps)).error_text STANDARDS_VERSION
      = if digits_value (comps.getD 0 []) 0 = 0 ∧ digits_value (comps.getD 1 []) 0 < 4
        then "must be at least 0.4.0".toList else [] := by
    match comps, hlen, hcomp with
    | [a, b, c], _, hcomp =>
      have h := standards_version_three p hp.errInv a b c []
        (hcomp a (by simp)).2.1 (hcomp b (by simp)).2.1 (hcomp c (by simp)).2.1
        (hcomp a (by simp)).1 (hcomp b (by simp)).1 (hcomp c (by simp)).1
        (hcomp a (by simp)).2.2 (hcomp b (by simp)).2.2 (hcomp c (by simp)).2.2 (Or.inl rfl)
      have hj : join_dots [a, b, c] = a ++ '.' :: (b ++ '.' :: (c ++ [])) := by
        simp [join_dots, List.intercalate]
      rw [hj, h]
      rfl
    | [a, b, c, d], _, hcomp =>
      have h := standards_version_three p hp.errInv a b c ('.' :: d)
        (hcomp a (by simp)).2.1 (hcomp b (by simp)).2.1 (hcomp c (by simp)).2.1
        (hcomp a (by simp)).1 (hcomp b (by simp)).1 (hcomp c (by simp)).1
        (hcomp a (by simp)).2.2 (hcomp b (by simp)).2.2 (hcomp c (by simp)).2.2
        (Or.inr ⟨d, rfl, (hcomp d (by simp)).2.1, (hcomp d (by simp)).1,
          (hcomp d (by simp)).2.2⟩)
      have hj : join_dots [a, b, c, d] = a ++ '.' :: (b ++ '.' :: (c ++ '.' :: d)) := by
        simp [join_dots, List.intercalate]
      rw [hj, h]
      rfl
  rw [key, triple_le_baseline_iff]
  constructor
  · constructor
    · intro h hc
      rw [if_pos hc] at h
      exact absurd h (by decide)
    · intro hc
      rw [if_neg hc]
  · intro hc
    rw [if_pos (not_not.mp hc)]

/-- C9 at the string "0.3.9.1", which is below the baseline. -/
theorem standards_version_at_least_baseline_witness :
    (((Packager.new.standards_version
          (join_dots ["0".toList, "3".toList, "9".toList, "1".toList])).error_text
            STANDARDS_VERSION = []
        ↔ triple_le (0, 4, 0)
            (version_triple ["0".toList, "3".toList, "9".toList, "1".toList])) ∧
      (¬ triple_le (0, 4, 0) (version_triple ["0".toList, "3".toList, "9".toList, "1".toList]) →
        (Packager.new.standards_version
          (join_dots ["0".toList, "3".toList, "9".toList, "1".toList])).error_text
            STANDARDS_VERSION = "must be at least 0.4.0".toList)) :=
  standards_version_at_least_baseline Packager.new Reachable.new
    ["0".toList, "3".toList, "9".toList, "1".toList] (Or.inr rfl) (by decide)

/-- C10 fails on the code: the string "1.x.0" has a component that is not a number, and
`standards_version` leaves the STANDARDS_VERSION slot empty, because
`standards_version_lt` returns at the first dot, where 1 is greater than 0, before it
reads the `x`. -/
theorem standards_version_accepts_non_numeric :
    (Packager.new.standards_version "1.x.0".toList).error_text STANDARDS_VERSION = []
      ∧ (Packager.new.standards_version "1.x.0".toList)._standards_version = "1.x.0".toList
      ∧ ("x".toList).all is_digit = false := by
  decide

/-! ## Browsing the errors ends (used by C8) -/

theorem next_error_loop_spec (errs : List Str) (s : Int) (hs0 : 0 ≤ s) (hs1 : s < 18)
    (hs : (errs.getD s.toNat []).isEmpty = false) :
    ∀ (fuel : Nat) (i : Int), -1 ≤ i → i < 18 → (s - i - 1) % 18 + 1 ≤ (fuel : Int) →
      ∃ j : Int, Packager.next_error_loop errs fuel i = some j ∧ 0 ≤ j ∧ j < 18
        ∧ (errs.getD j.toNat []).isEmpty = false
        ∧ (j = s ∨ (s - j - 1) % 18 < (s - i - 1) % 18) := by
  intro fuel
  induction fuel with
  | zero =>
    intro i _ _ hf
    omega
  | succ f ih =>
    intro i hi0 hi1 hf
    unfold Packager.next_error_loop
    simp only [NUM_ITEMS, Nat.cast_ofNat]
    by_cases hwrap : i + 1 = 18
    · rw [if_pos hwrap]
      cases hq : (errs.getD (0 : Int).toNat []).isEmpty
      · simp only [Bool.false_eq_true, if_false]
        refine ⟨0, rfl, by omega, by omega, hq, ?_⟩
        omega
      · simp only [if_true]
        have hne : s ≠ 0 := by
          intro h0
          rw [h0, hq] at hs
          exact Bool.noConfusion hs
        obtain ⟨j, hj, h0, h1, hjq, hd⟩ := ih 0 (by omega) (by omega) (by omega)
        exact ⟨j, hj, h0, h1, hjq, by omega⟩
    · rw [if_neg hwrap]
      cases hq : (errs.getD (i + 1).toNat []).isEmpty
      · simp only [Bool.false_eq_true, if_false]
        refine ⟨i + 1, rfl, by omega, by omega, hq, ?_⟩
        omega
      · simp only [if_true]
        have hne : s ≠ i + 1 := by
          intro h0
          rw [h0, hq] at hs
          exact Bool.noConfusion hs
        obtain ⟨j, hj, h0, h1, hjq, hd⟩ := ih (i + 1) (by omega) (by omega) (by omega)
        exact ⟨j, hj, h0, h1, hjq, by omega⟩

theorem ErrInv.exists_error {p : Packager} (h : ErrInv p) (hc : p._error_count ≠ 0) :
    ∃ s : Int, 0 ≤ s ∧ s < 18 ∧ (p._errors.getD s.toNat []).isEmpty = false := by
  obtain ⟨hl, hcount⟩ := h
  have hpos : 0 < p._errors.countP (fun e => !e.isEmpty) := by
    rw [hcount] at hc
    omega
  obtain ⟨e, hmem, he⟩ := List.countP_pos_iff.mp hpos
  obtain ⟨n, hn, hget⟩ := List.mem_iff_getElem.mp hmem
  refine ⟨(n : Int), by omega, ?_, ?_⟩
  · have : n < 18 := by rw [hl] at hn; exact hn
    omega
  · simp only [Int.toNat_ofNat, List.getD_eq_getElem?_getD, List.getElem?_eq_getElem hn,
      Option.getD_some, hget]
    simpa using he

theorem first_error_returns {p : Packager} (h : ErrInv p) (hc : p._error_count ≠ 0) :
    ∃ start : Int, p.first_error = some start ∧ 0 ≤ start ∧ start < 18
      ∧ (p._errors.getD start.toNat []).isEmpty = false := by
  obtain ⟨s, hs0, hs1, hs⟩ := h.exists_error hc
  obtain ⟨j, hj, h0, h1, hq, _⟩ :=
    next_error_loop_spec p._errors s hs0 hs1 hs 18 (-1) (by omega) (by omega) (by omega)
  refine ⟨j, ?_, h0, h1, hq⟩
  unfold Packager.first_error Packager.next_error
  rw [if_neg hc]
  simp only [NUM_ITEMS, Nat.cast_ofNat]
  rw [if_neg (by omega)]
  exact hj

theorem error_walk_returns (p : Packager) (hc : p._error_count ≠ 0) (start : Int)
    (hs0 : 0 ≤ start) (hs1 : start < 18)
    (hs : (p._errors.getD start.toNat []).isEmpty = false) :
    ∀ (fuel : Nat) (next : Int) (msg : Str), 0 ≤ next → next < 18 →
      (start - next - 1) % 18 + 1 ≤ (fuel : Int) →
      ∃ out : Str, error_walk p start fuel next msg = some out := by
  intro fuel
  induction fuel with
  | zero =>
    intro next msg _ _ hf
    omega
  | succ f ih =>
    intro next msg hn0 hn1 hf
    obtain ⟨j, hj, h0, h1, _, hd⟩ :=
      next_error_loop_spec p._errors start hs0 hs1 hs 18 next (by omega) hn1 (by omega)
    have hnext : p.next_error next = some j := by
      unfold Packager.next_error
      rw [if_neg hc]
      simp only [NUM_ITEMS, Nat.cast_ofNat]
      rw [if_neg (by omega)]
      exact hj
    unfold error_walk
    simp only [hnext]
    by_cases hjs : j = start
    · rw [if_pos hjs]
      exact ⟨_, rfl⟩
    · rw [if_neg hjs]
      exact ih j _ h0 h1 (by omega)

/-! ## The publish decision (C4 to C8) -/

/-- C8: whenever `error_count()` of the record is greater than 0, `check_and_save_package`
returns after it has reported an error for the package, without any call on the index
of the published versions, on `same_as` or on `save`, and leaves the record (its version
and revision included) as it was. -/
theorem invalid_package_is_skipped {α : Type} (w : World α) (pkg : Packager)
    (log_context : PackageContext) (released : Bool) (hp : Reachable pkg)
    (herr : pkg.error_count > 0) :
    ∃ (out : Outcome) (msg : Str),
      check_and_save_package w pkg log_context released = some out
        ∧ out.calls = [] ∧ out.written = none ∧ out.pkg = pkg
        ∧ out.log_context = log_context.error ("Invalid package - ".toList ++ msg)
        ∧ out.log_context._error = true := by
  have hc : pkg._error_count ≠ 0 := by
    unfold Packager.error_count at herr
    omega
  obtain ⟨start, hstart, h0, h1, hq⟩ := first_error_returns hp.errInv hc
  obtain ⟨msg, hmsg⟩ := error_walk_returns pkg hc start h0 h1 hq 18 start [] h0 h1 (by omega)
  refine ⟨{ pkg := pkg, log_context := log_context.error ("Invalid package - ".toList ++ msg),
            calls := [], written := none }, msg, ?_, rfl, rfl, rfl, rfl, rfl⟩
  unfold check_and_save_package
  have hc' : pkg.error_count ≠ 0 := hc
  simp only [hc', ne_eq, not_false_eq_true, if_true, hstart, NUM_ITEMS, hmsg]

/-- C8 at a freshly constructed record, which has eight errors. -/
theorem invalid_package_is_skipped_witness :
    Packager.new.error_count > 0 ∧
    ∃ (out : Outcome) (msg : Str),
      check_and_save_package example_world_changed Packager.new example_context true = some out
        ∧ out.calls = [] ∧ out.written = none ∧ out.pkg = Packager.new
        ∧ out.log_context = example_context.error ("Invalid package - ".toList ++ msg)
        ∧ out.log_context._error = true :=
  ⟨by decide,
    invalid_package_is_skipped example_world_changed Packager.new example_context true
      Reachable.new (by decide)⟩

theorem digit_char_toNat (d : Nat) (hd : d < 10) : (digit_char d).toNat = 48 + d := by
  have h : ∀ k : Fin 10, (digit_char k.val).toNat = 48 + k.val := by decide
  exact h ⟨d, hd⟩

theorem digit_char_is_digit (d : Nat) (hd : d < 10) : is_digit (digit_char d) = true := by
  have h : ∀ k : Fin 10, is_digit (digit_char k.val) = true := by decide
  exact h ⟨d, hd⟩

theorem digit_char_not_space (d : Nat) (hd : d < 10) :
    isspace (digit_char d) = false ∧ digit_char d ≠ '-' ∧ digit_char d ≠ '+' := by
  have h : ∀ k : Fin 10, isspace (digit_char k.val) = false ∧ digit_char k.val ≠ '-'
      ∧ digit_char k.val ≠ '+' := by decide
  exact h ⟨d, hd⟩

theorem digits_value_append (xs ys : Str) :
    ∀ acc : Nat, digits_value (xs ++ ys) acc = digits_value ys (digits_value xs acc) := by
  induction xs with
  | nil => intro acc; rfl
  | cons x xs ih =>
    intro acc
    simp only [List.cons_append, digits_value]
    exact ih _

theorem nat_digits_spec :
    ∀ (fuel n : Nat) (acc : Str), n < fuel →
      ∃ ds : Str, nat_digits fuel n acc = ds ++ acc ∧ ds.all is_digit = true
        ∧ (∃ d, d < 10 ∧ ds.head? = some (digit_char d))
        ∧ digits_value ds 0 = n := by
  intro fuel
  induction fuel with
  | zero => intro n acc h; omega
  | succ f ih =>
    intro n acc hn
    unfold nat_digits
    by_cases h10 : n / 10 = 0
    · rw [if_pos h10]
      have hlt : n % 10 < 10 := Nat.mod_lt _ (by omega)
      refine ⟨[digit_char (n % 10)], rfl, ?_, ⟨n % 10, hlt, rfl⟩, ?_⟩
      · simp [digit_char_is_digit _ hlt]
      · simp only [digits_value, digit_char_toNat _ hlt]
        omega
    · rw [if_neg h10]
      have hlt : n % 10 < 10 := Nat.mod_lt _ (by omega)
      obtain ⟨ds, hds, hall, hhead, hval⟩ := ih (n / 10) (digit_char (n % 10) :: acc) (by omega)
      refine ⟨ds ++ [digit_char (n % 10)], ?_, ?_, ?_, ?_⟩
      · rw [hds]; simp
      · simp [hall, digit_char_is_digit _ hlt]
      · obtain ⟨d, hd, hh⟩ := hhead
        refine ⟨d, hd, ?_⟩
        cases ds with
        | nil => simp at hh
        | cons x xs => simpa using hh
      · rw [digits_value_append, hval]
        simp only [digits_value, digit_char_toNat _ hlt]
        omega

theorem takeWhile_all {α : Type} (q : α → Bool) (l : List α) (h : l.all q = true) :
    l.takeWhile q = l := by
  induction l with
  | nil => rfl
  | cons a l ih =>
    simp only [List.all_cons, Bool.and_eq_true] at h
    rw [List.takeWhile_cons, h.1]
    simp only [if_true]
    rw [ih h.2]

theorem from_string_int_nat_to_string (n : Nat) (hn : n < 2147483648) :
    from_string_int (nat_to_string n) = (n : Int) := by
  obtain ⟨ds, hds, hall, ⟨d, hd, hhead⟩, hval⟩ := nat_digits_spec (n + 1) n [] (by omega)
  rw [List.append_nil] at hds
  unfold nat_to_string
  rw [hds]
  obtain ⟨hsp, hminus, hplus⟩ := digit_char_not_space d hd
  cases ds with
  | nil => simp at hhead
  | cons x xs =>
    simp only [List.head?_cons, Option.some.injEq] at hhead
    subst hhead
    have htw := takeWhile_all is_digit (digit_char d :: xs) hall
    unfold from_string_int
    simp only [List.dropWhile_cons, hsp, Bool.false_eq_true, if_false, List.head?_cons,
      Option.some.injEq, hminus, hplus, or_self, htw, List.isEmpty_cons, decide_False, hval]
    unfold clamp32
    rw [if_neg (by omega), if_neg (by omega)]

/-! ## What the basic operations leave unchanged -/

@[simp] theorem set_error_get_package_name (p : Packager) (w : Nat) (m : Str) :
    (p.set_error w m)._package_name = p._package_name := rfl

@[simp] theorem clear_error_get_package_name (p : Packager) (w : Nat) :
    (p.clear_error w)._package_name = p._package_name := by
  unfold Packager.clear_error
  split <;> rfl

@[simp] theorem set_error_get_version (p : Packager) (w : Nat) (m : Str) :
    (p.set_error w m)._version = p._version := rfl

@[simp] theorem clear_error_get_version (p : Packager) (w : Nat) :
    (p.clear_error w)._version = p._version := by
  unfold Packager.clear_error
  split <;> rfl

@[simp] theorem set_error_get_package_version (p : Packager) (w : Nat) (m : Str) :
    (p.set_error w m)._package_version = p._package_version := rfl

@[simp] theorem clear_error_get_package_version (p : Packager) (w : Nat) :
    (p.clear_error w)._package_version = p._package_version := by
  unfold Packager.clear_error
  split <;> rfl

@[simp] theorem set_error_get_section (p : Packager) (w : Nat) (m : Str) :
    (p.set_error w m)._section = p._section := rfl

@[simp] theorem clear_error_get_section (p : Packager) (w : Nat) :
    (p.clear_error w)._section = p._section := by
  unfold Packager.clear_error
  split <;> rfl

@[simp] theorem set_error_get_priority (p : Packager) (w : Nat) (m : Str) :
    (p.set_error w m)._priority = p._priority := rfl

@[simp] theorem clear_error_get_priority (p : Packager) (w : Nat) :
    (p.clear_error w)._priority = p._priority := by
  unfold Packager.clear_error
  split <;> rfl

@[simp] theorem set_error_get_maintainer (p : Packager) (w : Nat) (m : Str) :
    (p.set_error w m)._maintainer = p._maintainer := rfl

@[simp] theorem clear_error_get_maintainer (p : Packager) (w : Nat) :
    (p.clear_error w)._maintainer = p._maintainer := by
  unfold Packager.clear_error
  split <;> rfl

@[simp] theorem set_error_get_standards_version (p : Packager) (w : Nat) (m : Str) :
    (p.set_error w m)._standards_version = p._standards_version := rfl

@[simp] theorem clear_error_get_standards_version (p : Packager) (w : Nat) :
    (p.clear_error w)._standards_version = p._standards_version := by
  unfold Packager.clear_error
  split <;> rfl

@[simp] theorem set_error_get_items_to_package (p : Packager) (w : Nat) (m : Str) :
    (p.set_error w m)._items_to_package = p._items_to_package := rfl

@[simp] theorem clear_error_get_items_to_package (p : Packager) (w : Nat) :
    (p.clear_error w)._items_to_package = p._items_to_package := by
  unfold Packager.clear_error
  split <;> rfl

@[simp] theorem set_error_get_summary (p : Packager) (w : Nat) (m : Str) :
    (p.set_error w m)._summary = p._summary := rfl

@[simp] theorem clear_error_get_summary (p : Packager) (w : Nat) :
    (p.clear_error w)._summary = p._summary := by
  unfold Packager.clear_error
  split <;> rfl

@[simp] theorem set_error_get_description (p : Packager) (w : Nat) (m : Str) :
    (p.set_error w m)._description = p._description := rfl

@[simp] theorem clear_error_get_description (p : Packager) (w : Nat) :
    (p.clear_error w)._description = p._description := by
  unfold Packager.clear_error
  split <;> rfl

@[simp] theorem set_error_get_licence (p : Packager) (w : Nat) (m : Str) :
    (p.set_error w m)._licence = p._licence := rfl

@[simp] theorem clear_error_get_licence (p : Packager) (w : Nat) :
    (p.clear_error w)._licence = p._licence := by
  unfold Packager.clear_error
  split <;> rfl

@[simp] theorem set_error_get_depends (p : Packager) (w : Nat) (m : Str) :
    (p.set_error w m)._depends = p._depends := rfl

@[simp] theorem clear_error_get_depends (p : Packager) (w : Nat) :
    (p.clear_error w)._depends = p._depends := by
  unfold Packager.clear_error
  split <;> rfl

@[simp] theorem set_error_get_recommends (p : Packager) (w : Nat) (m : Str) :
    (p.set_error w m)._recommends = p._recommends := rfl

@[simp] theorem clear_error_get_recommends (p : Packager) (w : Nat) :
    (p.clear_error w)._recommends = p._recommends := by
  unfold Packager.clear_error
  split <;> rfl

@[simp] theorem set_error_get_suggests (p : Packager) (w : Nat) (m : Str) :
    (p.set_error w m)._suggests = p._suggests := rfl

@[simp] theorem clear_error_get_suggests (p : Packager) (w : Nat) :
    (p.clear_error w)._suggests = p._suggests := by
  unfold Packager.clear_error
  split <;> rfl

@[simp] theorem set_error_get_conflicts (p : Packager) (w : Nat) (m : Str) :
    (p.set_error w m)._conflicts = p._conflicts := rfl

@[simp] theorem clear_error_get_conflicts (p : Packager) (w : Nat) :
    (p.clear_error w)._conflicts = p._conflicts := by
  unfold Packager.clear_error
  split <;> rfl

@[simp] theorem set_error_get_copyright (p : Packager) (w : Nat) (m : Str) :
    (p.set_error w m)._copyright = p._copyright := rfl

@[simp] theorem clear_error_get_copyright (p : Packager) (w : Nat) :
    (p.clear_error w)._copyright = p._copyright := by
  unfold Packager.clear_error
  split <;> rfl

@[simp] theorem set_error_get_modified (p : Packager) (w : Nat) (m : Str) :
    (p.set_error w m)._modified = p._modified := rfl

@[simp] theorem clear_error_get_modified (p : Packager) (w : Nat) :
    (p.clear_error w)._modified = p._modified := by
  unfold Packager.clear_error
  split <;> rfl

@[simp] theorem modified_get_package_name (p : Packager) (m : Bool) :
    (p.modified m)._package_name = p._package_name := by
  unfold Packager.modified
  split <;> rfl

@[simp] theorem modified_get_version (p : Packager) (m : Bool) :
    (p.modified m)._version = p._version := by
  unfold Packager.modified
  split <;> rfl

@[simp] theorem modified_get_package_version (p : Packager) (m : Bool) :
    (p.modified m)._package_version = p._package_version := by
  unfold Packager.modified
  split <;> rfl

@[simp] theorem modified_get_section (p : Packager) (m : Bool) :
    (p.modified m)._section = p._section := by
  unfold Packager.modified
  split <;> rfl

@[simp] theorem modified_get_priority (p : Packager) (m : Bool) :
    (p.modified m)._priority = p._priority := by
  unfold Packager.modified
  split <;> rfl

@[simp] theorem modified_get_maintainer (p : Packager) (m : Bool) :
    (p.modified m)._maintainer = p._maintainer := by
  unfold Packager.modified
  split <;> rfl

@[simp] theorem modified_get_standards_version (p : Packager) (m : Bool) :
    (p.modified m)._standards_version = p._standards_version := by
  unfold Packager.modified
  split <;> rfl

@[simp] theorem modified_get_items_to_package (p : Packager) (m : Bool) :
    (p.modified m)._items_to_package = p._items_to_package := by
  unfold Packager.modified
  split <;> rfl

@[simp] theorem modified_get_summary (p : Packager) (m : Bool) :
    (p.modified m)._summary = p._summary := by
  unfold Packager.modified
  split <;> rfl

@[simp] theorem modified_get_description (p : Packager) (m : Bool) :
    (p.modified m)._description = p._description := by
  unfold Packager.modified
  split <;> rfl

@[simp] theorem modified_get_licence (p : Packager) (m : Bool) :
    (p.modified m)._licence = p._licence := by
  unfold Packager.modified
  split <;> rfl

@[simp] theorem modified_get_depends (p : Packager) (m : Bool) :
    (p.modified m)._depends = p._depends := by
  unfold Packager.modified
  split <;> rfl

@[simp] theorem modified_get_recommends (p : Packager) (m : Bool) :
    (p.modified m)._recommends = p._recommends := by
  unfold Packager.modified
  split <;> rfl

@[simp] theorem modified_get_suggests (p : Packager) (m : Bool) :
    (p.modified m)._suggests = p._suggests := by
  unfold Packager.modified
  split <;> rfl

@[simp] theorem modified_get_conflicts (p : Packager) (m : Bool) :
    (p.modified m)._conflicts = p._conflicts := by
  unfold Packager.modified
  split <;> rfl

@[simp] theorem modified_get_copyright (p : Packager) (m : Bool) :
    (p.modified m)._copyright = p._copyright := by
  unfold Packager.modified
  split <;> rfl

@[simp] theorem modified_get_error_count (p : Packager) (m : Bool) :
    (p.modified m)._error_count = p._error_count := by
  unfold Packager.modified
  split <;> rfl

@[simp] theorem modified_get_errors (p : Packager) (m : Bool) :
    (p.modified m)._errors = p._errors := by
  unfold Packager.modified
  split <;> rfl

@[simp] theorem require_entered_get_package_name (p : Packager) (w : Nat) (v : Str) :
    (p.require_entered w v)._package_name = p._package_name := by
  unfold Packager.require_entered
  split <;> simp

@[simp] theorem require_entered_get_version (p : Packager) (w : Nat) (v : Str) :
    (p.require_entered w v)._version = p._version := by
  unfold Packager.require_entered
  split <;> simp

@[simp] theorem require_entered_get_package_version (p : Packager) (w : Nat) (v : Str) :
    (p.require_entered w v)._package_version = p._package_version := by
  unfold Packager.require_entered
  split <;> simp

@[simp] theorem require_entered_get_section (p : Packager) (w : Nat) (v : Str) :
    (p.require_entered w v)._section = p._section := by
  unfold Packager.require_entered
  split <;> simp

@[simp] theorem require_entered_get_priority (p : Packager) (w : Nat) (v : Str) :
    (p.require_entered w v)._priority = p._priority := by
  unfold Packager.require_entered
  split <;> simp

@[simp] theorem require_entered_get_maintainer (p : Packager) (w : Nat) (v : Str) :
    (p.require_entered w v)._maintainer = p._maintainer := by
  unfold Packager.require_entered
  split <;> simp

@[simp] theorem require_entered_get_standards_version (p : Packager) (w : Nat) (v : Str) :
    (p.require_entered w v)._standards_version = p._standards_version := by
  unfold Packager.require_entered
  split <;> simp

@[simp] theorem require_entered_get_items_to_package (p : Packager) (w : Nat) (v : Str) :
    (p.require_entered w v)._items_to_package = p._items_to_package := by
  unfold Packager.require_entered
  split <;> simp

@[simp] theorem require_entered_get_summary (p : Packager) (w : Nat) (v : Str) :
    (p.require_entered w v)._summary = p._summary := by
  unfold Packager.require_entered
  split <;> simp

@[simp] theorem require_entered_get_description (p : Packager) (w : Nat) (v : Str) :
    (p.require_entered w v)._description = p._description := by
  unfold Packager.require_entered
  split <;> simp

@[simp] theorem require_entered_get_licence (p : Packager) (w : Nat) (v : Str) :
    (p.require_entered w v)._licence = p._licence := by
  unfold Packager.require_entered
  split <;> simp

@[simp] theorem require_entered_get_depends (p : Packager) (w : Nat) (v : Str) :
    (p.require_entered w v)._depends = p._depends := by
  unfold Packager.require_entered
  split <;> simp

@[simp] theorem require_entered_get_recommends (p : Packager) (w : Nat) (v : Str) :
    (p.require_entered w v)._recommends = p._recommends := by
  unfold Packager.require_entered
  split <;> simp

@[simp] theorem require_entered_get_suggests (p : Packager) (w : Nat) (v : Str) :
    (p.require_entered w v)._suggests = p._suggests := by
  unfold Packager.require_entered
  split <;> simp

@[simp] theorem require_entered_get_conflicts (p : Packager) (w : Nat) (v : Str) :
    (p.require_entered w v)._conflicts = p._conflicts := by
  unfold Packager.require_entered
  split <;> simp

@[simp] theorem require_entered_get_copyright (p : Packager) (w : Nat) (v : Str) :
    (p.require_entered w v)._copyright = p._copyright := by
  unfold Packager.require_entered
  split <;> simp

theorem check_and_save_package_not_greater {α : Type} (w : World α) (pkg : Packager)
    (log_context : PackageContext) (released : Bool) (current : Str) (v old_v : α)
    (herr : pkg.error_count = 0)
    (hcur : map_find pkg._package_name w.s_current_packages = some current)
    (hv : w.versions.parse (version_text pkg) = Except.ok v)
    (hold : w.versions.parse current = Except.ok old_v)
    (hle : w.versions.gt v old_v = false) :
    check_and_save_package w pkg log_context released
      = some (use_old_version w pkg log_context [Call.find_current pkg._package_name]
          released old_v) := by
  unfold check_and_save_package
  simp only [herr, ne_eq, not_true_eq_false, if_false, hcur, hv, hold, hle, Bool.false_eq_true]

theorem package_version_fields (p : Packager) (value : Str) :
    (p.package_version value)._version = p._version
      ∧ (p.package_version value)._package_version = value := by
  unfold Packager.package_version
  simp

theorem version_fields (p : Packager) (value : Str) :
    (p.version value)._version = value
      ∧ (p.version value)._package_version = p._package_version := by
  unfold Packager.version
  simp

theorem adopt_version_fields {α : Type} (w : World α) (pkg : Packager) (old_v : α) :
    (adopt_version w pkg old_v)._version = w.versions.upstream_version old_v
      ∧ (adopt_version w pkg old_v)._package_version = w.versions.package_version old_v := by
  unfold adopt_version
  rw [(package_version_fields _ _).1, (package_version_fields _ _).2, (version_fields _ _).1]
  exact ⟨rfl, rfl⟩

theorem save_or_up_to_date_saves {α : Type} (w : World α) (pkg : Packager)
    (ctx : PackageContext) (calls : List Call) (released : Bool) :
    (save_or_up_to_date w pkg ctx calls released true).pkg = pkg
      ∧ (save_or_up_to_date w pkg ctx calls released true).calls
          = calls ++ [Call.save (package_file (category_of released) pkg)]
      ∧ (save_or_up_to_date w pkg ctx calls released true).written
          = (if (pkg.save w.disc).1 then
              some (package_file (category_of released) pkg, (pkg.save w.disc).2.2)
             else none)
      ∧ (save_or_up_to_date w pkg ctx calls released true).log_context._upgrade = ctx._upgrade
      ∧ (save_or_up_to_date w pkg ctx calls released true).log_context._new = ctx._new := by
  unfold save_or_up_to_date package_file category_of
  simp only [if_true]
  cases (pkg.save w.disc).1
  · simp [PackageContext.message, PackageContext.error]
  · simp [PackageContext.message, PackageContext.error]

theorem increment_package_version_fields (pkg : Packager) (n : Nat)
    (hrev : pkg._package_version = nat_to_string n) (hn : n + 1 < 2147483648) :
    (increment_package_version pkg)._version = pkg._version
      ∧ (increment_package_version pkg)._package_version = nat_to_string (n + 1) := by
  unfold increment_package_version
  rw [(package_version_fields _ _).1, (package_version_fields _ _).2, hrev,
    from_string_int_nat_to_string n (by omega)]
  refine ⟨rfl, ?_⟩
  rw [wrap32_of_small _ (by omega) (by omega)]
  unfold to_string_int
  rw [if_neg (by omega)]
  congr 1

theorem use_old_version_changed {α : Type} (w : World α) (pkg : Packager)
    (ctx : PackageContext) (calls : List Call) (released : Bool) (old_v : α)
    (hcmp : archive_exists w (package_file s_release_packages (adopt_version w pkg old_v)) = true
      ∨ released = false)
    (hdiff : ((adopt_version w pkg old_v).same_as w.disc
      (last_package_file w (adopt_version w pkg old_v))
      (map_find (last_package_file w (adopt_version w pkg old_v)) w.archives)).1 = false) :
    use_old_version w pkg ctx calls released old_v
      = save_or_up_to_date w (increment_package_version (adopt_version w pkg old_v))
          (((ctx.message "Comparing files with last package".toList).message
            ("Upgrading ".toList ++ ((adopt_version w pkg old_v).same_as w.disc
              (last_package_file w (adopt_version w pkg old_v))
              (map_find (last_package_file w (adopt_version w pkg old_v))
                w.archives)).2)).upgrade_package true)
          (calls ++ [Call.path_exists
              (package_file s_release_packages (adopt_version w pkg old_v))]
            ++ [Call.same_as (last_package_file w (adopt_version w pkg old_v))])
          released true := by
  have hbeta : (!archive_exists w (package_file s_release_packages (adopt_version w pkg old_v))
      && released) = false := by
    rcases hcmp with h | h
    · rw [h]; rfl
    · rw [h]; simp
  unfold use_old_version
  simp only [hbeta, hdiff, Bool.false_eq_true, if_false, Bool.not_false, if_true]

theorem use_old_version_same {α : Type} (w : World α) (pkg : Packager)
    (ctx : PackageContext) (calls : List Call) (released : Bool) (old_v : α)
    (hcmp : archive_exists w (package_file s_release_packages (adopt_version w pkg old_v)) = true
      ∨ released = false)
    (hsame : ((adopt_version w pkg old_v).same_as w.disc
      (last_package_file w (adopt_version w pkg old_v))
      (map_find (last_package_file w (adopt_version w pkg old_v)) w.archives)).1 = true) :
    use_old_version w pkg ctx calls released old_v
      = save_or_up_to_date w (adopt_version w pkg old_v)
          (ctx.message "Comparing files with last package".toList)
          (calls ++ [Call.path_exists
              (package_file s_release_packages (adopt_version w pkg old_v))]
            ++ [Call.same_as (last_package_file w (adopt_version w pkg old_v))])
          released false := by
  have hbeta : (!archive_exists w (package_file s_release_packages (adopt_version w pkg old_v))
      && released) = false := by
    rcases hcmp with h | h
    · rw [h]; rfl
    · rw [h]; simp
  unfold use_old_version
  simp only [hbeta, hsame, Bool.false_eq_true, if_false, Bool.not_true]

theorem use_old_version_beta_to_release {α : Type} (w : World α) (pkg : Packager)
    (ctx : PackageContext) (calls : List Call) (old_v : α)
    (hrel : archive_exists w (package_file s_release_packages (adopt_version w pkg old_v))
      = false) :
    use_old_version w pkg ctx calls true old_v
      = save_or_up_to_date w (increment_package_version (adopt_version w pkg old_v))
          ((ctx.message "Upgrading beta to release".toList).upgrade_package true)
          (calls ++ [Call.path_exists
              (package_file s_release_packages (adopt_version w pkg old_v))])
          true true := by
  unfold use_old_version
  simp only [hrel, Bool.not_false, Bool.and_self, if_true]

/-- C4: when the record has no errors, a version `O` is published for the package, the
version of the record is not greater than `O`, and `same_as` is called on the last
archive of `O` and reports a difference, `check_and_save_package` publishes the record
with the upstream version of `O` and with the revision of `O` plus exactly one: for a
revision that is the number `n` in decimal, the new revision is `n + 1` in decimal. The
archive compared is the one named after `O`, and the archive saved is named after the
new revision, in the category that the `released` flag selects. -/
theorem changed_content_increments_revision {α : Type} (w : World α) (pkg : Packager)
    (log_context : PackageContext) (released : Bool) (current : Str) (v old_v : α) (n : Nat)
    (herr : pkg.error_count = 0)
    (hcur : map_find pkg._package_name w.s_current_packages = some current)
    (hv : w.versions.parse (version_text pkg) = Except.ok v)
    (hold : w.versions.parse current = Except.ok old_v)
    (hle : w.versions.gt v old_v = false)
    (hcmp : archive_exists w (package_file s_release_packages (adopt_version w pkg old_v)) = true
      ∨ released = false)
    (hdiff : ((adopt_version w pkg old_v).same_as w.disc
      (last_package_file w (adopt_version w pkg old_v))
      (map_find (last_package_file w (adopt_version w pkg old_v)) w.archives)).1 = false)
    (hrev : w.versions.package_version old_v = nat_to_string n) (hn : n + 1 < 2147483648) :
    ∃ out : Outcome, check_and_save_package w pkg log_context released = some out
      ∧ out.pkg._version = w.versions.upstream_version old_v
      ∧ out.pkg._package_version = nat_to_string (n + 1)
      ∧ out.calls = [Call.find_current pkg._package_name,
          Call.path_exists (package_file s_release_packages (adopt_version w pkg old_v)),
          Call.same_as (last_package_file w (adopt_version w pkg old_v)),
          Call.save (package_file (category_of released) out.pkg)]
      ∧ out.log_context._upgrade = true := by
  have hstep := check_and_save_package_not_greater w pkg log_context released current v old_v
    herr hcur hv hold hle
  rw [use_old_version_changed w pkg log_context _ released old_v hcmp hdiff] at hstep
  obtain ⟨hpkg, hcalls, _, hup, _⟩ := save_or_up_to_date_saves w
    (increment_package_version (adopt_version w pkg old_v))
    (((log_context.message "Comparing files with last package".toList).message
      ("Upgrading ".toList ++ ((adopt_version w pkg old_v).same_as w.disc
        (last_package_file w (adopt_version w pkg old_v))
        (map_find (last_package_file w (adopt_version w pkg old_v))
          w.archives)).2)).upgrade_package true)
    ([Call.find_current pkg._package_name] ++ [Call.path_exists
        (package_file s_release_packages (adopt_version w pkg old_v))]
      ++ [Call.same_as (last_package_file w (adopt_version w pkg old_v))])
    released
  have hf := increment_package_version_fields (adopt_version w pkg old_v) n
    (by rw [(adopt_version_fields w pkg old_v).2]; exact hrev) hn
  refine ⟨_, hstep, ?_, ?_, ?_, ?_⟩
  · rw [hpkg, hf.1, (adopt_version_fields w pkg old_v).1]
  · rw [hpkg, hf.2]
  · rw [hcalls, hpkg]
    rfl
  · rw [hup]
    rfl

set_option maxRecDepth 100000 in
/-- C4 at the package "Foo" with published version "1.0-2", upstream version "1.0" and
revision "1" in the record, and a file that has changed on the disc: the comparison is
made with the archive "Foo_1/0-2" and the new revision is "3". -/
theorem changed_content_increments_revision_witness :
    (∃ out : Outcome,
      check_and_save_package example_world_changed example_record example_context true
          = some out
        ∧ out.pkg._version = example_versions.upstream_version ("1.0".toList, "2".toList)
        ∧ out.pkg._package_version = nat_to_string (2 + 1)
        ∧ out.calls = [Call.find_current example_record._package_name,
            Call.path_exists (package_file s_release_packages
              (adopt_version example_world_changed example_record ("1.0".toList, "2".toList))),
            Call.same_as (last_package_file example_world_changed
              (adopt_version example_world_changed example_record ("1.0".toList, "2".toList))),
            Call.save (package_file (category_of true) out.pkg)]
        ∧ out.log_context._upgrade = true)
      ∧ last_package_file example_world_changed
          (adopt_version example_world_changed example_record ("1.0".toList, "2".toList))
          = "$.Packages.release.Foo_1/0-2".toList
      ∧ nat_to_string (2 + 1) = "3".toList :=
  ⟨changed_content_increments_revision example_world_changed example_record example_context
      true "1.0-2".toList ("1.0".toList, "1".toList) ("1.0".toList, "2".toList) 2
      (by decide) (by decide) rfl rfl (by decide) (Or.inl (by decide))
      (by decide) (by decide) (by decide),
    by decide, by decide⟩

set_option maxRecDepth 100000 in
/-- C5 fails on the code: with version "1.0-2" of "Foo" published in the beta category
only, a record with version "1.0-1" and a run flagged released, the record is published
with revision "3", not with the revision "2" of the published version. -/
theorem beta_to_release_revision_not_kept :
    example_versions.gt ("1.0".toList, "1".toList) ("1.0".toList, "2".toList) = false
      ∧ archive_exists example_world_beta (package_file s_release_packages
          (adopt_version example_world_beta example_record ("1.0".toList, "2".toList))) = false
      ∧ example_versions.package_version ("1.0".toList, "2".toList) = "2".toList
      ∧ (check_and_save_package example_world_beta example_record example_context true).map
          (fun out => (out.pkg._package_version, out.written.map (fun f => f.1)))
        = some ("3".toList, some "$.Packages.release.Foo_1/0-3".toList) := by
  decide

/-- C5 as amended: when the version of the record is not greater than the published version
`O`, no archive of the release category exists for `O` and the run is flagged released,
`check_and_save_package` does not call `same_as` and publishes the record in the release
category with the upstream version of `O` and the revision of `O` plus one. -/
theorem beta_to_release_increments_revision {α : Type} (w : World α) (pkg : Packager)
    (log_context : PackageContext) (current : Str) (v old_v : α) (n : Nat)
    (herr : pkg.error_count = 0)
    (hcur : map_find pkg._package_name w.s_current_packages = some current)
    (hv : w.versions.parse (version_text pkg) = Except.ok v)
    (hold : w.versions.parse current = Except.ok old_v)
    (hle : w.versions.gt v old_v = false)
    (hrel : archive_exists w (package_file s_release_packages (adopt_version w pkg old_v))
      = false)
    (hrev : w.versions.package_version old_v = nat_to_string n) (hn : n + 1 < 2147483648) :
    ∃ out : Outcome, check_and_save_package w pkg log_context true = some out
      ∧ out.pkg._version = w.versions.upstream_version old_v
      ∧ out.pkg._package_version = nat_to_string (n + 1)
      ∧ out.calls = [Call.find_current pkg._package_name,
          Call.path_exists (package_file s_release_packages (adopt_version w pkg old_v)),
          Call.save (package_file s_release_packages out.pkg)]
      ∧ out.log_context._upgrade = true := by
  have hstep := check_and_save_package_not_greater w pkg log_context true current v old_v
    herr hcur hv hold hle
  rw [use_old_version_beta_to_release w pkg log_context _ old_v hrel] at hstep
  obtain ⟨hpkg, hcalls, _, hup, _⟩ := save_or_up_to_date_saves w
    (increment_package_version (adopt_version w pkg old_v))
    ((log_context.message "Upgrading beta to release".toList).upgrade_package true)
    ([Call.find_current pkg._package_name] ++ [Call.path_exists
        (package_file s_release_packages (adopt_version w pkg old_v))])
    true
  have hf := increment_package_version_fields (adopt_version w pkg old_v) n
    (by rw [(adopt_version_fields w pkg old_v).2]; exact hrev) hn
  refine ⟨_, hstep, ?_, ?_, ?_, ?_⟩
  · rw [hpkg, hf.1, (adopt_version_fields w pkg old_v).1]
  · rw [hpkg, hf.2]
  · rw [hcalls, hpkg]
    rfl
  · rw [hup]
    rfl

set_option maxRecDepth 100000 in
/-- C5 as amended, at the package "Foo" published as "1.0-2" in the beta category only. -/
theorem beta_to_release_increments_revision_witness :
    ∃ out : Outcome,
      check_and_save_package example_world_beta example_record example_context true = some out
        ∧ out.pkg._version = example_versions.upstream_version ("1.0".toList, "2".toList)
        ∧ out.pkg._package_version = nat_to_string (2 + 1)
        ∧ out.calls = [Call.find_current example_record._package_name,
            Call.path_exists (package_file s_release_packages
              (adopt_version example_world_beta example_record ("1.0".toList, "2".toList))),
            Call.save (package_file s_release_packages out.pkg)]
        ∧ out.log_context._upgrade = true :=
  beta_to_release_increments_revision example_world_beta example_record example_context
    "1.0-2".toList ("1.0".toList, "1".toList) ("1.0".toList, "2".toList) 2
    (by decide) (by decide) rfl rfl (by decide) (by decide) (by decide) (by decide)

/-- C6: when the record has no errors and either the package has no entry in the index of
the published versions or the version of the record is greater than the published one,
`check_and_save_package` saves the record as it is (same upstream version and revision),
makes no call of `same_as`, and names the archive in the release category when the
`released` flag is set and in the beta category otherwise. -/
theorem new_or_newer_is_published_as_is {α : Type} (w : World α) (pkg : Packager)
    (log_context : PackageContext) (released : Bool)
    (herr : pkg.error_count = 0)
    (h : map_find pkg._package_name w.s_current_packages = none
      ∨ ∃ (current : Str) (v old_v : α),
          map_find pkg._package_name w.s_current_packages = some current
            ∧ w.versions.parse (version_text pkg) = Except.ok v
            ∧ w.versions.parse current = Except.ok old_v
            ∧ w.versions.gt v old_v = true) :
    ∃ out : Outcome, check_and_save_package w pkg log_context released = some out
      ∧ out.pkg = pkg
      ∧ out.calls = [Call.find_current pkg._package_name,
          Call.save (s_packages_dir ++ ".".toList
            ++ (if released then s_release_packages else s_beta_packages) ++ ".".toList
            ++ pkg.standard_leafname)]
      ∧ (∀ f : Str, Call.same_as f ∉ out.calls)
      ∧ out.written = (if (pkg.save w.disc).1 then
            some (s_packages_dir ++ ".".toList
              ++ (if released then s_release_packages else s_beta_packages) ++ ".".toList
              ++ pkg.standard_leafname, (pkg.save w.disc).2.2)
          else none) := by
  have hsave : ∀ ctx : PackageContext,
      check_and_save_package w pkg log_context released
        = some (save_or_up_to_date w pkg ctx [Call.find_current pkg._package_name] released true)
      → ∃ out : Outcome, check_and_save_package w pkg log_context released = some out
        ∧ out.pkg = pkg
        ∧ out.calls = [Call.find_current pkg._package_name,
            Call.save (s_packages_dir ++ ".".toList
              ++ (if released then s_release_packages else s_beta_packages) ++ ".".toList
              ++ pkg.standard_leafname)]
        ∧ (∀ f : Str, Call.same_as f ∉ out.calls)
        ∧ out.written = (if (pkg.save w.disc).1 then
              some (s_packages_dir ++ ".".toList
                ++ (if released then s_release_packages else s_beta_packages) ++ ".".toList
                ++ pkg.standard_leafname, (pkg.save w.disc).2.2)
            else none) := by
    intro ctx hstep
    obtain ⟨hpkg, hcalls, hwritten, _, _⟩ := save_or_up_to_date_saves w pkg ctx
      [Call.find_current pkg._package_name] released
    refine ⟨_, hstep, hpkg, ?_, ?_, ?_⟩
    · rw [hcalls]; rfl
    · intro f hf
      rw [hcalls] at hf
      simp at hf
    · rw [hwritten]; rfl
  rcases h with hnone | ⟨current, v, old_v, hcur, hv, hold, hgt⟩
  · apply hsave
    unfold check_and_save_package
    simp only [herr, ne_eq, not_true_eq_false, if_false, hnone]
    rfl
  · apply hsave
    unfold check_and_save_package
    simp only [herr, ne_eq, not_true_eq_false, if_false, hcur, hv, hold, hgt, if_true]
    rfl

set_option maxRecDepth 100000 in
/-- C6 at the package "Foo" when nothing is published, in a run that is not a release. -/
theorem new_or_newer_is_published_as_is_witness :
    ∃ out : Outcome,
      check_and_save_package example_world_empty example_record example_context false = some out
        ∧ out.pkg = example_record
        ∧ out.calls = [Call.find_current example_record._package_name,
            Call.save (s_packages_dir ++ ".".toList
              ++ (if false then s_release_packages else s_beta_packages) ++ ".".toList
              ++ example_record.standard_leafname)]
        ∧ (∀ f : Str, Call.same_as f ∉ out.calls)
        ∧ out.written = (if (example_record.save example_world_empty.disc).1 then
              some (s_packages_dir ++ ".".toList
                ++ (if false then s_release_packages else s_beta_packages) ++ ".".toList
                ++ example_record.standard_leafname,
                (example_record.save example_world_empty.disc).2.2)
            else none) :=
  new_or_newer_is_published_as_is example_world_empty example_record example_context false
    (by decide) (Or.inl (by decide))

/-- C7: when the version of the record is not greater than the published version `O`, and
`same_as` is called on the last archive of `O` and reports no difference,
`check_and_save_package` makes no call of `save`, writes no archive, and leaves in the
record the upstream version and the revision of `O`, without any increment. -/
theorem unchanged_package_is_not_saved {α : Type} (w : World α) (pkg : Packager)
    (log_context : PackageContext) (released : Bool) (current : Str) (v old_v : α)
    (herr : pkg.error_count = 0)
    (hcur : map_find pkg._package_name w.s_current_packages = some current)
    (hv : w.versions.parse (version_text pkg) = Except.ok v)
    (hold : w.versions.parse current = Except.ok old_v)
    (hle : w.versions.gt v old_v = false)
    (hcmp : archive_exists w (package_file s_release_packages (adopt_version w pkg old_v)) = true
      ∨ released = false)
    (hsame : ((adopt_version w pkg old_v).same_as w.disc
      (last_package_file w (adopt_version w pkg old_v))
      (map_find (last_package_file w (adopt_version w pkg old_v)) w.archives)).1 = true) :
    ∃ out : Outcome, check_and_save_package w pkg log_context released = some out
      ∧ out.written = none
      ∧ (∀ f : Str, Call.save f ∉ out.calls)
      ∧ Call.same_as (last_package_file w (adopt_version w pkg old_v)) ∈ out.calls
      ∧ out.pkg._version = w.versions.upstream_version old_v
      ∧ out.pkg._package_version = w.versions.package_version old_v
      ∧ out.log_context._upgrade = log_context._upgrade
      ∧ out.log_context._new = log_context._new := by
  have hstep := check_and_save_package_not_greater w pkg log_context released current v old_v
    herr hcur hv hold hle
  rw [use_old_version_same w pkg log_context _ released old_v hcmp hsame] at hstep
  refine ⟨_, hstep, ?_, ?_, ?_, ?_, ?_, ?_, ?_⟩
  · rfl
  · intro f hf
    simp [save_or_up_to_date] at hf
  · simp [save_or_up_to_date]
  · exact (adopt_version_fields w pkg old_v).1
  · exact (adopt_version_fields w pkg old_v).2
  · rfl
  · rfl

set_option maxRecDepth 100000 in
/-- C7 at the package "Foo" published as "1.0-2", with the disc as it was. -/
theorem unchanged_package_is_not_saved_witness :
    ∃ out : Outcome,
      check_and_save_package example_world_same example_record example_context true = some out
        ∧ out.written = none
        ∧ (∀ f : Str, Call.save f ∉ out.calls)
        ∧ Call.same_as (last_package_file example_world_same
            (adopt_version example_world_same example_record ("1.0".toList, "2".toList)))
            ∈ out.calls
        ∧ out.pkg._version = example_versions.upstream_version ("1.0".toList, "2".toList)
        ∧ out.pkg._package_version
            = example_versions.package_version ("1.0".toList, "2".toList)
        ∧ out.log_context._upgrade = example_context._upgrade
        ∧ out.log_context._new = example_context._new :=
  unchanged_package_is_not_saved example_world_same example_record example_context true
    "1.0-2".toList ("1.0".toList, "1".toList) ("1.0".toList, "2".toList)
    (by decide) (by decide) rfl rfl (by decide) (Or.inl (by decide)) (by decide)

/-! ## Comparing with the archive just written (C3) -/

set_option maxRecDepth 100000 in
/-- C3 fails on the code: for a directory to package that holds a file named `/htaccess`,
`save` succeeds and names the file `Apps/Games/Foo/.htaccess` in the archive, while
`same_as` on that archive, with the record and the disc unchanged, looks for
`Apps/Games/Foo//htaccess` and reports the difference "new file". -/
theorem same_as_after_save_reports_new_file :
    (example_record.save example_disc_slash).1 = true
      ∧ (example_record.save example_disc_slash).2.2.map (fun e => e.name)
          = ["RiscPkg/Control".toList, "RiscPkg/Copyright".toList,
              "Apps/Games/Foo/.htaccess".toList]
      ∧ example_record.same_as example_disc_slash "$.Packages.beta.Foo_1/0-1".toList
          (some (example_record.save example_disc_slash).2.2)
        = (false, "new file $.Games.Foo./htaccess".toList)
      ∧ Packager.riscos_to_zip_name "/htaccess".toList = "/htaccess".toList := by
  decide

/-! ## The round trip through the control record (C2) -/

set_option maxRecDepth 100000 in
/-- C2 fails on the code: the text written for a record with a movable item has a
`Components` field, which `read_control` rejects; a description that ends with a
newline comes back without it; a revision "1-2" comes back as "2", with the upstream
version "1.0-1"; a section " Games" comes back without its leading space; a section
of two lines makes `read_control` throw; a description line that is a lone full stop
comes back empty; and a description without a summary comes back with its first line as
the summary. -/
theorem round_trip_fails :
    (Packager.new.read_control example_record.control_as_text).2
        = some "Unable to process field 'Components' in RiscPkg/Control".toList
      ∧ (Packager.new.read_control
          (example_record_plain.description "line\n".toList).control_as_text).2 = none
      ∧ (Packager.new.read_control
          (example_record_plain.description "line\n".toList).control_as_text).1._description
        = "line".toList
      ∧ (example_record_plain.description "line\n".toList)._description = "line\n".toList
      ∧ (Packager.new.read_control
          (example_record_plain.package_version "1-2".toList).control_as_text).1._package_version
        = "2".toList
      ∧ (Packager.new.read_control
          (example_record_plain.package_version "1-2".toList).control_as_text).1._version
        = "1.0-1".toList
      ∧ (Packager.new.read_control
          (example_record_plain.section_ " Games".toList).control_as_text).1._section
        = "Games".toList
      ∧ (Packager.new.read_control
          (example_record_plain.section_ "Games\nMore".toList).control_as_text).2
        = some "':' expected in RiscPkg/Control".toList
      ∧ (Packager.new.read_control
          (example_record_plain.description "a\n.\nb".toList).control_as_text).1._description
        = "a\n\nb".toList
      ∧ (Packager.new.read_control
          ((example_record_plain.summary []).description "a\nb".toList).control_as_text).1._summary
        = "a".toList
      ∧ (Packager.new.read_control
          ((example_record_plain.summary []).description
            "a\nb".toList).control_as_text).1._description
        = "b".toList := by
  decide

theorem getlines_from_line (l : Str) (hl : single_line l = true) :
    ∀ (cur rest : Str),
      Packager.getlines_from cur (l ++ '\n' :: rest)
        = (cur ++ l) :: Packager.getlines_from [] rest := by
  induction l with
  | nil =>
    intro cur rest
    simp [Packager.getlines_from]
  | cons c cs ih =>
    intro cur rest
    simp only [single_line, List.all_cons, Bool.and_eq_true, bne_iff_ne, ne_eq] at hl
    have hc : c ≠ '\n' := hl.1
    simp only [List.cons_append, Packager.getlines_from, hc, if_false, List.append_eq]
    rw [ih (by simpa [single_line] using hl.2)]
    simp

theorem rdropWhile_not_ends_with_space (l : Str) (h : ends_with_space l = false) :
    l.rdropWhile isspace = l := by
  rw [List.rdropWhile_eq_self_iff]
  intro hl
  unfold ends_with_space at h
  rw [List.getLast?_eq_getLast l hl] at h
  simp only at h
  simp [h]

theorem dropWhile_not_starts_with_space (l : Str) (h : starts_with_space l = false) :
    l.dropWhile isspace = l := by
  cases l with
  | nil => rfl
  | cons c cs =>
    unfold starts_with_space at h
    simp only at h
    simp [List.dropWhile_cons, h]

theorem trimmed_line_parts {v : Str} (h : trimmed_line v = true) :
    single_line v = true ∧ starts_with_space v = false ∧ ends_with_space v = false := by
  unfold trimmed_line at h
  simp only [Bool.and_eq_true, Bool.not_eq_true'] at h
  exact ⟨h.1.1, h.1.2, h.2⟩

theorem ends_with_space_append (a b : Str) (hb : b ≠ []) :
    ends_with_space (a ++ b) = ends_with_space b := by
  unfold ends_with_space
  rw [List.getLast?_append_of_ne_nil a hb]

theorem single_line_append (a b : Str) :
    single_line (a ++ b) = (single_line a && single_line b) := by
  unfold single_line
  rw [List.all_append]

theorem scan_field_name_spec (name : Str) (hname : ∀ c ∈ name, c ≠ ':' ∧ isspace c = false) :
    ∀ (acc rest : Str),
      Packager.scan_field_name acc (name ++ ':' :: rest) = Except.ok (acc ++ name, rest) := by
  induction name with
  | nil =>
    intro acc rest
    simp [Packager.scan_field_name]
  | cons c cs ih =>
    intro acc rest
    have hc := hname c (by simp)
    simp only [List.cons_append, Packager.scan_field_name, hc.1, if_false, hc.2,
      Bool.false_eq_true, List.append_eq]
    rw [ih (fun x hx => hname x (by simp [hx]))]
    simp

theorem read_control_lines_header (name first : Str) (lines : List Str) (n0 v0 : Str)
    (p : Packager) (hne : name ≠ []) (hname : ∀ c ∈ name, c ≠ ':' ∧ isspace c = false)
    (hfirst : first ≠ []) (htrim : trimmed_line first = true) :
    Packager.read_control_lines ((name ++ ": ".toList ++ first) :: lines) n0 v0 p
      = match Packager.read_control_finish p n0 v0 with
        | (p1, some e) => (p1, some e)
        | (p1, none) => Packager.read_control_lines lines name first p1 := by
  obtain ⟨_, hstart, hend⟩ := trimmed_line_parts htrim
  have hline : (name ++ ": ".toList ++ first).rdropWhile isspace = name ++ ": ".toList ++ first :=
    rdropWhile_not_ends_with_space _ (by rw [ends_with_space_append _ _ hfirst]; exact hend)
  obtain ⟨c, cs, rfl⟩ : ∃ c cs, name = c :: cs := by
    cases name with
    | nil => exact absurd rfl hne
    | cons c cs => exact ⟨c, cs, rfl⟩
  have hc := hname c (by simp)
  rw [Packager.read_control_lines]
  simp only [hline]
  have hscan : Packager.scan_field_name [] ((c :: cs) ++ ": ".toList ++ first)
      = Except.ok (c :: cs, ' ' :: first) := by
    have := scan_field_name_spec (c :: cs) hname [] (' ' :: first)
    simpa using this
  have hdrop : (' ' :: first).dropWhile isspace = first := by
    rw [List.dropWhile_cons]
    simp only [show isspace ' ' = true from rfl, if_true]
    exact dropWhile_not_starts_with_space _ hstart
  simp only [List.cons_append, hc.2, Bool.false_eq_true, if_false]
  simp only [List.cons_append] at hscan
  cases hfin : Packager.read_control_finish p n0 v0 with
  | mk p1 err =>
    cases err with
    | some e => rfl
    | none =>
      simp only [hscan, hdrop]

theorem read_control_lines_continuation (c : Str) (lines : List Str) (name value : Str)
    (p : Packager) (hname : name ≠ []) (hc : c ≠ []) (htrim : trimmed_line c = true) :
    Packager.read_control_lines ((' ' :: c) :: lines) name value p
      = Packager.read_control_lines lines name
          (value ++ "\n".toList ++ (if c = ['.'] then [] else c)) p := by
  obtain ⟨_, hstart, hend⟩ := trimmed_line_parts htrim
  have hline : (' ' :: c).rdropWhile isspace = ' ' :: c := by
    have := rdropWhile_not_ends_with_space ([' '] ++ c)
      (by rw [ends_with_space_append _ _ hc]; exact hend)
    simpa using this
  have hdrop : (' ' :: c).dropWhile isspace = c := by
    rw [List.dropWhile_cons]
    simp only [show isspace ' ' = true from rfl, if_true]
    exact dropWhile_not_starts_with_space _ hstart
  have hn : name.isEmpty = false := by
    cases name with
    | nil => exact absurd rfl hname
    | cons x xs => rfl
  have hce : c.isEmpty = false := by
    cases c with
    | nil => exact absurd rfl hc
    | cons x xs => rfl
  rw [Packager.read_control_lines]
  simp only [hline, show isspace ' ' = true from rfl, if_true, hdrop, hn, hce,
    Bool.false_eq_true, if_false]

theorem read_control_lines_cont (cont : List Str)
    (hcont : ∀ c ∈ cont, c ≠ [] ∧ trimmed_line c = true) :
    ∀ (rest name value : Str) (p : Packager), name ≠ [] →
      Packager.read_control_lines (Packager.getlines_from [] (render_cont cont ++ rest))
          name value p
        = Packager.read_control_lines (Packager.getlines_from [] rest) name
            (value ++ cont_value cont) p := by
  induction cont with
  | nil =>
    intro rest name value p _
    simp [render_cont, cont_value]
  | cons c cs ih =>
    intro rest name value p hname
    obtain ⟨hc, htrim⟩ := hcont c (by simp)
    have hsingle : single_line (' ' :: c) = true := by
      have := (trimmed_line_parts htrim).1
      simpa [single_line] using this
    have hrender : render_cont (c :: cs) ++ rest
        = (' ' :: c) ++ '\n' :: (render_cont cs ++ rest) := by
      simp [render_cont]
    rw [hrender, getlines_from_line _ hsingle, List.nil_append,
      read_control_lines_continuation c _ name value p hname hc htrim,
      ih (fun x hx => hcont x (by simp [hx])) rest name _ p hname]
    simp [cont_value]

theorem single_line_of_no_space (name : Str) (hname : ∀ c ∈ name, c ≠ ':' ∧ isspace c = false) :
    single_line name = true := by
  unfold single_line
  rw [List.all_eq_true]
  intro c hc
  have := (hname c hc).2
  simp only [bne_iff_ne, ne_eq]
  intro h
  rw [h] at this
  exact absurd this (by decide)

theorem read_control_lines_entries (es : List ControlEntry)
    (hes : ∀ e ∈ es, e.well_formed) :
    ∀ (n0 v0 : Str) (p : Packager),
      Packager.read_control_lines (Packager.getlines_from [] (render_entries es)) n0 v0 p
        = match Packager.read_control_finish p n0 v0 with
          | (p1, some e) => (p1, some e)
          | (p1, none) => commit_all es p1 := by
  induction es with
  | nil =>
    intro n0 v0 p
    have h : Packager.getlines_from [] (render_entries []) = [[]] := rfl
    rw [h, Packager.read_control_lines]
    simp only [List.rdropWhile_nil]
    cases hfin : Packager.read_control_finish p n0 v0 with
    | mk p1 err =>
      cases err with
      | some e => rfl
      | none => rfl
  | cons e es ih =>
    intro n0 v0 p
    obtain ⟨hne, hname, hfirst, htrim, hcont⟩ := hes e (by simp)
    have hsingle : single_line (e.name ++ ": ".toList ++ e.first) = true := by
      rw [single_line_append, single_line_append, single_line_of_no_space _ hname,
        (trimmed_line_parts htrim).1]
      rfl
    have hrender : render_entries (e :: es)
        = (e.name ++ ": ".toList ++ e.first) ++ '\n' :: (render_cont e.cont ++ render_entries es) := by
      simp [render_entries, render_entry]
    rw [hrender, getlines_from_line _ hsingle, List.nil_append,
      read_control_lines_header e.name e.first _ n0 v0 p hne hname hfirst htrim]
    cases hfin : Packager.read_control_finish p n0 v0 with
    | mk p1 err =>
      cases err with
      | some e => rfl
      | none =>
        simp only
        rw [read_control_lines_cont e.cont hcont _ e.name e.first p1 hne,
          ih (fun x hx => hes x (by simp [hx]))]
        have hn : e.name.isEmpty = false := by
          cases h : e.name with
          | nil => exact absurd h hne
          | cons x xs => rfl
        rw [commit_all]
        unfold Packager.read_control_finish entry_value
        simp only [hn, Bool.not_false, if_true]
        cases hset : p1.set_control_field e.name (e.first ++ cont_value e.cont) with
        | mk p2 err2 =>
          cases err2 with
          | some e2 => rfl
          | none => rfl

theorem read_control_render_entries (es : List ControlEntry) (hes : ∀ e ∈ es, e.well_formed)
    (p : Packager) : p.read_control (render_entries es) = commit_all es p := by
  unfold Packager.read_control
  rw [read_control_lines_entries es hes]
  rfl

theorem render_entries_append (a b : List ControlEntry) :
    render_entries (a ++ b) = render_entries a ++ render_entries b := by
  induction a with
  | nil => rfl
  | cons e es ih => simp [render_entries, ih]

theorem render_entries_simple_entry (name value : Str) :
    render_entries (simple_entry name value) = Packager.field_line name value := by
  unfold simple_entry Packager.field_line
  cases h : value.isEmpty
  · simp [render_entries, render_entry, render_cont]
  · simp [render_entries]

theorem components_loop_none (items : List ItemToPackage)
    (h : ∀ item ∈ items, item._component_flags = CF_None) :
    Packager.components_loop items true = [] := by
  induction items with
  | nil => rfl
  | cons item rest ih =>
    have h1 := h item (by simp)
    simp only [Packager.components_loop, h1, ne_eq, not_true_eq_false, if_false]
    exact ih (fun x hx => h x (by simp [hx]))

theorem flush_blank_lines_succ (k : Nat) :
    Packager.flush_blank_lines (k + 1) = Packager.flush_blank_lines k ++ " .\n".toList := by
  induction k with
  | zero => rfl
  | succ k ih =>
    show " .\n".toList ++ Packager.flush_blank_lines (k + 1)
      = (" .\n".toList ++ Packager.flush_blank_lines k) ++ " .\n".toList
    rw [ih, List.append_assoc]

theorem fold_description_line (l : Str) (hl : single_line l = true) :
    ∀ (cur : Str) (k : Nat) (rest : Str),
      (rest = [] ∨ ∃ r, rest = '\n' :: r) →
      Packager.fold_description cur k (l ++ rest) = Packager.fold_description (cur ++ l) k rest := by
  induction l with
  | nil => intro cur k rest _; simp
  | cons c cs ih =>
    intro cur k rest hrest
    simp only [single_line, List.all_cons, Bool.and_eq_true, bne_iff_ne, ne_eq] at hl
    have hc : c ≠ '\n' := hl.1
    simp only [List.cons_append, Packager.fold_description, hc, if_false, List.append_eq]
    rw [ih (by simpa [single_line] using hl.2) _ _ _ hrest]
    simp

theorem not_all_blank_of_trimmed (l : Str) (hne : l ≠ []) (h : trimmed_line l = true) :
    l.all (fun x => decide (x = ' ')) = false := by
  cases l with
  | nil => exact absurd rfl hne
  | cons c cs =>
    have hs := (trimmed_line_parts h).2.1
    unfold starts_with_space at hs
    simp only at hs
    have hc : c ≠ ' ' := by
      intro hc
      rw [hc] at hs
      exact absurd hs (by decide)
    simp [hc]

theorem join_lines_cons_cons (l l2 : Str) (ls : List Str) :
    join_lines (l :: l2 :: ls) = l ++ '\n' :: join_lines (l2 :: ls) := by
  simp [join_lines, List.intercalate, List.intersperse]

theorem fold_description_lines (lines : List Str) (hne : lines ≠ [])
    (hwf : ∀ l ∈ lines, trimmed_line l = true)
    (hlast : ∀ l, lines.getLast? = some l → l ≠ []) :
    ∀ k : Nat, Packager.fold_description [] k (join_lines lines)
      = Packager.flush_blank_lines k ++ render_cont (lines.map dot_if_empty) := by
  induction lines with
  | nil => exact absurd rfl hne
  | cons l ls ih =>
    intro k
    have hl := hwf l (by simp)
    cases ls with
    | nil =>
      have hlne : l ≠ [] := hlast l (by simp)
      have hj : join_lines [l] = l := by simp [join_lines, List.intercalate]
      have h1 := fold_description_line l (trimmed_line_parts hl).1 [] k [] (Or.inl rfl)
      rw [List.append_nil, List.nil_append] at h1
      rw [hj, h1]
      cases l with
      | nil => exact absurd rfl hlne
      | cons c cs =>
        simp [Packager.fold_description, render_cont, dot_if_empty]
    | cons l2 ls2 =>
      have hih := ih (by simp) (fun x hx => hwf x (by simp [hx]))
        (fun x hx => hlast x (by simpa using hx))
      rw [join_lines_cons_cons,
        fold_description_line l (trimmed_line_parts hl).1 [] k _ (Or.inr ⟨_, rfl⟩),
        List.nil_append, Packager.fold_description]
      simp only [if_true]
      by_cases hlne : l = []
      · subst hlne
        simp only [List.all_nil, if_true]
        rw [hih (k + 1), flush_blank_lines_succ]
        simp [render_cont, dot_if_empty]
      · rw [not_all_blank_of_trimmed l hlne hl]
        simp only [Bool.false_eq_true, if_false]
        rw [hih 0]
        have hd : dot_if_empty l = l := by
          unfold dot_if_empty
          cases l with
          | nil => exact absurd rfl hlne
          | cons c cs => rfl
        simp [render_cont, hd, Packager.flush_blank_lines]

theorem description_part_eq (summary description : Str) (lines : List Str)
    (hdesc : description = join_lines lines)
    (hwf : ∀ l ∈ lines, trimmed_line l = true)
    (hlast : ∀ l, lines.getLast? = some l → l ≠ [])
    (hsummary : description ≠ [] → summary ≠ []) :
    Packager.field_line "Description".toList summary
        ++ (if !description.isEmpty then
              (if summary.isEmpty then "Description: ".toList else [])
                ++ Packager.fold_description [] 0 description
            else [])
      = render_entries (if summary.isEmpty then []
          else [{ name := "Description".toList, first := summary,
                  cont := lines.map dot_if_empty }]) := by
  by_cases hlines : lines = []
  · subst hlines
    have hd : description = [] := by rw [hdesc]; rfl
    subst hd
    unfold Packager.field_line
    cases hs : summary.isEmpty
    · simp [render_entries, render_entry, render_cont]
    · simp [render_entries]
  · have hfold := fold_description_lines lines hlines hwf hlast 0
    rw [← hdesc] at hfold
    have hdne : description ≠ [] := by
      intro hd
      rw [hd] at hfold
      obtain ⟨l, ls, rfl⟩ : ∃ l ls, lines = l :: ls := by
        cases lines with
        | nil => exact absurd rfl hlines
        | cons l ls => exact ⟨l, ls, rfl⟩
      simp [Packager.fold_description, Packager.flush_blank_lines, render_cont] at hfold
    have hsne := hsummary hdne
    have hs : summary.isEmpty = false := by
      cases summary with
      | nil => exact absurd rfl hsne
      | cons c cs => rfl
    have hde : description.isEmpty = false := by
      cases description with
      | nil => exact absurd rfl hdne
      | cons c cs => rfl
    unfold Packager.field_line
    simp only [hs, hde, Bool.not_false, if_true, Bool.false_eq_true, if_false, hfold,
      render_entries, render_entry, Packager.flush_blank_lines, List.nil_append,
      List.append_nil]

theorem version_part_eq (version package_version : Str) :
    (if !version.isEmpty then
        "Version: ".toList ++ version ++ "-".toList ++ package_version ++ "\n".toList
      else [])
      = render_entries (if version.isEmpty then []
          else [{ name := "Version".toList,
                  first := version ++ "-".toList ++ package_version, cont := [] }]) := by
  cases h : version.isEmpty
  · simp [render_entries, render_entry, render_cont]
  · simp [render_entries]

theorem control_as_text_eq_render (p : Packager) (lines : List Str)
    (hitems : ∀ item ∈ p._items_to_package, item._component_flags = CF_None)
    (hdesc : p._description = join_lines lines)
    (hwf : ∀ l ∈ lines, trimmed_line l = true)
    (hlast : ∀ l, lines.getLast? = some l → l ≠ [])
    (hsummary : p._description ≠ [] → p._summary ≠ []) :
    p.control_as_text = render_entries (entries_of p lines) := by
  unfold Packager.control_as_text entries_of
  simp only [render_entries_append, render_entries_simple_entry,
    components_loop_none _ hitems, List.append_nil]
  rw [← version_part_eq,
    ← description_part_eq p._summary p._description lines hdesc hwf hlast hsummary]
  simp only [List.append_assoc]

/-! ## What each setter stores -/

@[simp] theorem fields_set_error (p : Packager) (w : Nat) (m : Str) :
    (p.set_error w m).fields = p.fields := rfl

@[simp] theorem fields_clear_error (p : Packager) (w : Nat) :
    (p.clear_error w).fields = p.fields := by
  unfold Packager.clear_error
  split <;> rfl

@[simp] theorem fields_modified (p : Packager) (m : Bool) :
    (p.modified m).fields = p.fields := by
  unfold Packager.modified
  split <;> rfl

@[simp] theorem fields_require_entered (p : Packager) (w : Nat) (v : Str) :
    (p.require_entered w v).fields = p.fields := by
  unfold Packager.require_entered
  split <;> simp

theorem fields_ite {c : Prop} [Decidable c] (a b : Packager) :
    (if c then a else b).fields = if c then a.fields else b.fields := by
  split <;> rfl

theorem fields_package_name (p : Packager) (v : Str) :
    (p.package_name v).fields = { p.fields with package_name := v } := by
  unfold Packager.package_name
  rw [fields_require_entered]
  rfl

theorem fields_version (p : Packager) (v : Str) :
    (p.version v).fields = { p.fields with version := v } := by
  unfold Packager.version
  rw [fields_require_entered]
  rfl

theorem fields_package_version (p : Packager) (v : Str) :
    (p.package_version v).fields = { p.fields with package_version := v } := by
  unfold Packager.package_version
  rw [fields_require_entered]
  rfl

theorem fields_section (p : Packager) (v : Str) :
    (p.section_ v).fields = { p.fields with section_ := v } := by
  unfold Packager.section_
  rw [fields_require_entered]
  rfl

theorem fields_priority (p : Packager) (v : Str) :
    (p.priority v).fields = { p.fields with priority := v } := by
  unfold Packager.priority
  rw [fields_require_entered]
  rfl

theorem fields_summary (p : Packager) (v : Str) :
    (p.summary v).fields = { p.fields with summary := v } := by
  unfold Packager.summary
  rw [fields_require_entered]
  rfl

theorem fields_licence (p : Packager) (v : Str) :
    (p.licence v).fields = { p.fields with licence := v } := by
  unfold Packager.licence
  rw [fields_require_entered]
  rfl

theorem fields_copyright (p : Packager) (v : Str) :
    (p.copyright v).fields = { p.fields with copyright := v } := by
  unfold Packager.copyright
  rw [fields_require_entered]
  rfl

theorem fields_description (p : Packager) (v : Str) :
    (p.description v).fields = { p.fields with description := v } := by
  unfold Packager.description
  rw [fields_modified]
  rfl

theorem fields_maintainer (p : Packager) (v : Str) :
    (p.maintainer v).fields = { p.fields with maintainer := v } := by
  unfold Packager.maintainer
  rw [fields_modified]
  dsimp only
  split
  · rfl
  · split
    · split
      · rfl
      · rw [fields_clear_error]; rfl
    · rfl

theorem fields_standards_version (p : Packager) (v : Str) :
    (p.standards_version v).fields = { p.fields with standards_version := v } := by
  unfold Packager.standards_version
  rw [fields_modified]
  dsimp only
  repeat' first
    | rfl
    | (rw [fields_clear_error]; rfl)
    | rw [fields_ite]
    | split

theorem fields_check_depends (p : Packager) (w : Nat) (v : Str) :
    (p.check_depends w v).fields = p.fields := by
  unfold Packager.check_depends
  dsimp only
  split
  · simp
  · split <;> simp

theorem fields_depends (p : Packager) (v : Str) :
    (p.depends v).fields = { p.fields with depends := v } := by
  unfold Packager.depends
  rw [fields_modified, fields_check_depends]
  rfl

theorem fields_recommends (p : Packager) (v : Str) :
    (p.recommends v).fields = { p.fields with recommends := v } := by
  unfold Packager.recommends
  rw [fields_modified, fields_check_depends]
  rfl

theorem fields_suggests (p : Packager) (v : Str) :
    (p.suggests v).fields = { p.fields with suggests := v } := by
  unfold Packager.suggests
  rw [fields_modified, fields_check_depends]
  rfl

theorem fields_conflicts (p : Packager) (v : Str) :
    (p.conflicts v).fields = { p.fields with conflicts := v } := by
  unfold Packager.conflicts
  rw [fields_modified, fields_check_depends]
  rfl

theorem set_control_field_simple :
    (∀ (p : Packager) (v : Str), p.set_control_field "Package".toList v = (p.package_name v, none))
    ∧ (∀ (p : Packager) (v : Str), p.set_control_field "Section".toList v = (p.section_ v, none))
    ∧ (∀ (p : Packager) (v : Str), p.set_control_field "Priority".toList v = (p.priority v, none))
    ∧ (∀ (p : Packager) (v : Str),
        p.set_control_field "Maintainer".toList v = (p.maintainer v, none))
    ∧ (∀ (p : Packager) (v : Str),
        p.set_control_field "Standards-Version".toList v = (p.standards_version v, none))
    ∧ (∀ (p : Packager) (v : Str), p.set_control_field "Licence".toList v = (p.licence v, none))
    ∧ (∀ (p : Packager) (v : Str), p.set_control_field "Depends".toList v = (p.depends v, none))
    ∧ (∀ (p : Packager) (v : Str),
        p.set_control_field "Recommends".toList v = (p.recommends v, none))
    ∧ (∀ (p : Packager) (v : Str), p.set_control_field "Suggests".toList v = (p.suggests v, none))
    ∧ (∀ (p : Packager) (v : Str),
        p.set_control_field "Conflicts".toList v = (p.conflicts v, none)) :=
  ⟨fun _ _ => rfl, fun _ _ => rfl, fun _ _ => rfl, fun _ _ => rfl, fun _ _ => rfl,
    fun _ _ => rfl, fun _ _ => rfl, fun _ _ => rfl, fun _ _ => rfl, fun _ _ => rfl⟩

theorem commit_all_simple (name : Str) (g : Packager → Str → Packager)
    (hg : ∀ (p : Packager) (v : Str), p.set_control_field name v = (g p v, none))
    (v : Str) (rest : List ControlEntry) (p : Packager) :
    commit_all (simple_entry name v ++ rest) p
      = commit_all rest (if v.isEmpty then p else g p v) := by
  unfold simple_entry
  cases h : v.isEmpty
  · simp [commit_all, entry_value, cont_value, hg]
  · simp

theorem rfind_char_append (c : Char) (b : Str) (hb : c ∉ b) :
    ∀ a : Str, Packager.rfind_char c (a ++ c :: b) = some a.length := by
  have hb' : Packager.rfind_char c b = none := by
    induction b with
    | nil => rfl
    | cons x xs ih =>
      have hx : x ≠ c := fun h => hb (by simp [h])
      simp only [Packager.rfind_char, ih (fun h => hb (by simp [h])), hx, if_false]
  intro a
  induction a with
  | nil => simp [Packager.rfind_char, hb']
  | cons x xs ih =>
    simp only [List.cons_append, Packager.rfind_char, List.append_eq, ih, List.length_cons]

theorem find_char_none (c : Char) (a : Str) (ha : c ∉ a) : Packager.find_char c a = none := by
  induction a with
  | nil => rfl
  | cons x xs ih =>
    have hx : x ≠ c := fun h => ha (by simp [h])
    simp only [Packager.find_char, hx, if_false, ih (fun h => ha (by simp [h])), Option.map_none']

theorem find_char_append (c : Char) (a b : Str) (ha : c ∉ a) :
    Packager.find_char c (a ++ c :: b) = some a.length := by
  induction a with
  | nil => simp [Packager.find_char]
  | cons x xs ih =>
    have hx : x ≠ c := fun h => ha (by simp [h])
    simp only [List.cons_append, Packager.find_char, hx, if_false, List.append_eq,
      ih (fun h => ha (by simp [h])), Option.map_some', List.length_cons]

theorem not_mem_newline_of_single_line (v : Str) (h : single_line v = true) : '\n' ∉ v := by
  intro hm
  unfold single_line at h
  rw [List.all_eq_true] at h
  have := h _ hm
  simp at this

theorem commit_all_version (version package_version : Str) (hpv : '-' ∉ package_version)
    (rest : List ControlEntry) (p : Packager) :
    commit_all ((if version.isEmpty then []
        else [{ name := "Version".toList,
                first := version ++ "-".toList ++ package_version, cont := [] }]) ++ rest) p
      = commit_all rest
          (if version.isEmpty then p else (p.version version).package_version package_version) := by
  cases h : version.isEmpty
  · have hset : p.set_control_field "Version".toList (version ++ "-".toList ++ package_version)
        = ((p.version version).package_version package_version, none) := by
      have hr := rfind_char_append '-' package_version hpv version
      have hv : version ++ "-".toList ++ package_version = version ++ '-' :: package_version := by
        simp
      rw [hv]
      have hstep : ∀ value : Str, p.set_control_field "Version".toList value
          = match Packager.rfind_char '-' value with
            | none => ((p.version value).package_version [], none)
            | some rpos =>
                ((p.version (value.take rpos)).package_version (value.drop (rpos + 1)), none) :=
        fun _ => rfl
      rw [hstep, hr]
      simp
    simp only [Bool.false_eq_true, if_false, List.singleton_append, commit_all, entry_value,
      cont_value, List.append_nil]
    rw [hset]
    rfl
  · simp

theorem cont_value_dot_if_empty (l : Str) (hl : l ≠ ".".toList) :
    (if dot_if_empty l = ['.'] then [] else dot_if_empty l) = l := by
  unfold dot_if_empty
  cases l with
  | nil => simp
  | cons c cs =>
    have h : (c :: cs) ≠ ['.'] := hl
    simp [h]

theorem cont_value_lines (lines : List Str) (hne : lines ≠ [])
    (hdot : ∀ l ∈ lines, l ≠ ".".toList) :
    cont_value (lines.map dot_if_empty) = '\n' :: join_lines lines := by
  induction lines with
  | nil => exact absurd rfl hne
  | cons l ls ih =>
    have hl := cont_value_dot_if_empty l (hdot l (by simp))
    cases ls with
    | nil =>
      simp only [List.map_cons, List.map_nil, cont_value, hl]
      simp [join_lines, List.intercalate]
    | cons l2 ls2 =>
      have hih := ih (by simp) (fun x hx => hdot x (by simp [hx]))
      rw [join_lines_cons_cons, List.map_cons, cont_value, hl, hih]
      simp

theorem commit_all_description (summary : Str) (lines : List Str)
    (hsum : single_line summary = true) (hdot : ∀ l ∈ lines, l ≠ ".".toList)
    (rest : List ControlEntry) (p : Packager) :
    commit_all ((if summary.isEmpty then []
        else [{ name := "Description".toList, first := summary,
                cont := lines.map dot_if_empty }]) ++ rest) p
      = commit_all rest
          (if summary.isEmpty then p
           else if lines = [] then p.summary summary
           else (p.summary summary).description (join_lines lines)) := by
  have hstep : ∀ value : Str, p.set_control_field "Description".toList value
      = match Packager.find_char '\n' value with
        | none => (p.summary value, none)
        | some eolpos =>
            ((p.summary (value.take eolpos)).description (value.drop (eolpos + 1)), none) :=
    fun _ => rfl
  have hnl := not_mem_newline_of_single_line summary hsum
  cases h : summary.isEmpty
  · simp only [Bool.false_eq_true, if_false, List.singleton_append, commit_all, entry_value]
    by_cases hlines : lines = []
    · subst hlines
      simp only [List.map_nil, cont_value, List.append_nil, if_true]
      rw [hstep, find_char_none _ _ hnl]
      rfl
    · rw [if_neg hlines, cont_value_lines lines hlines hdot, hstep,
        find_char_append _ _ _ hnl]
      simp
  · simp

theorem commit_all_entries_of (p p0 : Packager) (lines : List Str)
    (hpv : '-' ∉ p._package_version) (hsum : single_line p._summary = true)
    (hdot : ∀ l ∈ lines, l ≠ ".".toList) :
    commit_all (entries_of p lines) p0 = (replay p lines p0, none) := by
  obtain ⟨h1, h2, h3, h4, h5, h6, h7, h8, h9, h10⟩ := set_control_field_simple
  unfold entries_of
  rw [commit_all_simple _ _ h1, commit_all_version _ _ hpv, commit_all_simple _ _ h2,
    commit_all_simple _ _ h3, commit_all_simple _ _ h4, commit_all_simple _ _ h5,
    commit_all_simple _ _ h6, commit_all_description _ _ hsum hdot,
    commit_all_simple _ _ h7, commit_all_simple _ _ h8, commit_all_simple _ _ h9,
    ← List.append_nil (simple_entry "Conflicts".toList p._conflicts),
    commit_all_simple _ _ h10]
  rfl

theorem simple_entry_well_formed (name value : Str) (hne : name ≠ [])
    (hname : ∀ c ∈ name, c ≠ ':' ∧ isspace c = false) (hv : trimmed_line value = true) :
    ∀ e ∈ simple_entry name value, e.well_formed := by
  intro e he
  unfold simple_entry at he
  cases h : value.isEmpty
  · rw [h] at he
    simp only [Bool.false_eq_true, if_false, List.mem_singleton] at he
    subst he
    refine ⟨hne, hname, ?_, hv, ?_⟩
    · intro hv0
      rw [show value = [] from hv0] at h
      exact absurd h (by decide)
    · intro c hc
      simp at hc
  · rw [h] at he
    simp at he

theorem starts_with_space_append (a b : Str) (ha : a ≠ []) :
    starts_with_space (a ++ b) = starts_with_space a := by
  cases a with
  | nil => exact absurd rfl ha
  | cons c cs => rfl

theorem version_entry_trimmed (version package_version : Str) (hne : version ≠ [])
    (hv : trimmed_line version = true) (hpv : trimmed_line package_version = true) :
    trimmed_line (version ++ "-".toList ++ package_version) = true := by
  obtain ⟨h1, h2, _⟩ := trimmed_line_parts hv
  obtain ⟨g1, _, g3⟩ := trimmed_line_parts hpv
  have hs : single_line (version ++ "-".toList ++ package_version) = true := by
    rw [single_line_append, single_line_append, h1, g1]
    rfl
  have hstart : starts_with_space (version ++ "-".toList ++ package_version) = false := by
    rw [List.append_assoc, starts_with_space_append _ _ hne]
    exact h2
  have hend : ends_with_space (version ++ "-".toList ++ package_version) = false := by
    by_cases hp : package_version = []
    · subst hp
      rw [List.append_nil, ends_with_space_append _ _ (by decide)]
      rfl
    · rw [ends_with_space_append _ _ hp]
      exact g3
  unfold trimmed_line
  rw [hs, hstart, hend]
  rfl

theorem entries_of_well_formed (p : Packager) (lines : List Str)
    (h : round_trip_conditions p lines) : ∀ e ∈ entries_of p lines, e.well_formed := by
  obtain ⟨_, hname, hversion, hpv, _, hsection, hpriority, hmaintainer, hsv, hlicence, hsum,
    hdepends, hrecommends, hsuggests, hconflicts, _, hlines, _, _⟩ := h
  intro e he
  unfold entries_of at he
  simp only [List.mem_append] at he
  rcases he with he | he | he | he | he | he | he | he | he | he | he | he
  · exact simple_entry_well_formed _ _ (by decide) (by decide) hname e he
  · cases hv : p._version.isEmpty
    · rw [hv] at he
      simp only [Bool.false_eq_true, if_false, List.mem_singleton] at he
      subst he
      have hne : p._version ≠ [] := by
        intro h0
        rw [h0] at hv
        exact absurd hv (by decide)
      refine ⟨(show "Version".toList ≠ [] by decide),
        (show ∀ c ∈ "Version".toList, c ≠ ':' ∧ isspace c = false by decide), ?_,
        version_entry_trimmed _ _ hne hversion hpv, ?_⟩
      · intro h0
        have := congrArg List.length h0
        simp at this
      · intro c hc
        simp at hc
    · rw [hv] at he
      simp at he
  · exact simple_entry_well_formed _ _ (by decide) (by decide) hsection e he
  · exact simple_entry_well_formed _ _ (by decide) (by decide) hpriority e he
  · exact simple_entry_well_formed _ _ (by decide) (by decide) hmaintainer e he
  · exact simple_entry_well_formed _ _ (by decide) (by decide) hsv e he
  · exact simple_entry_well_formed _ _ (by decide) (by decide) hlicence e he
  · cases hs : p._summary.isEmpty
    · rw [hs] at he
      simp only [Bool.false_eq_true, if_false, List.mem_singleton] at he
      subst he
      refine ⟨(show "Description".toList ≠ [] by decide),
        (show ∀ c ∈ "Description".toList, c ≠ ':' ∧ isspace c = false by decide), ?_,
        hsum, ?_⟩
      · intro h0
        rw [show p._summary = [] from h0] at hs
        exact absurd hs (by decide)
      · intro c hc
        simp only [List.mem_map] at hc
        obtain ⟨l, hl, rfl⟩ := hc
        unfold dot_if_empty
        cases hle : l.isEmpty
        · simp only [Bool.false_eq_true, if_false]
          refine ⟨?_, (hlines l hl).1⟩
          intro h0
          rw [h0] at hle
          exact absurd hle (by decide)
        · simp only [if_true]
          exact ⟨by decide, by decide⟩
    · rw [hs] at he
      simp at he
  · exact simple_entry_well_formed _ _ (by decide) (by decide) hdepends e he
  · exact simple_entry_well_formed _ _ (by decide) (by decide) hrecommends e he
  · exact simple_entry_well_formed _ _ (by decide) (by decide) hsuggests e he
  · exact simple_entry_well_formed _ _ (by decide) (by decide) hconflicts e he

/-! ## The values after the replay of the setters -/

theorem replay_package_name (p p0 : Packager) (lines : List Str) :
    (replay p lines p0)._package_name
      = if p._package_name.isEmpty then p0._package_name else p._package_name := by
  show (replay p lines p0).fields.package_name = _
  unfold replay
  simp only [fields_ite, apply_ite Fields.package_name, fields_package_name, fields_version,
    fields_package_version, fields_section, fields_priority, fields_maintainer,
    fields_standards_version, fields_licence, fields_summary, fields_description,
    fields_depends, fields_recommends, fields_suggests, fields_conflicts, ite_self]
  rfl

theorem replay_version (p p0 : Packager) (lines : List Str) :
    (replay p lines p0)._version
      = if p._version.isEmpty then p0._version else p._version := by
  show (replay p lines p0).fields.version = _
  unfold replay
  simp only [fields_ite, apply_ite Fields.version, fields_package_name, fields_version,
    fields_package_version, fields_section, fields_priority, fields_maintainer,
    fields_standards_version, fields_licence, fields_summary, fields_description,
    fields_depends, fields_recommends, fields_suggests, fields_conflicts, ite_self]
  rfl

theorem replay_section_ (p p0 : Packager) (lines : List Str) :
    (replay p lines p0)._section
      = if p._section.isEmpty then p0._section else p._section := by
  show (replay p lines p0).fields.section_ = _
  unfold replay
  simp only [fields_ite, apply_ite Fields.section_, fields_package_name, fields_version,
    fields_package_version, fields_section, fields_priority, fields_maintainer,
    fields_standards_version, fields_licence, fields_summary, fields_description,
    fields_depends, fields_recommends, fields_suggests, fields_conflicts, ite_self]
  rfl

theorem replay_priority (p p0 : Packager) (lines : List Str) :
    (replay p lines p0)._priority
      = if p._priority.isEmpty then p0._priority else p._priority := by
  show (replay p lines p0).fields.priority = _
  unfold replay
  simp only [fields_ite, apply_ite Fields.priority, fields_package_name, fields_version,
    fields_package_version, fields_section, fields_priority, fields_maintainer,
    fields_standards_version, fields_licence, fields_summary, fields_description,
    fields_depends, fields_recommends, fields_suggests, fields_conflicts, ite_self]
  rfl

theorem replay_maintainer (p p0 : Packager) (lines : List Str) :
    (replay p lines p0)._maintainer
      = if p._maintainer.isEmpty then p0._maintainer else p._maintainer := by
  show (replay p lines p0).fields.maintainer = _
  unfold replay
  simp only [fields_ite, apply_ite Fields.maintainer, fields_package_name, fields_version,
    fields_package_version, fields_section, fields_priority, fields_maintainer,
    fields_standards_version, fields_licence, fields_summary, fields_description,
    fields_depends, fields_recommends, fields_suggests, fields_conflicts, ite_self]
  rfl

theorem replay_standards_version (p p0 : Packager) (lines : List Str) :
    (replay p lines p0)._standards_version
      = if p._standards_version.isEmpty then p0._standards_version else p._standards_version := by
  show (replay p lines p0).fields.standards_version = _
  unfold replay
  simp only [fields_ite, apply_ite Fields.standards_version, fields_package_name, fields_version,
    fields_package_version, fields_section, fields_priority, fields_maintainer,
    fields_standards_version, fields_licence, fields_summary, fields_description,
    fields_depends, fields_recommends, fields_suggests, fields_conflicts, ite_self]
  rfl

theorem replay_licence (p p0 : Packager) (lines : List Str) :
    (replay p lines p0)._licence
      = if p._licence.isEmpty then p0._licence else p._licence := by
  show (replay p lines p0).fields.licence = _
  unfold replay
  simp only [fields_ite, apply_ite Fields.licence, fields_package_name, fields_version,
    fields_package_version, fields_section, fields_priority, fields_maintainer,
    fields_standards_version, fields_licence, fields_summary, fields_description,
    fields_depends, fields_recommends, fields_suggests, fields_conflicts, ite_self]
  rfl

theorem replay_summary (p p0 : Packager) (lines : List Str) :
    (replay p lines p0)._summary
      = if p._summary.isEmpty then p0._summary else p._summary := by
  show (replay p lines p0).fields.summary = _
  unfold replay
  simp only [fields_ite, apply_ite Fields.summary, fields_package_name, fields_version,
    fields_package_version, fields_section, fields_priority, fields_maintainer,
    fields_standards_version, fields_licence, fields_summary, fields_description,
    fields_depends, fields_recommends, fields_suggests, fields_conflicts, ite_self]
  rfl

theorem replay_depends (p p0 : Packager) (lines : List Str) :
    (replay p lines p0)._depends
      = if p._depends.isEmpty then p0._depends else p._depends := by
  show (replay p lines p0).fields.depends = _
  unfold replay
  simp only [fields_ite, apply_ite Fields.depends, fields_package_name, fields_version,
    fields_package_version, fields_section, fields_priority, fields_maintainer,
    fields_standards_version, fields_licence, fields_summary, fields_description,
    fields_depends, fields_recommends, fields_suggests, fields_conflicts, ite_self]
  rfl

theorem replay_recommends (p p0 : Packager) (lines : List Str) :
    (replay p lines p0)._recommends
      = if p._recommends.isEmpty then p0._recommends else p._recommends := by
  show (replay p lines p0).fields.recommends = _
  unfold replay
  simp only [fields_ite, apply_ite Fields.recommends, fields_package_name, fields_version,
    fields_package_version, fields_section, fields_priority, fields_maintainer,
    fields_standards_version, fields_licence, fields_summary, fields_description,
    fields_depends, fields_recommends, fields_suggests, fields_conflicts, ite_self]
  rfl

theorem replay_suggests (p p0 : Packager) (lines : List Str) :
    (replay p lines p0)._suggests
      = if p._suggests.isEmpty then p0._suggests else p._suggests := by
  show (replay p lines p0).fields.suggests = _
  unfold replay
  simp only [fields_ite, apply_ite Fields.suggests, fields_package_name, fields_version,
    fields_package_version, fields_section, fields_priority, fields_maintainer,
    fields_standards_version, fields_licence, fields_summary, fields_description,
    fields_depends, fields_recommends, fields_suggests, fields_conflicts, ite_self]
  rfl

theorem replay_conflicts (p p0 : Packager) (lines : List Str) :
    (replay p lines p0)._conflicts
      = if p._conflicts.isEmpty then p0._conflicts else p._conflicts := by
  show (replay p lines p0).fields.conflicts = _
  unfold replay
  simp only [fields_ite, apply_ite Fields.conflicts, fields_package_name, fields_version,
    fields_package_version, fields_section, fields_priority, fields_maintainer,
    fields_standards_version, fields_licence, fields_summary, fields_description,
    fields_depends, fields_recommends, fields_suggests, fields_conflicts, ite_self]
  rfl

theorem replay_package_version (p p0 : Packager) (lines : List Str) :
    (replay p lines p0)._package_version
      = if p._version.isEmpty then p0._package_version else p._package_version := by
  show (replay p lines p0).fields.package_version = _
  unfold replay
  simp only [fields_ite, apply_ite Fields.package_version, fields_package_name, fields_version,
    fields_package_version, fields_section, fields_priority, fields_maintainer,
    fields_standards_version, fields_licence, fields_summary, fields_description,
    fields_depends, fields_recommends, fields_suggests, fields_conflicts, ite_self]
  rfl

theorem replay_description (p p0 : Packager) (lines : List Str) :
    (replay p lines p0)._description
      = if p._summary.isEmpty then p0._description
        else if lines = [] then p0._description else join_lines lines := by
  show (replay p lines p0).fields.description = _
  unfold replay
  simp only [fields_ite, apply_ite Fields.description, fields_package_name, fields_version,
    fields_package_version, fields_section, fields_priority, fields_maintainer,
    fields_standards_version, fields_licence, fields_summary, fields_description,
    fields_depends, fields_recommends, fields_suggests, fields_conflicts, ite_self]
  rfl

theorem read_control_of_control_as_text (p p0 : Packager) (lines : List Str)
    (h : round_trip_conditions p lines) :
    p0.read_control p.control_as_text = (replay p lines p0, none) := by
  have hwf := entries_of_well_formed p lines h
  obtain ⟨hitems, _, _, _, hdash, _, _, _, _, _, hsum, _, _, _, _, hdesc, hlines, hlast,
    hsummary⟩ := h
  rw [control_as_text_eq_render p lines hitems hdesc (fun l hl => (hlines l hl).1)
      (fun l hl hn => hlast (by rw [hl, hn])) hsummary,
    read_control_render_entries _ hwf,
    commit_all_entries_of p p0 lines hdash (trimmed_line_parts hsum).1
      (fun l hl => (hlines l hl).2)]

theorem isEmpty_eq_false_of_ne_nil {v : Str} (h : v ≠ []) : v.isEmpty = false := by
  cases v with
  | nil => exact absurd rfl h
  | cons c cs => rfl

/-- C2 as amended: for every record that meets `round_trip_conditions` (no movable item,
fields on single lines without leading or trailing white space, no `-` in the revision,
description lines without leading or trailing white space, none a lone full stop and
the last one not empty, a summary whenever there is a description), `read_control` on
the text of `control_as_text`, into a freshly constructed record, returns without a
format error and gives back the value of every field that was written: the package
name, the upstream version and the revision, the section, the priority, the maintainer,
the standards version, the licence, the summary and the description (empty lines
included), and the four dependency fields. -/
theorem control_round_trip (p : Packager) (lines : List Str)
    (h : round_trip_conditions p lines) :
    (Packager.new.read_control p.control_as_text).2 = none
      ∧ (p._package_name ≠ [] →
          (Packager.new.read_control p.control_as_text).1._package_name = p._package_name)
      ∧ (p._version ≠ [] →
          (Packager.new.read_control p.control_as_text).1._version = p._version
            ∧ (Packager.new.read_control p.control_as_text).1._package_version
                = p._package_version)
      ∧ (p._section ≠ [] →
          (Packager.new.read_control p.control_as_text).1._section = p._section)
      ∧ (p._priority ≠ [] →
          (Packager.new.read_control p.control_as_text).1._priority = p._priority)
      ∧ (p._maintainer ≠ [] →
          (Packager.new.read_control p.control_as_text).1._maintainer = p._maintainer)
      ∧ (p._standards_version ≠ [] →
          (Packager.new.read_control p.control_as_text).1._standards_version
            = p._standards_version)
      ∧ (p._licence ≠ [] →
          (Packager.new.read_control p.control_as_text).1._licence = p._licence)
      ∧ (p._summary ≠ [] →
          (Packager.new.read_control p.control_as_text).1._summary = p._summary
            ∧ (Packager.new.read_control p.control_as_text).1._description = p._description)
      ∧ (p._depends ≠ [] →
          (Packager.new.read_control p.control_as_text).1._depends = p._depends)
      ∧ (p._recommends ≠ [] →
          (Packager.new.read_control p.control_as_text).1._recommends = p._recommends)
      ∧ (p._suggests ≠ [] →
          (Packager.new.read_control p.control_as_text).1._suggests = p._suggests)
      ∧ (p._conflicts ≠ [] →
          (Packager.new.read_control p.control_as_text).1._conflicts = p._conflicts) := by
  rw [read_control_of_control_as_text p Packager.new lines h]
  have hdesc : p._description = join_lines lines := h.2.2.2.2.2.2.2.2.2.2.2.2.2.2.2.1
  refine ⟨rfl, ?_, ?_, ?_, ?_, ?_, ?_, ?_, ?_, ?_, ?_, ?_, ?_⟩
  · intro hne
    simp only [replay_package_name, isEmpty_eq_false_of_ne_nil hne, Bool.false_eq_true, if_false]
  · intro hne
    simp only [replay_version, replay_package_version, isEmpty_eq_false_of_ne_nil hne,
      Bool.false_eq_true, if_false, and_self]
  · intro hne
    simp only [replay_section_, isEmpty_eq_false_of_ne_nil hne, Bool.false_eq_true, if_false]
  · intro hne
    simp only [replay_priority, isEmpty_eq_false_of_ne_nil hne, Bool.false_eq_true, if_false]
  · intro hne
    simp only [replay_maintainer, isEmpty_eq_false_of_ne_nil hne, Bool.false_eq_true, if_false]
  · intro hne
    simp only [replay_standards_version, isEmpty_eq_false_of_ne_nil hne, Bool.false_eq_true,
      if_false]
  · intro hne
    simp only [replay_licence, isEmpty_eq_false_of_ne_nil hne, Bool.false_eq_true, if_false]
  · intro hne
    simp only [replay_summary, replay_description, isEmpty_eq_false_of_ne_nil hne,
      Bool.false_eq_true, if_false, true_and]
    by_cases hl : lines = []
    · rw [if_pos hl, hdesc, hl]
      rfl
    · rw [if_neg hl, hdesc]
  · intro hne
    simp only [replay_depends, isEmpty_eq_false_of_ne_nil hne, Bool.false_eq_true, if_false]
  · intro hne
    simp only [replay_recommends, isEmpty_eq_false_of_ne_nil hne, Bool.false_eq_true, if_false]
  · intro hne
    simp only [replay_suggests, isEmpty_eq_false_of_ne_nil hne, Bool.false_eq_true, if_false]
  · intro hne
    simp only [replay_conflicts, isEmpty_eq_false_of_ne_nil hne, Bool.false_eq_true, if_false]

set_option maxRecDepth 100000 in
/-- C2 as amended, at a record whose description has two empty lines in the middle. -/
theorem control_round_trip_witness :
    round_trip_conditions example_record_described
        ["First line".toList, [], [], "Last line".toList]
      ∧ (Packager.new.read_control example_record_described.control_as_text).2 = none
      ∧ (Packager.new.read_control example_record_described.control_as_text).1._description
          = "First line\n\n\nLast line".toList :=
  ⟨by decide,
    (control_round_trip example_record_described
      ["First line".toList, [], [], "Last line".toList] (by decide)).1,
    ((control_round_trip example_record_described
      ["First line".toList, [], [], "Last line".toList] (by decide)).2.2.2.2.2.2.2.2.1
        (by decide)).2⟩

/-! ## The shape of the standards version (C11) -/

theorem sv_scan_stopped (v : Str) (last_dot : Bool) (n : Nat) :
    Packager.sv_scan v false last_dot n = (false, last_dot, n) := by
  cases v <;> simp [Packager.sv_scan]

theorem two_dots_together_cons {c : Char} {cs : Str} (h : two_dots_together (c :: cs)) :
    (c = '.' ∧ cs.head? = some '.') ∨ two_dots_together cs := by
  obtain ⟨a, b, hab⟩ := h
  cases a with
  | nil =>
    simp only [List.nil_append, List.cons.injEq] at hab
    left
    exact ⟨hab.1, by rw [hab.2]; rfl⟩
  | cons x xs =>
    simp only [List.cons_append, List.cons.injEq] at hab
    right
    exact ⟨xs, b, hab.2⟩

theorem sv_scan_ok (v : Str) :
    ∀ (last_dot : Bool) (n : Nat),
      (Packager.sv_scan v true last_dot n).1 = true →
      (Packager.sv_scan v true last_dot n).2.1 = false →
        (Packager.sv_scan v true last_dot n).2.2 = n + v.count '.'
          ∧ ¬ two_dots_together v
          ∧ (last_dot = true → v.head? ≠ some '.')
          ∧ v.getLast? ≠ some '.'
          ∧ (v = [] → last_dot = false) := by
  induction v with
  | nil =>
    intro last_dot n _ h2
    simp only [Packager.sv_scan] at h2
    refine ⟨by simp [Packager.sv_scan], ?_, by simp, by simp, fun _ => h2⟩
    rintro ⟨a, b, hab⟩
    cases a <;> simp at hab
  | cons c cs ih =>
    intro last_dot n h1 h2
    by_cases hc : c = '.'
    · subst hc
      cases last_dot with
      | true =>
        simp only [Packager.sv_scan, Bool.not_true, Bool.false_eq_true, if_false, if_true,
          sv_scan_stopped] at h1
      | false =>
        simp only [Packager.sv_scan, Bool.not_true, Bool.false_eq_true, if_false, if_true]
          at h1 h2 ⊢
        obtain ⟨g1, g2, g3, g4, g5⟩ := ih true (n + 1) h1 h2
        have hne : cs ≠ [] := fun h0 => absurd (g5 h0) (by decide)
        refine ⟨by rw [g1]; simp; omega, ?_, by simp, ?_, by simp⟩
        · intro htd
          rcases two_dots_together_cons htd with ⟨_, hh⟩ | hh
          · exact g3 rfl hh
          · exact g2 hh
        · obtain ⟨x, xs, rfl⟩ := List.exists_cons_of_ne_nil hne
          rw [List.getLast?_cons_cons]
          exact g4
    · simp only [Packager.sv_scan, Bool.not_true, Bool.false_eq_true, if_false, hc] at h1 h2 ⊢
      obtain ⟨g1, g2, _, g4, _⟩ := ih false n h1 h2
      refine ⟨?_, ?_, ?_, ?_, by simp⟩
      · rw [g1, List.count_cons_of_ne (Ne.symm hc)]
      · intro htd
        rcases two_dots_together_cons htd with ⟨hh, _⟩ | hh
        · exact hc hh
        · exact g2 hh
      · intro _ hh
        simp only [List.head?_cons, Option.some.injEq] at hh
        exact hc hh
      · by_cases hne : cs = []
        · subst hne
          simp only [List.getLast?_singleton, ne_eq, Option.some.injEq]
          exact hc
        · obtain ⟨x, xs, rfl⟩ := List.exists_cons_of_ne_nil hne
          rw [List.getLast?_cons_cons]
          exact g4

theorem error_text_set_error_ne {p : Packager} (h : ErrInv p) {w : Nat} (hw : w < NUM_ITEMS)
    {msg : Str} (hm : msg ≠ []) : (p.set_error w msg).error_text w ≠ [] := by
  rw [error_text_set_error]
  · exact hm
  · rw [h.1]; exact hw


/-- C11: `standards_version` leaves a non-empty error in the STANDARDS_VERSION slot for every
value that is empty, has fewer than three or more than four components separated by dots,
begins with a dot, ends with a dot, or holds two dots next to each other. -/
theorem standards_version_rejects_malformed (p : Packager) (hp : Reachable p) (v : Str)
    (h : v = [] ∨ component_count v < 3 ∨ component_count v > 4 ∨ v.head? = some '.'
      ∨ v.getLast? = some '.' ∨ two_dots_together v) :
    (p.standards_version v).error_text STANDARDS_VERSION ≠ [] := by
  have hinv : ErrInv ({ p with _standards_version := v } : Packager) :=
    ErrInv.of_eq rfl rfl hp.errInv
  unfold Packager.standards_version
  rw [error_text_modified]
  dsimp only
  by_cases hv : v.isEmpty = true
  · rw [if_pos hv]
    exact error_text_set_error_ne hinv (by decide) (by decide)
  rw [if_neg hv]
  by_cases h3 : (Packager.sv_scan v true true 0).2.2 > 3
  · rw [if_pos h3]
    exact error_text_set_error_ne hinv (by decide) (by decide)
  rw [if_neg h3]
  by_cases h2 : (Packager.sv_scan v true true 0).2.2 < 2
  · rw [if_pos h2]
    exact error_text_set_error_ne hinv (by decide) (by decide)
  rw [if_neg h2]
  by_cases hf : (!(if (Packager.sv_scan v true true 0).2.1 = true then false
      else (Packager.sv_scan v true true 0).1)) = true
  · rw [if_pos hf]
    exact error_text_set_error_ne hinv (by decide) (by decide)
  exfalso
  have hl : (Packager.sv_scan v true true 0).2.1 = false := by
    cases hc : (Packager.sv_scan v true true 0).2.1
    · rfl
    · rw [hc] at hf
      exact absurd rfl hf
  have hk : (Packager.sv_scan v true true 0).1 = true := by
    rw [hl] at hf
    cases hc : (Packager.sv_scan v true true 0).1
    · rw [hc] at hf
      exact absurd rfl hf
    · rfl
  obtain ⟨g1, g2, g3, g4, _⟩ := sv_scan_ok v true 0 hk hl
  rw [g1] at h2 h3
  unfold component_count at h
  rcases h with h | h | h | h | h | h
  · subst h
    exact hv rfl
  · omega
  · omega
  · exact g3 rfl h
  · exact g4 h
  · exact g2 h

theorem standards_version_rejects_malformed_witness :
    (Packager.new.standards_version "1..2.3".toList).error_text STANDARDS_VERSION ≠ [] :=
  standards_version_rejects_malformed Packager.new (Reachable.new) "1..2.3".toList
    (Or.inr (Or.inr (Or.inr (Or.inr (Or.inr ⟨"1".toList, "2.3".toList, rfl⟩)))))


/-! ## The maintainer (C12) -/

theorem find_char_some {c : Char} :
    ∀ {v : Str} {n : Nat}, Packager.find_char c v = some n →
      ∃ a b : Str, v = a ++ c :: b ∧ c ∉ a ∧ a.length = n := by
  intro v
  induction v with
  | nil => intro n h; simp [Packager.find_char] at h
  | cons x xs ih =>
    intro n h
    by_cases hx : x = c
    · simp only [Packager.find_char, hx, if_true, Option.some.injEq] at h
      exact ⟨[], xs, by simp [hx], by simp, by simpa using h⟩
    · simp only [Packager.find_char, hx, if_false, Option.map_eq_some'] at h
      obtain ⟨m, hm, hmn⟩ := h
      obtain ⟨a, b, hab, hca, hlen⟩ := ih hm
      refine ⟨x :: a, b, by simp [hab], ?_, by simp [hlen, hmn]⟩
      intro hmem
      rcases List.mem_cons.mp hmem with h1 | h1
      · exact hx h1.symm
      · exact hca h1

theorem find_char_skip (c : Char) (a rest : Str) (ha : c ∉ a) :
    Packager.find_char c (a ++ rest) = (Packager.find_char c rest).map (· + a.length) := by
  induction a with
  | nil => simp
  | cons x xs ih =>
    have hx : x ≠ c := fun h => ha (by simp [h])
    simp only [List.cons_append, Packager.find_char, hx, if_false, List.append_eq,
      ih (fun h => ha (by simp [h])), Option.map_map, List.length_cons]
    congr 1

theorem find_char_mem {c : Char} {v : Str} (h : c ∈ v) :
    ∃ n, Packager.find_char c v = some n := by
  cases hf : Packager.find_char c v with
  | some n => exact ⟨n, rfl⟩
  | none =>
    exfalso
    induction v with
    | nil => simp at h
    | cons x xs ih =>
      by_cases hx : x = c
      · simp [Packager.find_char, hx] at hf
      · simp only [Packager.find_char, hx, if_false, Option.map_eq_none'] at hf
        rcases List.mem_cons.mp h with h1 | h1
        · exact hx h1.symm
        · exact ih h1 hf

theorem find_char_le (c : Char) (a b : Str) :
    ∃ n, Packager.find_char c (a ++ c :: b) = some n ∧ n ≤ a.length := by
  induction a with
  | nil => exact ⟨0, by simp [Packager.find_char], by simp⟩
  | cons x xs ih =>
    by_cases hx : x = c
    · exact ⟨0, by simp [Packager.find_char, hx], by simp⟩
    · obtain ⟨n, hn, hle⟩ := ih
      exact ⟨n + 1, by simp [Packager.find_char, hx, hn], by simp [hle]⟩

/-- The answer of `maintainer` about the '<' and the '>' of its argument. -/
theorem maintainer_error_text (p : Packager) (hp : ErrInv p) (v : Str) :
    (p.maintainer v).error_text MAINTAINER = [] ↔
      ∃ i j, Packager.find_char '<' v = some i ∧ Packager.find_char '>' v = some j ∧ i ≤ j := by
  have hinv : ErrInv ({ p with _maintainer := v } : Packager) := ErrInv.of_eq rfl rfl hp
  unfold Packager.maintainer
  rw [error_text_modified]
  by_cases hv : v.isEmpty = true
  · rw [if_pos hv]
    constructor
    · intro h
      exact absurd h (error_text_set_error_ne hinv (by decide) (by decide))
    · rintro ⟨i, j, hi, _, _⟩
      have : v = [] := by simpa using hv
      subst this
      simp [Packager.find_char] at hi
  rw [if_neg hv]
  cases hl : Packager.find_char '<' v with
  | none =>
    constructor
    · intro h
      exact absurd h (error_text_set_error_ne hinv (by decide) (by decide))
    · rintro ⟨i, j, hi, _, _⟩
      exact absurd hi (by simp)
  | some i =>
    cases hg : Packager.find_char '>' v with
    | none =>
      constructor
      · intro h
        exact absurd h (error_text_set_error_ne hinv (by decide) (by decide))
      · rintro ⟨_, j, _, hj, _⟩
        exact absurd hj (by simp)
    | some j =>
      dsimp only
      by_cases hij : i > j
      · rw [if_pos hij]
        constructor
        · intro h
          exact absurd h (error_text_set_error_ne hinv (by decide) (by decide))
        · rintro ⟨i', j', hi, hj, hle⟩
          simp only [Option.some.injEq] at hi hj
          omega
      · rw [if_neg hij]
        constructor
        · intro _
          exact ⟨i, j, rfl, rfl, by omega⟩
        · intro _
          exact error_text_clear_error _ _


/-- C12, counterexample: the text "a> <b>" holds a '<' (position 3) before a '>' (position 5),
yet `maintainer` leaves the error of a '>' before the '<' in the MAINTAINER slot, because it
compares the first '<' with the first '>'. -/
theorem maintainer_lt_before_gt_rejected :
    lt_before_gt "a> <b>".toList ∧
      (Packager.new.maintainer "a> <b>".toList).error_text MAINTAINER
        = "The '<' must appear before the '>' surrounding the email address".toList :=
  ⟨⟨"a> ".toList, "b".toList, [], rfl⟩, by decide⟩

/-- C12, amended: after `maintainer v` the MAINTAINER slot is empty exactly when the first '<'
of `v` stands before its first '>', that is when `v` holds a '<' with no '>' before it and a
'>' after it; in every other case (no '<', no '>', or the first '>' before the first '<') the
slot holds an error. -/
theorem maintainer_first_lt_before_first_gt (p : Packager) (hp : Reachable p) (v : Str) :
    (p.maintainer v).error_text MAINTAINER = [] ↔ first_lt_before_first_gt v := by
  rw [maintainer_error_text p hp.errInv v]
  constructor
  · rintro ⟨i, j, hi, hj, hle⟩
    obtain ⟨a, b, hab, hca, hlen⟩ := find_char_some hi
    obtain ⟨a', b', hab', hca', hlen'⟩ := find_char_some hj
    refine ⟨a, b, hab, ?_, ?_⟩
    · intro hmem
      obtain ⟨s, t, hst⟩ := List.append_of_mem hmem
      rw [hab, hst, List.append_assoc, List.cons_append,
        find_char_append '>' s (t ++ '<' :: b) (fun h => by
          apply hca'
          have hv2 : s ++ '>' :: (t ++ '<' :: b) = a' ++ '>' :: b' := by
            rw [← hab', hab, hst, List.append_assoc, List.cons_append]
          have hlen2 : s.length < a'.length := by
            have h1 : a.length = s.length + 1 + t.length := by
              rw [hst]; simp; omega
            omega
          rcases List.append_eq_append_iff.mp hv2 with ⟨c, hc1, _⟩ | ⟨c, hc1, _⟩
          · rw [hc1]; exact List.mem_append_left _ h
          · rw [hc1] at hlen2
            simp at hlen2)] at hj
      simp only [Option.some.injEq] at hj
      have h1 : a.length = s.length + 1 + t.length := by
        rw [hst]; simp; omega
      omega
    · have hv2 : a ++ '<' :: b = a' ++ '>' :: b' := by rw [← hab, ← hab']
      rcases List.append_eq_append_iff.mp hv2 with ⟨c, hc1, hc2⟩ | ⟨c, hc1, hc2⟩
      · cases c with
        | nil =>
          simp only [List.nil_append, List.cons.injEq] at hc2
          exact absurd hc2.1 (by decide)
        | cons x xs =>
          simp only [List.cons_append, List.cons.injEq] at hc2
          rw [hc2.2]
          simp
      · cases c with
        | nil =>
          simp only [List.nil_append, List.cons.injEq] at hc2
          exact absurd hc2.1 (by decide)
        | cons x xs =>
          rw [hc1] at hlen
          simp at hlen
          omega
  · rintro ⟨a, b, hab, hca, hmb⟩
    obtain ⟨i, hi, hle⟩ := find_char_le '<' a b
    obtain ⟨k, hk⟩ := find_char_mem hmb
    refine ⟨i, k + 1 + a.length, by rw [hab]; exact hi, ?_, by omega⟩
    rw [hab, find_char_skip '>' a _ hca]
    simp [Packager.find_char, hk]

theorem maintainer_first_lt_before_first_gt_witness :
    ((Packager.new.maintainer "Jo <jo@example.org>".toList).error_text MAINTAINER = []
      ↔ first_lt_before_first_gt "Jo <jo@example.org>".toList) :=
  maintainer_first_lt_before_first_gt Packager.new Reachable.new "Jo <jo@example.org>".toList


/-! ## The install location (C16, C17) -/

theorem reachable_example_record_plain : Reachable example_record_plain :=
  Reachable.copyright _ _ (Reachable.licence _ _ (Reachable.summary _ _
    (Reachable.maintainer _ _ (Reachable.section_ _ _ (Reachable.version _ _
      (Reachable.package_name _ _ Reachable.new))))))

set_option maxRecDepth 100000 in
/-- C17 at the record `example_record_two_items`: the record is reachable and has no error,
yet its first item is to be installed in "Games", which `validate_install_to` rejects. The
error that the first call of `set_item_to_package` left in the INSTALL_TO slot is cleared by
the second call, which validates the location of the second item only. -/
theorem error_free_record_keeps_invalid_install_to :
    Reachable example_record_two_items
      ∧ example_record_two_items.error_count = 0
      ∧ example_record_two_items._items_to_package.map (fun i => i._install_to)
          = ["Games".toList, "Apps.Docs".toList]
      ∧ (example_record_plain.set_item_to_package
            { _source := "$.Games.Foo".toList, _install_to := "Games".toList,
              _component_flags := CF_None }).error_count = 1
      ∧ (Packager.new.validate_install_to "Games".toList).error_text INSTALL_TO
          = "must start with one of Apps, Manuals, Resources, Boot, !Boot, System".toList :=
  ⟨Reachable.set_item_to_package _ _
      (Reachable.set_item_to_package _ _ reachable_example_record_plain),
    by decide, by decide, by decide, by decide⟩


/-! ## Dependencies (C13, C14, C15) -/

theorem skip_blanks_spaces (n : Nat) (rest : Str) :
    Packager.skip_blanks (spaces n ++ rest) = Packager.skip_blanks rest := by
  induction n with
  | zero => rfl
  | succ k ih =>
    rw [show spaces (k + 1) ++ rest = ' ' :: (spaces k ++ rest) from rfl]
    unfold Packager.skip_blanks at *
    rw [List.dropWhile_cons_of_pos (by simp)]
    exact ih

theorem skip_blanks_cons {c : Char} (hc : c ≠ ' ') (rest : Str) :
    Packager.skip_blanks (c :: rest) = c :: rest := by
  unfold Packager.skip_blanks
  rw [List.dropWhile_cons_of_neg (by simpa using hc)]

theorem spaces_cases (n : Nat) : spaces n = [] ∨ ∃ m, spaces n = ' ' :: spaces m := by
  cases n with
  | zero => exact Or.inl rfl
  | succ m => exact Or.inr ⟨m, rfl⟩

theorem dropWhile_all {α : Type} (q : α → Bool) (a rest : List α) (ha : ∀ x ∈ a, q x = true) :
    (a ++ rest).dropWhile q = rest.dropWhile q := by
  induction a with
  | nil => rfl
  | cons x xs ih =>
    rw [List.cons_append, List.dropWhile_cons_of_pos (ha x (by simp))]
    exact ih (fun y hy => ha y (by simp [hy]))

theorem dependency_token_spec {t : Str} (h : dependency_token t = true) :
    t ≠ [] ∧ ∀ c ∈ t, c ≠ ' ' ∧ c ≠ '(' ∧ c ≠ ')' ∧ c ≠ ',' ∧ c ≠ '<' ∧ c ≠ '>' ∧ c ≠ '=' := by
  unfold dependency_token at h
  rw [Bool.and_eq_true] at h
  obtain ⟨h1, h2⟩ := h
  refine ⟨by intro h0; subst h0; simp at h1, ?_⟩
  intro c hc
  rw [List.all_eq_true] at h2
  have := h2 c hc
  simp [dependency_delimiters] at this
  tauto


theorem dropWhile_stops_at_spaces (q : Char → Bool) (hs : q ' ' = false) (k : Nat) (c : Char)
    (hc : q c = false) (t : Str) :
    (spaces k ++ c :: t).dropWhile q = spaces k ++ c :: t := by
  rcases spaces_cases k with h | ⟨m, h⟩
  · rw [h, List.nil_append, List.dropWhile_cons_of_neg (by simp [hc])]
  · rw [h, List.cons_append, List.dropWhile_cons_of_neg (by simp [hs])]

theorem dropWhile_stops_at_end_spaces (q : Char → Bool) (hs : q ' ' = false) (k : Nat) :
    (spaces k).dropWhile q = spaces k := by
  rcases spaces_cases k with h | ⟨m, h⟩
  · rw [h]; rfl
  · rw [h, List.dropWhile_cons_of_neg (by simp [hs])]

theorem skip_blanks_only_spaces (k : Nat) : Packager.skip_blanks (spaces k) = [] := by
  have := skip_blanks_spaces k []
  rw [List.append_nil] at this
  rw [this]
  rfl

theorem check_version_part_token (x : Char) (k2 k3 : Nat) (version t : Str)
    (hv : dependency_token version = true) :
    Packager.check_version_part
      (x :: (spaces k2 ++ (version ++ (spaces k3 ++ ')' :: t)))) = [] := by
  obtain ⟨hne, hall⟩ := dependency_token_spec hv
  obtain ⟨v0, vs, rfl⟩ := List.exists_cons_of_ne_nil hne
  have h0 := hall v0 (by simp)
  unfold Packager.check_version_part
  simp only [Packager.skip_one, skip_blanks_spaces]
  rw [List.cons_append, skip_blanks_cons h0.1]
  simp only [h0.2.2.1, h0.2.2.2.1, h0.2.2.2.2.1, h0.2.2.2.2.2.1, h0.2.2.2.2.2.2, or_self, if_false,
    List.isEmpty_nil, if_true]
  rw [← List.cons_append,
    dropWhile_all (fun c => decide (c ≠ ')' ∧ c ≠ ' ')) (v0 :: vs) _
      (fun c hc => by
        have := hall c hc
        simp [this.1, this.2.2.1]),
    dropWhile_stops_at_spaces _ (by simp) k3 ')' (by simp) t, skip_blanks_spaces,
    skip_blanks_cons (by decide)]
  simp

theorem check_operator_part_shape (k1 k2 k3 : Nat) (op version t : Str)
    (hop : version_operators.contains op = true) (hv : dependency_token version = true) :
    Packager.check_operator_part
      (spaces k1 ++ (op ++ (spaces k2 ++ (version ++ (spaces k3 ++ ')' :: t))))) = [] := by
  have hops : op = "=".toList ∨ op = "<<".toList ∨ op = ">>".toList ∨ op = "<=".toList
      ∨ op = ">=".toList := by
    simpa [version_operators] using hop
  unfold Packager.check_operator_part
  rw [skip_blanks_spaces]
  rcases hops with h | h | h | h | h <;> subst h
  · rw [show "=".toList ++ (spaces k2 ++ (version ++ (spaces k3 ++ ')' :: t)))
        = '=' :: (spaces k2 ++ (version ++ (spaces k3 ++ ')' :: t))) from rfl,
      skip_blanks_cons (by decide)]
    simp only [true_or, not_true_eq_false, decide_False, Bool.not_true, Bool.false_eq_true,
      if_false, Char.reduceEq, decide_True]
    exact check_version_part_token _ _ _ _ _ hv
  · rw [show "<<".toList ++ (spaces k2 ++ (version ++ (spaces k3 ++ ')' :: t)))
        = '<' :: '<' :: (spaces k2 ++ (version ++ (spaces k3 ++ ')' :: t))) from rfl,
      skip_blanks_cons (by decide)]
    simp only [Char.reduceEq, true_or, or_true, decide_True, Bool.not_true, Bool.false_eq_true,
      if_false, if_true, ne_eq, not_true_eq_false, false_and, and_false]
    exact check_version_part_token _ _ _ _ _ hv
  · rw [show ">>".toList ++ (spaces k2 ++ (version ++ (spaces k3 ++ ')' :: t)))
        = '>' :: '>' :: (spaces k2 ++ (version ++ (spaces k3 ++ ')' :: t))) from rfl,
      skip_blanks_cons (by decide)]
    simp only [Char.reduceEq, true_or, or_true, decide_True, Bool.not_true, Bool.false_eq_true,
      if_false, if_true, ne_eq, not_true_eq_false, false_and, and_false]
    exact check_version_part_token _ _ _ _ _ hv
  · rw [show "<=".toList ++ (spaces k2 ++ (version ++ (spaces k3 ++ ')' :: t)))
        = '<' :: '=' :: (spaces k2 ++ (version ++ (spaces k3 ++ ')' :: t))) from rfl,
      skip_blanks_cons (by decide)]
    simp only [Char.reduceEq, true_or, or_true, decide_True, Bool.not_true, Bool.false_eq_true,
      if_false, if_true, ne_eq, not_true_eq_false, false_and, and_false, not_false_eq_true,
      true_and]
    exact check_version_part_token _ _ _ _ _ hv
  · rw [show ">=".toList ++ (spaces k2 ++ (version ++ (spaces k3 ++ ')' :: t)))
        = '>' :: '=' :: (spaces k2 ++ (version ++ (spaces k3 ++ ')' :: t))) from rfl,
      skip_blanks_cons (by decide)]
    simp only [Char.reduceEq, true_or, or_true, decide_True, Bool.not_true, Bool.false_eq_true,
      if_false, if_true, ne_eq, not_true_eq_false, false_and, and_false, not_false_eq_true,
      true_and]
    exact check_version_part_token _ _ _ _ _ hv


theorem check_one_dependency_render (c : DepClause) (h : c.well_formed = true) :
    Packager.check_one_dependency c.render = [] := by
  cases c with
  | plain lead name trail =>
    obtain ⟨hne, hall⟩ := dependency_token_spec h
    obtain ⟨n0, ns, rfl⟩ := List.exists_cons_of_ne_nil hne
    have h0 := hall n0 (by simp)
    unfold Packager.check_one_dependency DepClause.render
    rw [skip_blanks_spaces, List.cons_append, skip_blanks_cons h0.1]
    simp only [h0.2.2.1, if_false]
    rw [← List.cons_append,
      dropWhile_all (fun x => decide (x ≠ '(' ∧ x ≠ ' ')) (n0 :: ns) _
        (fun x hx => by
          have := hall x hx
          simp [this.1, this.2.1]),
      dropWhile_stops_at_end_spaces _ (by simp), skip_blanks_only_spaces]
  | versioned lead name gap before_op op after_op version after_version trail =>
    unfold DepClause.well_formed at h
    simp only [Bool.and_eq_true] at h
    obtain ⟨⟨hn, hop⟩, hv⟩ := h
    obtain ⟨hne, hall⟩ := dependency_token_spec hn
    obtain ⟨n0, ns, rfl⟩ := List.exists_cons_of_ne_nil hne
    have h0 := hall n0 (by simp)
    unfold Packager.check_one_dependency DepClause.render
    rw [skip_blanks_spaces, List.cons_append, skip_blanks_cons h0.1]
    simp only [h0.2.2.1, if_false]
    rw [← List.cons_append,
      dropWhile_all (fun x => decide (x ≠ '(' ∧ x ≠ ' ')) (n0 :: ns) _
        (fun x hx => by
          have := hall x hx
          simp [this.1, this.2.1]),
      dropWhile_stops_at_spaces _ (by simp) gap '(' (by simp), skip_blanks_spaces,
      skip_blanks_cons (by decide)]
    simp only [ne_eq, not_true_eq_false, if_false]
    exact check_operator_part_shape _ _ _ _ _ _ hop hv

theorem not_mem_spaces {c : Char} (hc : c ≠ ' ') (n : Nat) : c ∉ spaces n := by
  unfold spaces
  intro h
  exact hc (List.eq_of_mem_replicate h)

theorem comma_not_mem_render (c : DepClause) (h : c.well_formed = true) :
    ',' ∉ c.render := by
  have hs : ∀ n, ',' ∉ spaces n := not_mem_spaces (by decide)
  cases c with
  | plain lead name trail =>
    obtain ⟨_, hall⟩ := dependency_token_spec h
    unfold DepClause.render
    simp only [List.mem_append, not_or]
    exact ⟨hs _, fun hm => (hall _ hm).2.2.2.1 rfl, hs _⟩
  | versioned lead name gap before_op op after_op version after_version trail =>
    unfold DepClause.well_formed at h
    simp only [Bool.and_eq_true] at h
    obtain ⟨⟨hn, hop⟩, hv⟩ := h
    obtain ⟨_, hall⟩ := dependency_token_spec hn
    obtain ⟨_, hallv⟩ := dependency_token_spec hv
    have hops : op = "=".toList ∨ op = "<<".toList ∨ op = ">>".toList ∨ op = "<=".toList
        ∨ op = ">=".toList := by
      simpa [version_operators] using hop
    have hop' : ',' ∉ op := by
      rcases hops with h | h | h | h | h <;> subst h <;> decide
    unfold DepClause.render
    simp only [List.mem_append, List.mem_cons, not_or]
    exact ⟨hs _, fun hm => (hall _ hm).2.2.2.1 rfl, hs _, by decide, hs _, hop', hs _,
      fun hm => (hallv _ hm).2.2.2.1 rfl, hs _, by decide, hs _⟩

theorem check_depends_loop_clause (c : Str) (hc : ',' ∉ c) :
    ∀ (cur rest : Str),
      Packager.check_depends_loop cur (c ++ rest) = Packager.check_depends_loop (cur ++ c) rest := by
  induction c with
  | nil => intro cur rest; simp
  | cons x xs ih =>
    intro cur rest
    have hx : x ≠ ',' := fun h => hc (by simp [h])
    rw [List.cons_append, Packager.check_depends_loop, if_neg hx,
      ih (fun h => hc (by simp [h]))]
    simp

theorem check_depends_loop_join (clauses : List Str) (hc : ∀ c ∈ clauses, ',' ∉ c)
    (hne : clauses ≠ []) :
    Packager.check_depends_loop [] (join_commas clauses) = first_clause_error clauses := by
  induction clauses with
  | nil => exact absurd rfl hne
  | cons c rest ih =>
    cases rest with
    | nil =>
      have h1 := check_depends_loop_clause c (hc c (by simp)) [] []
      simp only [List.append_nil, List.nil_append] at h1
      rw [join_commas, h1, Packager.check_depends_loop, first_clause_error, first_clause_error]
      split
      · rename_i h
        simpa using h
      · rfl
    | cons d rest2 =>
      rw [join_commas, check_depends_loop_clause c (hc c (by simp)) [] _, List.nil_append,
        Packager.check_depends_loop, if_pos rfl, first_clause_error]
      dsimp only
      split
      · exact ih (fun x hx => hc x (by simp [hx])) (by simp)
      · rfl


theorem first_clause_error_accepted (clauses : List Str)
    (h : ∀ c ∈ clauses, Packager.check_one_dependency c = []) :
    first_clause_error clauses = [] := by
  induction clauses with
  | nil => rfl
  | cons c rest ih =>
    rw [first_clause_error, h c (by simp)]
    simp only [List.isEmpty_nil, if_true]
    exact ih (fun x hx => h x (by simp [hx]))

theorem check_depends_well_formed (p : Packager) (w : Nat) (clauses : List DepClause)
    (h : ∀ c ∈ clauses, c.well_formed = true) :
    (p.check_depends w (join_commas (clauses.map DepClause.render))).error_text w = [] := by
  unfold Packager.check_depends
  split
  · exact error_text_clear_error _ _
  · rename_i hv
    have hne : clauses.map DepClause.render ≠ [] := by
      intro h0
      rw [h0] at hv
      exact hv rfl
    rw [check_depends_loop_join _ (by
        intro c hc
        obtain ⟨d, hd, rfl⟩ := List.mem_map.mp hc
        exact comma_not_mem_render d (h d hd)) hne,
      first_clause_error_accepted _ (by
        intro c hc
        obtain ⟨d, hd, rfl⟩ := List.mem_map.mp hc
        exact check_one_dependency_render d (h d hd))]
    simp only [List.isEmpty_nil, if_true]
    exact error_text_clear_error _ _

/-- C13: each of the setters `depends`, `recommends`, `suggests` and `conflicts` leaves its
error slot empty for every list of clauses separated by commas in which each clause is `NAME`
or `NAME (OP VERSION)` with any number of spaces before the name, around the contents of the
parentheses and between `OP` and `VERSION`, the name and the version being tokens and `OP` one
of the five operators; and for the empty text, whatever error the slot held before. -/
theorem dependency_setters_accept_well_formed (p : Packager) (clauses : List DepClause)
    (h : ∀ c ∈ clauses, c.well_formed = true) :
    ((p.depends (join_commas (clauses.map DepClause.render))).error_text DEPENDS = []
      ∧ (p.recommends (join_commas (clauses.map DepClause.render))).error_text RECOMMENDS = []
      ∧ (p.suggests (join_commas (clauses.map DepClause.render))).error_text SUGGESTS = []
      ∧ (p.conflicts (join_commas (clauses.map DepClause.render))).error_text CONFLICTS = [])
    ∧ ((p.depends []).error_text DEPENDS = []
      ∧ (p.recommends []).error_text RECOMMENDS = []
      ∧ (p.suggests []).error_text SUGGESTS = []
      ∧ (p.conflicts []).error_text CONFLICTS = []) := by
  unfold Packager.depends Packager.recommends Packager.suggests Packager.conflicts
  simp only [error_text_modified]
  refine ⟨⟨check_depends_well_formed _ _ _ h, check_depends_well_formed _ _ _ h,
    check_depends_well_formed _ _ _ h, check_depends_well_formed _ _ _ h⟩, ?_, ?_, ?_, ?_⟩ <;>
  exact error_text_clear_error _ _

/-- C13 at the field "PkgA (>= 1.2), PkgB", on a record whose slots hold the error of the
field "PkgA, , PkgB". -/
theorem dependency_setters_accept_well_formed_witness :
    (∀ c ∈ example_clauses, c.well_formed = true)
    ∧ join_commas (example_clauses.map DepClause.render) = "PkgA (>= 1.2), PkgB".toList
    ∧ (Packager.new.depends "PkgA, , PkgB".toList).error_text DEPENDS
        = "empty dependency, have you got too many commas".toList
    ∧ (((Packager.new.depends "PkgA, , PkgB".toList).depends
          "PkgA (>= 1.2), PkgB".toList).error_text DEPENDS = []
      ∧ ((Packager.new.depends "PkgA, , PkgB".toList).recommends
          "PkgA (>= 1.2), PkgB".toList).error_text RECOMMENDS = []
      ∧ ((Packager.new.depends "PkgA, , PkgB".toList).suggests
          "PkgA (>= 1.2), PkgB".toList).error_text SUGGESTS = []
      ∧ ((Packager.new.depends "PkgA, , PkgB".toList).conflicts
          "PkgA (>= 1.2), PkgB".toList).error_text CONFLICTS = [])
    ∧ (((Packager.new.depends "PkgA, , PkgB".toList).depends []).error_text DEPENDS = []
      ∧ ((Packager.new.depends "PkgA, , PkgB".toList).recommends []).error_text RECOMMENDS = []
      ∧ ((Packager.new.depends "PkgA, , PkgB".toList).suggests []).error_text SUGGESTS = []
      ∧ ((Packager.new.depends "PkgA, , PkgB".toList).conflicts []).error_text CONFLICTS = []) :=
  ⟨by decide, by decide, by decide,
    dependency_setters_accept_well_formed (Packager.new.depends "PkgA, , PkgB".toList)
      example_clauses (by decide)⟩


theorem check_depends_error_text (p : Packager) (hp : ErrInv p) (w : Nat) (hw : w < NUM_ITEMS)
    (clauses : List Str) (hc : ∀ c ∈ clauses, ',' ∉ c) (hne : join_commas clauses ≠ []) :
    (p.check_depends w (join_commas clauses)).error_text w = first_clause_error clauses := by
  have hcl : clauses ≠ [] := by
    intro h0
    rw [h0] at hne
    exact hne rfl
  unfold Packager.check_depends
  rw [if_neg (by simpa using hne), check_depends_loop_join clauses hc hcl]
  dsimp only
  split
  · rename_i h
    rw [error_text_clear_error]
    exact (List.isEmpty_iff.mp h).symm
  · exact error_text_set_error _ _ _ (by rw [hp.1]; exact hw)

theorem first_clause_error_leftmost (pre : List Str) (c : Str) (post : List Str)
    (hpre : ∀ x ∈ pre, Packager.check_one_dependency x = [])
    (hc : Packager.check_one_dependency c ≠ []) :
    first_clause_error (pre ++ c :: post) = Packager.check_one_dependency c := by
  induction pre with
  | nil =>
    rw [List.nil_append, first_clause_error, if_neg (by simpa using hc)]
  | cons x xs ih =>
    rw [List.cons_append, first_clause_error, hpre x (by simp)]
    simp only [List.isEmpty_nil, if_true]
    exact ih (fun y hy => hpre y (by simp [hy]))

theorem first_clause_error_rejected (clauses : List Str) (c : Str) (hmem : c ∈ clauses)
    (hc : Packager.check_one_dependency c ≠ []) : first_clause_error clauses ≠ [] := by
  induction clauses with
  | nil => simp at hmem
  | cons x xs ih =>
    rw [first_clause_error]
    by_cases hx : (Packager.check_one_dependency x).isEmpty = true
    · rw [if_pos hx]
      rcases List.mem_cons.mp hmem with h | h
      · subst h
        exact absurd (List.isEmpty_iff.mp hx) hc
      · exact ih h
    · rw [if_neg hx]
      simpa using hx

theorem check_one_dependency_blank (c : Str) (h : ∀ x ∈ c, x = ' ') :
    Packager.check_one_dependency c
      = "empty dependency, have you got too many commas".toList := by
  have hs : c = spaces c.length := by
    unfold spaces
    exact List.eq_replicate_of_mem h
  rw [hs]
  unfold Packager.check_one_dependency
  rw [skip_blanks_only_spaces]


theorem dependency_setters_error_text (p : Packager) (hp : ErrInv p) (clauses : List Str)
    (hc : ∀ c ∈ clauses, ',' ∉ c) (hne : join_commas clauses ≠ []) :
    (p.depends (join_commas clauses)).error_text DEPENDS = first_clause_error clauses
      ∧ (p.recommends (join_commas clauses)).error_text RECOMMENDS = first_clause_error clauses
      ∧ (p.suggests (join_commas clauses)).error_text SUGGESTS = first_clause_error clauses
      ∧ (p.conflicts (join_commas clauses)).error_text CONFLICTS = first_clause_error clauses := by
  unfold Packager.depends Packager.recommends Packager.suggests Packager.conflicts
  simp only [error_text_modified]
  refine ⟨?_, ?_, ?_, ?_⟩
  · have hq : ErrInv ({ p with _depends := join_commas clauses } : Packager) :=
      ErrInv.of_eq rfl rfl hp
    exact check_depends_error_text _ hq DEPENDS (by decide) clauses hc hne
  · have hq : ErrInv ({ p with _recommends := join_commas clauses } : Packager) :=
      ErrInv.of_eq rfl rfl hp
    exact check_depends_error_text _ hq RECOMMENDS (by decide) clauses hc hne
  · have hq : ErrInv ({ p with _suggests := join_commas clauses } : Packager) :=
      ErrInv.of_eq rfl rfl hp
    exact check_depends_error_text _ hq SUGGESTS (by decide) clauses hc hne
  · have hq : ErrInv ({ p with _conflicts := join_commas clauses } : Packager) :=
      ErrInv.of_eq rfl rfl hp
    exact check_depends_error_text _ hq CONFLICTS (by decide) clauses hc hne

/-- Every text is the list of its clauses, none of which holds a comma, joined by commas. -/
theorem join_commas_clauses (v : Str) :
    ∃ clauses : List Str, clauses ≠ [] ∧ (∀ c ∈ clauses, ',' ∉ c) ∧ v = join_commas clauses := by
  induction v with
  | nil => exact ⟨[[]], by simp, by simp, rfl⟩
  | cons x xs ih =>
    obtain ⟨clauses, hne, hc, hv⟩ := ih
    obtain ⟨c, rest, rfl⟩ := List.exists_cons_of_ne_nil hne
    by_cases hx : x = ','
    · subst hx
      exact ⟨[] :: c :: rest, by simp, by
        intro d hd
        rcases List.mem_cons.mp hd with h | h
        · subst h; simp
        · exact hc d h, by rw [join_commas, hv]; rfl⟩
    · refine ⟨(x :: c) :: rest, by simp, ?_, ?_⟩
      · intro d hd
        rcases List.mem_cons.mp hd with h | h
        · subst h
          intro hm
          rcases List.mem_cons.mp hm with h1 | h1
          · exact hx h1.symm
          · exact hc c (by simp) h1
        · exact hc d (by simp [h])
      · rw [hv]
        cases rest with
        | nil => rfl
        | cons d ds => rfl

/-- C15: for every dependency field that is not empty, cut at its commas into clauses, when
some clause is empty or made of spaces only each of the four setters leaves a non-empty error
in its slot; and the message stored is the one that `check_one_dependency` gives for the
leftmost clause it rejects. -/
theorem dependency_setters_report_leftmost_invalid_clause (p : Packager) (hp : Reachable p)
    (clauses : List Str) (hc : ∀ c ∈ clauses, ',' ∉ c) (hne : join_commas clauses ≠ []) :
    ((∃ c ∈ clauses, ∀ x ∈ c, x = ' ') →
      (p.depends (join_commas clauses)).error_text DEPENDS ≠ []
        ∧ (p.recommends (join_commas clauses)).error_text RECOMMENDS ≠ []
        ∧ (p.suggests (join_commas clauses)).error_text SUGGESTS ≠ []
        ∧ (p.conflicts (join_commas clauses)).error_text CONFLICTS ≠ [])
    ∧ (∀ (pre : List Str) (c : Str) (post : List Str), clauses = pre ++ c :: post →
        (∀ x ∈ pre, Packager.check_one_dependency x = []) →
        Packager.check_one_dependency c ≠ [] →
          (p.depends (join_commas clauses)).error_text DEPENDS
              = Packager.check_one_dependency c
            ∧ (p.recommends (join_commas clauses)).error_text RECOMMENDS
              = Packager.check_one_dependency c
            ∧ (p.suggests (join_commas clauses)).error_text SUGGESTS
              = Packager.check_one_dependency c
            ∧ (p.conflicts (join_commas clauses)).error_text CONFLICTS
              = Packager.check_one_dependency c) := by
  obtain ⟨h1, h2, h3, h4⟩ := dependency_setters_error_text p hp.errInv clauses hc hne
  rw [h1, h2, h3, h4]
  constructor
  · rintro ⟨c, hmem, hblank⟩
    have hrej : first_clause_error clauses ≠ [] :=
      first_clause_error_rejected clauses c hmem (by
        rw [check_one_dependency_blank c hblank]
        decide)
    exact ⟨hrej, hrej, hrej, hrej⟩
  · intro pre c post hcl hpre hrej
    have hfirst : first_clause_error clauses = Packager.check_one_dependency c := by
      rw [hcl]
      exact first_clause_error_leftmost pre c post hpre hrej
    exact ⟨hfirst, hfirst, hfirst, hfirst⟩

/-- C15 at the field "PkgA, , PkgB (>1)": the second clause is blank and the third has a
malformed operator; the message stored is the one of the second clause. -/
theorem dependency_setters_report_leftmost_invalid_clause_witness :
    join_commas ["PkgA".toList, " ".toList, " PkgB (>1)".toList] = "PkgA, , PkgB (>1)".toList
    ∧ Packager.check_one_dependency " PkgB (>1)".toList
        = "'>' must be followed by another '>' or and '='".toList
    ∧ (Packager.new.depends "PkgA, , PkgB (>1)".toList).error_text DEPENDS
        = "empty dependency, have you got too many commas".toList
    ∧ (Packager.new.recommends "PkgA, , PkgB (>1)".toList).error_text RECOMMENDS
        = "empty dependency, have you got too many commas".toList
    ∧ (Packager.new.suggests "PkgA, , PkgB (>1)".toList).error_text SUGGESTS
        = "empty dependency, have you got too many commas".toList
    ∧ (Packager.new.conflicts "PkgA, , PkgB (>1)".toList).error_text CONFLICTS
        = "empty dependency, have you got too many commas".toList :=
  ⟨by decide, by decide,
    (dependency_setters_report_leftmost_invalid_clause Packager.new Reachable.new
      ["PkgA".toList, " ".toList, " PkgB (>1)".toList] (by decide) (by decide)).2
      ["PkgA".toList] " ".toList [" PkgB (>1)".toList] rfl (by decide) (by decide)⟩


theorem skip_blanks_decompose (l : Str) : ∃ k, l = spaces k ++ Packager.skip_blanks l := by
  induction l with
  | nil => exact ⟨0, rfl⟩
  | cons x xs ih =>
    by_cases hx : x = ' '
    · obtain ⟨k, hk⟩ := ih
      refine ⟨k + 1, ?_⟩
      subst hx
      unfold Packager.skip_blanks at *
      rw [List.dropWhile_cons_of_pos (by simp)]
      rw [show spaces (k + 1) = ' ' :: spaces k from rfl, List.cons_append, ← hk]
    · exact ⟨0, by rw [skip_blanks_cons hx]; rfl⟩

theorem skip_blanks_head {l : Str} {c : Char} {t : Str} (h : Packager.skip_blanks l = c :: t) :
    c ≠ ' ' := by
  induction l with
  | nil => simp [Packager.skip_blanks] at h
  | cons x xs ih =>
    by_cases hx : x = ' '
    · subst hx
      unfold Packager.skip_blanks at h ih
      rw [List.dropWhile_cons_of_pos (by simp)] at h
      exact ih h
    · rw [skip_blanks_cons hx] at h
      simp only [List.cons.injEq] at h
      rw [← h.1]
      exact hx

theorem dropWhile_append_stop {α : Type} (q : α → Bool) (a : List α) (b : α) (t : List α)
    (hb : q b = false) : (a ++ b :: t).dropWhile q = a.dropWhile q ++ b :: t := by
  induction a with
  | nil => rw [List.nil_append, List.dropWhile_cons_of_neg (by simp [hb])]; rfl
  | cons x xs ih =>
    by_cases hx : q x = true
    · rw [List.cons_append, List.dropWhile_cons_of_pos hx, List.dropWhile_cons_of_pos hx, ih]
    · rw [List.cons_append, List.dropWhile_cons_of_neg hx, List.dropWhile_cons_of_neg hx]
      rfl

theorem check_version_part_shape (x : Char) (r : Str)
    (h : Packager.check_version_part (x :: r) = []) :
    ∃ (k2 k3 : Nat) (version rest : Str),
      r = spaces k2 ++ (version ++ (spaces k3 ++ ')' :: rest))
        ∧ version ≠ []
        ∧ (∀ c ∈ version, c ≠ ' ' ∧ c ≠ ')')
        ∧ (∀ c, version.head? = some c → c ≠ '<' ∧ c ≠ '>' ∧ c ≠ '=') := by
  unfold Packager.check_version_part at h
  simp only [Packager.skip_one] at h
  obtain ⟨k2, hk2⟩ := skip_blanks_decompose r
  cases h1 : Packager.skip_blanks r with
  | nil =>
    rw [h1] at h
    exact absurd h (by decide)
  | cons c t =>
    rw [h1] at h hk2
    have hsp : c ≠ ' ' := skip_blanks_head h1
    by_cases hc1 : c = ')' ∨ c = ','
    · simp only [hc1, if_true] at h
      rw [if_neg (by decide)] at h
      exact absurd h (by decide)
    by_cases hc2 : c = '>' ∨ c = '<' ∨ c = '='
    · simp only [hc1, hc2, if_true, if_false] at h
      rw [if_neg (by decide)] at h
      exact absurd h (by decide)
    simp only [hc1, hc2, if_false, List.isEmpty_nil, if_true] at h
    obtain ⟨k3, hk3⟩ :=
      skip_blanks_decompose ((c :: t).dropWhile (fun c => decide (c ≠ ')' ∧ c ≠ ' ')))
    cases h3 : Packager.skip_blanks
        ((c :: t).dropWhile (fun c => decide (c ≠ ')' ∧ c ≠ ' '))) with
    | nil =>
      rw [h3] at h
      exact absurd h (by decide)
    | cons d rest =>
      rw [h3] at h hk3
      by_cases hd : d = ')'
      · subst hd
        refine ⟨k2, k3, (c :: t).takeWhile (fun c => decide (c ≠ ')' ∧ c ≠ ' ')), rest, ?_, ?_,
          ?_, ?_⟩
        · rw [← hk3, List.takeWhile_append_dropWhile]
          exact hk2
        · have hq : decide (c ≠ ')' ∧ c ≠ ' ') = true := by
            simp only [not_or] at hc1
            simp [hc1.1, hsp]
          simp only [List.takeWhile_cons, hq]
          simp
        · intro y hy
          have := List.mem_takeWhile_imp hy
          simp only [ne_eq, decide_eq_true_eq] at this
          exact ⟨this.2, this.1⟩
        · intro y hy
          have hq : decide (c ≠ ')' ∧ c ≠ ' ') = true := by
            simp only [not_or] at hc1
            simp [hc1.1, hsp]
          simp only [List.takeWhile_cons, hq, if_true, List.head?_cons, Option.some.injEq] at hy
          subst hy
          simp only [not_or] at hc2
          exact ⟨hc2.2.1, hc2.1, hc2.2.2⟩
      · simp only [ne_eq, hd, not_false_eq_true, if_true] at h
        exact absurd h (by decide)


theorem check_operator_part_constraint (text : Str)
    (h : Packager.check_operator_part text = []) : constraint_shape text := by
  unfold Packager.check_operator_part at h
  obtain ⟨k1, hk1⟩ := skip_blanks_decompose text
  cases h1 : Packager.skip_blanks text with
  | nil =>
    rw [h1] at h
    exact absurd h (by decide)
  | cons c rest =>
    rw [h1] at h hk1
    by_cases hc : c = '=' ∨ c = '<' ∨ c = '>'
    · simp only [hc, not_true_eq_false, decide_False, Bool.false_eq_true, if_false,
        decide_True, Bool.not_true] at h
      by_cases hlt : c = '<'
      · subst hlt
        simp only [if_true] at h
        cases rest with
        | nil => exact absurd h (by decide)
        | cons d r =>
          by_cases hd : d ≠ '<' ∧ d ≠ '='
          · simp only [hd, ne_eq, not_false_eq_true, and_self, if_true] at h
            exact absurd h (by decide)
          · simp only [hd, if_false] at h
            obtain ⟨k2, k3, version, rest', hr, hv1, hv2, hv3⟩ := check_version_part_shape d r h
            have hd' : d = '<' ∨ d = '=' := by
              by_contra hcon
              simp only [not_or] at hcon
              exact hd hcon
            refine ⟨k1, k2, k3, ['<', d], version, rest', ?_, ?_, hv1, hv2, hv3⟩
            · rw [hk1, hr]
              rfl
            · rcases hd' with h0 | h0 <;> subst h0 <;> decide
      · simp only [hlt, if_false] at h
        by_cases hgt : c = '>'
        · subst hgt
          simp only [if_true] at h
          cases rest with
          | nil => exact absurd h (by decide)
          | cons d r =>
            by_cases hd : d ≠ '>' ∧ d ≠ '='
            · simp only [hd, ne_eq, not_false_eq_true, and_self, if_true] at h
              exact absurd h (by decide)
            · simp only [hd, if_false] at h
              obtain ⟨k2, k3, version, rest', hr, hv1, hv2, hv3⟩ :=
                check_version_part_shape d r h
              have hd' : d = '>' ∨ d = '=' := by
                by_contra hcon
                simp only [not_or] at hcon
                exact hd hcon
              refine ⟨k1, k2, k3, ['>', d], version, rest', ?_, ?_, hv1, hv2, hv3⟩
              · rw [hk1, hr]
                rfl
              · rcases hd' with h0 | h0 <;> subst h0 <;> decide
        · simp only [hgt, if_false] at h
          have hceq : c = '=' := by
            rcases hc with h0 | h0 | h0
            · exact h0
            · exact absurd h0 hlt
            · exact absurd h0 hgt
          subst hceq
          obtain ⟨k2, k3, version, rest', hr, hv1, hv2, hv3⟩ :=
            check_version_part_shape '=' rest h
          refine ⟨k1, k2, k3, ['='], version, rest', ?_, by decide, hv1, hv2, hv3⟩
          rw [hk1, hr]
          rfl
    · dsimp only at h
      rw [if_pos (by simp only [hc, decide_False, Bool.not_false])] at h
      exact absurd h (by decide)


theorem check_one_dependency_operator_part (pre text : Str) (hpre : '(' ∉ pre)
    (h : Packager.check_one_dependency (pre ++ '(' :: text) = []) :
    Packager.check_operator_part text = [] := by
  unfold Packager.check_one_dependency at h
  have h1 : Packager.skip_blanks (pre ++ '(' :: text)
      = Packager.skip_blanks pre ++ '(' :: text :=
    dropWhile_append_stop _ pre '(' text (by simp)
  have hsub1 : ∀ x ∈ Packager.skip_blanks pre, x ≠ '(' := by
    intro x hx h0
    subst h0
    exact hpre ((List.dropWhile_sublist _).subset hx)
  rw [h1] at h
  cases hp1 : Packager.skip_blanks pre ++ '(' :: text with
  | nil => simp at hp1
  | cons c rest =>
    rw [hp1] at h
    dsimp only at h
    by_cases hc : c = ')'
    · rw [if_pos hc] at h
      exact absurd h (by decide)
    rw [if_neg hc, ← hp1,
      dropWhile_append_stop (fun x => decide (x ≠ '(' ∧ x ≠ ' ')) _ '(' text (by simp)] at h
    have h2 : Packager.skip_blanks
        ((Packager.skip_blanks pre).dropWhile (fun x => decide (x ≠ '(' ∧ x ≠ ' ')) ++ '(' :: text)
        = Packager.skip_blanks
            ((Packager.skip_blanks pre).dropWhile (fun x => decide (x ≠ '(' ∧ x ≠ ' ')))
          ++ '(' :: text :=
      dropWhile_append_stop _ _ '(' text (by simp)
    rw [h2] at h
    cases hp3 : Packager.skip_blanks
        ((Packager.skip_blanks pre).dropWhile (fun x => decide (x ≠ '(' ∧ x ≠ ' '))) with
    | nil =>
      rw [hp3] at h
      simpa using h
    | cons d t =>
      rw [hp3] at h
      have hd : d ≠ '(' := by
        apply hsub1
        apply (List.dropWhile_sublist (fun x => decide (x ≠ '(' ∧ x ≠ ' '))).subset
        apply (List.dropWhile_sublist (fun c => decide (c = ' '))).subset
        have hp4 := hp3
        unfold Packager.skip_blanks at hp4
        unfold Packager.skip_blanks
        rw [hp4]
        simp
      simp only [List.cons_append, hd, ne_eq, not_false_eq_true, if_true] at h
      exact absurd h (by decide)

/-- The clause "PkgA (>1.2)" is rejected. -/
theorem check_one_dependency_single_gt :
    Packager.check_one_dependency "PkgA (>1.2)".toList
      = "'>' must be followed by another '>' or and '='".toList := by
  decide

/-- The clause "PkgA (>= 1.2" is rejected. -/
theorem check_one_dependency_unclosed :
    Packager.check_one_dependency "PkgA (>= 1.2".toList
      = "missing ')' or a space in the version number".toList := by
  decide


theorem check_operator_part_lt (k : Nat) (r : Str)
    (h : Packager.check_operator_part (spaces k ++ '<' :: r) = []) :
    r.head? = some '<' ∨ r.head? = some '=' := by
  unfold Packager.check_operator_part at h
  rw [skip_blanks_spaces, skip_blanks_cons (by decide)] at h
  dsimp only at h
  rw [if_neg (by decide), if_pos rfl] at h
  cases r with
  | nil => exact absurd h (by decide)
  | cons d t =>
    dsimp only at h
    by_cases hd : d ≠ '<' ∧ d ≠ '='
    · rw [if_pos hd] at h
      exact absurd h (by decide)
    · simp only [List.head?_cons, Option.some.injEq]
      by_contra hcon
      simp only [not_or] at hcon
      exact hd hcon

theorem check_operator_part_gt (k : Nat) (r : Str)
    (h : Packager.check_operator_part (spaces k ++ '>' :: r) = []) :
    r.head? = some '>' ∨ r.head? = some '=' := by
  unfold Packager.check_operator_part at h
  rw [skip_blanks_spaces, skip_blanks_cons (by decide)] at h
  dsimp only at h
  rw [if_neg (by decide), if_neg (by decide), if_pos rfl] at h
  cases r with
  | nil => exact absurd h (by decide)
  | cons d t =>
    dsimp only at h
    by_cases hd : d ≠ '>' ∧ d ≠ '='
    · rw [if_pos hd] at h
      exact absurd h (by decide)
    · simp only [List.head?_cons, Option.some.injEq]
      by_contra hcon
      simp only [not_or] at hcon
      exact hd hcon

/-- C14: when a clause has a `(` after its package name and `check_one_dependency` returns no
error, the text after the `(` is made of spaces, one of the operators =, <<, >>, <=, >=,
spaces, a version that is not empty, holds no space and no `)` and does not begin with '<',
'>' or '=', spaces, and a `)`. So a '<' not followed by '<' or '=', a '>' not followed by '>'
or '=', and a clause without its `)` are rejected. What stands after the `)` is not looked
at. -/
theorem accepted_constraint_has_shape (pre text : Str) (hpre : '(' ∉ pre)
    (h : Packager.check_one_dependency (pre ++ '(' :: text) = []) :
    constraint_shape text
      ∧ (∀ (k : Nat) (r : Str), text = spaces k ++ '<' :: r →
          r.head? = some '<' ∨ r.head? = some '=')
      ∧ (∀ (k : Nat) (r : Str), text = spaces k ++ '>' :: r →
          r.head? = some '>' ∨ r.head? = some '=')
      ∧ ')' ∈ text := by
  have hop := check_one_dependency_operator_part pre text hpre h
  have hshape := check_operator_part_constraint text hop
  refine ⟨hshape, ?_, ?_, ?_⟩
  · intro k r hr
    rw [hr] at hop
    exact check_operator_part_lt k r hop
  · intro k r hr
    rw [hr] at hop
    exact check_operator_part_gt k r hop
  · obtain ⟨k1, k2, k3, op, version, rest, htext, _⟩ := hshape
    rw [htext]
    simp

/-- C14 at the clause "PkgA (>= 1.2)". -/
theorem accepted_constraint_has_shape_witness :
    Packager.check_one_dependency ("PkgA ".toList ++ '(' :: ">= 1.2)".toList) = []
    ∧ (constraint_shape ">= 1.2)".toList
      ∧ (∀ (k : Nat) (r : Str), ">= 1.2)".toList = spaces k ++ '<' :: r →
          r.head? = some '<' ∨ r.head? = some '=')
      ∧ (∀ (k : Nat) (r : Str), ">= 1.2)".toList = spaces k ++ '>' :: r →
          r.head? = some '>' ∨ r.head? = some '=')
      ∧ ')' ∈ ">= 1.2)".toList) :=
  ⟨by decide,
    accepted_constraint_has_shape "PkgA ".toList ">= 1.2)".toList (by decide) (by decide)⟩


/-! ## Reading a control record (C18, C19, C20) -/

theorem rdropWhile_append_stop {α : Type} (q : α → Bool) (a : List α) (x : α) (b : List α)
    (hx : q x = false) : (a ++ x :: b).rdropWhile q = a ++ x :: b.rdropWhile q := by
  unfold List.rdropWhile
  rw [List.reverse_append, List.reverse_cons, List.append_assoc, List.singleton_append,
    dropWhile_append_stop q b.reverse x a.reverse hx]
  simp

theorem rdropWhile_blank (l : Str) (h : blank_line l = true) : l.rdropWhile isspace = [] := by
  rw [List.rdropWhile_eq_nil_iff]
  unfold blank_line at h
  rw [List.all_eq_true] at h
  exact h

theorem rdropWhile_not_blank {l : Str} (h : blank_line l = false) :
    l.rdropWhile isspace ≠ [] := by
  intro h0
  rw [List.rdropWhile_eq_nil_iff] at h0
  have : blank_line l = true := by
    unfold blank_line
    rw [List.all_eq_true]
    exact h0
  rw [this] at h
  exact absurd h (by decide)

theorem rdropWhile_head {l : Str} {c : Char} {t : Str}
    (h : l.rdropWhile isspace = c :: t) : ∃ t', l = c :: t' := by
  have hp : l.rdropWhile isspace <+: l := List.rdropWhile_prefix isspace l
  rw [h] at hp
  obtain ⟨s, hs⟩ := hp
  exact ⟨t ++ s, by rw [← hs]; rfl⟩

theorem strip_ne_nil {l : Str} (h : blank_line l = false) : strip l ≠ [] := by
  unfold strip
  intro h0
  rw [List.dropWhile_eq_nil_iff] at h0
  have hne := rdropWhile_not_blank h
  have hlast := List.rdropWhile_last_not isspace l hne
  exact hlast (h0 _ (List.getLast_mem hne))


theorem read_control_lines_blank (l : Str) (rest : List Str) (n v : Str) (p : Packager)
    (h : blank_line l = true) :
    Packager.read_control_lines (l :: rest) n v p = Packager.read_control_finish p n v := by
  rw [Packager.read_control_lines]
  simp only [rdropWhile_blank l h]

theorem read_control_lines_continuation_line (l : Str) (rest : List Str) (n v : Str)
    (p : Packager) (h : continuation_line l = true) (hn : n ≠ []) :
    Packager.read_control_lines (l :: rest) n v p
      = Packager.read_control_lines rest n (v ++ '\n' :: continuation_content l) p := by
  unfold continuation_line at h
  simp only [Bool.and_eq_true, Bool.not_eq_true'] at h
  obtain ⟨⟨_, hstart⟩, hblank⟩ := h
  have hne := rdropWhile_not_blank hblank
  obtain ⟨c, t, hct⟩ := List.exists_cons_of_ne_nil hne
  obtain ⟨t', hl⟩ := rdropWhile_head hct
  have hc : isspace c = true := by
    rw [hl] at hstart
    exact hstart
  have hstrip : (c :: t).dropWhile isspace = strip l := by
    unfold strip
    rw [hct]
  have hs := strip_ne_nil hblank
  rw [Packager.read_control_lines]
  simp only [hct, hc, if_true, hstrip, isEmpty_eq_false_of_ne_nil hs, Bool.false_eq_true,
    if_false, isEmpty_eq_false_of_ne_nil hn]
  unfold continuation_content
  congr 1
  simp


theorem field_name_spec {name : Str}
    (h : name.all (fun c => c != ':' && !isspace c) = true) :
    ∀ c ∈ name, c ≠ ':' ∧ isspace c = false := by
  intro c hc
  rw [List.all_eq_true] at h
  have := h c hc
  simpa using this

theorem read_control_lines_field_line (name first : Str) (rest : List Str) (n v : Str)
    (p : Packager) (hne : name ≠ []) (hname : ∀ c ∈ name, c ≠ ':' ∧ isspace c = false) :
    Packager.read_control_lines ((name ++ ':' :: first) :: rest) n v p
      = match Packager.read_control_finish p n v with
        | (p1, some e) => (p1, some e)
        | (p1, none) => Packager.read_control_lines rest name (strip first) p1 := by
  obtain ⟨c, cs, rfl⟩ := List.exists_cons_of_ne_nil hne
  have hline : (c :: (cs ++ ':' :: first)).rdropWhile isspace
      = c :: (cs ++ ':' :: first.rdropWhile isspace) :=
    rdropWhile_append_stop isspace (c :: cs) ':' first (by decide)
  have hc := hname c (by simp)
  rw [Packager.read_control_lines]
  simp only [hline, List.cons_append, hc.2, Bool.false_eq_true, if_false]
  cases hfin : Packager.read_control_finish p n v with
  | mk p1 err =>
    cases err with
    | some e => rfl
    | none =>
      simp only
      have hscan := scan_field_name_spec (c :: cs) hname [] (first.rdropWhile isspace)
      simp only [List.cons_append, List.nil_append] at hscan
      rw [hscan]
      rfl

theorem takeWhile_append_stop {α : Type} (q : α → Bool) (a : List α) (y : α) (r : List α)
    (ha : ∀ x ∈ a, q x = true) (hy : q y = false) : (a ++ y :: r).takeWhile q = a := by
  induction a with
  | nil => simp [List.takeWhile_cons, hy]
  | cons x xs ih =>
    simp only [List.cons_append, List.takeWhile_cons, ha x (by simp), if_true, List.cons.injEq,
      true_and]
    exact ih (fun z hz => ha z (by simp [hz]))

theorem read_control_lines_continuation_lines (conts : List Str)
    (hconts : ∀ l ∈ conts, continuation_line l = true) :
    ∀ (rest : List Str) (n v : Str) (p : Packager), n ≠ [] →
      Packager.read_control_lines (conts ++ rest) n v p
        = Packager.read_control_lines rest n (v ++ continuation_value conts) p := by
  induction conts with
  | nil =>
    intro rest n v p _
    simp [continuation_value]
  | cons l ls ih =>
    intro rest n v p hn
    rw [List.cons_append, read_control_lines_continuation_line l _ n v p (hconts l (by simp)) hn,
      ih (fun x hx => hconts x (by simp [hx])) rest n _ p hn]
    congr 1
    simp [continuation_value]

theorem raw_field_well_formed_spec {f : RawField} (h : f.well_formed = true) :
    f.name ≠ [] ∧ (∀ c ∈ f.name, c ≠ ':' ∧ isspace c = false) ∧ single_line f.first = true
      ∧ ∀ l ∈ f.cont, continuation_line l = true := by
  unfold RawField.well_formed at h
  simp only [Bool.and_eq_true, Bool.not_eq_true'] at h
  obtain ⟨⟨⟨h1, h2⟩, h3⟩, h4⟩ := h
  refine ⟨?_, field_name_spec h2, h3, ?_⟩
  · intro h0
    rw [h0] at h1
    exact absurd h1 (by decide)
  · intro l hl
    rw [List.all_eq_true] at h4
    exact h4 l hl

theorem read_control_lines_raw_field (f : RawField) (hf : f.well_formed = true)
    (rest : List Str) (n v : Str) (p : Packager) :
    Packager.read_control_lines (f.lines ++ rest) n v p
      = match Packager.read_control_finish p n v with
        | (p1, some e) => (p1, some e)
        | (p1, none) => Packager.read_control_lines rest f.name f.value p1 := by
  obtain ⟨hne, hname, _, hcont⟩ := raw_field_well_formed_spec hf
  unfold RawField.lines RawField.value
  rw [List.cons_append, read_control_lines_field_line f.name f.first _ n v p hne hname]
  cases hfin : Packager.read_control_finish p n v with
  | mk p1 err =>
    cases err with
    | some e => rfl
    | none =>
      simp only
      exact read_control_lines_continuation_lines f.cont hcont rest f.name _ p1 hne

theorem read_control_finish_named (p : Packager) (n v : Str) (hn : n ≠ []) :
    Packager.read_control_finish p n v = p.set_control_field n v := by
  unfold Packager.read_control_finish
  rw [isEmpty_eq_false_of_ne_nil hn]
  rfl

theorem read_control_lines_raw_fields (fs : List RawField)
    (hfs : ∀ f ∈ fs, f.well_formed = true) (rest : List Str) (final : Option Str)
    (hrest : ∀ (n v : Str) (p : Packager),
      Packager.read_control_lines rest n v p
        = match Packager.read_control_finish p n v with
          | (p1, some e) => (p1, some e)
          | (p1, none) => (p1, final)) :
    ∀ (n v : Str) (p : Packager),
      Packager.read_control_lines (fields_lines fs ++ rest) n v p
        = match Packager.read_control_finish p n v with
          | (p1, some e) => (p1, some e)
          | (p1, none) =>
              match set_fields fs p1 with
              | (p2, none) => (p2, final)
              | (p2, some e) => (p2, some e) := by
  induction fs with
  | nil =>
    intro n v p
    rw [fields_lines, List.nil_append, hrest]
    cases hfin : Packager.read_control_finish p n v with
    | mk p1 err =>
      cases err <;> rfl
  | cons f fs ih =>
    intro n v p
    obtain ⟨hne, _⟩ := raw_field_well_formed_spec (hfs f (by simp))
    rw [fields_lines, List.append_assoc,
      read_control_lines_raw_field f (hfs f (by simp)) _ n v p]
    cases hfin : Packager.read_control_finish p n v with
    | mk p1 err =>
      cases err with
      | some e => rfl
      | none =>
        simp only
        rw [ih (fun x hx => hfs x (by simp [hx])) f.name f.value p1,
          read_control_finish_named p1 f.name f.value hne, set_fields]
        cases hset : p1.set_control_field f.name f.value with
        | mk p2 err2 =>
          cases err2 <;> rfl


theorem getlines_from_lines_text (ls : List Str) (hls : ∀ l ∈ ls, single_line l = true)
    (more : Str) :
    Packager.getlines_from [] (lines_text ls ++ more)
      = ls ++ Packager.getlines_from [] more := by
  induction ls with
  | nil => rfl
  | cons l ls ih =>
    rw [lines_text, List.append_assoc, List.cons_append,
      getlines_from_line l (hls l (by simp)) [] _, List.nil_append,
      ih (fun x hx => hls x (by simp [hx]))]
    rfl

theorem single_line_of_not_isspace (n : Str) (h : ∀ c ∈ n, c ≠ ':' ∧ isspace c = false) :
    single_line n = true := by
  unfold single_line
  rw [List.all_eq_true]
  intro c hc
  have := (h c hc).2
  simp only [bne_iff_ne, ne_eq]
  intro h0
  subst h0
  exact absurd this (by decide)

theorem single_line_fields_lines (fs : List RawField) (hfs : ∀ f ∈ fs, f.well_formed = true) :
    ∀ l ∈ fields_lines fs, single_line l = true := by
  induction fs with
  | nil => intro l hl; simp [fields_lines] at hl
  | cons f fs ih =>
    intro l hl
    obtain ⟨_, hname, hfirst, hcont⟩ := raw_field_well_formed_spec (hfs f (by simp))
    rw [fields_lines, List.mem_append] at hl
    rcases hl with h | h
    · unfold RawField.lines at h
      rcases List.mem_cons.mp h with h0 | h0
      · rw [h0, single_line_append, single_line_of_not_isspace _ hname]
        simp only [single_line, List.all_cons, Bool.true_and, Bool.and_eq_true] at hfirst ⊢
        exact ⟨by decide, hfirst⟩
      · have := hcont l h0
        unfold continuation_line at this
        simp only [Bool.and_eq_true] at this
        exact this.1.1
    · exact ih (fun x hx => hfs x (by simp [hx])) l h

theorem read_control_lines_end (n v : Str) (p : Packager) :
    Packager.read_control_lines (Packager.getlines_from [] []) n v p
      = match Packager.read_control_finish p n v with
        | (p1, some e) => (p1, some e)
        | (p1, none) => (p1, none) := by
  rw [show Packager.getlines_from [] [] = [[]] from rfl,
    read_control_lines_blank [] [] n v p rfl]
  cases hfin : Packager.read_control_finish p n v with
  | mk p1 err =>
    cases err <;> rfl

theorem read_control_lines_blank_end (blank : Str) (rest : List Str)
    (hb : blank_line blank = true) (n v : Str) (p : Packager) :
    Packager.read_control_lines (blank :: rest) n v p
      = match Packager.read_control_finish p n v with
        | (p1, some e) => (p1, some e)
        | (p1, none) => (p1, none) := by
  rw [read_control_lines_blank blank rest n v p hb]
  cases hfin : Packager.read_control_finish p n v with
  | mk p1 err =>
    cases err <;> rfl

theorem match_set_fields (r : Packager × Option Str) :
    (match r with
      | (p2, none) => (p2, (none : Option Str))
      | (p2, some e) => (p2, some e)) = r := by
  obtain ⟨p2, err⟩ := r
  cases err <;> rfl

theorem read_control_raw_fields_end (p : Packager) (fs : List RawField)
    (hfs : ∀ f ∈ fs, f.well_formed = true) :
    p.read_control (lines_text (fields_lines fs)) = set_fields fs p := by
  unfold Packager.read_control
  have h := getlines_from_lines_text (fields_lines fs) (single_line_fields_lines fs hfs) []
  rw [List.append_nil] at h
  rw [h, read_control_lines_raw_fields fs hfs _ none read_control_lines_end [] [] p]
  exact match_set_fields _

theorem read_control_raw_fields_blank (p : Packager) (fs : List RawField)
    (hfs : ∀ f ∈ fs, f.well_formed = true) (blank later : Str)
    (hs : single_line blank = true) (hb : blank_line blank = true) :
    p.read_control (lines_text (fields_lines fs) ++ (blank ++ '\n' :: later))
      = set_fields fs p := by
  unfold Packager.read_control
  rw [getlines_from_lines_text (fields_lines fs) (single_line_fields_lines fs hfs),
    getlines_from_line blank hs [] later, List.nil_append,
    read_control_lines_raw_fields fs hfs _ none
      (read_control_lines_blank_end blank _ hb) [] [] p]
  exact match_set_fields _


theorem set_control_field_description (p : Packager) (s d : Str) (hs : '\n' ∉ s) :
    p.set_control_field "Description".toList (s ++ '\n' :: d)
      = ((p.summary s).description d, none) := by
  have htake : (s ++ '\n' :: d).take s.length = s := by simp
  have hdrop : (s ++ '\n' :: d).drop (s.length + 1) = d := by
    rw [← List.drop_drop]
    simp
  unfold Packager.set_control_field
  simp only [show ¬ ("Description".toList = "Package".toList) by decide,
    show ¬ ("Description".toList = "Version".toList) by decide,
    show ¬ ("Description".toList = "Section".toList) by decide,
    show ¬ ("Description".toList = "Priority".toList) by decide,
    show ¬ ("Description".toList = "Maintainer".toList) by decide,
    show ¬ ("Description".toList = "Standards-Version".toList) by decide, if_false, if_true,
    find_char_append '\n' s d hs, htake, hdrop]

theorem set_control_field_summary (p : Packager) (s : Str) (hs : '\n' ∉ s) :
    p.set_control_field "Description".toList s = (p.summary s, none) := by
  unfold Packager.set_control_field
  simp only [show ¬ ("Description".toList = "Package".toList) by decide,
    show ¬ ("Description".toList = "Version".toList) by decide,
    show ¬ ("Description".toList = "Section".toList) by decide,
    show ¬ ("Description".toList = "Priority".toList) by decide,
    show ¬ ("Description".toList = "Maintainer".toList) by decide,
    show ¬ ("Description".toList = "Standards-Version".toList) by decide, if_false, if_true,
    find_char_none '\n' s hs]

/-- C20: `read_control` gives to `set_control_field`, for each field of the record, the value
on its first line followed, for each continuation line (a line after it that begins with
white space and is not blank), by a newline and the content of that line without leading and
trailing white space, a lone full stop counting as an empty line; the record ends with the
input or at the first blank line, and what follows that line is not read; and a Description
value is cut at its first newline into the summary and the description. -/
theorem read_control_field_values (p : Packager) (fs : List RawField)
    (hfs : ∀ f ∈ fs, f.well_formed = true) (blank later : Str)
    (hs : single_line blank = true) (hb : blank_line blank = true) :
    p.read_control (lines_text (fields_lines fs)) = set_fields fs p
      ∧ p.read_control (lines_text (fields_lines fs) ++ (blank ++ '\n' :: later))
          = set_fields fs p
      ∧ (∀ s d : Str, '\n' ∉ s →
          p.set_control_field "Description".toList (s ++ '\n' :: d)
            = ((p.summary s).description d, none))
      ∧ (∀ s : Str, '\n' ∉ s →
          p.set_control_field "Description".toList s = (p.summary s, none)) :=
  ⟨read_control_raw_fields_end p fs hfs, read_control_raw_fields_blank p fs hfs blank later hs hb,
    set_control_field_description p, set_control_field_summary p⟩

set_option maxRecDepth 100000 in
/-- C20 at a record with a package field and a description of three continuation lines,
followed by a line of two spaces and a line that is not read. -/
theorem read_control_field_values_witness :
    lines_text (fields_lines [example_raw_package, example_raw_description])
        ++ ("  ".toList ++ '\n' :: "Bad line\n".toList)
      = ("Package: Foo\nDescription:  A game \n first\n .\n\t last  \n"
          ++ "  \nBad line\n").toList
    ∧ example_raw_description.value = "A game\nfirst\n\nlast".toList
    ∧ (set_fields [example_raw_package, example_raw_description] Packager.new).1._summary
        = "A game".toList
    ∧ (set_fields [example_raw_package, example_raw_description] Packager.new).1._description
        = "first\n\nlast".toList
    ∧ (Packager.new.read_control
          (lines_text (fields_lines [example_raw_package, example_raw_description]))
        = set_fields [example_raw_package, example_raw_description] Packager.new
      ∧ Packager.new.read_control
          (lines_text (fields_lines [example_raw_package, example_raw_description])
            ++ ("  ".toList ++ '\n' :: "Bad line\n".toList))
        = set_fields [example_raw_package, example_raw_description] Packager.new
      ∧ (∀ s d : Str, '\n' ∉ s →
          Packager.new.set_control_field "Description".toList (s ++ '\n' :: d)
            = ((Packager.new.summary s).description d, none))
      ∧ (∀ s : Str, '\n' ∉ s →
          Packager.new.set_control_field "Description".toList s
            = (Packager.new.summary s, none))) :=
  ⟨by decide, by decide, by decide, by decide,
    read_control_field_values Packager.new [example_raw_package, example_raw_description]
      (by decide) "  ".toList "Bad line\n".toList (by decide) (by decide)⟩


/-- C18 at the text ": orphan\nPackage: Foo\n": the first line has a colon and no white space
before it, and its field name, the empty text, is not one of the twelve names; `read_control`
returns without a format error, drops the value "orphan" and reads the second line. -/
theorem read_control_accepts_empty_field_name :
    (Packager.new.read_control ": orphan\nPackage: Foo\n".toList).2 = none
      ∧ (Packager.new.read_control ": orphan\nPackage: Foo\n".toList).1
          = Packager.new.package_name "Foo".toList
      ∧ (Packager.new.set_control_field [] "orphan".toList).2
          = some "Unable to process field '' in RiscPkg/Control".toList
      ∧ (Packager.new.read_control "Orphan: orphan\nPackage: Foo\n".toList).2
          = some "Unable to process field 'Orphan' in RiscPkg/Control".toList :=
  ⟨by decide, rfl, by decide, by decide⟩


theorem set_control_field_known (p : Packager) (n v : Str) :
    (p.set_control_field n v).2 = none ↔ n ∈ known_field_names := by
  unfold Packager.set_control_field known_field_names
  by_cases h1 : n = "Package".toList
  · simp [h1]
  by_cases h2 : n = "Version".toList
  · rw [if_neg h1, if_pos h2]
    cases Packager.rfind_char '-' v <;> simp [h2]
  by_cases h3 : n = "Section".toList
  · simp [h3]
  by_cases h4 : n = "Priority".toList
  · simp [h4]
  by_cases h5 : n = "Maintainer".toList
  · simp [h5]
  by_cases h6 : n = "Standards-Version".toList
  · simp [h6]
  by_cases h7 : n = "Description".toList
  · rw [if_neg h1, if_neg h2, if_neg h3, if_neg h4, if_neg h5, if_neg h6, if_pos h7]
    cases Packager.find_char '\n' v <;> simp [h7]
  by_cases h8 : n = "Licence".toList
  · simp [h8]
  by_cases h9 : n = "Depends".toList
  · simp [h9]
  by_cases h10 : n = "Recommends".toList
  · simp [h10]
  by_cases h11 : n = "Suggests".toList
  · simp [h11]
  by_cases h12 : n = "Conflicts".toList
  · simp [h12]
  rw [if_neg h1, if_neg h2, if_neg h3, if_neg h4, if_neg h5, if_neg h6, if_neg h7, if_neg h8,
    if_neg h9, if_neg h10, if_neg h11, if_neg h12]
  simp only [List.mem_cons, h1, h2, h3, h4, h5, h6, h7, h8, h9, h10, h11, h12, false_or,
    List.mem_nil_iff, iff_false]
  exact fun h => Option.noConfusion h

/-- A record whose fields all have one of the twelve names is read without a format error,
and a record with a field of another name (not empty) is not. -/
theorem set_fields_known (fs : List RawField) :
    ∀ p : Packager, (set_fields fs p).2 = none ↔ ∀ f ∈ fs, f.name ∈ known_field_names := by
  induction fs with
  | nil => intro p; simp [set_fields]
  | cons f fs ih =>
    intro p
    rw [set_fields]
    have hk := set_control_field_known p f.name f.value
    cases hset : p.set_control_field f.name f.value with
    | mk p1 err =>
      rw [hset] at hk
      cases err with
      | none =>
        simp only [true_iff] at hk
        simp only [ih p1, List.mem_cons, forall_eq_or_imp, hk, true_and]
      | some e =>
        simp only [false_iff, reduceCtorEq] at hk
        simp only [reduceCtorEq, List.mem_cons, forall_eq_or_imp, hk, false_and]


/-! ## The Version field (C21) -/

theorem rfind_char_none (c : Char) (b : Str) (hb : c ∉ b) : Packager.rfind_char c b = none := by
  induction b with
  | nil => rfl
  | cons x xs ih =>
    have hx : x ≠ c := fun h => hb (by simp [h])
    simp only [Packager.rfind_char, ih (fun h => hb (by simp [h])), hx, if_false]

theorem set_control_field_version (p : Packager) (value : Str) :
    p.set_control_field "Version".toList value
      = match Packager.rfind_char '-' value with
        | none => ((p.version value).package_version [], none)
        | some rpos =>
            ((p.version (value.take rpos)).package_version (value.drop (rpos + 1)), none) :=
  rfl

theorem set_fields_append (a b : List RawField) :
    ∀ p : Packager, set_fields (a ++ b) p
      = match set_fields a p with
        | (p1, none) => set_fields b p1
        | (p1, some e) => (p1, some e) := by
  induction a with
  | nil => intro p; rfl
  | cons f fs ih =>
    intro p
    rw [List.cons_append, set_fields, set_fields]
    cases hset : p.set_control_field f.name f.value with
    | mk p1 err =>
      cases err with
      | none => exact ih p1
      | some e => rfl

theorem ErrInv.set_fields (fs : List RawField) :
    ∀ {p : Packager}, ErrInv p → ErrInv (set_fields fs p).1 := by
  induction fs with
  | nil => intro p h; exact h
  | cons f fs ih =>
    intro p h
    rw [Japkg.set_fields]
    have h1 := h.set_control_field f.name f.value
    cases hset : p.set_control_field f.name f.value with
    | mk p1 err =>
      rw [hset] at h1
      cases err with
      | none => exact ih h1
      | some e => exact h1

theorem error_text_package_version_empty (p : Packager) (hp : ErrInv p) :
    (p.package_version []).error_text PACKAGE_VERSION = "must be entered".toList := by
  unfold Packager.package_version Packager.require_entered
  rw [error_text_modified]
  simp only [List.isEmpty_nil, if_true]
  exact error_text_set_error _ _ _ (by rw [show _ = p._errors.length from rfl, hp.1]; decide)


/-- The record after `read_control` has read the fields `fs`, all with known names, and then
a field named Version. -/
theorem read_control_version_last (p : Packager) (fs : List RawField) (f : RawField)
    (hfs : ∀ g ∈ fs, g.well_formed = true ∧ g.name ∈ known_field_names)
    (hf : f.well_formed = true) (hname : f.name = "Version".toList) :
    p.read_control (lines_text (fields_lines (fs ++ [f])))
      = (set_fields fs p).1.set_control_field "Version".toList f.value := by
  rw [read_control_raw_fields_end p (fs ++ [f]) (by
      intro g hg
      rcases List.mem_append.mp hg with h | h
      · exact (hfs g h).1
      · rw [List.mem_singleton.mp h]
        exact hf),
    set_fields_append]
  have hnone : (set_fields fs p).2 = none :=
    (set_fields_known fs p).mpr (fun g hg => (hfs g hg).2)
  cases hset : set_fields fs p with
  | mk p1 err =>
    rw [hset] at hnone
    simp only at hnone
    subst hnone
    simp only [set_fields, hname]
    cases p1.set_control_field "Version".toList f.value with
    | mk p2 err2 =>
      cases err2 <;> rfl


/-! ## The names in the archive (C24, C25) -/

theorem swap_dot_slash_involutive (x : Char) :
    (fun x : Char => if x = '.' then '/' else if x = '/' then '.' else x)
      ((fun x : Char => if x = '.' then '/' else if x = '/' then '.' else x) x) = x := by
  by_cases h1 : x = '.'
  · subst h1; decide
  · by_cases h2 : x = '/'
    · subst h2; decide
    · simp [h1, h2]

theorem zip_to_riscos_name_involutive (s : Str) :
    Packager.zip_to_riscos_name (Packager.zip_to_riscos_name s) = s := by
  cases s with
  | nil => rfl
  | cons c cs =>
    simp only [Packager.zip_to_riscos_name, List.map_map, List.cons.injEq, true_and]
    conv_rhs => rw [← List.map_id cs]
    apply List.map_congr_left
    intro x _
    exact swap_dot_slash_involutive x

theorem zip_to_riscos_name_getElem? (s : Str) (i : Nat)
    (h : (Packager.zip_to_riscos_name s)[i]? ≠ s[i]?) :
    s[i]? = some '.' ∨ s[i]? = some '/' := by
  cases s with
  | nil => exact absurd rfl h
  | cons c cs =>
    cases i with
    | zero =>
      exfalso
      apply h
      simp [Packager.zip_to_riscos_name]
    | succ k =>
      simp only [Packager.zip_to_riscos_name, List.getElem?_cons_succ, List.getElem?_map] at h ⊢
      cases hx : cs[k]? with
      | none => rw [hx] at h; exact absurd rfl h
      | some x =>
        rw [hx] at h
        simp only [Option.map_some', ne_eq, Option.some.injEq] at h
        by_cases h1 : x = '.'
        · exact Or.inl (by rw [h1])
        · by_cases h2 : x = '/'
          · exact Or.inr (by rw [h2])
          · simp [h1, h2] at h

/-- C25: `zip_to_riscos_name` and `riscos_to_zip_name` undo each other for every text; the
result has the length of the argument and differs from it only where the argument holds a
'.' or a '/'. -/
theorem name_transform_bidirectional (s : Str) :
    Packager.zip_to_riscos_name (Packager.riscos_to_zip_name s) = s
      ∧ Packager.riscos_to_zip_name (Packager.zip_to_riscos_name s) = s
      ∧ (Packager.riscos_to_zip_name s).length = s.length
      ∧ (Packager.zip_to_riscos_name s).length = s.length
      ∧ (∀ i : Nat, (Packager.riscos_to_zip_name s)[i]? ≠ s[i]? →
          s[i]? = some '.' ∨ s[i]? = some '/')
      ∧ (∀ i : Nat, (Packager.zip_to_riscos_name s)[i]? ≠ s[i]? →
          s[i]? = some '.' ∨ s[i]? = some '/') := by
  unfold Packager.riscos_to_zip_name
  refine ⟨zip_to_riscos_name_involutive s, zip_to_riscos_name_involutive s, ?_, ?_,
    zip_to_riscos_name_getElem? s, zip_to_riscos_name_getElem? s⟩ <;>
  · cases s <;> simp [Packager.zip_to_riscos_name]


theorem riscos_to_zip_name_append (x rest : Str) (hx : x ≠ []) :
    Packager.riscos_to_zip_name (x ++ rest)
      = Packager.riscos_to_zip_name x
        ++ rest.map (fun c => if c = '.' then '/' else if c = '/' then '.' else c) := by
  obtain ⟨c, cs, rfl⟩ := List.exists_cons_of_ne_nil hx
  simp [Packager.riscos_to_zip_name, Packager.zip_to_riscos_name]

theorem riscos_to_zip_name_of_plain_head (d : Str)
    (hd : ∀ c, d.head? = some c → c ≠ '.' ∧ c ≠ '/') :
    d.map (fun c => if c = '.' then '/' else if c = '/' then '.' else c)
      = Packager.riscos_to_zip_name d := by
  cases d with
  | nil => rfl
  | cons c cs =>
    have h := hd c rfl
    simp [Packager.riscos_to_zip_name, Packager.zip_to_riscos_name, h.1, h.2]

/-- The two ways of computing the name in the archive agree when no component of the path
under the item begins with a '.' or a '/'. -/
theorem archive_path_agrees (x : Str) (hx : x ≠ []) (comps : List Str)
    (hc : ∀ d ∈ comps, ∀ c, d.head? = some c → c ≠ '.' ∧ c ≠ '/') :
    Packager.riscos_to_zip_name (x ++ (comps.map (fun d => '.' :: d)).flatten)
      = Packager.riscos_to_zip_name x
        ++ (comps.map (fun d => '/' :: Packager.riscos_to_zip_name d)).flatten := by
  rw [riscos_to_zip_name_append x _ hx]
  congr 1
  induction comps with
  | nil => rfl
  | cons d ds ih =>
    simp only [List.map_cons, List.flatten_cons, List.cons_append, List.map_append, if_true,
      List.cons.injEq, true_and]
    rw [ih (fun e he => hc e (by simp [he])), riscos_to_zip_name_of_plain_head d (hc d (by simp))]

/-- C24 at the item with source "$.Games.Foo" and install_to "Apps.Games" and the file
"/htaccess" of that directory: `copy_file` names the entry "Apps/Games/Foo/.htaccess" while
`build_disc_list` looks for "Apps/Games/Foo//htaccess", does not find the entry that
`copy_file` wrote, and reports a new file. -/
theorem archive_path_differs_for_leading_slash :
    Packager.riscos_to_zip_name
        ("Apps.Games".toList ++ ".".toList ++ "Foo".toList ++ ".".toList ++ "/htaccess".toList)
        = "Apps/Games/Foo/.htaccess".toList
      ∧ Packager.riscos_to_zip_name ("Apps.Games".toList ++ ".".toList ++ "Foo".toList)
          ++ "/".toList ++ Packager.riscos_to_zip_name "/htaccess".toList
        = "Apps/Games/Foo//htaccess".toList
      ∧ (Packager.copy_file ((parent_name "$.Games.Foo".toList).length + 1) "Apps.Games".toList
          ("$.Games.Foo./htaccess".toList, "data".toList)).name
        = "Apps/Games/Foo/.htaccess".toList
      ∧ Packager.build_disc_list_files "$.Games.Foo".toList
          (Packager.riscos_to_zip_name
            ("Apps.Games".toList ++ ".".toList ++ leaf_name "$.Games.Foo".toList))
          [("/htaccess".toList, "data".toList)]
          ([], [("Apps/Games/Foo/.htaccess".toList, 4)])
        = Except.error "new file $.Games.Foo./htaccess".toList := by
  refine ⟨by decide, by decide, by decide, rfl⟩


/-! ## The setters (C29, C30) -/

theorem require_entered_error_text (p : Packager) (hp : ErrInv p) (w : Nat) (hw : w < NUM_ITEMS)
    (v : Str) :
    (p.require_entered w v).error_text w
      = if v.isEmpty then "must be entered".toList else [] := by
  unfold Packager.require_entered
  rw [error_text_modified]
  split
  · exact error_text_set_error _ _ _ (by rw [hp.1]; exact hw)
  · exact error_text_clear_error _ _

theorem require_entered_slot (p0 p : Packager) (hp0 : ErrInv p0) (he : p._errors = p0._errors)
    (hc : p._error_count = p0._error_count) (w : Nat) (hw : w < NUM_ITEMS) (v : Str) :
    ((p.require_entered w v).error_text w ≠ [] ↔ v = [])
      ∧ (v = [] → (p.require_entered w v).error_text w = "must be entered".toList) := by
  rw [require_entered_error_text p (ErrInv.of_eq he hc hp0) w hw v]
  cases v with
  | nil => simp
  | cons c cs => simp

/-- C29: each of the setters `package_name`, `version`, `package_version`, `section`,
`priority`, `summary`, `licence` and `copyright` stores its argument, and leaves a text in
the error slot of its field, the text "must be entered", exactly when the argument is empty;
`description` stores its argument and leaves the error texts and their count as they
were. -/
theorem plain_setters_store_and_require (p : Packager) (hp : Reachable p) (v : Str) :
    ((p.package_name v)._package_name = v
        ∧ ((p.package_name v).error_text PACKAGE_NAME ≠ [] ↔ v = [])
        ∧ (v = [] → (p.package_name v).error_text PACKAGE_NAME = "must be entered".toList))
      ∧ ((p.version v)._version = v
        ∧ ((p.version v).error_text VERSION ≠ [] ↔ v = [])
        ∧ (v = [] → (p.version v).error_text VERSION = "must be entered".toList))
      ∧ ((p.package_version v)._package_version = v
        ∧ ((p.package_version v).error_text PACKAGE_VERSION ≠ [] ↔ v = [])
        ∧ (v = [] →
            (p.package_version v).error_text PACKAGE_VERSION = "must be entered".toList))
      ∧ ((p.section_ v)._section = v
        ∧ ((p.section_ v).error_text SECTION ≠ [] ↔ v = [])
        ∧ (v = [] → (p.section_ v).error_text SECTION = "must be entered".toList))
      ∧ ((p.priority v)._priority = v
        ∧ ((p.priority v).error_text PRIORITY ≠ [] ↔ v = [])
        ∧ (v = [] → (p.priority v).error_text PRIORITY = "must be entered".toList))
      ∧ ((p.summary v)._summary = v
        ∧ ((p.summary v).error_text SUMMARY ≠ [] ↔ v = [])
        ∧ (v = [] → (p.summary v).error_text SUMMARY = "must be entered".toList))
      ∧ ((p.licence v)._licence = v
        ∧ ((p.licence v).error_text LICENCE ≠ [] ↔ v = [])
        ∧ (v = [] → (p.licence v).error_text LICENCE = "must be entered".toList))
      ∧ ((p.copyright v)._copyright = v
        ∧ ((p.copyright v).error_text COPYRIGHT ≠ [] ↔ v = [])
        ∧ (v = [] → (p.copyright v).error_text COPYRIGHT = "must be entered".toList))
      ∧ ((p.description v)._description = v
        ∧ (∀ k : Nat, (p.description v).error_text k = p.error_text k)
        ∧ (p.description v).error_count = p.error_count) := by
  have h := hp.errInv
  refine ⟨⟨?_, ?_⟩, ⟨?_, ?_⟩, ⟨?_, ?_⟩, ⟨?_, ?_⟩, ⟨?_, ?_⟩, ⟨?_, ?_⟩, ⟨?_, ?_⟩, ⟨?_, ?_⟩,
    ?_, ?_, ?_⟩
  · simp [Packager.package_name]
  · unfold Packager.package_name
    refine require_entered_slot p _ h ?_ ?_ PACKAGE_NAME (by decide) v <;> rfl
  · simp [Packager.version]
  · unfold Packager.version
    refine require_entered_slot p _ h ?_ ?_ VERSION (by decide) v <;> rfl
  · simp [Packager.package_version]
  · unfold Packager.package_version
    refine require_entered_slot p _ h ?_ ?_ PACKAGE_VERSION (by decide) v <;> rfl
  · simp [Packager.section_]
  · unfold Packager.section_
    refine require_entered_slot p _ h ?_ ?_ SECTION (by decide) v <;> rfl
  · simp [Packager.priority]
  · unfold Packager.priority
    refine require_entered_slot p _ h ?_ ?_ PRIORITY (by decide) v <;> rfl
  · simp [Packager.summary]
  · unfold Packager.summary
    refine require_entered_slot p _ h ?_ ?_ SUMMARY (by decide) v <;> rfl
  · simp [Packager.licence]
  · unfold Packager.licence
    refine require_entered_slot p _ h ?_ ?_ LICENCE (by decide) v <;> rfl
  · simp [Packager.copyright]
  · unfold Packager.copyright
    refine require_entered_slot p _ h ?_ ?_ COPYRIGHT (by decide) v <;> rfl
  · simp [Packager.description]
  · intro k
    unfold Packager.description
    rw [error_text_modified]
    rfl
  · simp [Packager.description, Packager.error_count]

/-- C29 at the record made by the constructor and the empty text. -/
theorem plain_setters_store_and_require_witness :
    (Packager.new.summary [])._summary = []
      ∧ (Packager.new.summary []).error_text SUMMARY = "must be entered".toList
      ∧ ((Packager.new.licence "Free".toList).error_text LICENCE ≠ [] ↔ "Free".toList = []) :=
  ⟨(plain_setters_store_and_require Packager.new Reachable.new []).2.2.2.2.2.1.1,
    (plain_setters_store_and_require Packager.new Reachable.new []).2.2.2.2.2.1.2.2 rfl,
    (plain_setters_store_and_require Packager.new Reachable.new
      "Free".toList).2.2.2.2.2.2.1.2.1⟩


theorem error_text_set_error_of_ne (p : Packager) (w k : Nat) (m : Str) (h : k ≠ w) :
    (p.set_error w m).error_text k = p.error_text k := by
  unfold Packager.set_error Packager.error_text
  simp only [List.getD_eq_getElem?_getD]
  rw [List.getElem?_set_ne (Ne.symm h)]

theorem error_text_clear_error_of_ne (p : Packager) (w k : Nat) (h : k ≠ w) :
    (p.clear_error w).error_text k = p.error_text k := by
  unfold Packager.clear_error
  split
  · unfold Packager.error_text
    simp only [List.getD_eq_getElem?_getD]
    rw [List.getElem?_set_ne (Ne.symm h)]
  · rfl

theorem errors_changed_only_at_set_error (p0 p : Packager) (he : p._errors = p0._errors)
    (hc : p._error_count = p0._error_count) (w : Nat) (m : Str) :
    errors_changed_only_at p0 (p.set_error w m) w := by
  constructor
  · intro k hk
    rw [error_text_set_error_of_ne p w k m hk]
    unfold Packager.error_text
    rw [he]
  · unfold Packager.error_count Packager.set_error
    simp only
    rw [hc]
    split <;> simp

theorem errors_changed_only_at_clear_error (p0 p : Packager) (he : p._errors = p0._errors)
    (hc : p._error_count = p0._error_count) (w : Nat) :
    errors_changed_only_at p0 (p.clear_error w) w := by
  constructor
  · intro k hk
    rw [error_text_clear_error_of_ne p w k hk]
    unfold Packager.error_text
    rw [he]
  · unfold Packager.error_count Packager.clear_error
    split
    · simp only
      rw [hc]
      simp
    · rw [hc]
      simp

theorem errors_changed_only_at_modified {p0 q : Packager} {w : Nat}
    (h : errors_changed_only_at p0 q w) (m : Bool) :
    errors_changed_only_at p0 (q.modified m) w := by
  obtain ⟨h1, h2⟩ := h
  constructor
  · intro k hk
    rw [error_text_modified]
    exact h1 k hk
  · unfold Packager.error_count at *
    rw [modified_get_error_count]
    exact h2

theorem errors_changed_only_at_ite {c : Prop} [Decidable c] {p0 a b : Packager} {w : Nat}
    (ha : errors_changed_only_at p0 a w) (hb : errors_changed_only_at p0 b w) :
    errors_changed_only_at p0 (if c then a else b) w := by
  split
  · exact ha
  · exact hb

theorem errors_changed_only_at_require_entered (p0 p : Packager) (he : p._errors = p0._errors)
    (hc : p._error_count = p0._error_count) (w : Nat) (v : Str) :
    errors_changed_only_at p0 (p.require_entered w v) w := by
  unfold Packager.require_entered
  apply errors_changed_only_at_modified
  apply errors_changed_only_at_ite
  · exact errors_changed_only_at_set_error p0 p he hc w _
  · exact errors_changed_only_at_clear_error p0 p he hc w

theorem errors_changed_only_at_check_depends (p0 p : Packager) (he : p._errors = p0._errors)
    (hc : p._error_count = p0._error_count) (w : Nat) (v : Str) :
    errors_changed_only_at p0 (p.check_depends w v) w := by
  unfold Packager.check_depends
  dsimp only
  apply errors_changed_only_at_ite
  · exact errors_changed_only_at_clear_error p0 p he hc w
  · apply errors_changed_only_at_ite
    · exact errors_changed_only_at_clear_error p0 p he hc w
    · exact errors_changed_only_at_set_error p0 p he hc w _

theorem errors_changed_only_at_maintainer (p : Packager) (v : Str) :
    errors_changed_only_at p (p.maintainer v) MAINTAINER := by
  unfold Packager.maintainer
  apply errors_changed_only_at_modified
  apply errors_changed_only_at_ite
  · refine errors_changed_only_at_set_error p _ ?_ ?_ MAINTAINER _ <;> rfl
  · split
    · apply errors_changed_only_at_ite
      · refine errors_changed_only_at_set_error p _ ?_ ?_ MAINTAINER _ <;> rfl
      · refine errors_changed_only_at_clear_error p _ ?_ ?_ MAINTAINER <;> rfl
    · refine errors_changed_only_at_set_error p _ ?_ ?_ MAINTAINER _ <;> rfl

theorem errors_changed_only_at_standards_version (p : Packager) (v : Str) :
    errors_changed_only_at p (p.standards_version v) STANDARDS_VERSION := by
  unfold Packager.standards_version
  apply errors_changed_only_at_modified
  dsimp only
  repeat' first
    | (refine errors_changed_only_at_set_error p _ ?_ ?_ STANDARDS_VERSION _ <;> rfl)
    | (refine errors_changed_only_at_clear_error p _ ?_ ?_ STANDARDS_VERSION <;> rfl)
    | apply errors_changed_only_at_ite


/-- C30: each of the fifteen setters of a single field changes, among the values of the
record, only the value of its own field (the item list and every other field keep their
value), leaves the error text of every slot but the one of its field as it was, and changes
the count of errors by at most one. -/
theorem setters_change_only_their_field (p : Packager) (hp : Reachable p) (v : Str) :
    ((p.package_name v).fields = { p.fields with package_name := v }
        ∧ errors_changed_only_at p (p.package_name v) PACKAGE_NAME)
      ∧ ((p.version v).fields = { p.fields with version := v }
        ∧ errors_changed_only_at p (p.version v) VERSION)
      ∧ ((p.package_version v).fields = { p.fields with package_version := v }
        ∧ errors_changed_only_at p (p.package_version v) PACKAGE_VERSION)
      ∧ ((p.section_ v).fields = { p.fields with section_ := v }
        ∧ errors_changed_only_at p (p.section_ v) SECTION)
      ∧ ((p.priority v).fields = { p.fields with priority := v }
        ∧ errors_changed_only_at p (p.priority v) PRIORITY)
      ∧ ((p.maintainer v).fields = { p.fields with maintainer := v }
        ∧ errors_changed_only_at p (p.maintainer v) MAINTAINER)
      ∧ ((p.standards_version v).fields = { p.fields with standards_version := v }
        ∧ errors_changed_only_at p (p.standards_version v) STANDARDS_VERSION)
      ∧ ((p.summary v).fields = { p.fields with summary := v }
        ∧ errors_changed_only_at p (p.summary v) SUMMARY)
      ∧ ((p.description v).fields = { p.fields with description := v }
        ∧ errors_changed_only_at p (p.description v) DESCRIPTION)
      ∧ ((p.licence v).fields = { p.fields with licence := v }
        ∧ errors_changed_only_at p (p.licence v) LICENCE)
      ∧ ((p.copyright v).fields = { p.fields with copyright := v }
        ∧ errors_changed_only_at p (p.copyright v) COPYRIGHT)
      ∧ ((p.depends v).fields = { p.fields with depends := v }
        ∧ errors_changed_only_at p (p.depends v) DEPENDS)
      ∧ ((p.recommends v).fields = { p.fields with recommends := v }
        ∧ errors_changed_only_at p (p.recommends v) RECOMMENDS)
      ∧ ((p.suggests v).fields = { p.fields with suggests := v }
        ∧ errors_changed_only_at p (p.suggests v) SUGGESTS)
      ∧ ((p.conflicts v).fields = { p.fields with conflicts := v }
        ∧ errors_changed_only_at p (p.conflicts v) CONFLICTS) := by
  have _ := hp
  refine ⟨⟨?_, ?_⟩, ⟨?_, ?_⟩, ⟨?_, ?_⟩, ⟨?_, ?_⟩, ⟨?_, ?_⟩, ⟨?_, ?_⟩, ⟨?_, ?_⟩, ⟨?_, ?_⟩,
    ⟨?_, ?_⟩, ⟨?_, ?_⟩, ⟨?_, ?_⟩, ⟨?_, ?_⟩, ⟨?_, ?_⟩, ⟨?_, ?_⟩, ⟨?_, ?_⟩⟩
  · exact fields_package_name p v
  · unfold Packager.package_name
    refine errors_changed_only_at_require_entered p _ ?_ ?_ PACKAGE_NAME v <;> rfl
  · exact fields_version p v
  · unfold Packager.version
    refine errors_changed_only_at_require_entered p _ ?_ ?_ VERSION v <;> rfl
  · exact fields_package_version p v
  · unfold Packager.package_version
    refine errors_changed_only_at_require_entered p _ ?_ ?_ PACKAGE_VERSION v <;> rfl
  · exact fields_section p v
  · unfold Packager.section_
    refine errors_changed_only_at_require_entered p _ ?_ ?_ SECTION v <;> rfl
  · exact fields_priority p v
  · unfold Packager.priority
    refine errors_changed_only_at_require_entered p _ ?_ ?_ PRIORITY v <;> rfl
  · exact fields_maintainer p v
  · exact errors_changed_only_at_maintainer p v
  · exact fields_standards_version p v
  · exact errors_changed_only_at_standards_version p v
  · exact fields_summary p v
  · unfold Packager.summary
    refine errors_changed_only_at_require_entered p _ ?_ ?_ SUMMARY v <;> rfl
  · exact fields_description p v
  · unfold Packager.description
    apply errors_changed_only_at_modified
    exact ⟨fun _ _ => rfl, by simp [Packager.error_count]⟩
  · exact fields_licence p v
  · unfold Packager.licence
    refine errors_changed_only_at_require_entered p _ ?_ ?_ LICENCE v <;> rfl
  · exact fields_copyright p v
  · unfold Packager.copyright
    refine errors_changed_only_at_require_entered p _ ?_ ?_ COPYRIGHT v <;> rfl
  · exact fields_depends p v
  · unfold Packager.depends
    apply errors_changed_only_at_modified
    refine errors_changed_only_at_check_depends p _ ?_ ?_ DEPENDS v <;> rfl
  · exact fields_recommends p v
  · unfold Packager.recommends
    apply errors_changed_only_at_modified
    refine errors_changed_only_at_check_depends p _ ?_ ?_ RECOMMENDS v <;> rfl
  · exact fields_suggests p v
  · unfold Packager.suggests
    apply errors_changed_only_at_modified
    refine errors_changed_only_at_check_depends p _ ?_ ?_ SUGGESTS v <;> rfl
  · exact fields_conflicts p v
  · unfold Packager.conflicts
    apply errors_changed_only_at_modified
    refine errors_changed_only_at_check_depends p _ ?_ ?_ CONFLICTS v <;> rfl

/-- C30 at the record made by the constructor and the maintainer "Jo". -/
theorem setters_change_only_their_field_witness :
    (Packager.new.maintainer "Jo".toList).fields
        = { Packager.new.fields with maintainer := "Jo".toList }
      ∧ errors_changed_only_at Packager.new (Packager.new.maintainer "Jo".toList) MAINTAINER :=
  (setters_change_only_their_field Packager.new Reachable.new "Jo".toList).2.2.2.2.2.1


/-! ## Browsing the errors (C27, C28) -/

theorem error_text_ne_nil_iff (p : Packager) (k : Nat) :
    p.error_text k ≠ [] ↔ (p._errors.getD ((k : Int)).toNat []).isEmpty = false := by
  unfold Packager.error_text
  rw [Int.toNat_ofNat]
  cases p._errors.getD k [] <;> simp

/-- The loop of `next_error`, entered at an index from -1 to 17 on a list with a text in some
slot, returns the first slot with a text in the cyclic order that begins after the index. -/
theorem next_error_loop_first (p : Packager) (i0 : Int) (h0 : -1 ≤ i0) (h1 : i0 < 18)
    (hex : ∃ s : Int, 0 ≤ s ∧ s < 18 ∧ (p._errors.getD s.toNat []).isEmpty = false) :
    ∃ j : Nat, Packager.next_error_loop p._errors NUM_ITEMS i0 = some (j : Int)
      ∧ j < 18 ∧ p.error_text j ≠ []
      ∧ ∀ k : Nat, k < 18 → p.error_text k ≠ [] →
          (i0 < (k : Int) → i0 < (j : Int) ∧ j ≤ k)
            ∧ ((k : Int) ≤ i0 → i0 < (j : Int) ∨ j ≤ k) := by
  obtain ⟨s, hs0, hs1, hs⟩ := hex
  obtain ⟨j, hj, hj0, hj1, hjq, _⟩ :=
    next_error_loop_spec p._errors s hs0 hs1 hs NUM_ITEMS i0 h0 h1 (by
      simp only [NUM_ITEMS, Nat.cast_ofNat]
      omega)
  refine ⟨j.toNat, by rw [Int.toNat_of_nonneg hj0]; exact hj, by omega, ?_, ?_⟩
  · rw [error_text_ne_nil_iff, Int.toNat_of_nonneg hj0]
    exact hjq
  · intro k hk hke
    rw [error_text_ne_nil_iff] at hke
    obtain ⟨j', hj', _, _, _, hd⟩ :=
      next_error_loop_spec p._errors (k : Int) (by omega) (by omega) hke NUM_ITEMS i0 h0 h1 (by
        simp only [NUM_ITEMS, Nat.cast_ofNat]
        omega)
    rw [hj] at hj'
    simp only [Option.some.injEq] at hj'
    subst hj'
    constructor
    · intro hik
      omega
    · intro hki
      omega


/-- What `next_error` returns on a record that keeps the invariant and has errors. -/
theorem next_error_slot (p : Packager) (hp : ErrInv p) (hc : p._error_count ≠ 0) (i : Int)
    (hi : -1 ≤ i) :
    ∃ j : Nat, p.next_error i = some (j : Int) ∧ is_next_error_slot p i j := by
  have hex := hp.exists_error hc
  have hclamp : -1 ≤ (if i ≥ (NUM_ITEMS : Int) then (NUM_ITEMS : Int) - 1 else i)
      ∧ (if i ≥ (NUM_ITEMS : Int) then (NUM_ITEMS : Int) - 1 else i) < 18 := by
    simp only [NUM_ITEMS, Nat.cast_ofNat]
    split <;> omega
  obtain ⟨j, hj, hj1, hje, hfirst⟩ := next_error_loop_first p _ hclamp.1 hclamp.2 hex
  refine ⟨j, ?_, ?_⟩
  · unfold Packager.next_error
    rw [if_neg hc]
    exact hj
  · have hi0 : ∀ k : Nat, k < 18 →
        (i < (k : Int) ↔ (if i ≥ (NUM_ITEMS : Int) then (NUM_ITEMS : Int) - 1 else i) < (k : Int))
        := by
      intro k hk
      simp only [NUM_ITEMS, Nat.cast_ofNat]
      split <;> omega
    refine ⟨hj1, hje, ?_, ?_⟩
    · rintro ⟨k, hik, hk, hke⟩
      have hk18 : k < 18 := hk
      have h1 := (hfirst k hk18 hke).1 ((hi0 k hk18).mp hik)
      refine ⟨(hi0 j hj1).mpr h1.1, ?_⟩
      intro k' hik' hk'j
      by_contra hne
      have hk'18 : k' < 18 := by omega
      have h2 := (hfirst k' hk'18 hne).1 ((hi0 k' hk'18).mp hik')
      omega
    · intro hno k hkj
      by_contra hne
      have hk18 : k < 18 := by omega
      have hki : ¬ i < (k : Int) := fun h => hno ⟨k, h, hk18, hne⟩
      have hji : ¬ i < (j : Int) := fun h => hno ⟨j, h, hj1, hje⟩
      have h2 := (hfirst k hk18 hne).2 (by
        have := (hi0 k hk18).not.mp hki
        omega)
      rcases h2 with h2 | h2
      · exact hji ((hi0 j hj1).mpr h2)
      · omega

/-- C27: on every reachable record and for every `i >= -1`, `next_error(i)` returns; the
result is -1 exactly when the record has no error; otherwise it is the first slot after `i`
that holds an error text or, when there is none (as for `i >= NUM_ITEMS - 1`), the first
slot of all that holds one; and `first_error()` is `next_error(-1)`. -/
theorem next_error_returns_next_slot (p : Packager) (hp : Reachable p) (i : Int)
    (hi : -1 ≤ i) :
    ∃ j : Int, p.next_error i = some j
      ∧ (j = -1 ↔ p.error_count = 0)
      ∧ (p.error_count ≠ 0 → 0 ≤ j ∧ is_next_error_slot p i j.toNat)
      ∧ p.first_error = p.next_error (-1) := by
  by_cases hc : p._error_count = 0
  · refine ⟨-1, ?_, ?_, ?_, rfl⟩
    · unfold Packager.next_error
      rw [if_pos hc]
    · unfold Packager.error_count
      simp [hc]
    · intro h
      exact absurd hc h
  · obtain ⟨j, hj, hslot⟩ := next_error_slot p hp.errInv hc i hi
    refine ⟨(j : Int), hj, ?_, ?_, rfl⟩
    · unfold Packager.error_count
      constructor
      · intro h
        omega
      · intro h
        exact absurd h hc
    · intro _
      refine ⟨by omega, ?_⟩
      rw [Int.toNat_ofNat]
      exact hslot

set_option maxRecDepth 100000 in
/-- C27 at the record with no package name and no summary, from the slot of the package
name and from the slot of the summary. -/
theorem next_error_returns_next_slot_witness :
    example_record_two_errors.error_count = 2
      ∧ example_record_two_errors.next_error (PACKAGE_NAME : Int) = some (SUMMARY : Int)
      ∧ example_record_two_errors.next_error (SUMMARY : Int) = some (PACKAGE_NAME : Int)
      ∧ example_record_two_errors.next_error 40 = some (PACKAGE_NAME : Int)
      ∧ ∃ j : Int, example_record_two_errors.next_error (SUMMARY : Int) = some j
          ∧ (j = -1 ↔ example_record_two_errors.error_count = 0)
          ∧ (example_record_two_errors.error_count ≠ 0 →
              0 ≤ j ∧ is_next_error_slot example_record_two_errors (SUMMARY : Int) j.toNat)
          ∧ example_record_two_errors.first_error
              = example_record_two_errors.next_error (-1) :=
  ⟨by decide, by decide, by decide, by decide,
    next_error_returns_next_slot example_record_two_errors
      (Reachable.summary _ _ (Reachable.package_name _ _
        (Reachable.set_item_to_package _ _ reachable_example_record_plain)))
      (SUMMARY : Int) (by decide)⟩


theorem mem_error_slot_list (p : Packager) (j : Nat) :
    j ∈ error_slot_list p ↔ j < NUM_ITEMS ∧ p.error_text j ≠ [] := by
  unfold error_slot_list
  rw [List.mem_filter, List.mem_range]
  cases p.error_text j <;> simp

theorem error_slot_list_sorted (p : Packager) :
    (error_slot_list p).Pairwise (fun a b => a < b) :=
  List.Pairwise.filter _ (List.pairwise_lt_range NUM_ITEMS)

theorem error_slot_list_length (p : Packager) (hp : ErrInv p) :
    ((error_slot_list p).length : Int) = p.error_count := by
  rw [hp.count_eq]
  rfl

theorem pairwise_lt_index {l : List Nat} (hl : l.Pairwise (fun a b => a < b)) {m n : Nat}
    {a b : Nat} (hm : l[m]? = some a) (hn : l[n]? = some b) : m < n ↔ a < b := by
  have hm1 : m < l.length := (List.getElem?_eq_some_iff.mp hm).1
  have hn1 : n < l.length := (List.getElem?_eq_some_iff.mp hn).1
  have ha : l[m] = a := (List.getElem?_eq_some_iff.mp hm).2
  have hb : l[n] = b := (List.getElem?_eq_some_iff.mp hn).2
  rw [List.pairwise_iff_getElem] at hl
  constructor
  · intro h
    rw [← ha, ← hb]
    exact hl m n hm1 hn1 h
  · intro h
    by_contra hnm
    rcases Nat.lt_or_ge n m with h1 | h1
    · have := hl n m hn1 hm1 h1
      rw [ha, hb] at this
      omega
    · have hmn : m = n := by omega
      subst hmn
      rw [ha] at hb
      omega

/-- On a record that keeps the invariant, `next_error` called with a slot of the list of the
slots with an error returns the next slot of the list, and the first one after the last. -/
theorem next_error_at_slot (p : Packager) (hp : ErrInv p) (k a : Nat)
    (hk : (error_slot_list p)[k]? = some a) :
    ∃ b : Nat, (error_slot_list p)[(k + 1) % (error_slot_list p).length]? = some b
      ∧ p.next_error (a : Int) = some (b : Int) := by
  have hk1 : k < (error_slot_list p).length := (List.getElem?_eq_some_iff.mp hk).1
  have hsorted := error_slot_list_sorted p
  have ha : a ∈ error_slot_list p := List.getElem?_mem hk
  have hc : p._error_count ≠ 0 := by
    have := error_slot_list_length p hp
    unfold Packager.error_count at this
    omega
  obtain ⟨j, hj, hj1, hje, hafter, hnone⟩ := next_error_slot p hp hc (a : Int) (by omega)
  have hjmem : j ∈ error_slot_list p := (mem_error_slot_list p j).mpr ⟨hj1, hje⟩
  obtain ⟨m, hm⟩ := List.getElem?_of_mem hjmem
  have hmod : (k + 1) % (error_slot_list p).length < (error_slot_list p).length :=
    Nat.mod_lt _ (by omega)
  obtain ⟨b, hb⟩ : ∃ b, (error_slot_list p)[(k + 1) % (error_slot_list p).length]? = some b :=
    ⟨_, List.getElem?_eq_getElem hmod⟩
  refine ⟨b, hb, ?_⟩
  rw [hj]
  have hbmem := (mem_error_slot_list p b).mp (List.getElem?_mem hb)
  suffices h : j = b by rw [h]
  by_cases hlast : k + 1 < (error_slot_list p).length
  · rw [Nat.mod_eq_of_lt hlast] at hb
    have hab : a < b := (pairwise_lt_index hsorted hk hb).mp (by omega)
    obtain ⟨haj, hbetween⟩ := hafter ⟨b, by omega, hbmem.1, hbmem.2⟩
    have hkm : k < m := (pairwise_lt_index hsorted hk hm).mpr (by omega)
    have hjb : j ≤ b := by
      by_contra hlt
      exact hbmem.2 (hbetween b (by omega) (by omega))
    rcases Nat.lt_or_ge (k + 1) m with h1 | h1
    · have := (pairwise_lt_index hsorted hb hm).mp h1
      omega
    · have hmk : m = k + 1 := by omega
      rw [hmk, hb] at hm
      simp only [Option.some.injEq] at hm
      exact hm.symm
  · have hk2 : k + 1 = (error_slot_list p).length := by omega
    rw [hk2, Nat.mod_self] at hb
    have hno : ¬ ∃ k' : Nat, (a : Int) < (k' : Int) ∧ k' < NUM_ITEMS ∧ p.error_text k' ≠ [] := by
      rintro ⟨k', hak', hk'1, hk'e⟩
      obtain ⟨n, hn⟩ := List.getElem?_of_mem ((mem_error_slot_list p k').mpr ⟨hk'1, hk'e⟩)
      have hn1 : n < (error_slot_list p).length := (List.getElem?_eq_some_iff.mp hn).1
      have := (pairwise_lt_index hsorted hk hn).mpr (by omega)
      omega
    have hbelow := hnone hno
    have hjb : j ≤ b := by
      by_contra hlt
      exact hbmem.2 (hbelow b (by omega))
    rcases Nat.eq_zero_or_pos m with h0 | h0
    · rw [h0, hb] at hm
      simp only [Option.some.injEq] at hm
      exact hm.symm
    · have := (pairwise_lt_index hsorted hb hm).mp h0
      omega

/-- On a record that keeps the invariant and has errors, `first_error` returns the first slot
of the list of the slots with an error. -/
theorem first_error_at_slot (p : Packager) (hp : ErrInv p) (hc : p._error_count ≠ 0) :
    ∃ b : Nat, (error_slot_list p)[0]? = some b ∧ p.first_error = some (b : Int) := by
  have hsorted := error_slot_list_sorted p
  obtain ⟨j, hj, hj1, hje, hafter, _⟩ := next_error_slot p hp hc (-1) (by omega)
  have hjmem : j ∈ error_slot_list p := (mem_error_slot_list p j).mpr ⟨hj1, hje⟩
  obtain ⟨m, hm⟩ := List.getElem?_of_mem hjmem
  have hlen : 0 < (error_slot_list p).length := List.length_pos_of_mem hjmem
  obtain ⟨b, hb⟩ : ∃ b, (error_slot_list p)[0]? = some b := ⟨_, List.getElem?_eq_getElem hlen⟩
  refine ⟨b, hb, ?_⟩
  unfold Packager.first_error
  rw [hj]
  have hbmem := (mem_error_slot_list p b).mp (List.getElem?_mem hb)
  suffices h : j = b by rw [h]
  obtain ⟨_, hbetween⟩ := hafter ⟨b, by omega, hbmem.1, hbmem.2⟩
  have hjb : j ≤ b := by
    by_contra hlt
    exact hbmem.2 (hbetween b (by omega) (by omega))
  rcases Nat.eq_zero_or_pos m with h0 | h0
  · rw [h0, hb] at hm
    simp only [Option.some.injEq] at hm
    exact hm.symm
  · have := (pairwise_lt_index hsorted hb hm).mp h0
    omega


theorem error_visit_at_slot (p : Packager) (hp : ErrInv p) (hc : p._error_count ≠ 0) :
    ∀ k : Nat, k < (error_slot_list p).length →
      ∃ a : Nat, (error_slot_list p)[k]? = some a ∧ error_visit p k = some (a : Int) := by
  intro k
  induction k with
  | zero =>
    intro _
    obtain ⟨b, hb, hf⟩ := first_error_at_slot p hp hc
    exact ⟨b, hb, hf⟩
  | succ k ih =>
    intro hk
    obtain ⟨a, ha, hv⟩ := ih (by omega)
    obtain ⟨b, hb, hn⟩ := next_error_at_slot p hp k a ha
    rw [Nat.mod_eq_of_lt hk] at hb
    refine ⟨b, hb, ?_⟩
    rw [error_visit, hv]
    exact hn

/-- C28: on every reachable record with `n = error_count() > 0`, the slots that hold an error
are `n` in number and the walk `first_error()`, `next_error(first_error())`, ... visits them
one after the other in increasing order of their index, each once in its first `n` calls;
the call after these returns `first_error()` again. -/
theorem error_walk_visits_each_error_once (p : Packager) (hp : Reachable p)
    (hc : p.error_count ≠ 0) :
    ((error_slot_list p).length : Int) = p.error_count
      ∧ (error_slot_list p).Pairwise (fun a b => a < b)
      ∧ (∀ j : Nat, j ∈ error_slot_list p ↔ j < NUM_ITEMS ∧ p.error_text j ≠ [])
      ∧ (∀ k : Nat, k < (error_slot_list p).length →
          error_visit p k = ((error_slot_list p)[k]?).map (fun j => (j : Int)))
      ∧ error_visit p (error_slot_list p).length = p.first_error := by
  have hinv := hp.errInv
  have hlen := error_slot_list_length p hinv
  have hc' : p._error_count ≠ 0 := hc
  refine ⟨hlen, error_slot_list_sorted p, mem_error_slot_list p, ?_, ?_⟩
  · intro k hk
    obtain ⟨a, ha, hv⟩ := error_visit_at_slot p hinv hc' k hk
    rw [ha, hv]
    rfl
  · have hpos : 0 < (error_slot_list p).length := by
      unfold Packager.error_count at hlen hc
      have h0 : 0 ≤ ((error_slot_list p).length : Int) := Int.natCast_nonneg _
      omega
    obtain ⟨n, hn⟩ : ∃ n, (error_slot_list p).length = n + 1 :=
      ⟨_, (Nat.succ_pred_eq_of_pos hpos).symm⟩
    obtain ⟨a, ha, hv⟩ := error_visit_at_slot p hinv hc' n (by omega)
    obtain ⟨b, hb, hnext⟩ := next_error_at_slot p hinv n a ha
    rw [hn, Nat.mod_self] at hb
    obtain ⟨b0, hb0, hfirst⟩ := first_error_at_slot p hinv hc'
    rw [hb0] at hb
    simp only [Option.some.injEq] at hb
    subst hb
    rw [hn, error_visit, hv, hfirst]
    exact hnext

set_option maxRecDepth 100000 in
/-- C28 at the record with no package name and no summary: the walk visits the slot of the
package name, then the slot of the summary, then the slot of the package name again. -/
theorem error_walk_visits_each_error_once_witness :
    example_record_two_errors._package_name = [] ∧ example_record_two_errors._summary = []
      ∧ example_record_two_errors.error_count = 2
      ∧ error_slot_list example_record_two_errors = [PACKAGE_NAME, SUMMARY]
      ∧ error_visit example_record_two_errors 0 = some (PACKAGE_NAME : Int)
      ∧ error_visit example_record_two_errors 1 = some (SUMMARY : Int)
      ∧ error_visit example_record_two_errors 2 = some (PACKAGE_NAME : Int)
      ∧ (((error_slot_list example_record_two_errors).length : Int)
            = example_record_two_errors.error_count
        ∧ (error_slot_list example_record_two_errors).Pairwise (fun a b => a < b)
        ∧ (∀ j : Nat, j ∈ error_slot_list example_record_two_errors
            ↔ j < NUM_ITEMS ∧ example_record_two_errors.error_text j ≠ [])
        ∧ (∀ k : Nat, k < (error_slot_list example_record_two_errors).length →
            error_visit example_record_two_errors k
              = ((error_slot_list example_record_two_errors)[k]?).map (fun j => (j : Int)))
        ∧ error_visit example_record_two_errors
            (error_slot_list example_record_two_errors).length
            = example_record_two_errors.first_error) :=
  ⟨by decide, by decide, by decide, by decide, by decide, by decide, by decide,
    error_walk_visits_each_error_once example_record_two_errors
      (Reachable.summary _ _ (Reachable.package_name _ _
        (Reachable.set_item_to_package _ _ reachable_example_record_plain)))
      (by decide)⟩


/-! ## Folding the description (C23) -/

/-- The folding written by `control_as_text` is the one of the specification when the last
line of the description is empty (the description ends with a newline, or is empty) or is
not blank. -/
theorem fold_description_folded_lines (lines : List Str) (hne : lines ≠ [])
    (hs : ∀ l ∈ lines, single_line l = true)
    (hlast : ∀ l, lines.getLast? = some l → l = [] ∨ blank_description_line l = false) :
    ∀ k : Nat, Packager.fold_description [] k (join_lines lines) = folded_lines lines k := by
  induction lines with
  | nil => exact absurd rfl hne
  | cons l ls ih =>
    intro k
    cases ls with
    | nil =>
      have h1 := fold_description_line l (hs l (by simp)) [] k [] (Or.inl rfl)
      simp only [List.append_nil, List.nil_append] at h1
      rw [show join_lines [l] = l by simp [join_lines, List.intercalate], h1,
        Packager.fold_description,
        folded_lines]
      rcases hlast l rfl with h | h
      · subst h
        rfl
      · have hl : l ≠ [] := by
          intro h0
          subst h0
          simp [blank_description_line] at h
        rw [h, isEmpty_eq_false_of_ne_nil hl]
        simp [folded_lines]
    | cons l2 ls2 =>
      rw [join_lines_cons_cons,
        fold_description_line l (hs l (by simp)) [] k _ (Or.inr ⟨_, rfl⟩), List.nil_append,
        Packager.fold_description, if_pos rfl, folded_lines]
      have ih' := ih (by simp) (fun x hx => hs x (by simp [hx])) (by
        intro x hx
        apply hlast x
        rw [List.getLast?_cons_cons]
        exact hx)
      unfold blank_description_line
      split
      · exact ih' (k + 1)
      · rw [ih' 0]

set_option maxRecDepth 100000 in
/-- C23 at the description "a\n  ", whose second and last line holds two spaces and no
newline after them: `control_as_text` writes for it a line of three spaces, where a blank
line at the end of the description should write nothing. With a blank line before it, the
line " ." of that blank line is written too. -/
theorem fold_description_writes_trailing_blank_line :
    join_lines ["a".toList, "  ".toList] = "a\n  ".toList
      ∧ blank_description_line "  ".toList = true
      ∧ folded_lines ["a".toList, "  ".toList] 0 = " a\n".toList
      ∧ Packager.fold_description [] 0 "a\n  ".toList = " a\n   \n".toList
      ∧ (example_record_plain.description "a\n  ".toList).control_as_text
          = ("Package: Foo\nVersion: 1.0-1\nSection: Games\nPriority: Optional\n"
              ++ "Maintainer: J<j@x>\nStandards-Version: 0.4.0\nLicence: Non free\n"
              ++ "Description: A game\n a\n   \n").toList
      ∧ folded_lines ["a".toList, [], "  ".toList] 0 = " a\n".toList
      ∧ Packager.fold_description [] 0 "a\n\n  ".toList = " a\n .\n   \n".toList := by
  refine ⟨by decide, by decide, by decide, by decide, by decide, by decide, by decide⟩


/-! ## The order of the fields in the control text (C22) -/

theorem line_names_from_append (s : Str) (hs : single_line s = true) :
    ∀ (cur rest : Str), line_names_from cur (s ++ rest) = line_names_from (cur ++ s) rest := by
  induction s with
  | nil => intro cur rest; simp
  | cons c cs ih =>
    intro cur rest
    simp only [single_line, List.all_cons, Bool.and_eq_true, bne_iff_ne, ne_eq] at hs
    have hc : c ≠ '\n' := hs.1
    rw [List.cons_append, line_names_from, if_neg hc, ih (by simpa [single_line] using hs.2)]
    simp

theorem line_names_from_line (s : Str) (hs : single_line s = true) (cur rest : Str) :
    line_names_from cur (s ++ '\n' :: rest)
      = line_name (cur ++ s) ++ line_names_from [] rest := by
  rw [line_names_from_append s hs, line_names_from, if_pos rfl]

theorem line_name_of_colon (name : Str) (c : Char) (cs rest : Str) (hname : name = c :: cs)
    (hc : c ≠ ' ') (hcolon : ∀ x ∈ name, x ≠ ':') :
    line_name (name ++ ':' :: rest) = [name] := by
  subst hname
  unfold line_name
  simp only [List.cons_append, hc, if_false]
  have h := takeWhile_append_stop (fun x => x != ':') (c :: cs) ':' rest
    (fun x hx => by simpa using hcolon x hx) (by simp)
  simp only [List.cons_append] at h
  rw [h]

theorem line_names_from_field_line (name : Str) (c : Char) (cs : Str) (hname : name = c :: cs)
    (hc : c ≠ ' ') (hcolon : ∀ x ∈ name, x ≠ ':') (hs : single_line name = true)
    (value : Str) (hv : single_line value = true) (rest : Str) :
    line_names_from [] (Packager.field_line name value ++ rest)
      = name_if (!value.isEmpty) name ++ line_names_from [] rest := by
  unfold Packager.field_line name_if
  cases hve : value.isEmpty
  · simp only [Bool.not_false, if_true]
    have hline : single_line (name ++ ": ".toList ++ value) = true := by
      rw [single_line_append, single_line_append, hs, hv]
      rfl
    have h := line_names_from_line (name ++ ": ".toList ++ value) hline [] rest
    rw [show name ++ ": ".toList ++ value ++ "\n".toList ++ rest
        = (name ++ ": ".toList ++ value) ++ '\n' :: rest by simp, h, List.nil_append,
      show name ++ ": ".toList ++ value = name ++ ':' :: (' ' :: value) by simp,
      line_name_of_colon name c cs _ hname hc hcolon]
  · simp

theorem line_names_from_flush (k : Nat) (rest : Str) :
    line_names_from [] (Packager.flush_blank_lines k ++ rest) = line_names_from [] rest := by
  induction k with
  | zero => rfl
  | succ n ih =>
    rw [Packager.flush_blank_lines, List.append_assoc,
      show " .\n".toList ++ (Packager.flush_blank_lines n ++ rest)
        = " .".toList ++ '\n' :: (Packager.flush_blank_lines n ++ rest) from rfl,
      line_names_from_line " .".toList (by decide) [] _, ih]
    rfl

theorem line_names_from_fold (d : Str) :
    ∀ (cur : Str) (k : Nat) (rest : Str), single_line cur = true →
      line_names_from [] (Packager.fold_description cur k d ++ rest)
        = line_names_from [] rest := by
  induction d with
  | nil =>
    intro cur k rest hcur
    rw [Packager.fold_description]
    split
    · rw [show Packager.flush_blank_lines k ++ " ".toList ++ cur ++ "\n".toList ++ rest
          = Packager.flush_blank_lines k ++ ((' ' :: cur) ++ '\n' :: rest) by simp,
        line_names_from_flush,
        line_names_from_line (' ' :: cur) (by simpa [single_line] using hcur) [] rest]
      rfl
    · rfl
  | cons c cs ih =>
    intro cur k rest hcur
    rw [Packager.fold_description]
    by_cases hc : c = '\n'
    · rw [if_pos hc]
      split
      · exact ih [] (k + 1) rest rfl
      · rw [show Packager.flush_blank_lines k ++ " ".toList ++ cur ++ "\n".toList
              ++ Packager.fold_description [] 0 cs ++ rest
            = Packager.flush_blank_lines k
              ++ ((' ' :: cur) ++ '\n' :: (Packager.fold_description [] 0 cs ++ rest)) by simp,
          line_names_from_flush,
          line_names_from_line (' ' :: cur) (by simpa [single_line] using hcur) [] _,
          ih [] 0 rest rfl]
        rfl
    · rw [if_neg hc]
      apply ih
      rw [single_line_append, hcur]
      simp [single_line, hc]


theorem takeWhile_append_of_stop {α : Type} (q : α → Bool) (l x : List α)
    (h : ∃ y ∈ l, q y = false) : (l ++ x).takeWhile q = l.takeWhile q := by
  induction l with
  | nil => simp at h
  | cons a as ih =>
    by_cases ha : q a = true
    · simp only [List.cons_append, List.takeWhile_cons, ha, if_true, List.cons.injEq, true_and]
      apply ih
      obtain ⟨y, hy, hq⟩ := h
      rcases List.mem_cons.mp hy with h0 | h0
      · subst h0
        rw [ha] at hq
        exact absurd hq (by decide)
      · exact ⟨y, h0, hq⟩
    · simp only [List.cons_append, List.takeWhile_cons, ha, Bool.false_eq_true, if_false]

theorem line_name_append_of_colon (cur x : Str) (h : ':' ∈ cur) :
    line_name (cur ++ x) = line_name cur := by
  cases cur with
  | nil => simp at h
  | cons c cs =>
    unfold line_name
    simp only [List.cons_append]
    have := takeWhile_append_of_stop (fun y => y != ':') (c :: cs) x ⟨':', h, by simp⟩
    simp only [List.cons_append] at this
    rw [this]

theorem line_names_from_components_started (items : List ItemToPackage)
    (hitems : ∀ i ∈ items, i._component_flags = CF_None ∨ single_line i.component = true) :
    ∀ (cur rest : Str), ':' ∈ cur →
      line_names_from cur (Packager.components_loop items false ++ rest)
        = line_name cur ++ line_names_from [] rest := by
  induction items with
  | nil =>
    intro cur rest _
    rw [Packager.components_loop]
    rfl
  | cons i is ih =>
    intro cur rest hcur
    rw [Packager.components_loop]
    by_cases hm : i._component_flags ≠ CF_None
    · rw [if_pos hm]
      have hsi : single_line i.component = true := by
        rcases hitems i (by simp) with h | h
        · exact absurd h hm
        · exact h
      have hs : single_line (",".toList ++ i.component ++ " (Movable)".toList) = true := by
        rw [single_line_append, single_line_append, hsi]
        rfl
      simp only [Bool.false_eq_true, if_false]
      rw [show ",".toList ++ i.component ++ " (Movable)".toList
            ++ Packager.components_loop is false ++ rest
          = (",".toList ++ i.component ++ " (Movable)".toList)
            ++ (Packager.components_loop is false ++ rest) by simp,
        line_names_from_append _ hs,
        ih (fun j hj => hitems j (by simp [hj])) _ rest (by simp [hcur]),
        line_name_append_of_colon cur _ hcur]
    · rw [if_neg hm]
      exact ih (fun j hj => hitems j (by simp [hj])) cur rest hcur

theorem line_names_from_components (items : List ItemToPackage)
    (hitems : ∀ i ∈ items, i._component_flags = CF_None ∨ single_line i.component = true)
    (rest : Str) :
    line_names_from [] (Packager.components_loop items true ++ rest)
      = name_if (items.any (fun i => i._component_flags != CF_None)) "Components".toList
        ++ line_names_from [] rest := by
  induction items with
  | nil => rfl
  | cons i is ih =>
    rw [Packager.components_loop]
    by_cases hm : i._component_flags ≠ CF_None
    · rw [if_pos hm]
      have hsi : single_line i.component = true := by
        rcases hitems i (by simp) with h | h
        · exact absurd h hm
        · exact h
      have hs : single_line ("Components: ".toList ++ i.component ++ " (Movable)".toList)
          = true := by
        rw [single_line_append, single_line_append, hsi]
        rfl
      have hany : (i :: is).any (fun i => i._component_flags != CF_None) = true := by
        simp [hm]
      simp only [if_true]
      rw [hany, show "Components: ".toList ++ i.component ++ " (Movable)".toList
            ++ Packager.components_loop is false ++ rest
          = ("Components: ".toList ++ i.component ++ " (Movable)".toList)
            ++ (Packager.components_loop is false ++ rest) by simp,
        line_names_from_append _ hs,
        line_names_from_components_started is (fun j hj => hitems j (by simp [hj])) _ rest
          (by simp),
        List.nil_append,
        show "Components: ".toList ++ i.component ++ " (Movable)".toList
          = "Components".toList ++ ':' :: (' ' :: (i.component ++ " (Movable)".toList)) by simp,
        line_name_of_colon "Components".toList 'C' "omponents".toList _ rfl (by decide)
          (by decide)]
      rfl
    · rw [if_neg hm]
      have hany : (i :: is).any (fun i => i._component_flags != CF_None)
          = is.any (fun i => i._component_flags != CF_None) := by
        simp only [List.any_cons]
        have : (i._component_flags != CF_None) = false := by simpa using hm
        rw [this]
        rfl
      rw [hany]
      exact ih (fun j hj => hitems j (by simp [hj]))

theorem line_names_from_description_prefix (text : Str) :
    ∀ pre : Str,
      (line_names_from ("Description: ".toList ++ pre) text).Sublist
        ("Description".toList :: line_names_from pre text) := by
  have hname : ∀ pre : Str, line_name ("Description: ".toList ++ pre) = ["Description".toList] :=
    fun pre => line_name_of_colon "Description".toList 'D' "escription".toList (' ' :: pre) rfl
      (by decide) (by decide)
  induction text with
  | nil =>
    intro pre
    rw [line_names_from, hname]
    exact List.Sublist.cons₂ _ (List.nil_sublist _)
  | cons c cs ih =>
    intro pre
    rw [line_names_from, line_names_from]
    by_cases hc : c = '\n'
    · rw [if_pos hc, if_pos hc, hname]
      exact List.Sublist.cons₂ _ (List.sublist_append_right _ _)
    · rw [if_neg hc, if_neg hc, List.append_assoc]
      exact ih (pre ++ [c])


theorem control_field_name_shape (name : Str) (h : name ∈ control_field_order) :
    ∃ (c : Char) (cs : Str), name = c :: cs ∧ c ≠ ' ' ∧ (∀ x ∈ name, x ≠ ':')
      ∧ single_line name = true := by
  unfold control_field_order at h
  simp only [List.mem_cons, List.mem_singleton, List.mem_nil_iff, or_false] at h
  rcases h with h | h | h | h | h | h | h | h | h | h | h | h | h <;> subst h <;>
  exact ⟨_, _, rfl, by decide, by decide, by decide⟩

theorem line_names_from_known_field (name : Str) (h : name ∈ control_field_order)
    (value : Str) (hv : single_line value = true) (rest : Str) :
    line_names_from [] (Packager.field_line name value ++ rest)
      = name_if (!value.isEmpty) name ++ line_names_from [] rest := by
  obtain ⟨c, cs, hname, hc, hcolon, hs⟩ := control_field_name_shape name h
  exact line_names_from_field_line name c cs hname hc hcolon hs value hv rest

theorem line_names_from_version_line (version package_version : Str)
    (hv : single_line version = true) (hpv : single_line package_version = true) (rest : Str) :
    line_names_from []
        ((if !version.isEmpty then
            "Version: ".toList ++ version ++ "-".toList ++ package_version ++ "\n".toList
          else []) ++ rest)
      = name_if (!version.isEmpty) "Version".toList ++ line_names_from [] rest := by
  unfold name_if
  cases hve : version.isEmpty
  · simp only [Bool.not_false, if_true]
    have hline : single_line (" ".toList ++ version ++ "-".toList ++ package_version) = true := by
      rw [single_line_append, single_line_append, single_line_append, hv, hpv]
      rfl
    have hfull : single_line ("Version".toList ++ ':' ::
        (" ".toList ++ version ++ "-".toList ++ package_version)) = true := by
      rw [single_line_append]
      simp only [single_line, List.all_cons] at hline ⊢
      simpa using hline
    rw [show "Version: ".toList ++ version ++ "-".toList ++ package_version ++ "\n".toList ++ rest
        = ("Version".toList ++ ':' :: (" ".toList ++ version ++ "-".toList ++ package_version))
          ++ '\n' :: rest by simp,
      line_names_from_line _ hfull [] rest, List.nil_append,
      line_name_of_colon "Version".toList 'V' "ersion".toList _ rfl (by decide) (by decide)]
  · simp

theorem name_if_sublist (present : Bool) (name : Str) {l l' : List Str} (h : l.Sublist l') :
    (name_if present name ++ l).Sublist (name :: l') := by
  unfold name_if
  cases present
  · exact List.Sublist.cons _ h
  · exact List.Sublist.cons₂ _ h

theorem present_fields_sublist (p : Packager) :
    (present_fields p).Sublist control_field_order := by
  unfold present_fields control_field_order
  repeat' apply name_if_sublist
  unfold name_if
  split
  · exact List.Sublist.refl _
  · exact List.nil_sublist _


/-- The names of the lines written after the description: the components and the four
dependency fields. -/
theorem line_names_from_tail (p : Packager) (h : one_line_values p = true) :
    line_names_from []
        (Packager.components_loop p._items_to_package true
          ++ (Packager.field_line "Depends".toList p._depends
          ++ (Packager.field_line "Recommends".toList p._recommends
          ++ (Packager.field_line "Suggests".toList p._suggests
          ++ Packager.field_line "Conflicts".toList p._conflicts))))
      = name_if (p._items_to_package.any (fun i => i._component_flags != CF_None))
            "Components".toList
          ++ (name_if (!p._depends.isEmpty) "Depends".toList
          ++ (name_if (!p._recommends.isEmpty) "Recommends".toList
          ++ (name_if (!p._suggests.isEmpty) "Suggests".toList
          ++ name_if (!p._conflicts.isEmpty) "Conflicts".toList))) := by
  unfold one_line_values at h
  simp only [Bool.and_eq_true, List.all_eq_true, Bool.or_eq_true, beq_iff_eq] at h
  obtain ⟨⟨⟨⟨⟨_, hitems⟩, hdep⟩, hrec⟩, hsug⟩, hcon⟩ := h
  have hlast := line_names_from_known_field "Conflicts".toList (by decide) p._conflicts hcon []
  rw [List.append_nil, show line_names_from [] [] = [] from rfl, List.append_nil] at hlast
  rw [line_names_from_components _ hitems,
    line_names_from_known_field "Depends".toList (by decide) _ hdep,
    line_names_from_known_field "Recommends".toList (by decide) _ hrec,
    line_names_from_known_field "Suggests".toList (by decide) _ hsug, hlast]

/-- The names of the lines written for the summary and the description, followed by the text
`rest`. -/
theorem line_names_from_description (summary description : Str)
    (hs : single_line summary = true) (rest : Str) :
    (line_names_from []
        (Packager.field_line "Description".toList summary
          ++ ((if !description.isEmpty then
                (if summary.isEmpty then "Description: ".toList else [])
                  ++ Packager.fold_description [] 0 description
              else []) ++ rest))).Sublist
        (name_if (!summary.isEmpty || !description.isEmpty) "Description".toList
          ++ line_names_from [] rest)
      ∧ ((summary ≠ [] ∨ description = []) →
          line_names_from []
            (Packager.field_line "Description".toList summary
              ++ ((if !description.isEmpty then
                    (if summary.isEmpty then "Description: ".toList else [])
                      ++ Packager.fold_description [] 0 description
                  else []) ++ rest))
            = name_if (!summary.isEmpty || !description.isEmpty) "Description".toList
              ++ line_names_from [] rest) := by
  rw [line_names_from_known_field "Description".toList (by decide) summary hs]
  cases summary with
  | cons c cs =>
    have heq : line_names_from []
        ((if !description.isEmpty then
            (if (c :: cs).isEmpty then "Description: ".toList else [])
              ++ Packager.fold_description [] 0 description
          else []) ++ rest) = line_names_from [] rest := by
      split
      · simp only [List.isEmpty_cons, Bool.false_eq_true, if_false, List.nil_append]
        exact line_names_from_fold description [] 0 rest rfl
      · rfl
    rw [heq]
    simp only [List.isEmpty_cons, Bool.not_false, Bool.true_or]
    exact ⟨List.Sublist.refl _, fun _ => trivial⟩
  | nil =>
    cases description with
    | nil =>
      simp only [List.isEmpty_nil, Bool.not_true, Bool.false_eq_true, if_false, Bool.or_self,
        List.nil_append]
      exact ⟨List.Sublist.refl _, fun _ => trivial⟩
    | cons d ds =>
      simp only [List.isEmpty_cons, List.isEmpty_nil, Bool.not_false, Bool.not_true,
        Bool.or_true, if_true, name_if, List.nil_append, List.append_assoc,
        Bool.false_eq_true, if_false]
      constructor
      · rw [line_names_from_append "Description: ".toList (by decide), List.nil_append]
        have h := line_names_from_description_prefix
          (Packager.fold_description [] 0 (d :: ds) ++ rest) []
        rw [List.append_nil, line_names_from_fold (d :: ds) [] 0 rest rfl] at h
        exact h
      · intro h
        rcases h with h | h
        · exact absurd rfl h
        · exact absurd h (by simp)


set_option maxRecDepth 100000 in
/-- C22, counterexample: the record `example_record_depends` has a movable item and a
dependency; the line `Components` of its control text stands before the line `Depends`, so
the names of its lines are not in the order that has `Components` last. The second record
has a section of two lines, the second of which reads as a field line out of order. -/
theorem control_as_text_components_before_depends :
    line_names example_record_depends.control_as_text
        = ["Package".toList, "Version".toList, "Section".toList, "Priority".toList,
            "Maintainer".toList, "Standards-Version".toList, "Licence".toList,
            "Description".toList, "Components".toList, "Depends".toList]
      ∧ ¬ (line_names example_record_depends.control_as_text).Sublist components_last_order
      ∧ line_names example_record_two_line_section.control_as_text
        = ["Package".toList, "Version".toList, "Section".toList, "Conflicts".toList,
            "Priority".toList, "Maintainer".toList, "Standards-Version".toList,
            "Licence".toList, "Description".toList, "Components".toList, "Depends".toList] := by
  refine ⟨by decide, by decide, by decide⟩

/-- C22, amended: for every record whose values other than the description hold no newline,
the field lines of `control_as_text` stand in the order Package, Version, Section, Priority,
Maintainer, Standards-Version, Licence, Description, Components, Depends, Recommends,
Suggests, Conflicts, each name at most once, and a field without value has no line; when the
record has a summary or no description, every field with a value has its line. -/
theorem control_as_text_field_order (p : Packager) (h : one_line_values p = true) :
    (line_names p.control_as_text).Sublist (present_fields p)
      ∧ (present_fields p).Sublist control_field_order
      ∧ ((p._summary ≠ [] ∨ p._description = []) →
          line_names p.control_as_text = present_fields p) := by
  have htail := line_names_from_tail p h
  have h' := h
  unfold one_line_values at h'
  simp only [Bool.and_eq_true] at h'
  obtain ⟨⟨⟨⟨⟨⟨⟨⟨⟨⟨⟨⟨⟨hname, hver⟩, hpv⟩, hsec⟩, hpri⟩, hmai⟩, hsv⟩, hlic⟩, hsum⟩, _⟩, _⟩, _⟩, _⟩,
    _⟩ := h'
  have hdesc := line_names_from_description p._summary p._description hsum
    (Packager.components_loop p._items_to_package true
      ++ (Packager.field_line "Depends".toList p._depends
      ++ (Packager.field_line "Recommends".toList p._recommends
      ++ (Packager.field_line "Suggests".toList p._suggests
      ++ Packager.field_line "Conflicts".toList p._conflicts))))
  rw [htail] at hdesc
  have hhead : ∀ rest : Str,
      line_names_from []
        (Packager.field_line "Package".toList p._package_name
          ++ ((if !p._version.isEmpty then
                "Version: ".toList ++ p._version ++ "-".toList ++ p._package_version
                  ++ "\n".toList
              else [])
          ++ (Packager.field_line "Section".toList p._section
          ++ (Packager.field_line "Priority".toList p._priority
          ++ (Packager.field_line "Maintainer".toList p._maintainer
          ++ (Packager.field_line "Standards-Version".toList p._standards_version
          ++ (Packager.field_line "Licence".toList p._licence ++ rest)))))))
        = name_if (!p._package_name.isEmpty) "Package".toList
          ++ (name_if (!p._version.isEmpty) "Version".toList
          ++ (name_if (!p._section.isEmpty) "Section".toList
          ++ (name_if (!p._priority.isEmpty) "Priority".toList
          ++ (name_if (!p._maintainer.isEmpty) "Maintainer".toList
          ++ (name_if (!p._standards_version.isEmpty) "Standards-Version".toList
          ++ (name_if (!p._licence.isEmpty) "Licence".toList
          ++ line_names_from [] rest)))))) := by
    intro rest
    rw [line_names_from_known_field "Package".toList (by decide) _ hname,
      line_names_from_version_line _ _ hver hpv,
      line_names_from_known_field "Section".toList (by decide) _ hsec,
      line_names_from_known_field "Priority".toList (by decide) _ hpri,
      line_names_from_known_field "Maintainer".toList (by decide) _ hmai,
      line_names_from_known_field "Standards-Version".toList (by decide) _ hsv,
      line_names_from_known_field "Licence".toList (by decide) _ hlic]
  have htext : line_names p.control_as_text
      = name_if (!p._package_name.isEmpty) "Package".toList
          ++ (name_if (!p._version.isEmpty) "Version".toList
          ++ (name_if (!p._section.isEmpty) "Section".toList
          ++ (name_if (!p._priority.isEmpty) "Priority".toList
          ++ (name_if (!p._maintainer.isEmpty) "Maintainer".toList
          ++ (name_if (!p._standards_version.isEmpty) "Standards-Version".toList
          ++ (name_if (!p._licence.isEmpty) "Licence".toList
          ++ line_names_from []
              (Packager.field_line "Description".toList p._summary
                ++ ((if !p._description.isEmpty then
                      (if p._summary.isEmpty then "Description: ".toList else [])
                        ++ Packager.fold_description [] 0 p._description
                    else [])
                ++ (Packager.components_loop p._items_to_package true
                  ++ (Packager.field_line "Depends".toList p._depends
                  ++ (Packager.field_line "Recommends".toList p._recommends
                  ++ (Packager.field_line "Suggests".toList p._suggests
                  ++ Packager.field_line "Conflicts".toList p._conflicts)))))))))))) := by
    rw [← hhead]
    unfold line_names Packager.control_as_text
    simp only [List.append_assoc]
  refine ⟨?_, present_fields_sublist p, ?_⟩
  · rw [htext]
    unfold present_fields
    repeat' apply List.Sublist.append_left
    exact hdesc.1
  · intro hq
    rw [htext, hdesc.2 hq]
    rfl

set_option maxRecDepth 100000 in
/-- C22 amended, at the record `example_record_depends`. -/
theorem control_as_text_field_order_witness :
    present_fields example_record_depends
        = ["Package".toList, "Version".toList, "Section".toList, "Priority".toList,
            "Maintainer".toList, "Standards-Version".toList, "Licence".toList,
            "Description".toList, "Components".toList, "Depends".toList]
      ∧ ((line_names example_record_depends.control_as_text).Sublist
            (present_fields example_record_depends)
        ∧ (present_fields example_record_depends).Sublist control_field_order
        ∧ ((example_record_depends._summary ≠ [] ∨ example_record_depends._description = []) →
            line_names example_record_depends.control_as_text
              = present_fields example_record_depends)) :=
  ⟨by decide, control_as_text_field_order example_record_depends (by decide)⟩


/-! ## Comparing with an archive (C26) -/

theorem check_compared_append (a b : List ComparedFile) :
    ∀ st : Packager.DiscListState,
      check_compared (a ++ b) st
        = match check_compared a st with
          | Except.error e => Except.error e
          | Except.ok st1 => check_compared b st1 := by
  induction a with
  | nil => intro st; rfl
  | cons f fs ih =>
    intro st
    rw [List.cons_append, check_compared, check_compared]
    cases map_find f.zip_name st.2 with
    | none => rfl
    | some size =>
      simp only
      split
      · rfl
      · exact ih _

theorem build_disc_list_files_eq (dd zd : Str) (files : List (Str × Str)) :
    ∀ st : Packager.DiscListState,
      Packager.build_disc_list_files dd zd files st
        = check_compared (compared_files_of dd zd files) st := by
  induction files with
  | nil => intro st; rfl
  | cons f fs ih =>
    intro st
    obtain ⟨name, data⟩ := f
    rw [Packager.build_disc_list_files]
    unfold compared_files_of
    rw [List.map_cons, check_compared]
    simp only
    cases map_find (zd ++ "/".toList ++ Packager.riscos_to_zip_name name) st.2 with
    | none => rfl
    | some size =>
      simp only
      split
      · rfl
      · exact ih _

theorem build_disc_list_subdirs_eq :
    ∀ (es : DiscEntries) (dd zd : Str) (st : Packager.DiscListState),
      Packager.build_disc_list_subdirs es dd zd st
        = check_compared (compared_files_subdirs es dd zd) st
  | DiscEntries.nil, _, _, _ => rfl
  | DiscEntries.cons _ (DiscNode.file _) rest, dd, zd, st => by
    rw [Packager.build_disc_list_subdirs, compared_files_subdirs]
    exact build_disc_list_subdirs_eq rest dd zd st
  | DiscEntries.cons subdir (DiscNode.dir es) rest, dd, zd, st => by
    rw [Packager.build_disc_list_subdirs, compared_files_subdirs, check_compared_append,
      check_compared_append, build_disc_list_files_eq]
    cases check_compared (compared_files_of (dd ++ ".".toList ++ subdir)
        (zd ++ "/".toList ++ Packager.riscos_to_zip_name subdir) (direct_files es)) st with
    | error e => rfl
    | ok st1 =>
      simp only
      rw [build_disc_list_subdirs_eq es _ _ st1]
      cases check_compared (compared_files_subdirs es (dd ++ ".".toList ++ subdir)
          (zd ++ "/".toList ++ Packager.riscos_to_zip_name subdir)) st1 with
      | error e => rfl
      | ok st2 =>
        simp only
        exact build_disc_list_subdirs_eq rest dd zd st2

theorem build_disc_list_items_eq (disc : Disc) (items : List ItemToPackage) :
    ∀ st : Packager.DiscListState,
      Packager.build_disc_list_items disc items st
        = check_compared (compared_files disc items) st := by
  induction items with
  | nil => intro st; rfl
  | cons item rest ih =>
    intro st
    rw [Packager.build_disc_list_items, compared_files, check_compared_append]
    unfold Packager.build_disc_list compared_files_dir
    rw [check_compared_append, build_disc_list_files_eq]
    cases check_compared (compared_files_of item._source
        (Packager.riscos_to_zip_name (item._install_to ++ ".".toList ++ leaf_name item._source))
        (direct_files (Packager.enumerate disc item._source))) st with
    | error e => rfl
    | ok st1 =>
      simp only
      rw [build_disc_list_subdirs_eq]
      cases check_compared (compared_files_subdirs (Packager.enumerate disc item._source)
          item._source (Packager.riscos_to_zip_name
            (item._install_to ++ ".".toList ++ leaf_name item._source))) st1 with
      | error e => rfl
      | ok st2 =>
        simp only
        exact ih st2


theorem map_find_eq_none {β : Type} (k : Str) (m : StrMap β) :
    map_find k m = none ↔ k ∉ m.map Prod.fst := by
  induction m with
  | nil => simp [map_find]
  | cons kv rest ih =>
    obtain ⟨k0, v0⟩ := kv
    rw [map_find]
    by_cases h : k = k0
    · rw [if_pos h]
      constructor
      · intro hh
        exact Option.noConfusion hh
      · intro hh
        exfalso
        apply hh
        rw [h]
        exact List.mem_cons_self _ _
    · rw [if_neg h, ih, List.map_cons, List.mem_cons, not_or]
      exact ⟨fun hh => ⟨h, hh⟩, fun hh => hh.2⟩

theorem map_find_of_mem {β : Type} (k : Str) (v : β) (m : StrMap β)
    (hnd : (m.map Prod.fst).Nodup) (h : (k, v) ∈ m) : map_find k m = some v := by
  induction m with
  | nil => simp at h
  | cons kv rest ih =>
    obtain ⟨k0, v0⟩ := kv
    rw [map_find]
    simp only [List.map_cons, List.nodup_cons] at hnd
    rcases List.mem_cons.mp h with h0 | h0
    · simp only [Prod.mk.injEq] at h0
      rw [if_pos h0.1, h0.2]
    · have hk : k ≠ k0 := by
        intro hk
        apply hnd.1
        rw [← hk]
        exact List.mem_map.mpr ⟨(k, v), h0, rfl⟩
      rw [if_neg hk]
      exact ih hnd.2 h0

theorem mem_of_map_find {β : Type} (k : Str) (v : β) (m : StrMap β)
    (h : map_find k m = some v) : (k, v) ∈ m := by
  induction m with
  | nil => simp [map_find] at h
  | cons kv rest ih =>
    obtain ⟨k0, v0⟩ := kv
    rw [map_find] at h
    by_cases hk : k = k0
    · rw [if_pos hk] at h
      simp only [Option.some.injEq] at h
      simp [hk, h]
    · rw [if_neg hk] at h
      exact List.mem_cons_of_mem _ (ih h)

theorem map_insert_perm {β : Type} (k : Str) (v : β) (m : StrMap β)
    (h : k ∉ m.map Prod.fst) : (map_insert k v m).Perm ((k, v) :: m) := by
  induction m with
  | nil => exact List.Perm.refl _
  | cons kv rest ih =>
    obtain ⟨k0, v0⟩ := kv
    simp only [List.map_cons, List.mem_cons, not_or] at h
    rw [map_insert, if_neg h.1]
    split
    · exact List.Perm.refl _
    · exact ((ih h.2).cons (k0, v0)).trans (List.Perm.swap _ _ _)

theorem map_erase_keys {β : Type} (k : Str) (m : StrMap β) :
    (map_erase k m).map Prod.fst = (m.map Prod.fst).erase k := by
  induction m with
  | nil => rfl
  | cons kv rest ih =>
    obtain ⟨k0, v0⟩ := kv
    rw [map_erase]
    by_cases h : k = k0
    · subst h
      simp
    · rw [if_neg h, List.map_cons, List.map_cons, ih, List.erase_cons_tail]
      simpa using fun h0 : k0 = k => h h0.symm

theorem map_erase_sublist {β : Type} (k : Str) (m : StrMap β) :
    (map_erase k m).Sublist m := by
  induction m with
  | nil => exact List.Sublist.refl _
  | cons kv rest ih =>
    obtain ⟨k0, v0⟩ := kv
    rw [map_erase]
    split
    · exact List.sublist_cons_self _ _
    · exact List.Sublist.cons₂ _ ih

theorem map_find_erase {β : Type} (k k' : Str) (m : StrMap β)
    (hnd : (m.map Prod.fst).Nodup) :
    map_find k (map_erase k' m) = if k = k' then none else map_find k m := by
  induction m with
  | nil => simp [map_erase, map_find]
  | cons kv rest ih =>
    obtain ⟨k0, v0⟩ := kv
    simp only [List.map_cons, List.nodup_cons] at hnd
    rw [map_erase]
    by_cases h : k' = k0
    · rw [if_pos h, map_find]
      by_cases hk : k = k'
      · rw [if_pos hk, map_find_eq_none]
        rw [hk, h]
        exact hnd.1
      · rw [if_neg hk, if_neg (by rw [← h]; exact hk)]
    · rw [if_neg h, map_find, map_find, ih hnd.2]
      by_cases hk0 : k = k0
      · rw [if_pos hk0, if_pos hk0, if_neg (by rw [hk0]; exact fun h0 => h h0.symm)]
      · rw [if_neg hk0, if_neg hk0]

theorem map_erase_nodup {β : Type} (k : Str) (m : StrMap β) (hnd : (m.map Prod.fst).Nodup) :
    ((map_erase k m).map Prod.fst).Nodup := by
  rw [map_erase_keys]
  exact hnd.erase k


theorem zip_contents_of_perm (zip : Archive) (hnd : (zip.map (fun e => e.name)).Nodup) :
    ∀ m : StrMap Int, (∀ e ∈ zip, e.name ∉ m.map Prod.fst) →
      (Packager.zip_contents_of zip m).Perm
        (((zip.filter (fun e => !e.is_directory)).map
            (fun e => (e.name, (e.data.length : Int)))) ++ m) := by
  induction zip with
  | nil => intro m _; exact List.Perm.refl _
  | cons e rest ih =>
    intro m hm
    simp only [List.map_cons, List.nodup_cons] at hnd
    rw [Packager.zip_contents_of]
    have he : e.name ∉ m.map Prod.fst := hm e (by simp)
    cases hd : e.is_directory
    · simp only [Bool.not_false, if_true]
      have hperm := map_insert_perm e.name (e.data.length : Int) m he
      have hm' : ∀ e' ∈ rest,
          e'.name ∉ (map_insert e.name (e.data.length : Int) m).map Prod.fst := by
        intro e' he' hmem
        have := (hperm.map Prod.fst).mem_iff.mp hmem
        rcases List.mem_cons.mp this with h0 | h0
        · apply hnd.1
          have h1 : e'.name = e.name := h0
          rw [← h1]
          exact List.mem_map.mpr ⟨e', he', rfl⟩
        · exact hm e' (by simp [he']) h0
      refine (ih hnd.2 _ hm').trans ?_
      rw [List.filter_cons, hd]
      simp only [Bool.not_false, if_true, List.map_cons, List.cons_append]
      exact (List.Perm.append_left _ hperm).trans List.perm_middle
    · simp only [Bool.not_true, Bool.false_eq_true, if_false]
      rw [List.filter_cons, hd]
      simp only [Bool.not_true, Bool.false_eq_true, if_false]
      exact ih hnd.2 m (fun e' he' => hm e' (by simp [he']))

theorem zip_contents_of_mem (zip : Archive) (hnd : (zip.map (fun e => e.name)).Nodup)
    (k : Str) (v : Int) :
    (k, v) ∈ Packager.zip_contents_of zip []
      ↔ ∃ e ∈ zip, e.name = k ∧ e.is_directory = false ∧ (e.data.length : Int) = v := by
  have hperm := zip_contents_of_perm zip hnd [] (by simp)
  rw [List.append_nil] at hperm
  rw [hperm.mem_iff, List.mem_map]
  constructor
  · rintro ⟨e, he, heq⟩
    rw [List.mem_filter] at he
    simp only [Prod.mk.injEq] at heq
    exact ⟨e, he.1, heq.1, by simpa using he.2, heq.2⟩
  · rintro ⟨e, he, h1, h2, h3⟩
    exact ⟨e, List.mem_filter.mpr ⟨he, by simp [h2]⟩, by simp [h1, h3]⟩

theorem zip_contents_of_nodup (zip : Archive) (hnd : (zip.map (fun e => e.name)).Nodup) :
    ((Packager.zip_contents_of zip []).map Prod.fst).Nodup := by
  have hperm := zip_contents_of_perm zip hnd [] (by simp)
  rw [List.append_nil] at hperm
  rw [(hperm.map Prod.fst).nodup_iff, List.map_map]
  have hsub : (List.map (Prod.fst ∘ fun (e : ZipEntry) => (e.name, (e.data.length : Int)))
      (zip.filter (fun e => !e.is_directory))).Sublist (zip.map (fun e => e.name)) :=
    (List.filter_sublist zip).map (fun (e : ZipEntry) => e.name)
  exact hsub.nodup hnd

theorem find_file_of_mem (zip : Archive) (hnd : (zip.map (fun e => e.name)).Nodup)
    (e : ZipEntry) (he : e ∈ zip) : Packager.find_file e.name zip = some e := by
  induction zip with
  | nil => simp at he
  | cons x rest ih =>
    simp only [List.map_cons, List.nodup_cons] at hnd
    rw [Packager.find_file]
    rcases List.mem_cons.mp he with h | h
    · rw [if_pos (by rw [h])]
      rw [h]
    · have hx : x.name ≠ e.name := by
        intro h0
        apply hnd.1
        rw [h0]
        exact List.mem_map.mpr ⟨e, h, rfl⟩
      rw [if_neg hx]
      exact ih hnd.2 h

theorem find_file_none (zip : Archive) (k : Str) (h : ∀ e ∈ zip, e.name ≠ k) :
    Packager.find_file k zip = none := by
  induction zip with
  | nil => rfl
  | cons x rest ih =>
    rw [Packager.find_file, if_neg (h x (by simp))]
    exact ih (fun e he => h e (by simp [he]))


/-- When the control and copyright entries of the archive match the record, the four checks
on them pass and `same_as` is the check of the disc files against the sizes of the other
entries, followed by the comparison of the bytes. -/
theorem same_as_of_matching (p : Packager) (disc : Disc) (pkgfilename : Str) (zip : Archive)
    (h : archive_matches_record p zip) :
    p.same_as disc pkgfilename (some zip)
      = match check_compared (compared_files disc p._items_to_package)
            ([], map_erase "RiscPkg/Control".toList
              (map_erase "RiscPkg/Copyright".toList (Packager.zip_contents_of zip []))) with
        | Except.error d => (false, d)
        | Except.ok (disc_file_list, zc1) =>
            match zc1 with
            | (first, _) :: _ =>
                (false, to_string_int (zc1.length : Int)
                  ++ " files removed, first is ".toList ++ first)
            | [] => Packager.files_are_same disc zip disc_file_list := by
  obtain ⟨hnd, ⟨ec, hec, hecn, hecd, hect⟩, ⟨ep, hep, hepn, hepd, hept⟩⟩ := h
  have hknd := zip_contents_of_nodup zip hnd
  have h1 : map_find "RiscPkg/Copyright".toList (Packager.zip_contents_of zip [])
      = some (p._copyright.length : Int) := by
    apply map_find_of_mem _ _ _ hknd
    rw [zip_contents_of_mem zip hnd]
    exact ⟨ep, hep, hepn, hepd, by rw [hept]⟩
  have h2 : map_find "RiscPkg/Control".toList (Packager.zip_contents_of zip [])
      = some (p.control_as_text.length : Int) := by
    apply map_find_of_mem _ _ _ hknd
    rw [zip_contents_of_mem zip hnd]
    exact ⟨ec, hec, hecn, hecd, by rw [hect]⟩
  have r1 : Packager.compare_file_text_size (Packager.zip_contents_of zip [])
      "RiscPkg/Copyright".toList p._copyright = (true, [], Packager.zip_contents_of zip []) := by
    rw [Packager.compare_file_text_size, h1]
    simp
  have r2 : Packager.compare_file_text_size (Packager.zip_contents_of zip [])
      "RiscPkg/Control".toList p.control_as_text
        = (true, [], Packager.zip_contents_of zip []) := by
    rw [Packager.compare_file_text_size, h2]
    simp
  have r3 : Packager.file_text_is_same zip "RiscPkg/Copyright".toList p._copyright
      = (true, []) := by
    have hf := find_file_of_mem zip hnd ep hep
    rw [hepn] at hf
    rw [Packager.file_text_is_same, hf]
    simp [hept]
  have r4 : Packager.file_text_is_same zip "RiscPkg/Control".toList p.control_as_text
      = (true, []) := by
    have hf := find_file_of_mem zip hnd ec hec
    rw [hecn] at hf
    rw [Packager.file_text_is_same, hf]
    simp [hect]
  rw [Packager.same_as]
  simp only [r1, r2, r3, r4, Bool.not_true, Bool.false_eq_true, if_false]
  rw [build_disc_list_items_eq]


theorem compared_sizes_nodup (zip : Archive) (hnd : (zip.map (fun e => e.name)).Nodup) :
    ((compared_sizes zip).map Prod.fst).Nodup :=
  map_erase_nodup _ _ (map_erase_nodup _ _ (zip_contents_of_nodup zip hnd))

theorem compared_sizes_find (zip : Archive) (hnd : (zip.map (fun e => e.name)).Nodup)
    (k : Str) (v : Int) :
    map_find k (compared_sizes zip) = some v
      ↔ k ∉ reserved_names
          ∧ ∃ e ∈ zip, e.name = k ∧ e.is_directory = false ∧ (e.data.length : Int) = v := by
  have hk0 := zip_contents_of_nodup zip hnd
  rw [compared_sizes, map_find_erase _ _ _ (map_erase_nodup _ _ hk0), map_find_erase _ _ _ hk0]
  rw [← zip_contents_of_mem zip hnd]
  by_cases h1 : k = "RiscPkg/Control".toList
  · simp [h1, reserved_names]
  · by_cases h2 : k = "RiscPkg/Copyright".toList
    · simp [h2, reserved_names]
    · rw [if_neg h1, if_neg h2]
      have hr : k ∉ reserved_names := by
        simp only [reserved_names, List.mem_cons, List.mem_singleton, List.not_mem_nil,
          or_false, not_or]
        exact ⟨h1, h2⟩
      constructor
      · intro h
        exact ⟨hr, mem_of_map_find _ _ _ h⟩
      · intro h
        exact map_find_of_mem _ _ _ hk0 h.2

theorem compared_sizes_find_none (zip : Archive) (hnd : (zip.map (fun e => e.name)).Nodup)
    (k : Str) (h : ∀ e ∈ zip, e.is_directory = false → e.name ≠ k) :
    map_find k (compared_sizes zip) = none := by
  cases hf : map_find k (compared_sizes zip) with
  | none => rfl
  | some v =>
    obtain ⟨_, e, he, hn, hd, _⟩ := (compared_sizes_find zip hnd k v).mp hf
    exact absurd hn (h e he hd)

theorem file_compare_loop_same_length :
    ∀ (a b : Str) (room : Nat) (differs : Bool), a.length = b.length →
      Packager.file_compare_loop a b room differs
        = if differs = true ∨ a ≠ b then some " contents changed".toList else none := by
  intro a
  induction a with
  | nil =>
    intro b room differs hl
    cases b with
    | nil => cases differs <;> simp [Packager.file_compare_loop]
    | cons y ys => simp at hl
  | cons x xs ih =>
    intro b room differs hl
    cases b with
    | nil => simp at hl
    | cons y ys =>
      have hl' : xs.length = ys.length := by simpa using hl
      rw [Packager.file_compare_loop]
      by_cases hr : room = 1
      · rw [if_pos hr]
        by_cases hd : (differs || x != y) = true
        · rw [if_pos hd]
          have : differs = true ∨ x :: xs ≠ y :: ys := by
            rcases Bool.or_eq_true _ _ ▸ hd with h | h
            · exact Or.inl h
            · right
              intro heq
              have hxy : x = y := (List.cons.inj heq).1
              simp [hxy] at h
          rw [if_pos this]
        · rw [if_neg hd, ih ys _ false hl']
          have hd' : differs = false ∧ x = y := by
            cases differs <;> simp_all
          simp [hd'.1, hd'.2]
      · rw [if_neg hr, ih ys _ _ hl']
        cases differs <;> by_cases hxy : x = y <;> simp [hxy]


theorem mem_map_insert_self {β : Type} (k : Str) (v : β) (m : StrMap β) :
    (k, v) ∈ map_insert k v m := by
  induction m with
  | nil => simp [map_insert]
  | cons kv rest ih =>
    obtain ⟨k', v'⟩ := kv
    rw [map_insert]
    split
    · exact List.mem_cons_self _ _
    · split
      · exact List.mem_cons_self _ _
      · exact List.mem_cons_of_mem _ ih

theorem mem_map_insert_of_mem {β : Type} (k : Str) (v : β) (m : StrMap β) (x : Str × β)
    (hx : x ∈ m) (hne : x.1 ≠ k) : x ∈ map_insert k v m := by
  induction m with
  | nil => simp at hx
  | cons kv rest ih =>
    obtain ⟨k', v'⟩ := kv
    rw [map_insert]
    rcases List.mem_cons.mp hx with h | h
    · split
      · rename_i hk
        exfalso
        apply hne
        rw [h, hk]
      · split
        · rw [h]
          exact List.mem_cons_of_mem _ (List.mem_cons_self _ _)
        · rw [h]
          exact List.mem_cons_self _ _
    · split
      · exact List.mem_cons_of_mem _ h
      · split
        · exact List.mem_cons_of_mem _ (List.mem_cons_of_mem _ h)
        · exact List.mem_cons_of_mem _ (ih h)

theorem mem_of_mem_map_insert {β : Type} (k : Str) (v : β) (m : StrMap β) (x : Str × β)
    (hx : x ∈ map_insert k v m) : x = (k, v) ∨ x ∈ m := by
  induction m with
  | nil =>
    left
    simpa [map_insert] using hx
  | cons kv rest ih =>
    obtain ⟨k', v'⟩ := kv
    rw [map_insert] at hx
    split at hx
    · rcases List.mem_cons.mp hx with h | h
      · exact Or.inl h
      · exact Or.inr (List.mem_cons_of_mem _ h)
    · split at hx
      · rcases List.mem_cons.mp hx with h | h
        · exact Or.inl h
        · exact Or.inr h
      · rcases List.mem_cons.mp hx with h | h
        · right
          rw [h]
          exact List.mem_cons_self _ _
        · rcases ih h with h0 | h0
          · exact Or.inl h0
          · exact Or.inr (List.mem_cons_of_mem _ h0)

theorem check_compared_cons_ok (f : ComparedFile) (rest : List ComparedFile)
    (st : Packager.DiscListState)
    (h : map_find f.zip_name st.2 = some (f.data.length : Int)) :
    check_compared (f :: rest) st
      = check_compared rest
          (map_insert f.disc_name f.zip_name st.1, map_erase f.zip_name st.2) := by
  rw [check_compared, h]
  simp

theorem check_compared_cons_inv (f : ComparedFile) (rest : List ComparedFile)
    (st st' : Packager.DiscListState) (h : check_compared (f :: rest) st = Except.ok st') :
    map_find f.zip_name st.2 = some (f.data.length : Int)
      ∧ check_compared rest
          (map_insert f.disc_name f.zip_name st.1, map_erase f.zip_name st.2)
          = Except.ok st' := by
  rw [check_compared] at h
  cases hf : map_find f.zip_name st.2 with
  | none =>
    rw [hf] at h
    simp at h
  | some size =>
    rw [hf] at h
    simp only [] at h
    by_cases hs : (f.data.length : Int) ≠ size
    · rw [if_pos hs] at h
      simp at h
    · rw [if_neg hs] at h
      have hs' : (f.data.length : Int) = size := not_not.mp hs
      exact ⟨by rw [hs'], h⟩

theorem check_compared_new_file (pre post : List ComparedFile) (f : ComparedFile) :
    ∀ st : Packager.DiscListState, (st.2.map Prod.fst).Nodup →
      (pre.map (fun g => g.zip_name)).Nodup →
      (∀ g ∈ pre, map_find g.zip_name st.2 = some (g.data.length : Int)) →
      map_find f.zip_name st.2 = none →
      check_compared (pre ++ f :: post) st
        = Except.error ("new file ".toList ++ f.disc_name) := by
  induction pre with
  | nil =>
    intro st _ _ _ hf
    rw [List.nil_append, check_compared, hf]
  | cons g rest ih =>
    intro st hk hnd hpre hf
    simp only [List.map_cons, List.nodup_cons] at hnd
    rw [List.cons_append, check_compared_cons_ok g _ st (hpre g (by simp))]
    apply ih _ (map_erase_nodup _ _ hk) hnd.2
    · intro g' hg'
      show map_find g'.zip_name (map_erase g.zip_name st.2) = _
      rw [map_find_erase _ _ _ hk, if_neg, hpre g' (by simp [hg'])]
      intro heq
      apply hnd.1
      rw [← heq]
      exact List.mem_map.mpr ⟨g', hg', rfl⟩
    · show map_find f.zip_name (map_erase g.zip_name st.2) = _
      rw [map_find_erase _ _ _ hk, hf]
      simp

theorem check_compared_ok (files : List ComparedFile) :
    ∀ st : Packager.DiscListState, (st.2.map Prod.fst).Nodup →
      (files.map (fun g => g.zip_name)).Nodup →
      (∀ g ∈ files, map_find g.zip_name st.2 = some (g.data.length : Int)) →
      ∃ st', check_compared files st = Except.ok st' := by
  induction files with
  | nil => intro st _ _ _; exact ⟨st, rfl⟩
  | cons g rest ih =>
    intro st hk hnd hall
    simp only [List.map_cons, List.nodup_cons] at hnd
    rw [check_compared_cons_ok g _ st (hall g (by simp))]
    apply ih _ (map_erase_nodup _ _ hk) hnd.2
    intro g' hg'
    show map_find g'.zip_name (map_erase g.zip_name st.2) = _
    rw [map_find_erase _ _ _ hk, if_neg, hall g' (by simp [hg'])]
    intro heq
    apply hnd.1
    rw [← heq]
    exact List.mem_map.mpr ⟨g', hg', rfl⟩


theorem check_compared_ok_spec (files : List ComparedFile) :
    ∀ st st' : Packager.DiscListState, (st.2.map Prod.fst).Nodup →
      check_compared files st = Except.ok st' →
      (∀ g ∈ files, map_find g.zip_name st.2 = some (g.data.length : Int))
        ∧ (∀ k, k ∈ st'.2.map Prod.fst
            ↔ k ∈ st.2.map Prod.fst ∧ ∀ g ∈ files, g.zip_name ≠ k)
        ∧ (∀ x ∈ st'.1, x ∈ st.1 ∨ ∃ g ∈ files, x = (g.disc_name, g.zip_name))
        ∧ (∀ x ∈ st.1, (∀ g ∈ files, g.disc_name ≠ x.1) → x ∈ st'.1)
        ∧ ((files.map (fun g => g.disc_name)).Nodup →
            ∀ g ∈ files, (g.disc_name, g.zip_name) ∈ st'.1) := by
  induction files with
  | nil =>
    intro st st' _ h
    have hst : st = st' := by
      rw [check_compared] at h
      exact Except.ok.inj h
    subst hst
    refine ⟨by simp, by simp, fun x hx => Or.inl hx, fun x hx _ => hx, by simp⟩
  | cons f rest ih =>
    intro st st' hk h
    obtain ⟨hf, hrest⟩ := check_compared_cons_inv f rest st st' h
    obtain ⟨i1, i2, i3, i4, i5⟩ := ih _ st' (map_erase_nodup f.zip_name _ hk) hrest
    have hfind : ∀ k, map_find k (map_erase f.zip_name st.2)
        = if k = f.zip_name then none else map_find k st.2 :=
      fun k => map_find_erase k f.zip_name st.2 hk
    have hkeys : ∀ k, k ∈ (map_erase f.zip_name st.2).map Prod.fst
        ↔ k ∈ st.2.map Prod.fst ∧ k ≠ f.zip_name := by
      intro k
      rw [map_erase_keys, hk.mem_erase_iff]
      exact and_comm
    refine ⟨?_, ?_, ?_, ?_, ?_⟩
    · intro g hg
      rcases List.mem_cons.mp hg with h0 | h0
      · rw [h0]; exact hf
      · have := i1 g h0
        change map_find g.zip_name (map_erase f.zip_name st.2) = _ at this
        rw [hfind] at this
        by_cases hz : g.zip_name = f.zip_name
        · rw [if_pos hz] at this
          exact Option.noConfusion this
        · rw [if_neg hz] at this
          exact this
    · intro k
      rw [i2 k]
      change k ∈ (map_erase f.zip_name st.2).map Prod.fst ∧ _ ↔ _
      rw [hkeys]
      constructor
      · rintro ⟨⟨h1, h2⟩, h3⟩
        refine ⟨h1, fun g hg => ?_⟩
        rcases List.mem_cons.mp hg with h0 | h0
        · rw [h0]; exact fun heq => h2 heq.symm
        · exact h3 g h0
      · rintro ⟨h1, h2⟩
        exact ⟨⟨h1, fun heq => h2 f (by simp) heq.symm⟩, fun g hg => h2 g (by simp [hg])⟩
    · intro x hx
      rcases i3 x hx with h0 | ⟨g, hg, hx0⟩
      · rcases mem_of_mem_map_insert _ _ _ _ h0 with h1 | h1
        · exact Or.inr ⟨f, by simp, h1⟩
        · exact Or.inl h1
      · exact Or.inr ⟨g, by simp [hg], hx0⟩
    · intro x hx hne
      apply i4 x
      · exact mem_map_insert_of_mem _ _ _ _ hx (fun heq => hne f (by simp) heq.symm)
      · exact fun g hg => hne g (by simp [hg])
    · intro hnd g hg
      simp only [List.map_cons, List.nodup_cons] at hnd
      rcases List.mem_cons.mp hg with h0 | h0
      · rw [h0]
        apply i4
        · exact mem_map_insert_self _ _ _
        · intro g' hg' heq
          apply hnd.1
          have heq' : g'.disc_name = f.disc_name := heq
          rw [← heq']
          exact List.mem_map.mpr ⟨g', hg', rfl⟩
      · exact i5 hnd.2 g h0

theorem files_are_same_cases (disc : Disc) (zip : Archive) (l : StrMap Str) :
    (Packager.files_are_same disc zip l = (true, [])
        ∧ ∀ x ∈ l, (Packager.file_is_same disc zip x.1 x.2).1 = true)
      ∨ ∃ x ∈ l, (Packager.file_is_same disc zip x.1 x.2).1 = false
          ∧ Packager.files_are_same disc zip l = Packager.file_is_same disc zip x.1 x.2 := by
  induction l with
  | nil =>
    left
    exact ⟨rfl, by simp⟩
  | cons x rest ih =>
    obtain ⟨d, z⟩ := x
    rw [Packager.files_are_same]
    cases hr : (Packager.file_is_same disc zip d z).1
    · right
      exact ⟨(d, z), by simp, hr, by simp⟩
    · simp only [Bool.not_true, Bool.false_eq_true, if_false]
      rcases ih with ⟨h1, h2⟩ | ⟨x, hx, h1, h2⟩
      · left
        refine ⟨h1, fun y hy => ?_⟩
        rcases List.mem_cons.mp hy with h0 | h0
        · rw [h0]; exact hr
        · exact h2 y h0
      · right
        exact ⟨x, by simp [hx], h1, h2⟩

theorem file_is_same_of_entry (disc : Disc) (zip : Archive)
    (hnd : (zip.map (fun e => e.name)).Nodup) (d z data : Str) (e : ZipEntry)
    (he : e ∈ zip) (hn : e.name = z) (hdata : map_find d (disc_files disc) = some data)
    (hlen : e.data.length = data.length) :
    Packager.file_is_same disc zip d z
      = if e.data = data then (true, []) else (false, d ++ " contents changed".toList) := by
  have hf := find_file_of_mem zip hnd e he
  rw [hn] at hf
  rw [Packager.file_is_same, hf]
  simp only [hdata]
  rw [file_compare_loop_same_length data e.data _ false hlen.symm]
  by_cases h : e.data = data
  · simp [h]
  · have h' : data ≠ e.data := fun heq => h heq.symm
    simp [h, h']


theorem compared_files_of_pairs (dd zd : Str) (fs : List (Str × Str)) :
    (compared_files_of dd zd fs).map (fun g => (g.disc_name, g.data))
      = fs.map (fun f => (dd ++ ".".toList ++ f.1, f.2)) := by
  rw [compared_files_of, List.map_map]
  rfl

theorem compared_files_subdirs_pairs :
    ∀ (es : DiscEntries) (dd zd : Str),
      (compared_files_subdirs es dd zd).map (fun g => (g.disc_name, g.data))
        = get_file_list_subdirs es dd
  | DiscEntries.nil, _, _ => rfl
  | DiscEntries.cons _ (DiscNode.file _) rest, dd, zd => by
    rw [compared_files_subdirs, get_file_list_subdirs]
    exact compared_files_subdirs_pairs rest dd zd
  | DiscEntries.cons subdir (DiscNode.dir es) rest, dd, zd => by
    rw [compared_files_subdirs, get_file_list_subdirs, List.map_append, List.map_append,
      compared_files_of_pairs, compared_files_subdirs_pairs es,
      compared_files_subdirs_pairs rest]

theorem compared_files_dir_pairs (dd zd : Str) (es : DiscEntries) :
    (compared_files_dir dd zd es).map (fun g => (g.disc_name, g.data))
      = get_file_list dd es := by
  rw [compared_files_dir, get_file_list, List.map_append, compared_files_of_pairs,
    compared_files_subdirs_pairs]

theorem get_file_list_subset_disc_files (disc : Disc) (source : Str) (es : DiscEntries)
    (h : (source, DiscNode.dir es) ∈ disc) :
    ∀ x ∈ get_file_list source es, x ∈ disc_files disc := by
  induction disc with
  | nil => simp at h
  | cons y rest ih =>
    intro x hx
    obtain ⟨s, node⟩ := y
    rcases List.mem_cons.mp h with h0 | h0
    · injection h0 with hs hn
      subst hs
      subst hn
      rw [disc_files]
      exact List.mem_append_left _ hx
    · cases node with
      | file data =>
        rw [disc_files]
        exact List.mem_cons_of_mem _ (ih h0 x hx)
      | dir entries =>
        rw [disc_files]
        exact List.mem_append_right _ (ih h0 x hx)

theorem compared_files_on_disc (disc : Disc) (items : List ItemToPackage) :
    ∀ g ∈ compared_files disc items, (g.disc_name, g.data) ∈ disc_files disc := by
  induction items with
  | nil => intro g hg; simp [compared_files] at hg
  | cons item rest ih =>
    intro g hg
    rw [compared_files] at hg
    rcases List.mem_append.mp hg with h | h
    · cases hm : map_find item._source disc with
      | none =>
        rw [Packager.enumerate, hm] at h
        simp [compared_files_dir, compared_files_of, compared_files_subdirs, direct_files] at h
      | some node =>
        cases node with
        | file data =>
          rw [Packager.enumerate, hm] at h
          simp [compared_files_dir, compared_files_of, compared_files_subdirs,
            direct_files] at h
        | dir es =>
          rw [Packager.enumerate, hm] at h
          simp only [] at h
          apply get_file_list_subset_disc_files disc item._source es (mem_of_map_find _ _ _ hm)
          rw [← compared_files_dir_pairs item._source
            (Packager.riscos_to_zip_name
              (item._install_to ++ ".".toList ++ leaf_name item._source)) es]
          exact List.mem_map.mpr ⟨g, h, rfl⟩
    · exact ih g h

theorem compared_file_data_on_disc (disc : Disc) (items : List ItemToPackage)
    (hnd : ((disc_files disc).map Prod.fst).Nodup) (g : ComparedFile)
    (hg : g ∈ compared_files disc items) :
    map_find g.disc_name (disc_files disc) = some g.data :=
  map_find_of_mem _ _ _ hnd (compared_files_on_disc disc items g hg)


theorem zip_entry_unique (zip : Archive) (hnd : (zip.map (fun e => e.name)).Nodup)
    (e e' : ZipEntry) (he : e ∈ zip) (he' : e' ∈ zip) (hn : e.name = e'.name) : e = e' := by
  have h1 := find_file_of_mem zip hnd e he
  have h2 := find_file_of_mem zip hnd e' he'
  rw [hn, h2] at h1
  exact (Option.some.inj h1).symm

theorem compared_sizes_of_in_archive (zip : Archive)
    (hnd : (zip.map (fun e => e.name)).Nodup) (g : ComparedFile)
    (h : in_archive_with_size zip g) :
    map_find g.zip_name (compared_sizes zip) = some (g.data.length : Int) := by
  obtain ⟨hr, e, he, hn, hd, hl⟩ := h
  exact (compared_sizes_find zip hnd _ _).mpr ⟨hr, e, he, hn, hd, by rw [hl]⟩

theorem in_archive_of_compared_sizes (zip : Archive)
    (hnd : (zip.map (fun e => e.name)).Nodup) (g : ComparedFile)
    (h : map_find g.zip_name (compared_sizes zip) = some (g.data.length : Int)) :
    in_archive_with_size zip g := by
  obtain ⟨hr, e, he, hn, hd, hl⟩ := (compared_sizes_find zip hnd _ _).mp h
  exact ⟨hr, e, he, hn, hd, by exact_mod_cast hl⟩

theorem left_over_of_key (zip : Archive) (hnd : (zip.map (fun e => e.name)).Nodup)
    (files : List ComparedFile) (k : Str) (hk : k ∈ (compared_sizes zip).map Prod.fst)
    (hne : ∀ g ∈ files, g.zip_name ≠ k) : ∃ e ∈ zip, e.name = k ∧ left_over files e := by
  cases hf : map_find k (compared_sizes zip) with
  | none => exact absurd hk ((map_find_eq_none k _).mp hf)
  | some v =>
    obtain ⟨hr, e, he, hn, hd, _⟩ := (compared_sizes_find zip hnd k v).mp hf
    refine ⟨e, he, hn, hd, ?_, ?_⟩
    · rw [hn]; exact hr
    · rw [hn]; exact hne

theorem key_of_left_over (zip : Archive) (hnd : (zip.map (fun e => e.name)).Nodup)
    (files : List ComparedFile) (e : ZipEntry) (he : e ∈ zip) (hl : left_over files e) :
    e.name ∈ (compared_sizes zip).map Prod.fst := by
  have hf : map_find e.name (compared_sizes zip) = some (e.data.length : Int) :=
    (compared_sizes_find zip hnd _ _).mpr ⟨hl.2.1, e, he, rfl, hl.1, rfl⟩
  by_contra hnot
  rw [(map_find_eq_none e.name _).mpr hnot] at hf
  exact Option.noConfusion hf

theorem check_compared_error (files : List ComparedFile) :
    ∀ (st : Packager.DiscListState) (d : Str), check_compared files st = Except.error d →
      ∃ g ∈ files, d = "new file ".toList ++ g.disc_name
        ∨ d = "file size changed ".toList ++ g.disc_name := by
  induction files with
  | nil =>
    intro st d h
    rw [check_compared] at h
    exact Except.noConfusion h
  | cons f rest ih =>
    intro st d h
    rw [check_compared] at h
    cases hf : map_find f.zip_name st.2 with
    | none =>
      rw [hf] at h
      exact ⟨f, by simp, Or.inl (Except.error.inj h).symm⟩
    | some size =>
      rw [hf] at h
      by_cases hs : (f.data.length : Int) ≠ size
      · simp only [] at h
        rw [if_pos hs] at h
        exact ⟨f, by simp, Or.inr (Except.error.inj h).symm⟩
      · simp only [] at h
        rw [if_neg hs] at h
        obtain ⟨g, hg, hd⟩ := ih _ d h
        exact ⟨g, by simp [hg], hd⟩

theorem same_as_new_file (p : Packager) (disc : Disc) (pkgfilename : Str) (zip : Archive)
    (hm : archive_matches_record p zip) (pre post : List ComparedFile) (f : ComparedFile)
    (hfiles : compared_files disc p._items_to_package = pre ++ f :: post)
    (hnd : (pre.map (fun g => g.zip_name)).Nodup)
    (hpre : ∀ g ∈ pre, in_archive_with_size zip g) (hf : absent_from_archive zip f) :
    p.same_as disc pkgfilename (some zip) = (false, "new file ".toList ++ f.disc_name) := by
  rw [same_as_of_matching p disc pkgfilename zip hm, hfiles]
  have h := check_compared_new_file pre post f ([], compared_sizes zip)
    (compared_sizes_nodup zip hm.1) hnd
    (fun g hg => compared_sizes_of_in_archive zip hm.1 g (hpre g hg))
    (compared_sizes_find_none zip hm.1 _ hf)
  rw [compared_sizes] at h
  rw [h]

theorem same_as_missing_or_extra (p : Packager) (disc : Disc) (pkgfilename : Str)
    (zip : Archive) (hm : archive_matches_record p zip)
    (h : (∃ g ∈ compared_files disc p._items_to_package, ¬ in_archive_with_size zip g)
      ∨ ∃ e ∈ zip, left_over (compared_files disc p._items_to_package) e) :
    (∃ g ∈ compared_files disc p._items_to_package,
        p.same_as disc pkgfilename (some zip) = (false, "new file ".toList ++ g.disc_name)
          ∨ p.same_as disc pkgfilename (some zip)
              = (false, "file size changed ".toList ++ g.disc_name))
      ∨ ∃ n : Nat, ∃ e ∈ zip, left_over (compared_files disc p._items_to_package) e
          ∧ p.same_as disc pkgfilename (some zip)
              = (false, to_string_int (n : Int) ++ " files removed, first is ".toList
                  ++ e.name) := by
  rw [same_as_of_matching p disc pkgfilename zip hm]
  have hk := compared_sizes_nodup zip hm.1
  rw [compared_sizes] at hk
  cases hc : check_compared (compared_files disc p._items_to_package)
      ([], map_erase "RiscPkg/Control".toList
        (map_erase "RiscPkg/Copyright".toList (Packager.zip_contents_of zip []))) with
  | error d =>
    left
    obtain ⟨g, hg, hd⟩ := check_compared_error _ _ d hc
    refine ⟨g, hg, ?_⟩
    rcases hd with hd | hd
    · left; rw [hd]
    · right; rw [hd]
  | ok st' =>
    right
    obtain ⟨i1, i2, _, _, _⟩ := check_compared_ok_spec _ _ st' hk hc
    have hex : ∃ e ∈ zip, left_over (compared_files disc p._items_to_package) e := by
      rcases h with ⟨g, hg, hno⟩ | h
      · exact absurd (in_archive_of_compared_sizes zip hm.1 g (i1 g hg)) hno
      · exact h
    obtain ⟨e, he, hl⟩ := hex
    have hkey : e.name ∈ st'.2.map Prod.fst :=
      (i2 e.name).mpr ⟨key_of_left_over zip hm.1 _ e he hl, hl.2.2⟩
    obtain ⟨dfl, zc1⟩ := st'
    cases zc1 with
    | nil => simp at hkey
    | cons x tl =>
      obtain ⟨first, v⟩ := x
      have hfirst := (i2 first).mp (by simp)
      obtain ⟨e', he', hn', hl'⟩ := left_over_of_key zip hm.1 _ first hfirst.1 hfirst.2
      refine ⟨((first, v) :: tl).length, e', he', hl', ?_⟩
      simp only []
      rw [hn']


theorem same_as_contents_changed (p : Packager) (disc : Disc) (pkgfilename : Str)
    (zip : Archive) (hm : archive_matches_record p zip)
    (hdisc : ((disc_files disc).map Prod.fst).Nodup)
    (hdn : ((compared_files disc p._items_to_package).map (fun g => g.disc_name)).Nodup)
    (hzn : ((compared_files disc p._items_to_package).map (fun g => g.zip_name)).Nodup)
    (hall : ∀ g ∈ compared_files disc p._items_to_package, in_archive_with_size zip g)
    (hno : ∀ e ∈ zip, ¬ left_over (compared_files disc p._items_to_package) e)
    (hdiff : ∃ g ∈ compared_files disc p._items_to_package, bytes_differ zip g) :
    ∃ g ∈ compared_files disc p._items_to_package, bytes_differ zip g
      ∧ p.same_as disc pkgfilename (some zip)
          = (false, g.disc_name ++ " contents changed".toList) := by
  rw [same_as_of_matching p disc pkgfilename zip hm]
  have hk := compared_sizes_nodup zip hm.1
  obtain ⟨st', hc⟩ := check_compared_ok _ ([], compared_sizes zip) hk hzn
    (fun g hg => compared_sizes_of_in_archive zip hm.1 g (hall g hg))
  obtain ⟨_, i2, i3, _, i5⟩ := check_compared_ok_spec _ _ st' hk hc
  rw [compared_sizes] at hc
  rw [hc]
  obtain ⟨dfl, zc1⟩ := st'
  have hsame : ∀ g ∈ compared_files disc p._items_to_package, ∀ e ∈ zip,
      e.name = g.zip_name →
      Packager.file_is_same disc zip g.disc_name g.zip_name
        = if e.data = g.data then (true, [])
          else (false, g.disc_name ++ " contents changed".toList) := by
    intro g hg e he hn
    obtain ⟨_, e', he', hn', _, hl'⟩ := hall g hg
    have heq : e = e' := zip_entry_unique zip hm.1 e e' he he' (by rw [hn, hn'])
    rw [heq]
    exact file_is_same_of_entry disc zip hm.1 _ _ g.data e' he' hn'
      (compared_file_data_on_disc disc _ hdisc g hg) hl'
  cases zc1 with
  | cons x tl =>
    exfalso
    have hfirst := (i2 x.1).mp (by simp)
    obtain ⟨e, he, _, hl⟩ := left_over_of_key zip hm.1 _ x.1 hfirst.1 hfirst.2
    exact hno e he hl
  | nil =>
    simp only []
    rcases files_are_same_cases disc zip dfl with ⟨_, htrue⟩ | ⟨x, hx, hfalse, hres⟩
    · exfalso
      obtain ⟨g, hg, e, he, hn, hd⟩ := hdiff
      have h1 := htrue _ (i5 hdn g hg)
      simp only [] at h1
      rw [hsame g hg e he hn, if_neg hd] at h1
      exact Bool.noConfusion h1
    · rcases i3 x hx with h0 | ⟨g, hg, hxg⟩
      · simp at h0
      · refine ⟨g, hg, ?_⟩
        obtain ⟨_, e, he, hn, _, _⟩ := hall g hg
        rw [hres, hxg]
        rw [hxg] at hfalse
        simp only [] at hfalse ⊢
        rw [hsame g hg e he hn] at hfalse ⊢
        by_cases hd : e.data = g.data
        · rw [if_pos hd] at hfalse
          exact Bool.noConfusion hfalse
        · rw [if_neg hd]
          exact ⟨⟨e, he, hn, hd⟩, rfl⟩


/-- C26: first-difference reporting of `same_as`, for an archive whose entries have distinct
names and whose `RiscPkg/Control` and `RiscPkg/Copyright` entries hold the control text and
the copyright of the record. The disc files are those that `same_as` visits for the items,
in the order of the visit, each with its disc name and its archive path. (1) When a disc
file has no file of the archive under its archive path, and the files visited before it
have distinct archive paths and are each in the archive with an equal size, the result is
false with diff "new file" followed by the disc name. (2) When the files of the disc have
distinct names, the disc files visited have distinct disc names and distinct archive paths,
every one of them is in the archive with an equal size, no file of the archive is left
over, and the bytes of some file differ, the result is false with diff the disc name of a
file whose bytes differ followed by " contents changed". (3) When some disc file is not in
the archive with an equal size, or some file of the archive is left over, the result is
false and the diff is "new file" or "file size changed" followed by the name of a disc
file, or the count of the files removed and the name of a left over file: the bytes are
not compared. -/
theorem same_as_reports_first_difference (p : Packager) (disc : Disc) (pkgfilename : Str)
    (zip : Archive) (hm : archive_matches_record p zip) :
    (∀ (pre post : List ComparedFile) (f : ComparedFile),
        compared_files disc p._items_to_package = pre ++ f :: post →
        (pre.map (fun g => g.zip_name)).Nodup →
        (∀ g ∈ pre, in_archive_with_size zip g) →
        absent_from_archive zip f →
        p.same_as disc pkgfilename (some zip)
          = (false, "new file ".toList ++ f.disc_name))
      ∧ (((disc_files disc).map Prod.fst).Nodup →
          ((compared_files disc p._items_to_package).map (fun g => g.disc_name)).Nodup →
          ((compared_files disc p._items_to_package).map (fun g => g.zip_name)).Nodup →
          (∀ g ∈ compared_files disc p._items_to_package, in_archive_with_size zip g) →
          (∀ e ∈ zip, ¬ left_over (compared_files disc p._items_to_package) e) →
          (∃ g ∈ compared_files disc p._items_to_package, bytes_differ zip g) →
          ∃ g ∈ compared_files disc p._items_to_package, bytes_differ zip g
            ∧ p.same_as disc pkgfilename (some zip)
                = (false, g.disc_name ++ " contents changed".toList))
      ∧ (((∃ g ∈ compared_files disc p._items_to_package, ¬ in_archive_with_size zip g)
            ∨ ∃ e ∈ zip, left_over (compared_files disc p._items_to_package) e) →
          (∃ g ∈ compared_files disc p._items_to_package,
              p.same_as disc pkgfilename (some zip)
                  = (false, "new file ".toList ++ g.disc_name)
                ∨ p.same_as disc pkgfilename (some zip)
                    = (false, "file size changed ".toList ++ g.disc_name))
            ∨ ∃ n : Nat, ∃ e ∈ zip, left_over (compared_files disc p._items_to_package) e
                ∧ p.same_as disc pkgfilename (some zip)
                    = (false, to_string_int (n : Int)
                        ++ " files removed, first is ".toList ++ e.name)) :=
  ⟨fun pre post f hfiles hnd hpre hf =>
      same_as_new_file p disc pkgfilename zip hm pre post f hfiles hnd hpre hf,
    fun hdisc hdn hzn hall hno hdiff =>
      same_as_contents_changed p disc pkgfilename zip hm hdisc hdn hzn hall hno hdiff,
    fun h => same_as_missing_or_extra p disc pkgfilename zip hm h⟩

theorem example_archive_matches :
    archive_matches_record example_record_published example_archive := by
  unfold archive_matches_record
  set_option maxRecDepth 100000 in decide

set_option maxRecDepth 100000 in
/-- The archive of version 1.0-2 of "Foo" against the record of that version: with a file
"Extra" added to the directory, `same_as` reports "new file $.Games.Foo.Extra"; with new
bytes of the same size in the file "Data", it reports "$.Games.Foo.Data contents
changed". -/
theorem same_as_reports_first_difference_witness :
    archive_matches_record example_record_published example_archive
      ∧ example_record_published.same_as example_disc_added [] (some example_archive)
          = (false, "new file $.Games.Foo.Extra".toList)
      ∧ ∃ g ∈ compared_files example_disc_new example_record_published._items_to_package,
          bytes_differ example_archive g
            ∧ example_record_published.same_as example_disc_new [] (some example_archive)
                = (false, g.disc_name ++ " contents changed".toList) :=
  ⟨example_archive_matches,
    (same_as_reports_first_difference example_record_published example_disc_added []
      example_archive example_archive_matches).1
      [{ disc_name := "$.Games.Foo.Data".toList, zip_name := "Apps/Games/Foo/Data".toList,
         data := "old".toList }] []
      { disc_name := "$.Games.Foo.Extra".toList, zip_name := "Apps/Games/Foo/Extra".toList,
        data := "x".toList }
      (by decide) (by decide) (by unfold in_archive_with_size; decide)
      (by unfold absent_from_archive; decide),
    (same_as_reports_first_difference example_record_published example_disc_new []
      example_archive example_archive_matches).2.1
      (by decide) (by decide) (by decide) (by unfold in_archive_with_size; decide)
      (by unfold left_over; decide) (by unfold bytes_differ; decide)⟩


/-! ## The fresh record (C31) -/

theorem new_errors :
    Packager.new._errors
      = [ "must be entered".toList, "must be entered".toList, [], "must be entered".toList, [],
          "must be entered".toList, [], "must be entered".toList, [], "must be entered".toList,
          "must be entered".toList, "must be entered".toList, [], [], [], [], [], [] ] := by
  decide

/-- C31: the record that the constructor builds has priority "Optional", standards version
"0.4.0", package version "1" and the modified flag off; the error slots that hold a text
are exactly those of the package name, the version, the section, the maintainer, the
summary, the licence, the copyright and the item to package; `error_count()` is 8 and
`first_error()` returns `PACKAGE_NAME`. -/
theorem fresh_record_defaults :
    Packager.new._priority = "Optional".toList
      ∧ Packager.new._standards_version = "0.4.0".toList
      ∧ Packager.new._package_version = "1".toList
      ∧ Packager.new._modified = false
      ∧ (∀ i : Nat, Packager.new.error_text i ≠ []
          ↔ i ∈ [PACKAGE_NAME, VERSION, SECTION, MAINTAINER, SUMMARY, LICENCE, COPYRIGHT,
                ITEM_TO_PACKAGE])
      ∧ Packager.new.error_count = 8
      ∧ Packager.new.first_error = some (PACKAGE_NAME : Int) := by
  refine ⟨by decide, by decide, by decide, by decide, ?_, by decide, by decide⟩
  intro i
  rw [Packager.error_text, new_errors]
  by_cases hi : i < 18
  · interval_cases i <;> decide
  · rw [List.getD_eq_default _ _ (by simpa using hi)]
    simp only [ne_eq, not_true_eq_false, false_iff]
    intro hmem
    apply hi
    revert hmem
    simp only [PACKAGE_NAME, VERSION, SECTION, MAINTAINER, SUMMARY, LICENCE, COPYRIGHT,
      ITEM_TO_PACKAGE, List.mem_cons, List.mem_singleton, List.not_mem_nil, or_false]
    omega


/-! ## The item list (C32) -/

theorem validate_install_to_get_items_to_package (p : Packager) (w : Str) :
    (p.validate_install_to w)._items_to_package = p._items_to_package := by
  unfold Packager.validate_install_to
  dsimp only
  split
  · rfl
  · split
    · rfl
    · split
      · rfl
      · split
        · rfl
        · exact clear_error_get_items_to_package p INSTALL_TO

theorem set_item_to_package_items (p : Packager) (item : ItemToPackage) :
    (p.set_item_to_package item)._items_to_package
      = match Packager.replace_item item p._items_to_package with
        | some items => items
        | none => p._items_to_package ++ [item] := by
  have h1 : ((p.clear_error ITEM_TO_PACKAGE).validate_install_to item._install_to)._items_to_package
      = p._items_to_package := by
    rw [validate_install_to_get_items_to_package, clear_error_get_items_to_package]
  unfold Packager.set_item_to_package
  dsimp only
  rw [h1]
  cases Packager.replace_item item p._items_to_package with
  | none => simp
  | some items => simp

theorem replace_item_none (x : ItemToPackage) (items : List ItemToPackage)
    (h : ∀ y ∈ items, y._source ≠ x._source) : Packager.replace_item x items = none := by
  induction items with
  | nil => rfl
  | cons it rest ih =>
    rw [Packager.replace_item, if_neg (h it (by simp)), ih (fun y hy => h y (by simp [hy]))]
    rfl

theorem replace_item_some (x it : ItemToPackage) (pre post : List ItemToPackage)
    (hit : it._source = x._source) (hpre : ∀ y ∈ pre, y._source ≠ x._source) :
    Packager.replace_item x (pre ++ it :: post) = some (pre ++ x :: post) := by
  induction pre with
  | nil => rw [List.nil_append, Packager.replace_item, if_pos hit]; rfl
  | cons y rest ih =>
    rw [List.cons_append, Packager.replace_item, if_neg (hpre y (by simp)),
      ih (fun z hz => hpre z (by simp [hz]))]
    rfl

theorem first_with_source (source : Str) (items : List ItemToPackage)
    (h : ∃ y ∈ items, y._source = source) :
    ∃ pre it post, items = pre ++ it :: post ∧ it._source = source
      ∧ ∀ y ∈ pre, y._source ≠ source := by
  induction items with
  | nil => simp at h
  | cons z rest ih =>
    by_cases hz : z._source = source
    · exact ⟨[], z, rest, rfl, hz, by simp⟩
    · obtain ⟨y, hy, hys⟩ := h
      have hrest : ∃ y ∈ rest, y._source = source := by
        rcases List.mem_cons.mp hy with h0 | h0
        · rw [h0] at hys; exact absurd hys hz
        · exact ⟨y, h0, hys⟩
      obtain ⟨pre, it, post, h1, h2, h3⟩ := ih hrest
      refine ⟨z :: pre, it, post, by rw [h1]; rfl, h2, ?_⟩
      intro w hw
      rcases List.mem_cons.mp hw with h0 | h0
      · rw [h0]; exact hz
      · exact h3 w h0

/-- C32: when some item of the record has the source of `x`, `set_item_to_package x` puts
`x` in the place of the first such item and leaves the items before and after it as they
were (same length, same order); when no item has the source of `x`, it adds `x` at the end
and leaves the items as they were. -/
theorem set_item_to_package_replaces_or_appends (p : Packager) (x : ItemToPackage) :
    ((∃ y ∈ p._items_to_package, y._source = x._source) →
        ∃ pre it post, p._items_to_package = pre ++ it :: post ∧ it._source = x._source
          ∧ (∀ y ∈ pre, y._source ≠ x._source)
          ∧ (p.set_item_to_package x)._items_to_package = pre ++ x :: post)
      ∧ ((∀ y ∈ p._items_to_package, y._source ≠ x._source) →
          (p.set_item_to_package x)._items_to_package = p._items_to_package ++ [x]) := by
  constructor
  · intro h
    obtain ⟨pre, it, post, h1, h2, h3⟩ := first_with_source x._source _ h
    refine ⟨pre, it, post, h1, h2, h3, ?_⟩
    rw [set_item_to_package_items, h1, replace_item_some x it pre post h2 h3]
  · intro h
    rw [set_item_to_package_items, replace_item_none x _ h]

set_option maxRecDepth 100000 in
/-- The record with the items "$.Games.Foo" and "$.Docs.Foo": an item with the source
"$.Games.Foo" takes the first place, an item with the source "$.Games.Bar" is added at the
end. -/
theorem set_item_to_package_replaces_or_appends_witness :
    (∃ pre it post, example_record_two_items._items_to_package = pre ++ it :: post
        ∧ it._source = "$.Games.Foo".toList
        ∧ (∀ y ∈ pre, y._source ≠ "$.Games.Foo".toList)
        ∧ (example_record_two_items.set_item_to_package
            { _source := "$.Games.Foo".toList, _install_to := "Apps.Games".toList,
              _component_flags := CF_Movable })._items_to_package
          = pre ++ { _source := "$.Games.Foo".toList, _install_to := "Apps.Games".toList,
                     _component_flags := CF_Movable } :: post)
      ∧ (example_record_two_items.set_item_to_package
            { _source := "$.Games.Bar".toList, _install_to := "Apps.Games".toList,
              _component_flags := CF_None })._items_to_package
          = example_record_two_items._items_to_package
              ++ [{ _source := "$.Games.Bar".toList, _install_to := "Apps.Games".toList,
                    _component_flags := CF_None }] :=
  ⟨(set_item_to_package_replaces_or_appends example_record_two_items
      { _source := "$.Games.Foo".toList, _install_to := "Apps.Games".toList,
        _component_flags := CF_Movable }).1 (by decide),
    (set_item_to_package_replaces_or_appends example_record_two_items
      { _source := "$.Games.Bar".toList, _install_to := "Apps.Games".toList,
        _component_flags := CF_None }).2 (by decide)⟩


/-! ## The item list and its error slot (C33) -/

theorem item_part_eq (p q : Packager) (w : Nat) (hw : ITEM_TO_PACKAGE ≠ w)
    (hf : q.fields.items_to_package = p.fields.items_to_package)
    (he : errors_changed_only_at p q w) : item_part q = item_part p := by
  unfold item_part
  rw [he.1 ITEM_TO_PACKAGE hw]
  have hf' : q._items_to_package = p._items_to_package := hf
  rw [hf']

theorem item_part_modified (p : Packager) (m : Bool) :
    item_part (p.modified m) = item_part p := by
  unfold item_part
  rw [modified_get_items_to_package, error_text_modified]

theorem item_part_require_entered (p0 p : Packager) (he : p._errors = p0._errors)
    (hc : p._error_count = p0._error_count)
    (hi : p._items_to_package = p0._items_to_package) (w : Nat) (hw : ITEM_TO_PACKAGE ≠ w)
    (v : Str) : item_part (p.require_entered w v) = item_part p0 := by
  apply item_part_eq p0 _ w hw
  · show (p.require_entered w v)._items_to_package = p0._items_to_package
    rw [require_entered_get_items_to_package, hi]
  · exact errors_changed_only_at_require_entered p0 p he hc w v

theorem item_part_check_depends (p0 p : Packager) (he : p._errors = p0._errors)
    (hc : p._error_count = p0._error_count)
    (hi : p._items_to_package = p0._items_to_package) (w : Nat) (hw : ITEM_TO_PACKAGE ≠ w)
    (v : Str) : item_part ((p.check_depends w v).modified true) = item_part p0 := by
  rw [item_part_modified]
  apply item_part_eq p0 _ w hw
  · have h := fields_check_depends p w v
    show (p.check_depends w v).fields.items_to_package = p0._items_to_package
    rw [h]
    exact hi
  · exact errors_changed_only_at_check_depends p0 p he hc w v

theorem item_part_setters (p : Packager) (v : Str) :
    item_part (p.package_name v) = item_part p
      ∧ item_part (p.version v) = item_part p
      ∧ item_part (p.package_version v) = item_part p
      ∧ item_part (p.section_ v) = item_part p
      ∧ item_part (p.priority v) = item_part p
      ∧ item_part (p.maintainer v) = item_part p
      ∧ item_part (p.standards_version v) = item_part p
      ∧ item_part (p.summary v) = item_part p
      ∧ item_part (p.description v) = item_part p
      ∧ item_part (p.licence v) = item_part p
      ∧ item_part (p.copyright v) = item_part p
      ∧ item_part (p.depends v) = item_part p
      ∧ item_part (p.recommends v) = item_part p
      ∧ item_part (p.suggests v) = item_part p
      ∧ item_part (p.conflicts v) = item_part p := by
  refine ⟨?_, ?_, ?_, ?_, ?_, ?_, ?_, ?_, ?_, ?_, ?_, ?_, ?_, ?_, ?_⟩
  · unfold Packager.package_name
    refine item_part_require_entered p _ ?_ ?_ ?_ PACKAGE_NAME (by decide) v <;> rfl
  · unfold Packager.version
    refine item_part_require_entered p _ ?_ ?_ ?_ VERSION (by decide) v <;> rfl
  · unfold Packager.package_version
    refine item_part_require_entered p _ ?_ ?_ ?_ PACKAGE_VERSION (by decide) v <;> rfl
  · unfold Packager.section_
    refine item_part_require_entered p _ ?_ ?_ ?_ SECTION (by decide) v <;> rfl
  · unfold Packager.priority
    refine item_part_require_entered p _ ?_ ?_ ?_ PRIORITY (by decide) v <;> rfl
  · apply item_part_eq p _ MAINTAINER (by decide)
    · rw [fields_maintainer]
    · exact errors_changed_only_at_maintainer p v
  · apply item_part_eq p _ STANDARDS_VERSION (by decide)
    · rw [fields_standards_version]
    · exact errors_changed_only_at_standards_version p v
  · unfold Packager.summary
    refine item_part_require_entered p _ ?_ ?_ ?_ SUMMARY (by decide) v <;> rfl
  · unfold Packager.description
    rw [item_part_modified]
    rfl
  · unfold Packager.licence
    refine item_part_require_entered p _ ?_ ?_ ?_ LICENCE (by decide) v <;> rfl
  · unfold Packager.copyright
    refine item_part_require_entered p _ ?_ ?_ ?_ COPYRIGHT (by decide) v <;> rfl
  · unfold Packager.depends
    refine item_part_check_depends p _ ?_ ?_ ?_ DEPENDS (by decide) v <;> rfl
  · unfold Packager.recommends
    refine item_part_check_depends p _ ?_ ?_ ?_ RECOMMENDS (by decide) v <;> rfl
  · unfold Packager.suggests
    refine item_part_check_depends p _ ?_ ?_ ?_ SUGGESTS (by decide) v <;> rfl
  · unfold Packager.conflicts
    refine item_part_check_depends p _ ?_ ?_ ?_ CONFLICTS (by decide) v <;> rfl


theorem item_part_fst_ite {c : Prop} [Decidable c] {p : Packager}
    {a b : Packager × Option Str} (ha : item_part a.1 = item_part p)
    (hb : item_part b.1 = item_part p) : item_part (if c then a else b).1 = item_part p := by
  by_cases h : c
  · rw [if_pos h]; exact ha
  · rw [if_neg h]; exact hb

theorem item_part_set_control_field (p : Packager) (name value : Str) :
    item_part (p.set_control_field name value).1 = item_part p := by
  unfold Packager.set_control_field
  apply item_part_fst_ite
  · exact (item_part_setters p value).1
  apply item_part_fst_ite
  · split
    · exact ((item_part_setters _ _).2.2.1).trans (item_part_setters _ _).2.1
    · exact ((item_part_setters _ _).2.2.1).trans (item_part_setters _ _).2.1
  apply item_part_fst_ite
  · exact (item_part_setters p value).2.2.2.1
  apply item_part_fst_ite
  · exact (item_part_setters p value).2.2.2.2.1
  apply item_part_fst_ite
  · exact (item_part_setters p value).2.2.2.2.2.1
  apply item_part_fst_ite
  · exact (item_part_setters p value).2.2.2.2.2.2.1
  apply item_part_fst_ite
  · split
    · exact (item_part_setters p value).2.2.2.2.2.2.2.1
    · exact ((item_part_setters _ _).2.2.2.2.2.2.2.2.1).trans
        (item_part_setters _ _).2.2.2.2.2.2.2.1
  apply item_part_fst_ite
  · exact (item_part_setters p value).2.2.2.2.2.2.2.2.2.1
  apply item_part_fst_ite
  · exact (item_part_setters p value).2.2.2.2.2.2.2.2.2.2.2.1
  apply item_part_fst_ite
  · exact (item_part_setters p value).2.2.2.2.2.2.2.2.2.2.2.2.1
  apply item_part_fst_ite
  · exact (item_part_setters p value).2.2.2.2.2.2.2.2.2.2.2.2.2.1
  apply item_part_fst_ite
  · exact (item_part_setters p value).2.2.2.2.2.2.2.2.2.2.2.2.2.2
  · rfl

theorem item_part_read_control_finish (p : Packager) (name value : Str) :
    item_part (p.read_control_finish name value).1 = item_part p := by
  unfold Packager.read_control_finish
  split
  · exact item_part_set_control_field p name value
  · rfl

theorem item_part_read_control_lines (lines : List Str) :
    ∀ (name value : Str) (p : Packager),
      item_part (Packager.read_control_lines lines name value p).1 = item_part p := by
  induction lines with
  | nil =>
    intro name value p
    exact item_part_read_control_finish p name value
  | cons line rest ih =>
    intro name value p
    unfold Packager.read_control_lines
    dsimp only
    split
    · exact item_part_read_control_finish p name value
    · split
      · split
        · exact item_part_read_control_finish p name value
        · split
          · rfl
          · exact ih _ _ _
      · have hf := item_part_read_control_finish p name value
        split
        · rename_i heq
          rw [heq] at hf
          exact hf
        · rename_i heq
          rw [heq] at hf
          split
          · exact hf
          · exact (ih _ _ _).trans hf

theorem item_part_read_control (p : Packager) (input : Str) :
    item_part (p.read_control input).1 = item_part p :=
  item_part_read_control_lines _ _ _ _

theorem item_part_set_item_to_package (p : Packager) (item : ItemToPackage) :
    (p.set_item_to_package item).error_text ITEM_TO_PACKAGE = []
      ∧ (p.set_item_to_package item)._items_to_package ≠ [] := by
  constructor
  · have h1 : ((p.clear_error ITEM_TO_PACKAGE).validate_install_to
        item._install_to).error_text ITEM_TO_PACKAGE = [] := by
      have h0 : (p.clear_error ITEM_TO_PACKAGE).error_text ITEM_TO_PACKAGE = [] := by
        unfold Packager.clear_error
        split
        · rename_i hne
          unfold Packager.error_text
          simp only [List.getD_eq_getElem?_getD]
          by_cases hl : ITEM_TO_PACKAGE < p._errors.length
          · rw [List.getElem?_set_self hl]
            rfl
          · rw [List.getElem?_eq_none (by simpa using hl)]
            rfl
        · rename_i hne
          unfold Packager.error_text
          simpa using hne
      unfold Packager.validate_install_to
      dsimp only
      repeat' first
        | (rw [error_text_set_error_of_ne _ _ _ _ (by decide)]; exact h0)
        | (rw [error_text_clear_error_of_ne _ _ _ (by decide)]; exact h0)
        | split
    unfold Packager.set_item_to_package
    dsimp only
    split <;> (rw [error_text_modified]; exact h1)
  · rw [set_item_to_package_items]
    cases hr : Packager.replace_item item p._items_to_package with
    | none => simp
    | some items =>
      simp only
      intro hnil
      rw [hnil] at hr
      cases hp : p._items_to_package with
      | nil => rw [hp] at hr; simp [Packager.replace_item] at hr
      | cons y rest =>
        rw [hp, Packager.replace_item] at hr
        split at hr
        · simp at hr
        · cases hrr : Packager.replace_item item rest with
          | none => rw [hrr] at hr; simp at hr
          | some l => rw [hrr] at hr; simp at hr


theorem erase_item_nil_of_singleton (it : ItemToPackage) :
    Packager.erase_item it._source [it] = [] := by
  rw [Packager.erase_item, if_pos rfl]

theorem remove_item_to_package_items (p : Packager) (source : Str) :
    (p.remove_item_to_package source)._items_to_package
      = Packager.erase_item source p._items_to_package := by
  unfold Packager.remove_item_to_package
  dsimp only
  rw [modified_get_items_to_package]
  split
  · rfl
  · rfl

theorem remove_item_to_package_slot (p : Packager) (source : Str) :
    (p.remove_item_to_package source).error_text ITEM_TO_PACKAGE
      = if (Packager.erase_item source p._items_to_package).isEmpty then
          (if ITEM_TO_PACKAGE < p._errors.length then
            "You must have a least one item to package".toList else [])
        else p.error_text ITEM_TO_PACKAGE := by
  unfold Packager.remove_item_to_package
  dsimp only
  rw [error_text_modified]
  split
  · unfold Packager.set_error Packager.error_text
    simp only [List.getD_eq_getElem?_getD]
    by_cases hl : ITEM_TO_PACKAGE < p._errors.length
    · rw [List.getElem?_set_self hl, if_pos hl]
      rfl
    · rw [List.getElem?_eq_none (by simpa using hl), if_neg hl]
      rfl
  · rfl

theorem erase_item_of_nil (source : Str) (items : List ItemToPackage)
    (h : Packager.erase_item source items ≠ []) : items ≠ [] := by
  intro hnil
  rw [hnil] at h
  exact h rfl

/-- In every reachable record the slot `ITEM_TO_PACKAGE` holds a text exactly when the
record has no item. -/
theorem Reachable.item_slot {p : Packager} (h : Reachable p) :
    p.error_text ITEM_TO_PACKAGE ≠ [] ↔ p._items_to_package = [] := by
  have key : ∀ (a b : Packager), item_part b = item_part a →
      (a.error_text ITEM_TO_PACKAGE ≠ [] ↔ a._items_to_package = []) →
      (b.error_text ITEM_TO_PACKAGE ≠ [] ↔ b._items_to_package = []) := by
    intro a b hab ha
    unfold item_part at hab
    injection hab with h1 h2
    rw [h1, h2]
    exact ha
  induction h with
  | new => decide
  | modified p m _ ih => exact key _ _ (item_part_modified p m) ih
  | package_name p v _ ih => exact key _ _ (item_part_setters p v).1 ih
  | version p v _ ih => exact key _ _ (item_part_setters p v).2.1 ih
  | package_version p v _ ih => exact key _ _ (item_part_setters p v).2.2.1 ih
  | section_ p v _ ih => exact key _ _ (item_part_setters p v).2.2.2.1 ih
  | priority p v _ ih => exact key _ _ (item_part_setters p v).2.2.2.2.1 ih
  | maintainer p v _ ih => exact key _ _ (item_part_setters p v).2.2.2.2.2.1 ih
  | standards_version p v _ ih => exact key _ _ (item_part_setters p v).2.2.2.2.2.2.1 ih
  | summary p v _ ih => exact key _ _ (item_part_setters p v).2.2.2.2.2.2.2.1 ih
  | description p v _ ih => exact key _ _ (item_part_setters p v).2.2.2.2.2.2.2.2.1 ih
  | licence p v _ ih => exact key _ _ (item_part_setters p v).2.2.2.2.2.2.2.2.2.1 ih
  | copyright p v _ ih => exact key _ _ (item_part_setters p v).2.2.2.2.2.2.2.2.2.2.1 ih
  | depends p v _ ih => exact key _ _ (item_part_setters p v).2.2.2.2.2.2.2.2.2.2.2.1 ih
  | recommends p v _ ih =>
    exact key _ _ (item_part_setters p v).2.2.2.2.2.2.2.2.2.2.2.2.1 ih
  | suggests p v _ ih =>
    exact key _ _ (item_part_setters p v).2.2.2.2.2.2.2.2.2.2.2.2.2.1 ih
  | conflicts p v _ ih =>
    exact key _ _ (item_part_setters p v).2.2.2.2.2.2.2.2.2.2.2.2.2.2 ih
  | set_item_to_package p item _ _ =>
    obtain ⟨h1, h2⟩ := item_part_set_item_to_package p item
    constructor
    · intro hne; exact absurd h1 hne
    · intro hnil; exact absurd hnil h2
  | remove_item_to_package p source hp ih =>
    have hl : ITEM_TO_PACKAGE < p._errors.length := by
      rw [hp.errInv.1]; decide
    rw [remove_item_to_package_slot, remove_item_to_package_items, if_pos hl]
    cases he : Packager.erase_item source p._items_to_package with
    | nil => simp
    | cons y rest =>
      have hne : p._items_to_package ≠ [] :=
        erase_item_of_nil source _ (by rw [he]; simp)
      simp only [List.isEmpty_cons, Bool.false_eq_true, if_false, reduceCtorEq, iff_false,
        not_not]
      by_contra hslot
      exact hne (ih.mp hslot)
  | read_control p input _ ih => exact key _ _ (item_part_read_control p input) ih


theorem SettersAfter.reachable {p q : Packager} (h : SettersAfter p q) (hp : Reachable p) :
    Reachable q := by
  induction h with
  | refl => exact hp
  | modified q m _ ih => exact Reachable.modified q m ih
  | package_name q v _ ih => exact Reachable.package_name q v ih
  | version q v _ ih => exact Reachable.version q v ih
  | package_version q v _ ih => exact Reachable.package_version q v ih
  | section_ q v _ ih => exact Reachable.section_ q v ih
  | priority q v _ ih => exact Reachable.priority q v ih
  | maintainer q v _ ih => exact Reachable.maintainer q v ih
  | standards_version q v _ ih => exact Reachable.standards_version q v ih
  | summary q v _ ih => exact Reachable.summary q v ih
  | description q v _ ih => exact Reachable.description q v ih
  | licence q v _ ih => exact Reachable.licence q v ih
  | copyright q v _ ih => exact Reachable.copyright q v ih
  | depends q v _ ih => exact Reachable.depends q v ih
  | recommends q v _ ih => exact Reachable.recommends q v ih
  | suggests q v _ ih => exact Reachable.suggests q v ih
  | conflicts q v _ ih => exact Reachable.conflicts q v ih
  | remove_item_to_package q s _ ih => exact Reachable.remove_item_to_package q s ih
  | read_control q input _ ih => exact Reachable.read_control q input ih

theorem SettersAfter.no_items {p q : Packager} (h : SettersAfter p q)
    (hp : p._items_to_package = []) : q._items_to_package = [] := by
  have key : ∀ (a b : Packager), item_part b = item_part a →
      a._items_to_package = [] → b._items_to_package = [] := by
    intro a b hab ha
    unfold item_part at hab
    injection hab with h1 _
    rw [h1]
    exact ha
  induction h with
  | refl => exact hp
  | modified q m _ ih => exact key _ _ (item_part_modified q m) ih
  | package_name q v _ ih => exact key _ _ (item_part_setters q v).1 ih
  | version q v _ ih => exact key _ _ (item_part_setters q v).2.1 ih
  | package_version q v _ ih => exact key _ _ (item_part_setters q v).2.2.1 ih
  | section_ q v _ ih => exact key _ _ (item_part_setters q v).2.2.2.1 ih
  | priority q v _ ih => exact key _ _ (item_part_setters q v).2.2.2.2.1 ih
  | maintainer q v _ ih => exact key _ _ (item_part_setters q v).2.2.2.2.2.1 ih
  | standards_version q v _ ih => exact key _ _ (item_part_setters q v).2.2.2.2.2.2.1 ih
  | summary q v _ ih => exact key _ _ (item_part_setters q v).2.2.2.2.2.2.2.1 ih
  | description q v _ ih => exact key _ _ (item_part_setters q v).2.2.2.2.2.2.2.2.1 ih
  | licence q v _ ih => exact key _ _ (item_part_setters q v).2.2.2.2.2.2.2.2.2.1 ih
  | copyright q v _ ih => exact key _ _ (item_part_setters q v).2.2.2.2.2.2.2.2.2.2.1 ih
  | depends q v _ ih => exact key _ _ (item_part_setters q v).2.2.2.2.2.2.2.2.2.2.2.1 ih
  | recommends q v _ ih =>
    exact key _ _ (item_part_setters q v).2.2.2.2.2.2.2.2.2.2.2.2.1 ih
  | suggests q v _ ih =>
    exact key _ _ (item_part_setters q v).2.2.2.2.2.2.2.2.2.2.2.2.2.1 ih
  | conflicts q v _ ih =>
    exact key _ _ (item_part_setters q v).2.2.2.2.2.2.2.2.2.2.2.2.2.2 ih
  | remove_item_to_package q s _ ih =>
    rw [remove_item_to_package_items, ih]
    rfl
  | read_control q input _ ih => exact key _ _ (item_part_read_control q input) ih

theorem ErrInv.error_count_pos {p : Packager} (h : ErrInv p) (w : Nat)
    (hw : p.error_text w ≠ []) : 0 < p.error_count := by
  obtain ⟨_, hc⟩ := h
  unfold Packager.error_count
  rw [hc]
  have hpos : 0 < p._errors.countP (fun e => !e.isEmpty) := by
    rw [List.countP_pos_iff]
    unfold Packager.error_text at hw
    by_cases hl : w < p._errors.length
    · refine ⟨p._errors[w], List.getElem_mem hl, ?_⟩
      rw [List.getD_eq_getElem _ _ hl] at hw
      cases hx : p._errors[w] with
      | nil => exact absurd hx hw
      | cons c cs => rfl
    · rw [List.getD_eq_default _ _ (by omega)] at hw
      exact absurd rfl hw
  exact_mod_cast hpos

/-- C33: in every reachable record the slot `ITEM_TO_PACKAGE` holds an error text exactly
when the record has no item. In particular, when `remove_item_to_package` removes the only
item of a reachable record, the record has no item, and after any sequence of calls of
the other member functions that does not call `set_item_to_package` it still has no item,
the slot `ITEM_TO_PACKAGE` still holds a text and `error_count()` is positive. -/
theorem item_slot_set_iff_no_items (p : Packager) (hp : Reachable p) :
    (p.error_text ITEM_TO_PACKAGE ≠ [] ↔ p._items_to_package = [])
      ∧ ∀ it : ItemToPackage, p._items_to_package = [it] →
          ∀ q : Packager, SettersAfter (p.remove_item_to_package it._source) q →
            q._items_to_package = [] ∧ q.error_text ITEM_TO_PACKAGE ≠ []
              ∧ 0 < q.error_count := by
  refine ⟨hp.item_slot, ?_⟩
  intro it hit q hq
  have hrem : (p.remove_item_to_package it._source)._items_to_package = [] := by
    rw [remove_item_to_package_items, hit]
    exact erase_item_nil_of_singleton it
  have hreach : Reachable q :=
    hq.reachable (Reachable.remove_item_to_package p it._source hp)
  have hitems := hq.no_items hrem
  have hslot := hreach.item_slot.mpr hitems
  exact ⟨hitems, hslot, hreach.errInv.error_count_pos ITEM_TO_PACKAGE hslot⟩

set_option maxRecDepth 100000 in
/-- The fresh record with one item added: after the item is removed and the package name
is set, the record has no item, its slot `ITEM_TO_PACKAGE` holds a text and its count of
errors is positive. -/
theorem item_slot_set_iff_no_items_witness :
    Reachable (Packager.new.set_item_to_package
        { _source := "$.Games.Foo".toList, _install_to := "Apps.Games".toList,
          _component_flags := CF_None })
      ∧ (((Packager.new.set_item_to_package
            { _source := "$.Games.Foo".toList, _install_to := "Apps.Games".toList,
              _component_flags := CF_None }).remove_item_to_package
            "$.Games.Foo".toList).package_name "Foo".toList)._items_to_package = []
      ∧ (((Packager.new.set_item_to_package
            { _source := "$.Games.Foo".toList, _install_to := "Apps.Games".toList,
              _component_flags := CF_None }).remove_item_to_package
            "$.Games.Foo".toList).package_name "Foo".toList).error_text ITEM_TO_PACKAGE ≠ []
      ∧ 0 < (((Packager.new.set_item_to_package
            { _source := "$.Games.Foo".toList, _install_to := "Apps.Games".toList,
              _component_flags := CF_None }).remove_item_to_package
            "$.Games.Foo".toList).package_name "Foo".toList).error_count :=
  ⟨Reachable.set_item_to_package _ _ Reachable.new,
    (item_slot_set_iff_no_items _ (Reachable.set_item_to_package _ _ Reachable.new)).2
      { _source := "$.Games.Foo".toList, _install_to := "Apps.Games".toList,
        _component_flags := CF_None } (by decide) _
      (SettersAfter.package_name _ "Foo".toList SettersAfter.refl)⟩


/-! ## What follows the closing bracket of a constraint (C38) -/

theorem not_mem_dropWhile {α : Type} (q : α → Bool) (a : α) (l : List α) (h : a ∉ l) :
    a ∉ l.dropWhile q :=
  fun hm => h ((List.dropWhile_sublist q).subset hm)

theorem check_version_part_tail (x : Char) (r : Str) (hr : ')' ∉ r) :
    ∃ res : Str, ∀ t : Str, Packager.check_version_part (x :: (r ++ ')' :: t)) = res := by
  have h1 : ∀ t : Str, Packager.skip_blanks (r ++ ')' :: t)
      = Packager.skip_blanks r ++ ')' :: t :=
    fun t => dropWhile_append_stop _ r ')' t (by simp)
  have hr1 : ')' ∉ Packager.skip_blanks r := not_mem_dropWhile _ _ _ hr
  cases hs : Packager.skip_blanks r with
  | nil =>
    refine ⟨"version number missing".toList, fun t => ?_⟩
    unfold Packager.check_version_part
    simp only [Packager.skip_one]
    rw [h1, hs]
    simp
  | cons c r1 =>
    rw [hs] at hr1
    have hc : c ≠ ')' := fun h0 => hr1 (by rw [h0]; simp)
    have hr2 : ')' ∉ (c :: r1).dropWhile (fun c => decide (c ≠ ')' ∧ c ≠ ' ')) :=
      not_mem_dropWhile _ _ _ hr1
    have h2 : ∀ t : Str, ((c :: r1) ++ ')' :: t).dropWhile (fun c => decide (c ≠ ')' ∧ c ≠ ' '))
        = (c :: r1).dropWhile (fun c => decide (c ≠ ')' ∧ c ≠ ' ')) ++ ')' :: t :=
      fun t => dropWhile_append_stop _ _ ')' t (by simp)
    have h3 : ∀ t : Str, Packager.skip_blanks
          ((c :: r1).dropWhile (fun c => decide (c ≠ ')' ∧ c ≠ ' ')) ++ ')' :: t)
        = Packager.skip_blanks ((c :: r1).dropWhile (fun c => decide (c ≠ ')' ∧ c ≠ ' ')))
            ++ ')' :: t :=
      fun t => dropWhile_append_stop _ _ ')' t (by simp)
    have hr3 : ')' ∉ Packager.skip_blanks
        ((c :: r1).dropWhile (fun c => decide (c ≠ ')' ∧ c ≠ ' '))) :=
      not_mem_dropWhile _ _ _ hr2
    by_cases hcomma : c = ','
    · refine ⟨"version number missing".toList, fun t => ?_⟩
      unfold Packager.check_version_part
      simp only [Packager.skip_one]
      rw [h1, hs]
      simp [hcomma]
    by_cases hop : c = '>' ∨ c = '<' ∨ c = '='
    · refine ⟨"extra symbol in version operator".toList, fun t => ?_⟩
      unfold Packager.check_version_part
      simp only [Packager.skip_one]
      rw [h1, hs]
      simp only [List.cons_append, hc, hcomma, or_self, if_false, hop, if_true]
      simp
    · cases hs3 : Packager.skip_blanks
          ((c :: r1).dropWhile (fun c => decide (c ≠ ')' ∧ c ≠ ' '))) with
      | nil =>
        refine ⟨[], fun t => ?_⟩
        unfold Packager.check_version_part
        simp only [Packager.skip_one]
        rw [h1, hs]
        simp only [List.cons_append, hc, hcomma, or_self, if_false, hop, List.isEmpty_nil,
          if_true]
        rw [← List.cons_append, h2, h3, hs3]
        simp
      | cons d r4 =>
        rw [hs3] at hr3
        have hd : d ≠ ')' := fun h0 => hr3 (by rw [h0]; simp)
        refine ⟨"missing ')' or a space in the version number".toList, fun t => ?_⟩
        unfold Packager.check_version_part
        simp only [Packager.skip_one]
        rw [h1, hs]
        simp only [List.cons_append, hc, hcomma, or_self, if_false, hop, List.isEmpty_nil,
          if_true]
        rw [← List.cons_append, h2, h3, hs3]
        simp [hd]


theorem check_operator_part_tail (body : Str) (hb : ')' ∉ body) :
    ∃ res : Str, ∀ t : Str, Packager.check_operator_part (body ++ ')' :: t) = res := by
  have h1 : ∀ t : Str, Packager.skip_blanks (body ++ ')' :: t)
      = Packager.skip_blanks body ++ ')' :: t :=
    fun t => dropWhile_append_stop _ body ')' t (by simp)
  have hb1 : ')' ∉ Packager.skip_blanks body := not_mem_dropWhile _ _ _ hb
  cases hs : Packager.skip_blanks body with
  | nil =>
    refine ⟨"version operator '=', '<<', '>>', '<=' or '>=' missing".toList, fun t => ?_⟩
    unfold Packager.check_operator_part
    rw [h1, hs]
    simp
  | cons c rest =>
    rw [hs] at hb1
    have hrest : ')' ∉ rest := fun h0 => hb1 (List.mem_cons_of_mem _ h0)
    by_cases hlt : c = '<'
    · subst hlt
      cases rest with
      | nil =>
        refine ⟨"'<' must be followed by another '<' or and '='".toList, fun t => ?_⟩
        unfold Packager.check_operator_part
        rw [h1, hs]
        simp
      | cons d r0 =>
        have hr0 : ')' ∉ r0 := fun h0 => hrest (List.mem_cons_of_mem _ h0)
        obtain ⟨res, hres⟩ := check_version_part_tail d r0 hr0
        by_cases hd : d ≠ '<' ∧ d ≠ '='
        · refine ⟨"'<' must be followed by another '<' or and '='".toList, fun t => ?_⟩
          unfold Packager.check_operator_part
          rw [h1, hs]
          simp only [List.cons_append, Char.reduceEq, or_true, true_or, not_true_eq_false,
            decide_False, Bool.false_eq_true, if_false, if_true]
          rw [if_pos hd]
          simp
        · refine ⟨res, fun t => ?_⟩
          unfold Packager.check_operator_part
          rw [h1, hs]
          simp only [List.cons_append, Char.reduceEq, or_true, true_or, not_true_eq_false,
            decide_False, Bool.false_eq_true, if_false, if_true]
          rw [if_neg hd]
          exact hres t
    by_cases hgt : c = '>'
    · subst hgt
      cases rest with
      | nil =>
        refine ⟨"'>' must be followed by another '>' or and '='".toList, fun t => ?_⟩
        unfold Packager.check_operator_part
        rw [h1, hs]
        simp
      | cons d r0 =>
        have hr0 : ')' ∉ r0 := fun h0 => hrest (List.mem_cons_of_mem _ h0)
        obtain ⟨res, hres⟩ := check_version_part_tail d r0 hr0
        by_cases hd : d ≠ '>' ∧ d ≠ '='
        · refine ⟨"'>' must be followed by another '>' or and '='".toList, fun t => ?_⟩
          unfold Packager.check_operator_part
          rw [h1, hs]
          simp only [List.cons_append, Char.reduceEq, or_true, true_or, not_true_eq_false,
            decide_False, Bool.false_eq_true, if_false, if_true]
          rw [if_pos hd]
          simp
        · refine ⟨res, fun t => ?_⟩
          unfold Packager.check_operator_part
          rw [h1, hs]
          simp only [List.cons_append, Char.reduceEq, or_true, true_or, not_true_eq_false,
            decide_False, Bool.false_eq_true, if_false, if_true]
          rw [if_neg hd]
          exact hres t
    by_cases heq : c = '='
    · subst heq
      obtain ⟨res, hres⟩ := check_version_part_tail '=' rest hrest
      refine ⟨res, fun t => ?_⟩
      unfold Packager.check_operator_part
      rw [h1, hs]
      simp only [List.cons_append, Char.reduceEq, or_true, true_or, not_true_eq_false,
        decide_False, Bool.false_eq_true, if_false, if_true]
      exact hres t
    · refine ⟨"version operator '=', '<<', '>>', '<=' or '>=' missing".toList, fun t => ?_⟩
      unfold Packager.check_operator_part
      rw [h1, hs]
      simp [heq, hlt, hgt]

theorem check_one_dependency_open (pre : Str) (hpre : '(' ∉ pre) :
    ∃ e : Option Str, ∀ text : Str,
      Packager.check_one_dependency (pre ++ '(' :: text)
        = match e with
          | some err => err
          | none => Packager.check_operator_part text := by
  have h1 : ∀ text : Str, Packager.skip_blanks (pre ++ '(' :: text)
      = Packager.skip_blanks pre ++ '(' :: text :=
    fun text => dropWhile_append_stop _ pre '(' text (by simp)
  have hp1 : '(' ∉ Packager.skip_blanks pre := not_mem_dropWhile _ _ _ hpre
  cases hs : Packager.skip_blanks pre with
  | nil =>
    refine ⟨none, fun text => ?_⟩
    unfold Packager.check_one_dependency
    rw [h1, hs]
    simp only [List.nil_append, Char.reduceEq, if_false]
    rw [List.dropWhile_cons_of_neg (by simp), skip_blanks_cons (by decide)]
    simp
  | cons c rest =>
    by_cases hc : c = ')'
    · refine ⟨some "Extra ')' in a dependency".toList, fun text => ?_⟩
      unfold Packager.check_one_dependency
      rw [h1, hs]
      simp [hc]
    · have h2 : ∀ text : Str,
          ((c :: rest) ++ '(' :: text).dropWhile (fun x => decide (x ≠ '(' ∧ x ≠ ' '))
            = (c :: rest).dropWhile (fun x => decide (x ≠ '(' ∧ x ≠ ' ')) ++ '(' :: text :=
        fun text => dropWhile_append_stop _ _ '(' text (by simp)
      have h3 : ∀ text : Str, Packager.skip_blanks
            ((c :: rest).dropWhile (fun x => decide (x ≠ '(' ∧ x ≠ ' ')) ++ '(' :: text)
          = Packager.skip_blanks
              ((c :: rest).dropWhile (fun x => decide (x ≠ '(' ∧ x ≠ ' ')))
              ++ '(' :: text :=
        fun text => dropWhile_append_stop _ _ '(' text (by simp)
      rw [hs] at hp1
      have hp3 : '(' ∉ Packager.skip_blanks
          ((c :: rest).dropWhile (fun x => decide (x ≠ '(' ∧ x ≠ ' '))) :=
        not_mem_dropWhile _ _ _ (not_mem_dropWhile _ _ _ hp1)
      cases hs3 : Packager.skip_blanks
          ((c :: rest).dropWhile (fun x => decide (x ≠ '(' ∧ x ≠ ' '))) with
      | nil =>
        refine ⟨none, fun text => ?_⟩
        unfold Packager.check_one_dependency
        rw [h1, hs]
        simp only [List.cons_append, hc, if_false]
        rw [← List.cons_append, h2, h3, hs3]
        simp
      | cons d r4 =>
        rw [hs3] at hp3
        have hd : d ≠ '(' := fun h0 => hp3 (by rw [h0]; simp)
        refine ⟨some "dependency package name must end with a comma or a '('".toList,
          fun text => ?_⟩
        unfold Packager.check_one_dependency
        rw [h1, hs]
        simp only [List.cons_append, hc, if_false]
        rw [← List.cons_append, h2, h3, hs3]
        simp [hd]


/-- C38: `check_one_dependency` does not look at what follows the closing bracket of a
version constraint. For a clause made of a text `pre` without `(`, the `(`, a text `body`
without `)` and the `)`, the result for the clause followed by any text `t` is the result
for the clause alone; so when the clause is accepted, the clause followed by `t` is
accepted as well. -/
theorem check_one_dependency_ignores_text_after_constraint (pre body : Str)
    (hpre : '(' ∉ pre) (hbody : ')' ∉ body) :
    (∀ t : Str, Packager.check_one_dependency (pre ++ '(' :: (body ++ ')' :: t))
        = Packager.check_one_dependency (pre ++ '(' :: (body ++ [')'])))
      ∧ (Packager.check_one_dependency (pre ++ '(' :: (body ++ [')'])) = [] →
          ∀ t : Str, Packager.check_one_dependency (pre ++ '(' :: (body ++ ')' :: t)) = []) := by
  have key : ∀ t : Str, Packager.check_one_dependency (pre ++ '(' :: (body ++ ')' :: t))
      = Packager.check_one_dependency (pre ++ '(' :: (body ++ [')'])) := by
    intro t
    obtain ⟨e, he⟩ := check_one_dependency_open pre hpre
    obtain ⟨res, hres⟩ := check_operator_part_tail body hbody
    rw [he, he]
    cases e with
    | some err => rfl
    | none =>
      simp only
      rw [hres t, hres []]
  exact ⟨key, fun h t => by rw [key t]; exact h⟩

/-- The clause "PkgA (>= 1.2)" is accepted, and so is "PkgA (>= 1.2) junk". -/
theorem check_one_dependency_ignores_text_after_constraint_witness :
    Packager.check_one_dependency "PkgA (>= 1.2)".toList = []
      ∧ Packager.check_one_dependency "PkgA (>= 1.2) junk".toList = [] :=
  ⟨by decide,
    (check_one_dependency_ignores_text_after_constraint "PkgA ".toList ">= 1.2".toList
      (by decide) (by decide)).2 (by decide) " junk".toList⟩


/-! ## A clause without a package name (C39) -/

theorem check_one_dependency_empty_name (k : Nat) (op version : Str)
    (hop : op ∈ version_operators) (hv : dependency_token version = true) :
    Packager.check_one_dependency
      (spaces k ++ '(' :: (op ++ ' ' :: (version ++ [')']))) = [] := by
  have hshape := check_operator_part_shape 0 1 0 op version []
    (by simpa using hop) hv
  have heq : spaces 0 ++ (op ++ (spaces 1 ++ (version ++ (spaces 0 ++ ')' :: []))))
      = op ++ ' ' :: (version ++ [')']) := rfl
  rw [heq] at hshape
  unfold Packager.check_one_dependency
  rw [skip_blanks_spaces, skip_blanks_cons (by decide)]
  simp only [Char.reduceEq, if_false]
  rw [List.dropWhile_cons_of_neg (by simp), skip_blanks_cons (by decide)]
  simp only [ne_eq, not_true_eq_false, if_false]
  exact hshape

theorem comma_not_mem_empty_name_clause (k : Nat) (op version : Str)
    (hop : op ∈ version_operators) (hv : dependency_token version = true) :
    ',' ∉ spaces k ++ '(' :: (op ++ ' ' :: (version ++ [')'])) := by
  obtain ⟨_, hall⟩ := dependency_token_spec hv
  have hopc : ',' ∉ op := by
    simp only [version_operators, List.mem_cons, List.mem_singleton, List.not_mem_nil,
      or_false] at hop
    rcases hop with h | h | h | h | h <;> subst h <;> decide
  have hsp : ',' ∉ spaces k := by
    intro h
    have := List.eq_of_mem_replicate h
    exact absurd this (by decide)
  intro hmem
  simp only [List.mem_append, List.mem_cons, List.mem_singleton, List.not_mem_nil,
    Char.reduceEq, false_or, or_false] at hmem
  rcases hmem with h | h | h
  · exact hsp h
  · exact hopc h
  · exact (hall ',' h).2.2.2.1 rfl

/-- C39: `check_one_dependency` accepts a clause that has no package name. For each of the
five operators and every version token (a text that is not empty and holds no space,
bracket, comma, '<', '>' or '='), the clause made of any number of spaces, `(`, the
operator, a space, the version and `)` gives no error; and a dependency field that
consists of this clause leaves no error in its slot. -/
theorem check_one_dependency_accepts_empty_name (k : Nat) (op version : Str)
    (hop : op ∈ version_operators) (hv : dependency_token version = true) :
    Packager.check_one_dependency
        (spaces k ++ '(' :: (op ++ ' ' :: (version ++ [')']))) = []
      ∧ ∀ p : Packager, ErrInv p →
          (p.depends (spaces k ++ '(' :: (op ++ ' ' :: (version ++ [')'])))).error_text DEPENDS
            = [] := by
  have h1 := check_one_dependency_empty_name k op version hop hv
  refine ⟨h1, fun p hp => ?_⟩
  have h2 := (dependency_setters_error_text p hp
    [spaces k ++ '(' :: (op ++ ' ' :: (version ++ [')']))]
    (fun c hc => by
      rw [List.mem_singleton] at hc
      rw [hc]
      exact comma_not_mem_empty_name_clause k op version hop hv)
    (by
      show spaces k ++ '(' :: (op ++ ' ' :: (version ++ [')'])) ≠ []
      simp)).1
  rw [show join_commas [spaces k ++ '(' :: (op ++ ' ' :: (version ++ [')']))]
      = spaces k ++ '(' :: (op ++ ' ' :: (version ++ [')'])) from rfl] at h2
  rw [h2, first_clause_error, h1]
  rfl

set_option maxRecDepth 100000 in
/-- The clause "(>= 1.2)" is accepted, and the fresh record whose `Depends` field is set
to "(>= 1.2)" has no error in the slot `DEPENDS`. -/
theorem check_one_dependency_accepts_empty_name_witness :
    Packager.check_one_dependency "(>= 1.2)".toList = []
      ∧ (Packager.new.depends "(>= 1.2)".toList).error_text DEPENDS = [] :=
  ⟨(check_one_dependency_accepts_empty_name 0 ">=".toList "1.2".toList (by decide)
      (by decide)).1,
    (check_one_dependency_accepts_empty_name 0 ">=".toList "1.2".toList (by decide)
      (by decide)).2 Packager.new ErrInv.new⟩


/-! ## The `Components` line of a control text (C36) -/

theorem text_lines_from_append (s : Str) (hs : single_line s = true) :
    ∀ (cur rest : Str), text_lines_from cur (s ++ rest) = text_lines_from (cur ++ s) rest := by
  induction s with
  | nil => intro cur rest; simp
  | cons c cs ih =>
    intro cur rest
    simp only [single_line, List.all_cons, Bool.and_eq_true, bne_iff_ne, ne_eq] at hs
    have hc : c ≠ '\n' := hs.1
    rw [List.cons_append, text_lines_from, if_neg hc, ih (by simpa [single_line] using hs.2)]
    simp

theorem text_lines_from_line (s : Str) (hs : single_line s = true) (cur rest : Str) :
    text_lines_from cur (s ++ '\n' :: rest) = (cur ++ s) :: text_lines_from [] rest := by
  rw [text_lines_from_append s hs, text_lines_from, if_pos rfl]

theorem text_lines_from_lines_text (ls : List Str) (hls : ∀ l ∈ ls, single_line l = true)
    (rest : Str) :
    text_lines_from [] (lines_text ls ++ rest) = ls ++ text_lines_from [] rest := by
  induction ls with
  | nil => rfl
  | cons l ls ih =>
    rw [lines_text, List.append_assoc, List.cons_append,
      text_lines_from_line l (hls l (by simp)) [] _, ih (fun x hx => hls x (by simp [hx]))]
    rfl

theorem text_lines_from_prefix_lines_text (pre l : Str) (ls : List Str)
    (hpre : single_line pre = true) (hls : ∀ x ∈ l :: ls, single_line x = true) (rest : Str) :
    text_lines_from [] (pre ++ (lines_text (l :: ls) ++ rest))
      = (pre ++ l) :: (ls ++ text_lines_from [] rest) := by
  rw [text_lines_from_append pre hpre, lines_text, List.append_assoc, List.cons_append,
    text_lines_from_line l (hls l (by simp)) _ _,
    text_lines_from_lines_text ls (fun x hx => hls x (by simp [hx]))]
  rfl

theorem lines_text_append (a b : List Str) :
    lines_text (a ++ b) = lines_text a ++ lines_text b := by
  induction a with
  | nil => rfl
  | cons l ls ih => rw [List.cons_append, lines_text, lines_text, ih]; simp

theorem field_line_lines_text (name value : Str) :
    Packager.field_line name value
      = lines_text (if value.isEmpty then [] else [name ++ ": ".toList ++ value]) := by
  unfold Packager.field_line
  cases value with
  | nil => rfl
  | cons c cs =>
    simp [lines_text]

theorem flush_blank_lines_lines_text (k : Nat) :
    Packager.flush_blank_lines k = lines_text (List.replicate k " .".toList) := by
  induction k with
  | zero => rfl
  | succ n ih =>
    rw [Packager.flush_blank_lines, ih, List.replicate_succ, lines_text]
    rfl

theorem fold_description_lines_text (d : Str) :
    ∀ (cur : Str) (k : Nat), single_line cur = true →
      ∃ ls : List Str, (∀ l ∈ ls, single_line l = true ∧ l.head? = some ' ')
        ∧ Packager.fold_description cur k d = lines_text ls := by
  have hflush : ∀ k : Nat, ∀ l ∈ List.replicate k " .".toList,
      single_line l = true ∧ l.head? = some ' ' := by
    intro k l hl
    rw [List.eq_of_mem_replicate hl]
    exact ⟨by decide, rfl⟩
  induction d with
  | nil =>
    intro cur k hcur
    rw [Packager.fold_description]
    split
    · refine ⟨List.replicate k " .".toList ++ [' ' :: cur], ?_, ?_⟩
      · intro l hl
        rcases List.mem_append.mp hl with h | h
        · exact hflush k l h
        · rw [List.mem_singleton] at h
          rw [h]
          exact ⟨by simpa [single_line] using hcur, rfl⟩
      · rw [lines_text_append, ← flush_blank_lines_lines_text]
        simp [lines_text]
    · exact ⟨[], by simp, rfl⟩
  | cons c cs ih =>
    intro cur k hcur
    rw [Packager.fold_description]
    by_cases hc : c = '\n'
    · rw [if_pos hc]
      split
      · exact ih [] (k + 1) rfl
      · obtain ⟨ls, hls, heq⟩ := ih [] 0 rfl
        refine ⟨List.replicate k " .".toList ++ ([' ' :: cur] ++ ls), ?_, ?_⟩
        · intro l hl
          rcases List.mem_append.mp hl with h | h
          · exact hflush k l h
          · rcases List.mem_append.mp h with h | h
            · rw [List.mem_singleton] at h
              rw [h]
              exact ⟨by simpa [single_line] using hcur, rfl⟩
            · exact hls l h
        · rw [lines_text_append, lines_text_append, ← flush_blank_lines_lines_text, heq]
          simp [lines_text]
    · rw [if_neg hc]
      apply ih
      rw [single_line_append, hcur]
      simp [single_line, hc]


theorem join_commas_cons (e : Str) (es : List Str) :
    join_commas (e :: es) = e ++ (es.map (fun x => ',' :: x)).flatten := by
  induction es generalizing e with
  | nil => simp [join_commas]
  | cons d rest ih =>
    rw [join_commas, ih d]
    simp

theorem components_loop_started (items : List ItemToPackage) :
    Packager.components_loop items false
      = (((items.filter (fun i => i._component_flags != CF_None)).map component_entry).map
          (fun x => ',' :: x)).flatten ++ "\n".toList := by
  induction items with
  | nil => rfl
  | cons i is ih =>
    rw [Packager.components_loop]
    by_cases hm : i._component_flags ≠ CF_None
    · rw [if_pos hm, ih, List.filter_cons_of_pos (by simpa using hm)]
      simp [component_entry]
    · rw [if_neg hm, ih, List.filter_cons_of_neg (by simpa using hm)]

theorem components_loop_lines_text (items : List ItemToPackage) :
    Packager.components_loop items true
      = lines_text
          (if items.filter (fun i => i._component_flags != CF_None) = [] then []
           else [components_line (items.filter (fun i => i._component_flags != CF_None))]) := by
  induction items with
  | nil => rfl
  | cons i is ih =>
    rw [Packager.components_loop]
    by_cases hm : i._component_flags ≠ CF_None
    · rw [if_pos hm, components_loop_started, List.filter_cons_of_pos (by simpa using hm),
        if_neg (List.cons_ne_nil _ _)]
      unfold components_line
      rw [List.map_cons, join_commas_cons]
      simp [lines_text, component_entry]
    · rw [if_neg hm, ih, List.filter_cons_of_neg (by simpa using hm)]

theorem single_line_join_commas (es : List Str) (h : ∀ e ∈ es, single_line e = true) :
    single_line (join_commas es) = true := by
  induction es with
  | nil => rfl
  | cons e rest ih =>
    rw [join_commas_cons, single_line_append, h e (by simp)]
    have hrest := ih (fun x hx => h x (by simp [hx]))
    cases rest with
    | nil => rfl
    | cons d ds =>
      rw [join_commas_cons] at hrest
      simp only [List.map_cons, List.flatten_cons, Bool.true_and]
      rw [show (',' :: d) ++ (ds.map (fun x => ',' :: x)).flatten
          = [','] ++ (d ++ (ds.map (fun x => ',' :: x)).flatten) from rfl, single_line_append,
        hrest]
      rfl

theorem single_line_components_line (items : List ItemToPackage)
    (h : ∀ i ∈ items, single_line i.component = true) :
    single_line (components_line items) = true := by
  unfold components_line
  rw [single_line_append, single_line_join_commas]
  · rfl
  · intro e he
    obtain ⟨i, hi, rfl⟩ := List.mem_map.mp he
    unfold component_entry
    rw [single_line_append, h i hi]
    rfl

theorem starts_with_components_components_line (items : List ItemToPackage) :
    starts_with_components (components_line items) = true := by
  unfold starts_with_components components_line
  simp [List.isPrefixOf]


theorem field_line_optional_line (name value : Str) :
    Packager.field_line name value = lines_text (optional_line name value) :=
  field_line_lines_text name value

theorem control_as_text_split (p : Packager) :
    p.control_as_text
      = lines_text (head_field_lines p)
        ++ (description_text p
        ++ lines_text
            ((if flagged_items p = [] then [] else [components_line (flagged_items p)])
              ++ dependency_field_lines p)) := by
  have hver : (if !p._version.isEmpty then
        "Version: ".toList ++ p._version ++ "-".toList ++ p._package_version ++ "\n".toList
      else [])
      = lines_text (if p._version.isEmpty then []
          else ["Version: ".toList ++ p._version ++ "-".toList ++ p._package_version]) := by
    cases hv : p._version.isEmpty
    · simp [lines_text]
    · simp [lines_text]
  unfold Packager.control_as_text head_field_lines dependency_field_lines description_text
    flagged_items
  rw [hver, components_loop_lines_text]
  simp only [field_line_optional_line, lines_text_append, List.append_assoc]

theorem text_lines_lines_text (ls : List Str) (hls : ∀ l ∈ ls, single_line l = true) :
    text_lines (lines_text ls) = ls := by
  have h := text_lines_from_lines_text ls hls []
  rw [List.append_nil] at h
  unfold text_lines
  rw [h]
  simp [text_lines_from]

theorem optional_line_spec (name value : Str) (hn : single_line name = true)
    (hv : single_line value = true)
    (hc : ∀ v : Str, starts_with_components (name ++ ": ".toList ++ v) = false) :
    ∀ l ∈ optional_line name value,
      single_line l = true ∧ starts_with_components l = false := by
  intro l hl
  unfold optional_line at hl
  split at hl
  · simp at hl
  · rw [List.mem_singleton] at hl
    rw [hl]
    refine ⟨?_, hc value⟩
    rw [single_line_append, single_line_append, hn, hv]
    rfl

theorem head_field_lines_spec (p : Packager) (h : one_line_values p = true) :
    ∀ l ∈ head_field_lines p, single_line l = true ∧ starts_with_components l = false := by
  unfold one_line_values at h
  simp only [Bool.and_eq_true] at h
  obtain ⟨⟨⟨⟨⟨⟨⟨⟨⟨⟨⟨⟨⟨hname, hver⟩, hpv⟩, hsec⟩, hpri⟩, hmai⟩, hsv⟩, hlic⟩, _⟩, _⟩, _⟩, _⟩, _⟩,
    _⟩ := h
  intro l hl
  unfold head_field_lines at hl
  simp only [List.mem_append] at hl
  rcases hl with hl | hl | hl | hl | hl | hl | hl
  · exact optional_line_spec "Package".toList _ (by decide) hname (fun _ => rfl) l hl
  · split at hl
    · simp at hl
    · rw [List.mem_singleton] at hl
      rw [hl]
      refine ⟨?_, rfl⟩
      rw [single_line_append, single_line_append, single_line_append, hver, hpv]
      rfl
  · exact optional_line_spec "Section".toList _ (by decide) hsec (fun _ => rfl) l hl
  · exact optional_line_spec "Priority".toList _ (by decide) hpri (fun _ => rfl) l hl
  · exact optional_line_spec "Maintainer".toList _ (by decide) hmai (fun _ => rfl) l hl
  · exact optional_line_spec "Standards-Version".toList _ (by decide) hsv (fun _ => rfl) l hl
  · exact optional_line_spec "Licence".toList _ (by decide) hlic (fun _ => rfl) l hl

theorem dependency_field_lines_spec (p : Packager) (h : one_line_values p = true) :
    ∀ l ∈ dependency_field_lines p,
      single_line l = true ∧ starts_with_components l = false := by
  unfold one_line_values at h
  simp only [Bool.and_eq_true] at h
  obtain ⟨⟨⟨⟨_, hdep⟩, hrec⟩, hsug⟩, hcon⟩ := h
  intro l hl
  unfold dependency_field_lines at hl
  simp only [List.mem_append] at hl
  rcases hl with hl | hl | hl | hl
  · exact optional_line_spec "Depends".toList _ (by decide) hdep (fun _ => rfl) l hl
  · exact optional_line_spec "Recommends".toList _ (by decide) hrec (fun _ => rfl) l hl
  · exact optional_line_spec "Suggests".toList _ (by decide) hsug (fun _ => rfl) l hl
  · exact optional_line_spec "Conflicts".toList _ (by decide) hcon (fun _ => rfl) l hl


theorem filter_starts_with_components_nil (ls : List Str)
    (h : ∀ l ∈ ls, starts_with_components l = false) :
    ls.filter starts_with_components = [] := by
  rw [List.filter_eq_nil_iff]
  intro l hl
  rw [h l hl]
  simp

theorem description_text_lines (p : Packager) (hs : single_line p._summary = true) :
    ∃ (dl : List Str) (pre : Str) (fl : List Str),
      description_text p = lines_text dl ++ (pre ++ lines_text fl)
        ∧ (∀ l ∈ dl ++ fl, single_line l = true ∧ starts_with_components l = false)
        ∧ (pre = [] ∨ (pre = "Description: ".toList ∧ dl = [] ∧ p._summary = []
            ∧ p._description ≠ []
            ∧ lines_text fl = Packager.fold_description [] 0 p._description)) := by
  obtain ⟨fl, hfl, hfold⟩ := fold_description_lines_text p._description [] 0 rfl
  have hfl' : ∀ l ∈ fl, single_line l = true ∧ starts_with_components l = false := by
    intro l hl
    refine ⟨(hfl l hl).1, ?_⟩
    have hh := (hfl l hl).2
    cases l with
    | nil => rfl
    | cons c cs =>
      simp only [List.head?_cons, Option.some.injEq] at hh
      rw [hh]
      rfl
  unfold description_text
  by_cases hsum : p._summary = []
  · by_cases hdesc : p._description = []
    · refine ⟨[], [], [], ?_, by simp, Or.inl rfl⟩
      rw [hsum, hdesc]
      rfl
    · refine ⟨[], "Description: ".toList, fl, ?_, ?_, Or.inr ⟨rfl, rfl, hsum, hdesc, hfold.symm⟩⟩
      · rw [hsum, hfold]
        have : p._description.isEmpty = false := by
          cases hd : p._description with
          | nil => exact absurd hd hdesc
          | cons c cs => rfl
        rw [this]
        rfl
      · simpa using hfl'
  · have hline : ∀ l ∈ ["Description: ".toList ++ p._summary],
        single_line l = true ∧ starts_with_components l = false := by
      intro l hl
      rw [List.mem_singleton] at hl
      rw [hl]
      refine ⟨?_, rfl⟩
      rw [single_line_append, hs]
      rfl
    have hfield : Packager.field_line "Description".toList p._summary
        = lines_text ["Description: ".toList ++ p._summary] := by
      rw [field_line_lines_text]
      cases hd : p._summary with
      | nil => exact absurd hd hsum
      | cons c cs => simp
    have hse : p._summary.isEmpty = false := by
      cases hd : p._summary with
      | nil => exact absurd hd hsum
      | cons c cs => rfl
    by_cases hdesc : p._description = []
    · refine ⟨["Description: ".toList ++ p._summary], [], [], ?_, ?_, Or.inl rfl⟩
      · rw [hfield, hdesc]
        rfl
      · simpa using hline
    · refine ⟨["Description: ".toList ++ p._summary], [], fl, ?_, ?_, Or.inl rfl⟩
      · have : p._description.isEmpty = false := by
          cases hd : p._description with
          | nil => exact absurd hd hdesc
          | cons c cs => rfl
        rw [hfield, this, hse, hfold]
        rfl
      · intro l hl
        rcases List.mem_append.mp hl with h0 | h0
        · exact hline l h0
        · exact hfl' l h0


theorem flagged_items_one_line (p : Packager) (h : one_line_values p = true) :
    ∀ i ∈ flagged_items p, single_line i.component = true := by
  unfold one_line_values at h
  simp only [Bool.and_eq_true] at h
  obtain ⟨⟨⟨⟨⟨_, hitems⟩, _⟩, _⟩, _⟩, _⟩ := h
  rw [List.all_eq_true] at hitems
  intro i hi
  unfold flagged_items at hi
  rw [List.mem_filter] at hi
  have := hitems i hi.1
  simp only [Bool.or_eq_true, beq_iff_eq] at this
  rcases this with h0 | h0
  · have h1 := hi.2
    simp only [bne_iff_ne, ne_eq] at h1
    exact absurd h0 h1
  · exact h0

theorem components_lines_control_as_text (p : Packager) (h : one_line_values p = true)
    (hd : p._summary ≠ [] ∨ p._description = []
      ∨ Packager.fold_description [] 0 p._description ≠ [] ∨ flagged_items p = []) :
    components_lines p.control_as_text
      = if flagged_items p = [] then [] else [components_line (flagged_items p)] := by
  have hsum : single_line p._summary = true := by
    have h' := h
    unfold one_line_values at h'
    simp only [Bool.and_eq_true] at h'
    exact h'.1.1.1.1.1.2
  obtain ⟨dl, pre, fl, hdt, hlines, hpre⟩ := description_text_lines p hsum
  have hH := head_field_lines_spec p h
  have hD := dependency_field_lines_spec p h
  have hdl : ∀ l ∈ dl, single_line l = true ∧ starts_with_components l = false :=
    fun l hl => hlines l (List.mem_append_left _ hl)
  have hfl : ∀ l ∈ fl, single_line l = true ∧ starts_with_components l = false :=
    fun l hl => hlines l (List.mem_append_right _ hl)
  have hC : ∀ l ∈ (if flagged_items p = [] then []
        else [components_line (flagged_items p)]),
      single_line l = true ∧ starts_with_components l = true := by
    intro l hl
    split at hl
    · simp at hl
    · rw [List.mem_singleton] at hl
      rw [hl]
      exact ⟨single_line_components_line _ (flagged_items_one_line p h),
        starts_with_components_components_line _⟩
  have hCf : (if flagged_items p = [] then []
        else [components_line (flagged_items p)]).filter starts_with_components
      = (if flagged_items p = [] then [] else [components_line (flagged_items p)]) := by
    rw [List.filter_eq_self]
    exact fun l hl => (hC l hl).2
  have hHD : ∀ l ∈ head_field_lines p ++ dl, single_line l = true := by
    intro l hl
    rcases List.mem_append.mp hl with h0 | h0
    · exact (hH l h0).1
    · exact (hdl l h0).1
  have htext : p.control_as_text
      = lines_text (head_field_lines p ++ dl)
        ++ (pre ++ lines_text (fl
            ++ ((if flagged_items p = [] then [] else [components_line (flagged_items p)])
            ++ dependency_field_lines p))) := by
    rw [control_as_text_split, hdt]
    simp only [lines_text_append, List.append_assoc]
  have hrest : ∀ l ∈ fl ++ ((if flagged_items p = [] then []
        else [components_line (flagged_items p)]) ++ dependency_field_lines p),
      single_line l = true := by
    intro l hl
    rcases List.mem_append.mp hl with h0 | h0
    · exact (hfl l h0).1
    · rcases List.mem_append.mp h0 with h1 | h1
      · exact (hC l h1).1
      · exact (hD l h1).1
  unfold components_lines text_lines
  rw [htext, text_lines_from_lines_text _ hHD, List.filter_append, List.filter_append,
    filter_starts_with_components_nil _ (fun l hl => (hH l hl).2),
    filter_starts_with_components_nil _ (fun l hl => (hdl l hl).2)]
  simp only [List.nil_append]
  rcases hpre with hp | ⟨hp, _, hs0, hd0, hfold⟩
  · rw [hp, List.nil_append]
    have h0 := text_lines_from_lines_text _ hrest []
    rw [List.append_nil] at h0
    rw [h0]
    simp only [text_lines_from, List.isEmpty_nil, if_true, List.append_nil]
    rw [List.filter_append, List.filter_append,
      filter_starts_with_components_nil _ (fun l hl => (hfl l hl).2),
      filter_starts_with_components_nil _ (fun l hl => (hD l hl).2), hCf]
    simp
  · rw [hp]
    cases hfl0 : fl with
    | nil =>
      rw [hfl0] at hfold
      have hfold' : Packager.fold_description [] 0 p._description = [] := hfold.symm
      have hflag : flagged_items p = [] := by
        rcases hd with h0 | h0 | h0 | h0
        · exact absurd hs0 h0
        · exact absurd h0 hd0
        · exact absurd hfold' h0
        · exact h0
      rw [if_pos hflag, List.nil_append, List.nil_append]
      cases hdep : dependency_field_lines p with
      | nil => rfl
      | cons l ls =>
        have hsl : ∀ x ∈ l :: ls, single_line x = true := by
          intro x hx
          rw [← hdep] at hx
          exact (hD x hx).1
        have h1 := text_lines_from_prefix_lines_text "Description: ".toList l ls (by decide)
          hsl []
        rw [List.append_nil] at h1
        rw [h1]
        simp only [text_lines_from, List.isEmpty_nil, if_true, List.append_nil]
        rw [List.filter_cons_of_neg (by
          rw [show starts_with_components ("Description: ".toList ++ l) = false from rfl]
          simp)]
        apply filter_starts_with_components_nil
        intro x hx
        exact (hD x (by rw [hdep]; exact List.mem_cons_of_mem _ hx)).2
    | cons l ls =>
      rw [hfl0] at hrest hfl
      have h1 := text_lines_from_prefix_lines_text "Description: ".toList l
        (ls ++ ((if flagged_items p = [] then [] else [components_line (flagged_items p)])
          ++ dependency_field_lines p)) (by decide) hrest []
      rw [List.append_nil] at h1
      rw [List.cons_append, h1]
      simp only [text_lines_from, List.isEmpty_nil, if_true, List.append_nil]
      rw [List.filter_cons_of_neg (by
        rw [show starts_with_components ("Description: ".toList ++ l) = false from rfl]
        simp)]
      rw [List.filter_append, List.filter_append,
        filter_starts_with_components_nil _
          (fun x hx => (hfl x (List.mem_cons_of_mem _ hx)).2),
        filter_starts_with_components_nil _ (fun l hl => (hD l hl).2), hCf]
      simp


theorem component_of_source (i : ItemToPackage) :
    ('.' ∉ i._source → i.component = i._install_to ++ ".".toList ++ i._source)
      ∧ ∀ pre leaf : Str, i._source = pre ++ '.' :: leaf → '.' ∉ leaf →
          i.component = i._install_to ++ ".".toList ++ leaf := by
  constructor
  · intro h
    unfold ItemToPackage.component
    rw [rfind_char_none '.' _ h]
  · intro pre leaf hsrc hleaf
    unfold ItemToPackage.component
    rw [hsrc, rfind_char_append '.' leaf hleaf pre]
    simp

set_option maxRecDepth 100000 in
/-- C36 as stated fails on two records. The first has no item and a section of two lines,
the second of which reads "Components: Apps.Games.Foo (Movable)": the control text has a
line that starts with "Components: " though no item has a component flag. The second has a
movable item, no summary and a description that holds one empty line: the text written
for the item follows "Description: " on the same line, so no line starts with
"Components: ". -/
theorem components_line_claim_fails :
    flagged_items example_record_components_in_section = []
      ∧ components_lines example_record_components_in_section.control_as_text
          = ["Components: Apps.Games.Foo (Movable)".toList]
      ∧ flagged_items example_record_blank_description ≠ []
      ∧ components_lines example_record_blank_description.control_as_text = []
      ∧ text_lines example_record_blank_description.control_as_text
          = ["Package: Foo".toList, "Version: 1.0-1".toList, "Section: Games".toList,
              "Priority: Optional".toList, "Maintainer: J<j@x>".toList,
              "Standards-Version: 0.4.0".toList, "Licence: Non free".toList,
              "Description: Components: Apps.Games.Foo (Movable)".toList] := by
  refine ⟨by decide, by decide, by decide, by decide, by decide⟩

/-- C36, amended: for every record whose values other than the description hold no newline
and that has a summary, or no description, or a description of which a line is written, or
no item with a component flag, the control text has a line that starts with "Components: "
exactly when some item has a component flag other than `CF_None`; there is then one such
line, and it is "Components: " followed by the entries of those items, in the order of the
item list, with a comma and no space between two entries, each entry being `component()`
followed by " (Movable)". `component()` is the install location, a full stop and the text
after the last full stop of the source, the whole source when it has no full stop. -/
theorem components_line_lists_flagged_items (p : Packager) (h : one_line_values p = true)
    (hd : p._summary ≠ [] ∨ p._description = []
      ∨ Packager.fold_description [] 0 p._description ≠ [] ∨ flagged_items p = []) :
    ((∃ l ∈ text_lines p.control_as_text, starts_with_components l = true)
        ↔ ∃ i ∈ p._items_to_package, i._component_flags ≠ CF_None)
      ∧ components_lines p.control_as_text
          = (if flagged_items p = [] then [] else [components_line (flagged_items p)])
      ∧ ∀ i : ItemToPackage,
          ('.' ∉ i._source → i.component = i._install_to ++ ".".toList ++ i._source)
            ∧ ∀ pre leaf : Str, i._source = pre ++ '.' :: leaf → '.' ∉ leaf →
                i.component = i._install_to ++ ".".toList ++ leaf := by
  have hmain := components_lines_control_as_text p h hd
  refine ⟨?_, hmain, component_of_source⟩
  have hiff : (∃ l ∈ text_lines p.control_as_text, starts_with_components l = true)
      ↔ components_lines p.control_as_text ≠ [] := by
    unfold components_lines
    rw [ne_eq, List.filter_eq_nil_iff]
    push_neg
    rfl
  have hflag : flagged_items p ≠ [] ↔ ∃ i ∈ p._items_to_package, i._component_flags ≠ CF_None := by
    unfold flagged_items
    rw [ne_eq, List.filter_eq_nil_iff]
    push_neg
    simp
  rw [hiff, hmain, ← hflag]
  by_cases hf : flagged_items p = []
  · rw [if_pos hf]
    simp [hf]
  · rw [if_neg hf]
    simp [hf]

set_option maxRecDepth 100000 in
/-- The record "Foo" with its movable item "$.Games.Foo" installed in "Apps.Games": the
only line of the control text that starts with "Components: " is
"Components: Apps.Games.Foo (Movable)". -/
theorem components_line_lists_flagged_items_witness :
    one_line_values example_record = true
      ∧ components_lines example_record.control_as_text
          = ["Components: Apps.Games.Foo (Movable)".toList] :=
  ⟨by decide,
    (components_line_lists_flagged_items example_record (by decide)
      (Or.inl (by decide))).2.1⟩


/-! ## The index of the published versions (C35) -/

theorem map_dot_to_slash_of_no_dot (name : Str) (h : '.' ∉ name) :
    name.map (fun c => if c = '.' then '/' else c) = name := by
  induction name with
  | nil => rfl
  | cons x xs ih =>
    have hx : x ≠ '.' := fun h0 => h (by simp [h0])
    rw [List.map_cons, if_neg hx, ih (fun h0 => h (List.mem_cons_of_mem _ h0))]

theorem map_slash_to_dot_inverse (v : Str) (h : '/' ∉ v) :
    (v.map (fun c => if c = '.' then '/' else c)).map (fun c => if c = '/' then '.' else c)
      = v := by
  induction v with
  | nil => rfl
  | cons x xs ih =>
    have hx : x ≠ '/' := fun h0 => h (by simp [h0])
    rw [List.map_cons, List.map_cons, ih (fun h0 => h (List.mem_cons_of_mem _ h0))]
    by_cases hd : x = '.'
    · rw [if_pos hd, if_pos rfl, hd]
    · rw [if_neg hd, if_neg hx]

theorem underscore_not_mem_map (v : Str) (h : '_' ∉ v) :
    '_' ∉ v.map (fun c => if c = '.' then '/' else c) := by
  intro hm
  obtain ⟨c, hc, heq⟩ := List.mem_map.mp hm
  by_cases hd : c = '.'
  · rw [if_pos hd] at heq
    exact absurd heq (by decide)
  · rw [if_neg hd] at heq
    rw [heq] at hc
    exact h hc

/-- The decoding of `current_package_list` gives back the package name and the version of
a record whose package name has no full stop and whose upstream version and revision have
no `_` and no `/`. -/
theorem decode_standard_leafname (p : Packager) (hname : '.' ∉ p._package_name)
    (hv : '_' ∉ p._version ∧ '/' ∉ p._version)
    (hpv : '_' ∉ p._package_version ∧ '/' ∉ p._package_version) :
    decode_leafname p.standard_leafname
      = some (p._package_name, p._version ++ "-".toList ++ p._package_version) := by
  have hrest_us : '_' ∉ p._version ++ "-".toList ++ p._package_version := by
    intro h
    simp only [List.mem_append] at h
    rcases h with (h | h) | h
    · exact hv.1 h
    · exact absurd h (by decide)
    · exact hpv.1 h
  have hrest_sl : '/' ∉ p._version ++ "-".toList ++ p._package_version := by
    intro h
    simp only [List.mem_append] at h
    rcases h with (h | h) | h
    · exact hv.2 h
    · exact absurd h (by decide)
    · exact hpv.2 h
  have hleaf : p.standard_leafname
      = p._package_name ++ '_' ::
          (p._version ++ "-".toList ++ p._package_version).map
            (fun c => if c = '.' then '/' else c) := by
    unfold Packager.standard_leafname
    rw [show p._package_name ++ "_".toList ++ p._version ++ "-".toList ++ p._package_version
        = p._package_name ++ ('_' :: (p._version ++ "-".toList ++ p._package_version)) by simp,
      List.map_append, map_dot_to_slash_of_no_dot _ hname]
    rfl
  unfold decode_leafname
  rw [hleaf, rfind_char_append '_' _ (underscore_not_mem_map _ hrest_us)]
  have hdrop : ∀ (a b : Str) (c : Char), (a ++ c :: b).drop (a.length + 1) = b := by
    intro a b c
    induction a with
    | nil => rfl
    | cons x xs ih => simp
  simp only [List.take_left']
  rw [hdrop, map_slash_to_dot_inverse _ hrest_sl]

set_option maxRecDepth 100000 in
/-- C35 at the package name "Foo.Bar", which `validate_pkgname` accepts: the record
"Foo.Bar" 1.0-2 has no error and the leaf name "Foo/Bar_1/0-2"; the decoding of
`current_package_list` gives the key "Foo/Bar" with the version "1.0-2", so the index built
from the archive has no entry under "Foo.Bar". -/
theorem published_index_loses_dotted_name :
    (validate_pkgname [] "Foo.Bar".toList).1 = true
      ∧ example_record_dotted_name.error_count = 0
      ∧ example_record_dotted_name._package_name = "Foo.Bar".toList
      ∧ example_record_dotted_name.standard_leafname = "Foo/Bar_1/0-2".toList
      ∧ decode_leafname example_record_dotted_name.standard_leafname
          = some ("Foo/Bar".toList, "1.0-2".toList)
      ∧ current_package_list example_versions
            (some [example_record_dotted_name.standard_leafname]) []
          = Except.ok [("Foo/Bar".toList, "1.0-2".toList)]
      ∧ map_find example_record_dotted_name._package_name
          [("Foo/Bar".toList, "1.0-2".toList)] = none := by
  refine ⟨by decide, by decide, by decide, by decide, by decide, ?_, by decide⟩
  rfl


/-! ## The conditional round trip (C40) -/

set_option maxRecDepth 100000 in
/-- C40 fails on two records that meet its conditions. The record with an empty priority is
written without a `Priority` line and the fresh record that reads the text keeps its
priority "Optional". The record with the revision "2 " is written with the line
"Version: 1.0-2 ", which is read without its trailing space: the revision comes back as
"2". -/
theorem conditional_round_trip_fails :
    conditional_round_trip_conditions example_record_no_priority []
      ∧ example_record_no_priority._priority = []
      ∧ (Packager.new.read_control example_record_no_priority.control_as_text).2 = none
      ∧ (Packager.new.read_control example_record_no_priority.control_as_text).1._priority
          = "Optional".toList
      ∧ conditional_round_trip_conditions example_record_revision_space []
      ∧ example_record_revision_space._package_version = "2 ".toList
      ∧ (Packager.new.read_control example_record_revision_space.control_as_text).2 = none
      ∧ (Packager.new.read_control
            example_record_revision_space.control_as_text).1._package_version
          = "2".toList := by
  refine ⟨by decide, by decide, by decide, by decide, by decide, by decide, by decide,
    by decide⟩

theorem round_trip_conditions_of_conditional (p : Packager) (lines : List Str)
    (h : conditional_round_trip_conditions p lines)
    (hpv : trimmed_line p._package_version = true) : round_trip_conditions p lines := by
  obtain ⟨h1, h2, ⟨h3, _⟩, h4, h5, h6, h7, h8, ⟨h9, h9'⟩, h10, h11, h12, h13, h14, h15, h16,
    h17⟩ := h
  exact ⟨h1, h2, h3, hpv, h14, h4, h5, h6, h7, h8, h9, h10, h11, h12, h13, h15, h17, h16,
    fun _ => h9'⟩

theorem ite_isEmpty_nil (v : Str) : (if v.isEmpty then ([] : Str) else v) = v := by
  cases v with
  | nil => rfl
  | cons c cs => rfl

/-- C40, amended: for every record that meets the conditions of the claim and whose
revision is a single line without leading or trailing white space, `read_control` on the
text of `control_as_text`, into a freshly constructed record, returns without a format
error and gives back the package name, the upstream version, the revision, the section,
the maintainer, the licence, the summary, the description and the four dependency fields;
it gives back the priority and the standards version when they are not empty, and leaves the
values "Optional" and "0.4.0" of the fresh record when they are empty. -/
theorem conditional_round_trip (p : Packager) (lines : List Str)
    (h : conditional_round_trip_conditions p lines)
    (hpv : trimmed_line p._package_version = true) :
    (Packager.new.read_control p.control_as_text).2 = none
      ∧ (Packager.new.read_control p.control_as_text).1._package_name = p._package_name
      ∧ (Packager.new.read_control p.control_as_text).1._version = p._version
      ∧ (Packager.new.read_control p.control_as_text).1._package_version
          = p._package_version
      ∧ (Packager.new.read_control p.control_as_text).1._section = p._section
      ∧ (Packager.new.read_control p.control_as_text).1._maintainer = p._maintainer
      ∧ (Packager.new.read_control p.control_as_text).1._licence = p._licence
      ∧ (Packager.new.read_control p.control_as_text).1._summary = p._summary
      ∧ (Packager.new.read_control p.control_as_text).1._description = p._description
      ∧ (Packager.new.read_control p.control_as_text).1._depends = p._depends
      ∧ (Packager.new.read_control p.control_as_text).1._recommends = p._recommends
      ∧ (Packager.new.read_control p.control_as_text).1._suggests = p._suggests
      ∧ (Packager.new.read_control p.control_as_text).1._conflicts = p._conflicts
      ∧ (Packager.new.read_control p.control_as_text).1._priority
          = (if p._priority.isEmpty then "Optional".toList else p._priority)
      ∧ (Packager.new.read_control p.control_as_text).1._standards_version
          = (if p._standards_version.isEmpty then "0.4.0".toList
             else p._standards_version) := by
  have hrt := round_trip_conditions_of_conditional p lines h hpv
  rw [read_control_of_control_as_text p Packager.new lines hrt]
  have hver : p._version.isEmpty = false := isEmpty_eq_false_of_ne_nil h.2.2.1.2
  have hsum : p._summary.isEmpty = false :=
    isEmpty_eq_false_of_ne_nil h.2.2.2.2.2.2.2.2.1.2
  have hdesc : p._description = join_lines lines := h.2.2.2.2.2.2.2.2.2.2.2.2.2.2.1
  refine ⟨rfl, ?_, ?_, ?_, ?_, ?_, ?_, ?_, ?_, ?_, ?_, ?_, ?_, ?_, ?_⟩
  · rw [replay_package_name]; exact ite_isEmpty_nil _
  · rw [replay_version, hver]; rfl
  · rw [replay_package_version, hver]; rfl
  · rw [replay_section_]; exact ite_isEmpty_nil _
  · rw [replay_maintainer]; exact ite_isEmpty_nil _
  · rw [replay_licence]; exact ite_isEmpty_nil _
  · rw [replay_summary, hsum]; rfl
  · rw [replay_description, hsum, hdesc]
    simp only [Bool.false_eq_true, if_false]
    by_cases hl : lines = []
    · rw [if_pos hl, hl]; rfl
    · rw [if_neg hl]
  · rw [replay_depends]; exact ite_isEmpty_nil _
  · rw [replay_recommends]; exact ite_isEmpty_nil _
  · rw [replay_suggests]; exact ite_isEmpty_nil _
  · rw [replay_conflicts]; exact ite_isEmpty_nil _
  · rw [replay_priority]; rfl
  · rw [replay_standards_version]; rfl

set_option maxRecDepth 100000 in
/-- The record "Foo" 1.0-1 without item, with the description "First line", two empty
lines and "Last line", and the dependencies "PkgA (>= 1.2), PkgB": the text written for it
is read without error and gives back the description and the dependencies. -/
theorem conditional_round_trip_witness :
    conditional_round_trip_conditions example_record_described
        ["First line".toList, [], [], "Last line".toList]
      ∧ (Packager.new.read_control example_record_described.control_as_text).2 = none
      ∧ (Packager.new.read_control example_record_described.control_as_text).1._description
          = "First line\n\n\nLast line".toList
      ∧ (Packager.new.read_control example_record_described.control_as_text).1._depends
          = "PkgA (>= 1.2), PkgB".toList :=
  ⟨by decide,
    (conditional_round_trip example_record_described
      ["First line".toList, [], [], "Last line".toList] (by decide) (by decide)).1,
    (conditional_round_trip example_record_described
      ["First line".toList, [], [], "Last line".toList] (by decide) (by decide)).2.2.2.2.2.2.2.2.1,
    (conditional_round_trip example_record_described
      ["First line".toList, [], [], "Last line".toList] (by decide)
      (by decide)).2.2.2.2.2.2.2.2.2.1⟩


/-! ## The summary of the run (C37) -/

set_option maxRecDepth 100000 in
/-- C37 at a record that is newer than the published one. Version 1.0-2 of "Foo" is
published and the record has version 1.1-1: `check_and_save_package` takes the branch
`v > old_v`, logs "Upgrading due to new version" and writes the archive
"$.Packages.release.Foo_1/1-1" without error, but never calls `upgrade_package(true)`; the
destructor of the log context then counts the package as unchanged, and the summary shows
no upgraded package. -/
theorem newer_version_counted_as_unchanged :
    (check_and_save_package example_world_same example_record_newer
        (PackageContext.create "0001".toList "Foo".toList) true).map
      (fun o =>
        (o.written.map (fun x => x.1), o.log_context.lines, o.log_context._error,
          o.log_context._new, o.log_context._upgrade,
          (o.log_context.finish Log.new)._upgrade_packages,
          (o.log_context.finish Log.new)._new_packages,
          (o.log_context.finish Log.new)._unchanged,
          Log.summary_counts (o.log_context.finish Log.new)))
      = some
          (some "$.Packages.release.Foo_1/1-1".toList,
            [":INFO:Processing package 0001 Foo".toList,
              ":INFO:0001:Upgrading due to new version".toList,
              ":INFO:0001:Creating/saving package to $.Packages.release.Foo_1/1-1".toList,
              ":INFO:0001:Created/saved".toList],
            false, false, false, [], [], 1,
            ["New packages         0".toList, "Upgraded packages    0".toList,
              "Packages with errors 0".toList, "Unchanged packages   1".toList]) := by
  rfl


/-! ## A format error in one control record (C34) -/

/-- Whenever `read_control` throws on the control record of an extra package, the exception
leaves `package_extra`: the handler for `std::exception` does not take it. -/
theorem package_extra_format_error
    (tail : ExtraDir → Packager → PackageContext → PackageContext) (dir : ExtraDir)
    (st : BatchState) (control copyright msg : Str) (hc : dir.control = some control)
    (hcp : dir.copyright = some copyright)
    (h : ((Packager.new.package_name dir.leaf_name).read_control control).2 = some msg) :
    package_extra tail dir st = Ending.thrown (Thrown.package_format_exception msg) := by
  unfold package_extra
  rw [hc]
  simp only [hcp, Packager.read_control_file, h, Option.map_some',
    Thrown.caught_as_std_exception]

/-- Whenever `read_control` throws on the control record of a game that has passed the
checks of `package_game`, the exception leaves `package_game`. -/
theorem package_game_format_error
    (tail : GameEntry → Packager → PackageContext → PackageContext) (entry : GameEntry)
    (st : BatchState) (dir control msg : Str) (hname : entry.package_name ≠ [])
    (hvalid : (validate_pkgname st.s_used_pkgnames entry.package_name).1 = true)
    (hdir : entry.found_dir = some dir) (hisdir : entry.is_directory = true)
    (hc : entry.control = some control)
    (h : (Packager.new.read_control control).2 = some msg) :
    package_game tail entry st = Ending.thrown (Thrown.package_format_exception msg) := by
  unfold package_game
  simp only [isEmpty_eq_false_of_ne_nil hname, Bool.false_eq_true, if_false, hvalid,
    Bool.not_true, hdir, hisdir, hc, Packager.read_control_file, h, Option.map_some']

/-- C34 on the code: a control record with a line "Bad line" in an extra package, or with an
unknown field "Homepage" in a game directory, makes `read_control` throw a
`PackageFormatException`; the exception leaves `package_extra` and `package_game`, and the
batch ends with it: the packages that come after it are not processed, whatever the rest of
the two functions does. -/
theorem format_error_leaves_the_batch
    (tail_extra : ExtraDir → Packager → PackageContext → PackageContext)
    (tail_game : GameEntry → Packager → PackageContext → PackageContext) :
    package_extra tail_extra example_extra_bad { s_log := Log.new, s_used_pkgnames := [] }
        = Ending.thrown
            (Thrown.package_format_exception "Syntax error in RiscPkg/Control".toList)
      ∧ package_game tail_game example_game_bad { s_log := Log.new, s_used_pkgnames := [] }
        = Ending.thrown
            (Thrown.package_format_exception
              "Unable to process field 'Homepage' in RiscPkg/Control".toList)
      ∧ run_batch tail_extra tail_game [example_extra_bad, example_extra_good]
            [example_game_good] { s_log := Log.new, s_used_pkgnames := [] }
        = Ending.thrown
            (Thrown.package_format_exception "Syntax error in RiscPkg/Control".toList)
      ∧ run_batch tail_extra tail_game [] [example_game_bad, example_game_good]
            { s_log := Log.new, s_used_pkgnames := [] }
        = Ending.thrown
            (Thrown.package_format_exception
              "Unable to process field 'Homepage' in RiscPkg/Control".toList) := by
  have hextra := package_extra_format_error tail_extra example_extra_bad
    { s_log := Log.new, s_used_pkgnames := [] } "Package: Tool\nBad line\n".toList
    "(c)".toList "Syntax error in RiscPkg/Control".toList rfl rfl (by decide)
  have hgame := package_game_format_error tail_game example_game_bad
    { s_log := Log.new, s_used_pkgnames := [] } "Foo F0001230".toList "Homepage: x\n".toList
    "Unable to process field 'Homepage' in RiscPkg/Control".toList (by decide) (by decide)
    rfl rfl rfl (by decide)
  refine ⟨hextra, hgame, ?_, ?_⟩
  · unfold run_batch
    rw [package_extras, hextra]
  · unfold run_batch
    rw [package_extras]
    simp only
    rw [package_games, hgame]


/-! ## The Version field among the other fields (C21) -/

theorem version_state_eq (p q : Packager) (w : Nat) (hw : PACKAGE_VERSION ≠ w)
    (hv : q.fields.version = p.fields.version)
    (hpv : q.fields.package_version = p.fields.package_version)
    (he : errors_changed_only_at p q w) : version_state q = version_state p := by
  unfold version_state
  rw [he.1 PACKAGE_VERSION hw]
  have hv' : q._version = p._version := hv
  have hpv' : q._package_version = p._package_version := hpv
  rw [hv', hpv']

theorem version_state_modified (p : Packager) (m : Bool) :
    version_state (p.modified m) = version_state p := by
  unfold version_state
  rw [error_text_modified]
  have h := fields_modified p m
  have hv : (p.modified m)._version = p._version := congrArg Fields.version h
  have hpv : (p.modified m)._package_version = p._package_version :=
    congrArg Fields.package_version h
  rw [hv, hpv]

theorem version_state_require_entered (p0 p : Packager) (he : p._errors = p0._errors)
    (hc : p._error_count = p0._error_count) (hv : p._version = p0._version)
    (hpv : p._package_version = p0._package_version) (w : Nat) (hw : PACKAGE_VERSION ≠ w)
    (v : Str) : version_state (p.require_entered w v) = version_state p0 := by
  apply version_state_eq p0 _ w hw
  · have h := congrArg Fields.version (fields_require_entered p w v)
    exact h.trans hv
  · have h := congrArg Fields.package_version (fields_require_entered p w v)
    exact h.trans hpv
  · exact errors_changed_only_at_require_entered p0 p he hc w v

theorem version_state_check_depends (p0 p : Packager) (he : p._errors = p0._errors)
    (hc : p._error_count = p0._error_count) (hv : p._version = p0._version)
    (hpv : p._package_version = p0._package_version) (w : Nat) (hw : PACKAGE_VERSION ≠ w)
    (v : Str) : version_state ((p.check_depends w v).modified true) = version_state p0 := by
  rw [version_state_modified]
  apply version_state_eq p0 _ w hw
  · have h := congrArg Fields.version (fields_check_depends p w v)
    exact h.trans hv
  · have h := congrArg Fields.package_version (fields_check_depends p w v)
    exact h.trans hpv
  · exact errors_changed_only_at_check_depends p0 p he hc w v

theorem version_state_setters (p : Packager) (v : Str) :
    version_state (p.package_name v) = version_state p
      ∧ version_state (p.section_ v) = version_state p
      ∧ version_state (p.priority v) = version_state p
      ∧ version_state (p.maintainer v) = version_state p
      ∧ version_state (p.standards_version v) = version_state p
      ∧ version_state (p.summary v) = version_state p
      ∧ version_state (p.description v) = version_state p
      ∧ version_state (p.licence v) = version_state p
      ∧ version_state (p.depends v) = version_state p
      ∧ version_state (p.recommends v) = version_state p
      ∧ version_state (p.suggests v) = version_state p
      ∧ version_state (p.conflicts v) = version_state p := by
  refine ⟨?_, ?_, ?_, ?_, ?_, ?_, ?_, ?_, ?_, ?_, ?_, ?_⟩
  · unfold Packager.package_name
    refine version_state_require_entered p _ ?_ ?_ ?_ ?_ PACKAGE_NAME (by decide) v <;> rfl
  · unfold Packager.section_
    refine version_state_require_entered p _ ?_ ?_ ?_ ?_ SECTION (by decide) v <;> rfl
  · unfold Packager.priority
    refine version_state_require_entered p _ ?_ ?_ ?_ ?_ PRIORITY (by decide) v <;> rfl
  · apply version_state_eq p _ MAINTAINER (by decide)
    · rw [fields_maintainer]
    · rw [fields_maintainer]
    · exact errors_changed_only_at_maintainer p v
  · apply version_state_eq p _ STANDARDS_VERSION (by decide)
    · rw [fields_standards_version]
    · rw [fields_standards_version]
    · exact errors_changed_only_at_standards_version p v
  · unfold Packager.summary
    refine version_state_require_entered p _ ?_ ?_ ?_ ?_ SUMMARY (by decide) v <;> rfl
  · unfold Packager.description
    rw [version_state_modified]
    rfl
  · unfold Packager.licence
    refine version_state_require_entered p _ ?_ ?_ ?_ ?_ LICENCE (by decide) v <;> rfl
  · unfold Packager.depends
    refine version_state_check_depends p _ ?_ ?_ ?_ ?_ DEPENDS (by decide) v <;> rfl
  · unfold Packager.recommends
    refine version_state_check_depends p _ ?_ ?_ ?_ ?_ RECOMMENDS (by decide) v <;> rfl
  · unfold Packager.suggests
    refine version_state_check_depends p _ ?_ ?_ ?_ ?_ SUGGESTS (by decide) v <;> rfl
  · unfold Packager.conflicts
    refine version_state_check_depends p _ ?_ ?_ ?_ ?_ CONFLICTS (by decide) v <;> rfl

theorem version_state_fst_ite {c : Prop} [Decidable c] {p : Packager}
    {a b : Packager × Option Str} (ha : version_state a.1 = version_state p)
    (hb : version_state b.1 = version_state p) :
    version_state (if c then a else b).1 = version_state p := by
  by_cases h : c
  · rw [if_pos h]; exact ha
  · rw [if_neg h]; exact hb

theorem version_state_set_control_field (p : Packager) (name value : Str)
    (hname : name ≠ "Version".toList) :
    version_state (p.set_control_field name value).1 = version_state p := by
  unfold Packager.set_control_field
  apply version_state_fst_ite
  · exact (version_state_setters p value).1
  rw [if_neg hname]
  apply version_state_fst_ite
  · exact (version_state_setters p value).2.1
  apply version_state_fst_ite
  · exact (version_state_setters p value).2.2.1
  apply version_state_fst_ite
  · exact (version_state_setters p value).2.2.2.1
  apply version_state_fst_ite
  · exact (version_state_setters p value).2.2.2.2.1
  apply version_state_fst_ite
  · split
    · exact (version_state_setters p value).2.2.2.2.2.1
    · exact ((version_state_setters _ _).2.2.2.2.2.2.1).trans
        (version_state_setters _ _).2.2.2.2.2.1
  apply version_state_fst_ite
  · exact (version_state_setters p value).2.2.2.2.2.2.2.1
  apply version_state_fst_ite
  · exact (version_state_setters p value).2.2.2.2.2.2.2.2.1
  apply version_state_fst_ite
  · exact (version_state_setters p value).2.2.2.2.2.2.2.2.2.1
  apply version_state_fst_ite
  · exact (version_state_setters p value).2.2.2.2.2.2.2.2.2.2.1
  apply version_state_fst_ite
  · exact (version_state_setters p value).2.2.2.2.2.2.2.2.2.2.2
  · rfl

theorem version_state_set_fields (gs : List RawField)
    (h : ∀ g ∈ gs, g.name ≠ "Version".toList) :
    ∀ p : Packager, version_state (set_fields gs p).1 = version_state p := by
  induction gs with
  | nil => intro p; rfl
  | cons g rest ih =>
    intro p
    have h1 := version_state_set_control_field p g.name g.value (h g (by simp))
    rw [set_fields]
    cases hset : p.set_control_field g.name g.value with
    | mk p1 err =>
      rw [hset] at h1
      cases err with
      | none => exact (ih (fun x hx => h x (by simp [hx])) p1).trans h1
      | some e => exact h1


/-- The record after `read_control` has read the fields `fs`, all with known names, a field
named Version, and the fields `gs`: the Version field is handed to `set_control_field`
when the line of the next field, a blank line or the end of the input is reached, and
the fields `gs` are applied to the record that this call leaves. -/
theorem read_control_version_among (p : Packager) (fs gs : List RawField) (f : RawField)
    (text : Str)
    (hfs : ∀ g ∈ fs, g.well_formed = true ∧ g.name ∈ known_field_names)
    (hf : f.well_formed = true) (hname : f.name = "Version".toList)
    (hgs : ∀ g ∈ gs, g.well_formed = true)
    (htext : text = lines_text (fields_lines (fs ++ f :: gs))
      ∨ ∃ blank later : Str, single_line blank = true ∧ blank_line blank = true
          ∧ text = lines_text (fields_lines (fs ++ f :: gs)) ++ (blank ++ '\n' :: later)) :
    p.read_control text
      = set_fields gs ((set_fields fs p).1.set_control_field "Version".toList f.value).1 := by
  have hall : ∀ g ∈ fs ++ f :: gs, g.well_formed = true := by
    intro g hg
    rcases List.mem_append.mp hg with h | h
    · exact (hfs g h).1
    · rcases List.mem_cons.mp h with h0 | h0
      · rw [h0]; exact hf
      · exact hgs g h0
  have hread : p.read_control text = set_fields (fs ++ f :: gs) p := by
    rcases htext with h | ⟨blank, later, hs, hb, h⟩
    · rw [h]
      exact read_control_raw_fields_end p _ hall
    · rw [h]
      exact read_control_raw_fields_blank p _ hall blank later hs hb
  rw [hread, set_fields_append]
  have hnone : (set_fields fs p).2 = none :=
    (set_fields_known fs p).mpr (fun g hg => (hfs g hg).2)
  cases hset : set_fields fs p with
  | mk p1 err =>
    rw [hset] at hnone
    simp only at hnone
    subst hnone
    simp only [set_fields, hname]
    have hk : (p1.set_control_field "Version".toList f.value).2 = none :=
      (set_control_field_known p1 _ _).mpr (by decide)
    cases hv : p1.set_control_field "Version".toList f.value with
    | mk p2 err2 =>
      rw [hv] at hk
      simp only at hk
      subst hk
      rfl

theorem set_control_field_version_state (p : Packager) (hp : ErrInv p) (value : Str) :
    (∀ a b : Str, value = a ++ '-' :: b → '-' ∉ b →
        (p.set_control_field "Version".toList value).1._version = a
          ∧ (p.set_control_field "Version".toList value).1._package_version = b)
      ∧ ('-' ∉ value →
          (p.set_control_field "Version".toList value).1._version = value
            ∧ (p.set_control_field "Version".toList value).1._package_version = []
            ∧ (p.set_control_field "Version".toList value).1.error_text PACKAGE_VERSION
                = "must be entered".toList) := by
  rw [set_control_field_version]
  refine ⟨?_, ?_⟩
  · intro a b hv hb
    rw [hv, rfind_char_append '-' b hb a]
    simp only [List.take_left', List.drop_left', (package_version_fields _ _).1,
      (package_version_fields _ _).2, (version_fields _ _).1]
    refine ⟨trivial, ?_⟩
    rw [← List.drop_drop]
    simp
  · intro hv
    rw [rfind_char_none '-' value hv]
    simp only [(package_version_fields _ _).1, (package_version_fields _ _).2,
      (version_fields _ _).1, true_and]
    exact error_text_package_version_empty _ (hp.version _)


/-- C21: when `read_control` reads a Version field with value `v`, after any fields with
known names and before any further fields, in a text that ends with the last field or goes
on with a blank line: the Version field is handed to `set_control_field` and the fields
after it are applied to the record that this call leaves. In that record, if `v` holds a
'-', the upstream version is the text before the last '-' and the package version the text
after it; if `v` holds no '-', the upstream version is `v` and the package version is
empty, with "must be entered" in the PACKAGE_VERSION slot. When no later field is named
Version, the same holds of the record that `read_control` leaves, and when the later
fields have known names `read_control` returns without a format error. -/
theorem read_control_version_field (p : Packager) (hp : Reachable p)
    (fs gs : List RawField) (f : RawField) (text : Str)
    (hfs : ∀ g ∈ fs, g.well_formed = true ∧ g.name ∈ known_field_names)
    (hf : f.well_formed = true) (hname : f.name = "Version".toList)
    (hgs : ∀ g ∈ gs, g.well_formed = true)
    (htext : text = lines_text (fields_lines (fs ++ f :: gs))
      ∨ ∃ blank later : Str, single_line blank = true ∧ blank_line blank = true
          ∧ text = lines_text (fields_lines (fs ++ f :: gs)) ++ (blank ++ '\n' :: later)) :
    p.read_control text
        = set_fields gs ((set_fields fs p).1.set_control_field "Version".toList f.value).1
      ∧ (∀ a b : Str, f.value = a ++ '-' :: b → '-' ∉ b →
          ((set_fields fs p).1.set_control_field "Version".toList f.value).1._version = a
            ∧ ((set_fields fs p).1.set_control_field "Version".toList
                f.value).1._package_version = b)
      ∧ ('-' ∉ f.value →
          ((set_fields fs p).1.set_control_field "Version".toList f.value).1._version
              = f.value
            ∧ ((set_fields fs p).1.set_control_field "Version".toList
                f.value).1._package_version = []
            ∧ ((set_fields fs p).1.set_control_field "Version".toList
                f.value).1.error_text PACKAGE_VERSION = "must be entered".toList)
      ∧ ((∀ g ∈ gs, g.name ≠ "Version".toList) →
          (∀ a b : Str, f.value = a ++ '-' :: b → '-' ∉ b →
              (p.read_control text).1._version = a
                ∧ (p.read_control text).1._package_version = b)
            ∧ ('-' ∉ f.value →
                (p.read_control text).1._version = f.value
                  ∧ (p.read_control text).1._package_version = []
                  ∧ (p.read_control text).1.error_text PACKAGE_VERSION
                      = "must be entered".toList))
      ∧ ((∀ g ∈ gs, g.name ∈ known_field_names) → (p.read_control text).2 = none) := by
  have hread := read_control_version_among p fs gs f text hfs hf hname hgs htext
  have hstate := set_control_field_version_state (set_fields fs p).1
    (ErrInv.set_fields fs hp.errInv) f.value
  refine ⟨hread, hstate.1, hstate.2, ?_, ?_⟩
  · intro hno
    have hkeep := version_state_set_fields gs hno
      ((set_fields fs p).1.set_control_field "Version".toList f.value).1
    rw [← hread] at hkeep
    unfold version_state at hkeep
    have h1 : (p.read_control text).1._version
        = ((set_fields fs p).1.set_control_field "Version".toList f.value).1._version :=
      congrArg Prod.fst hkeep
    have h2 : (p.read_control text).1._package_version
        = ((set_fields fs p).1.set_control_field "Version".toList
            f.value).1._package_version :=
      congrArg (fun x => x.2.1) hkeep
    have h3 : (p.read_control text).1.error_text PACKAGE_VERSION
        = ((set_fields fs p).1.set_control_field "Version".toList
            f.value).1.error_text PACKAGE_VERSION :=
      congrArg (fun x => x.2.2) hkeep
    rw [h1, h2, h3]
    exact hstate
  · intro hknown
    rw [hread]
    exact (set_fields_known gs _).mpr hknown

set_option maxRecDepth 100000 in
/-- C21 at the lines "Package: Foo", "Version: 1.0-rc1-3 " and "Section: Games", and at the
lines "Version: 1.0" and "Section: Games" followed by an empty line and more text. -/
theorem read_control_version_field_witness :
    lines_text (fields_lines ([example_raw_package]
          ++ example_raw_version :: [example_raw_section]))
        = "Package: Foo\nVersion: 1.0-rc1-3 \nSection: Games\n".toList
      ∧ example_raw_version.value = "1.0-rc1".toList ++ '-' :: "3".toList
      ∧ (Packager.new.read_control
          "Package: Foo\nVersion: 1.0-rc1-3 \nSection: Games\n".toList).1._version
          = "1.0-rc1".toList
      ∧ (Packager.new.read_control
          "Package: Foo\nVersion: 1.0-rc1-3 \nSection: Games\n".toList).1._package_version
          = "3".toList
      ∧ (Packager.new.read_control
          "Package: Foo\nVersion: 1.0-rc1-3 \nSection: Games\n".toList).1._section
          = "Games".toList
      ∧ (Packager.new.read_control
          "Version: 1.0\nSection: Games\n\nmore\n".toList).1._version = "1.0".toList
      ∧ (Packager.new.read_control
          "Version: 1.0\nSection: Games\n\nmore\n".toList).1._package_version = []
      ∧ (Packager.new.read_control
          "Version: 1.0\nSection: Games\n\nmore\n".toList).1.error_text PACKAGE_VERSION
          = "must be entered".toList :=
  ⟨by decide, by decide,
    (((read_control_version_field Packager.new Reachable.new [example_raw_package]
      [example_raw_section] example_raw_version
      "Package: Foo\nVersion: 1.0-rc1-3 \nSection: Games\n".toList (by decide) (by decide)
      rfl (by decide) (Or.inl (by decide))).2.2.2.1 (by decide)).1
      "1.0-rc1".toList "3".toList (by decide) (by decide)).1,
    (((read_control_version_field Packager.new Reachable.new [example_raw_package]
      [example_raw_section] example_raw_version
      "Package: Foo\nVersion: 1.0-rc1-3 \nSection: Games\n".toList (by decide) (by decide)
      rfl (by decide) (Or.inl (by decide))).2.2.2.1 (by decide)).1
      "1.0-rc1".toList "3".toList (by decide) (by decide)).2,
    by decide,
    (((read_control_version_field Packager.new Reachable.new []
      [example_raw_section] example_raw_version_plain
      "Version: 1.0\nSection: Games\n\nmore\n".toList (by decide) (by decide)
      rfl (by decide)
      (Or.inr ⟨[], "more\n".toList, by decide, by decide, by decide⟩)).2.2.2.1
      (by decide)).2 (by decide)).1,
    (((read_control_version_field Packager.new Reachable.new []
      [example_raw_section] example_raw_version_plain
      "Version: 1.0\nSection: Games\n\nmore\n".toList (by decide) (by decide)
      rfl (by decide)
      (Or.inr ⟨[], "more\n".toList, by decide, by decide, by decide⟩)).2.2.2.1
      (by decide)).2 (by decide)).2.1,
    (((read_control_version_field Packager.new Reachable.new []
      [example_raw_section] example_raw_version_plain
      "Version: 1.0\nSection: Games\n\nmore\n".toList (by decide) (by decide)
      rfl (by decide)
      (Or.inr ⟨[], "more\n".toList, by decide, by decide, by decide⟩)).2.2.2.1
      (by decide)).2 (by decide)).2.2⟩

end Japkg
